import Mathlib

/-!
Verification of the phys-rs 2D physics engine (broadphase grid, cell store,
player kinematics, world tick pipeline) against its natural-language
specification.

The Rust source is shallowly embedded:
* machine integers (i32, u32, u64, usize) become Int or Nat; casts that can
  wrap carry an explicit mod 2 ^ w where the wrap is reachable;
* the arithmetic right shift k of an i32 becomes division by 2 ^ k on Int
  (the division on Int rounds toward negative infinity for a positive
  divisor, exactly like the shift);
* f32 fields (forces and timers) are modelled exactly over the rationals;
  every claim proved below only exercises trajectories on which the f32
  rounding of the source cannot change any branch taken (the values are 0,
  or they never feed a branch);
* HashMap becomes an association list, HashSet a duplicate-free list, and
  a lookup followed by unwrap becomes an Option match where the none case
  propagates (a panic in the source is modelled as the whole operation
  returning none);
* Rust methods that mutate through references become functions returning
  the updated value.
-/

set_option maxHeartbeats 1000000

namespace PhysRs

/-! ### Association list helpers

HashMap is modelled as an association list; lookup takes the first match
and all the mutation helpers preserve the key list, so together with a
no-duplicate-keys invariant they implement the HashMap contract.
-/

/-- Lookup in an association list (models HashMap get). -/
def lookupA {κ β : Type} [DecidableEq κ] : List (κ × β) → κ → Option β
  | [], _ => none
  | kv :: rest, k => if kv.1 = k then some kv.2 else lookupA rest k

/-- Replace the value stored at a key (models HashMap get_mut followed by
an in-place write); entries with other keys are kept untouched. -/
def setA {κ β : Type} [DecidableEq κ] : List (κ × β) → κ → β → List (κ × β)
  | [], _, _ => []
  | kv :: rest, k, v => if kv.1 = k then (k, v) :: setA rest k v else kv :: setA rest k v

/-- Remove every entry with the given key (models HashMap remove). -/
def eraseA {κ β : Type} [DecidableEq κ] : List (κ × β) → κ → List (κ × β)
  | [], _ => []
  | kv :: rest, k => if kv.1 = k then eraseA rest k else kv :: eraseA rest k

/-- The key list of an association list. -/
def keysA {κ β : Type} (l : List (κ × β)) : List κ := l.map Prod.fst

section AListLemmas

variable {κ β : Type} [DecidableEq κ]

theorem lookupA_setA (l : List (κ × β)) (k : κ) (v : β) (k' : κ) :
    lookupA (setA l k v) k' =
      if k' = k then (lookupA l k).map (fun _ => v) else lookupA l k' := by
  induction l with
  | nil =>
    by_cases h2 : k' = k <;> simp [lookupA, setA, h2]
  | cons kv rest ih =>
    obtain ⟨a, b⟩ := kv
    by_cases h1 : a = k
    · subst h1
      by_cases h2 : k' = a
      · subst h2; simp [setA, lookupA]
      · simp [setA, lookupA, h2, Ne.symm h2, ih]
    · by_cases h2 : a = k'
      · subst h2
        simp [setA, lookupA, h1, Ne.symm h1]
      · simp [setA, lookupA, h1, h2, ih]

theorem lookupA_eraseA (l : List (κ × β)) (k : κ) (k' : κ) :
    lookupA (eraseA l k) k' = if k' = k then none else lookupA l k' := by
  induction l with
  | nil =>
    by_cases h2 : k' = k <;> simp [lookupA, eraseA, h2]
  | cons kv rest ih =>
    obtain ⟨a, b⟩ := kv
    by_cases h1 : a = k
    · subst h1
      by_cases h2 : k' = a
      · subst h2; simp [eraseA, lookupA, ih]
      · simp [eraseA, lookupA, h2, Ne.symm h2, ih]
    · by_cases h2 : a = k'
      · subst h2
        simp [eraseA, lookupA, h1, Ne.symm h1, ih]
      · simp [eraseA, lookupA, h1, h2, ih]

theorem lookupA_cons (kv : κ × β) (l : List (κ × β)) (k : κ) :
    lookupA (kv :: l) k = if kv.1 = k then some kv.2 else lookupA l k := rfl

theorem keysA_setA (l : List (κ × β)) (k : κ) (v : β) :
    keysA (setA l k v) = keysA l := by
  induction l with
  | nil => rfl
  | cons kv rest ih =>
    obtain ⟨a, b⟩ := kv
    by_cases h : a = k
    · subst h; simpa [setA, keysA] using congrArg (List.cons a) ih
    · simpa [setA, keysA, h] using congrArg (List.cons a) ih

theorem keysA_eraseA_sublist (l : List (κ × β)) (k : κ) :
    (keysA (eraseA l k)).Sublist (keysA l) := by
  induction l with
  | nil => simp [eraseA, keysA]
  | cons kv rest ih =>
    by_cases h : kv.1 = k
    · simp only [eraseA, h, if_pos]
      exact ih.trans (List.sublist_cons_self _ _)
    · simpa only [eraseA, h, if_neg, not_false_iff, keysA, List.map_cons] using ih.cons₂ _

theorem nodupKeys_eraseA (l : List (κ × β)) (k : κ) (h : (keysA l).Nodup) :
    (keysA (eraseA l k)).Nodup :=
  (keysA_eraseA_sublist l k).nodup h

theorem lookupA_eq_none_iff (l : List (κ × β)) (k : κ) :
    lookupA l k = none ↔ k ∉ keysA l := by
  induction l with
  | nil => simp [lookupA, keysA]
  | cons kv rest ih =>
    obtain ⟨a, b⟩ := kv
    by_cases h : a = k
    · subst h; simp [lookupA, keysA]
    · simp [lookupA, keysA, h, ih, Ne.symm h]

theorem mem_iff_lookupA (l : List (κ × β)) (h : (keysA l).Nodup) (k : κ) (v : β) :
    (k, v) ∈ l ↔ lookupA l k = some v := by
  induction l with
  | nil => simp [lookupA]
  | cons kv rest ih =>
    obtain ⟨a, b⟩ := kv
    simp only [keysA, List.map_cons, List.nodup_cons] at h
    by_cases hk : a = k
    · subst hk
      constructor
      · intro hm
        have hsplit : v = b ∨ (a, v) ∈ rest := by
          rcases List.mem_cons.mp hm with he | hm'
          · exact Or.inl (congrArg Prod.snd he)
          · exact Or.inr hm'
        rcases hsplit with rfl | hm'
        · simp [lookupA]
        · exact absurd (List.mem_map_of_mem Prod.fst hm') h.1
      · intro hl
        have hb : b = v := by simpa [lookupA] using hl
        subst hb
        exact List.mem_cons_self _ _
    · simp only [lookupA, if_neg hk, List.mem_cons, Prod.mk.injEq]
      rw [← ih h.2]
      constructor
      · rintro (⟨rfl, -⟩ | hm)
        · exact absurd rfl hk
        · exact hm
      · exact Or.inr

theorem lookupA_isSome_of_mem_keys (l : List (κ × β)) (k : κ) (h : k ∈ keysA l) :
    ∃ v, lookupA l k = some v := by
  induction l with
  | nil => simp [keysA] at h
  | cons kv rest ih =>
    obtain ⟨a, b⟩ := kv
    by_cases hk : a = k
    · exact ⟨b, by simp [lookupA, hk]⟩
    · simp only [keysA, List.map_cons, List.mem_cons] at h
      rcases h with h | h
      · exact absurd h.symm hk
      · simpa [lookupA, hk] using ih h

end AListLemmas

/-- Membership-preserving insertion into a duplicate-free list
(models HashSet insert). -/
def insertSet (id : Nat) (l : List Nat) : List Nat :=
  if id ∈ l then l else id :: l

/-- Removal from a list (models HashSet remove). -/
def removeSet (id : Nat) : List Nat → List Nat
  | [] => []
  | x :: rest => if x = id then removeSet id rest else x :: removeSet id rest

theorem mem_insertSet (id x : Nat) (l : List Nat) :
    x ∈ insertSet id l ↔ x = id ∨ x ∈ l := by
  unfold insertSet
  by_cases h : id ∈ l
  · simp only [if_pos h]
    constructor
    · exact Or.inr
    · rintro (rfl | hx)
      · exact h
      · exact hx
  · simp [if_neg h, List.mem_cons]

theorem nodup_insertSet (id : Nat) (l : List Nat) (h : l.Nodup) :
    (insertSet id l).Nodup := by
  unfold insertSet
  by_cases hm : id ∈ l <;> simp [hm, h]

theorem mem_removeSet (id x : Nat) (l : List Nat) :
    x ∈ removeSet id l ↔ x ∈ l ∧ x ≠ id := by
  induction l with
  | nil => simp [removeSet]
  | cons y rest ih =>
    by_cases h : y = id
    · rw [removeSet, if_pos h, ih]
      subst h
      simp only [List.mem_cons]
      constructor
      · rintro ⟨hm, hne⟩
        exact ⟨Or.inr hm, hne⟩
      · rintro ⟨rfl | hm, hne⟩
        · exact absurd rfl hne
        · exact ⟨hm, hne⟩
    · rw [removeSet, if_neg h]
      simp only [List.mem_cons, ih]
      constructor
      · rintro (rfl | ⟨hm, hne⟩)
        · exact ⟨Or.inl rfl, h⟩
        · exact ⟨Or.inr hm, hne⟩
      · rintro ⟨rfl | hm, hne⟩
        · exact Or.inl rfl
        · exact Or.inr ⟨hm, hne⟩

theorem nodup_removeSet (id : Nat) (l : List Nat) (h : l.Nodup) :
    (removeSet id l).Nodup := by
  induction l with
  | nil => simp [removeSet]
  | cons y rest ih =>
    simp only [List.nodup_cons] at h
    by_cases hy : y = id
    · rw [removeSet, if_pos hy]
      exact ih h.2
    · rw [removeSet, if_neg hy]
      refine List.nodup_cons.mpr ⟨?_, ih h.2⟩
      intro hm
      exact h.1 ((mem_removeSet id y rest).mp hm).1

/-! ### Cell store (src/cells.rs) -/

/-- TARGET_BITS from src/cells.rs: the bit width of usize, 64 on the target. -/
def TARGET_BITS : Nat := 64

/-- Cells from src/cells.rs: two parallel bitsets (busy, blocks) packed into
usize words; a vector of usize becomes a list of naturals below 2 ^ 64. -/
structure Cells where
  width : Int
  height : Int
  busy : List Nat
  blocks : List Nat
deriving DecidableEq

/-- The i32 as usize cast: sign extension to 64 bits reinterpreted as
unsigned, i.e. reduction mod 2 ^ 64. -/
def intToUsize (i : Int) : Nat := (i % (2 ^ 64 : Int)).toNat

/-- Cells::new from src/cells.rs. The source computes the word count as an
f32 ceiling division, ((width * height) as f32 / 64.0).ceil(): every
integer below 2 ^ 24 converts to f32 exactly and division by 64 only
shifts the exponent, so for all products width * height below 2 ^ 24 the
f32 computation equals the exact ceiling and is modelled as such. All
reachability hypotheses in this development (cellsWF_new, invW_new,
invW_of_ops, invR_of_ops2) therefore restrict world creation to
width * height < 2 ^ 24; outside that regime the source may allocate
fewer words than the exact ceiling and this model does not apply. -/
def Cells.new (width height : Int) : Cells :=
  let size := ((width * height).toNat + TARGET_BITS - 1) / TARGET_BITS
  ⟨width, height, List.replicate size 0, List.replicate size 0⟩

/-- Cells::set_block from src/cells.rs. The unchecked vector indexing is
modelled as an Option: none is the panic on an out-of-range word index. -/
def Cells.set_block (c : Cells) (x y : Int) (state : Bool) : Option Cells :=
  let index := intToUsize (y * c.width + x)
  let pos := index / TARGET_BITS
  let bit := index % TARGET_BITS
  match c.busy[pos]?, c.blocks[pos]? with
  | some bw, some kw =>
    if state then
      some { c with busy := c.busy.set pos (bw ||| (1 <<< bit)),
                    blocks := c.blocks.set pos (kw ||| (1 <<< bit)) }
    else
      some { c with busy := c.busy.set pos (bw &&& ((1 <<< bit) ^^^ (2 ^ 64 - 1))),
                    blocks := c.blocks.set pos (kw &&& ((1 <<< bit) ^^^ (2 ^ 64 - 1))) }
  | _, _ => none

/-- Cells::is_busy from src/cells.rs: any out-of-bounds coordinate reads as
occupied; in bounds, the packed bit is tested (none is the vector panic). -/
def Cells.is_busy (c : Cells) (x y : Int) : Option Bool :=
  if x < 0 ∨ c.width ≤ x ∨ y < 0 ∨ c.height ≤ y then some true
  else
    let index := intToUsize (y * c.width + x)
    let pos := index / TARGET_BITS
    let bit := index % TARGET_BITS
    match c.busy[pos]? with
    | some w => some (decide (w &&& (1 <<< bit) ≠ 0))
    | none => none

/-- Cells::is_block from src/cells.rs, same shape as is_busy on the blocks
bitset. -/
def Cells.is_block (c : Cells) (x y : Int) : Option Bool :=
  if x < 0 ∨ c.width ≤ x ∨ y < 0 ∨ c.height ≤ y then some true
  else
    let index := intToUsize (y * c.width + x)
    let pos := index / TARGET_BITS
    let bit := index % TARGET_BITS
    match c.blocks[pos]? with
    | some w => some (decide (w &&& (1 <<< bit) ≠ 0))
    | none => none

/-- Cells::can_build from src/cells.rs, with the Rust short-circuit
evaluation of the boolean connectives made explicit over Option. -/
def Cells.can_build (c : Cells) (x y : Int) : Option Bool :=
  match c.is_busy x y with
  | none => none
  | some true => some false
  | some false =>
    match c.is_block (x - 1) y with
    | none => none
    | some true => some true
    | some false =>
      match c.is_block (x + 1) y with
      | none => none
      | some true => some true
      | some false =>
        match c.is_block x (y - 1) with
        | none => none
        | some true => some true
        | some false => c.is_block x (y + 1)

/-- World::block_create from src/body/block.rs; it touches only the cell
store, so it is modelled on Cells. The id is cast from i32 to u32 (a
reduction mod 2 ^ 32 on the two's-complement value). -/
def block_create (c : Cells) (x y : Int) : Option (Cells × Nat) :=
  if c.width < x ∨ c.height < y then some (c, 0)
  else
    match c.set_block x y true with
    | none => none
    | some c2 => some (c2, ((y * c.width + x + 1) % (2 ^ 32 : Int)).toNat)

/-- Well-formedness of a cell store: as produced by Cells::new, the word
vectors cover all width * height cells, and the cell count stays inside the
usize range (so index arithmetic does not wrap). -/
def CellsWF (c : Cells) : Prop :=
  0 ≤ c.width ∧ 0 ≤ c.height ∧
  c.width * c.height ≤ 64 * (c.busy.length : Int) ∧
  c.width * c.height ≤ 64 * (c.blocks.length : Int) ∧
  c.width * c.height < 2 ^ 64

theorem intToUsize_of_range (i : Int) (h0 : 0 ≤ i) (h1 : i < 2 ^ 64) :
    (intToUsize i : Int) = i := by
  unfold intToUsize
  rw [Int.emod_eq_of_lt h0 h1]
  exact Int.toNat_of_nonneg h0

theorem is_busy_total (c : Cells) (h : CellsWF c) (x y : Int) :
    ∃ b, c.is_busy x y = some b := by
  unfold Cells.is_busy
  by_cases hob : x < 0 ∨ c.width ≤ x ∨ y < 0 ∨ c.height ≤ y
  · exact ⟨true, if_pos hob⟩
  · push_neg at hob
    obtain ⟨hx0, hxw, hy0, hyh⟩ := hob
    rw [if_neg (by push_neg; exact ⟨hx0, hxw, hy0, hyh⟩)]
    have hidx0 : 0 ≤ y * c.width + x := add_nonneg (mul_nonneg hy0 h.1) hx0
    have hidx1 : y * c.width + x < c.width * c.height := by
      have hyw : y * c.width ≤ (c.height - 1) * c.width :=
        mul_le_mul_of_nonneg_right (by omega) h.1
      nlinarith
    have hidx2 : y * c.width + x < 2 ^ 64 := lt_of_lt_of_le hidx1 h.2.2.2.2.le
    have hcast : (intToUsize (y * c.width + x) : Int) = y * c.width + x :=
      intToUsize_of_range _ hidx0 hidx2
    have hpos : intToUsize (y * c.width + x) / TARGET_BITS < c.busy.length := by
      have h64 : (intToUsize (y * c.width + x) : Int) < 64 * (c.busy.length : Int) := by
        rw [hcast]; exact lt_of_lt_of_le hidx1 h.2.2.1
      have : intToUsize (y * c.width + x) < 64 * c.busy.length := by exact_mod_cast h64
      unfold TARGET_BITS
      omega
    exact ⟨_, by dsimp only; rw [List.getElem?_eq_getElem hpos]⟩

theorem is_block_total (c : Cells) (h : CellsWF c) (x y : Int) :
    ∃ b, c.is_block x y = some b := by
  unfold Cells.is_block
  by_cases hob : x < 0 ∨ c.width ≤ x ∨ y < 0 ∨ c.height ≤ y
  · exact ⟨true, if_pos hob⟩
  · push_neg at hob
    obtain ⟨hx0, hxw, hy0, hyh⟩ := hob
    rw [if_neg (by push_neg; exact ⟨hx0, hxw, hy0, hyh⟩)]
    have hidx0 : 0 ≤ y * c.width + x := add_nonneg (mul_nonneg hy0 h.1) hx0
    have hidx1 : y * c.width + x < c.width * c.height := by
      have hyw : y * c.width ≤ (c.height - 1) * c.width :=
        mul_le_mul_of_nonneg_right (by omega) h.1
      nlinarith
    have hidx2 : y * c.width + x < 2 ^ 64 := lt_of_lt_of_le hidx1 h.2.2.2.2.le
    have hcast : (intToUsize (y * c.width + x) : Int) = y * c.width + x :=
      intToUsize_of_range _ hidx0 hidx2
    have hpos : intToUsize (y * c.width + x) / TARGET_BITS < c.blocks.length := by
      have h64 : (intToUsize (y * c.width + x) : Int) < 64 * (c.blocks.length : Int) := by
        rw [hcast]; exact lt_of_lt_of_le hidx1 h.2.2.2.1
      have : intToUsize (y * c.width + x) < 64 * c.blocks.length := by exact_mod_cast h64
      unfold TARGET_BITS
      omega
    exact ⟨_, by dsimp only; rw [List.getElem?_eq_getElem hpos]⟩

/-- Claim C8: can_build(x, y) returns true iff the cell itself is not busy
and at least one of its four orthogonal neighbours is a block, where the
busy and block queries treat any out-of-bounds coordinate as occupied and
blocked (they return true outside the map). -/
theorem can_build_characterization :
    (∀ (c : Cells) (x y : Int), (x < 0 ∨ c.width ≤ x ∨ y < 0 ∨ c.height ≤ y) →
       c.is_busy x y = some true ∧ c.is_block x y = some true) ∧
    (∀ (c : Cells), CellsWF c → ∀ x y : Int,
       ∃ bu b1 b2 b3 b4,
         c.is_busy x y = some bu ∧
         c.is_block (x - 1) y = some b1 ∧ c.is_block (x + 1) y = some b2 ∧
         c.is_block x (y - 1) = some b3 ∧ c.is_block x (y + 1) = some b4 ∧
         (c.can_build x y = some true ↔
           bu = false ∧ (b1 = true ∨ b2 = true ∨ b3 = true ∨ b4 = true))) := by
  constructor
  · intro c x y h
    constructor
    · unfold Cells.is_busy; rw [if_pos h]
    · unfold Cells.is_block; rw [if_pos h]
  · intro c hwf x y
    obtain ⟨bu, hbu⟩ := is_busy_total c hwf x y
    obtain ⟨b1, hb1⟩ := is_block_total c hwf (x - 1) y
    obtain ⟨b2, hb2⟩ := is_block_total c hwf (x + 1) y
    obtain ⟨b3, hb3⟩ := is_block_total c hwf x (y - 1)
    obtain ⟨b4, hb4⟩ := is_block_total c hwf x (y + 1)
    refine ⟨bu, b1, b2, b3, b4, hbu, hb1, hb2, hb3, hb4, ?_⟩
    unfold Cells.can_build
    rw [hbu]
    cases bu
    · rw [hb1]
      cases b1
      · rw [hb2]
        cases b2
        · rw [hb3]
          cases b3
          · rw [hb4]
            cases b4 <;> simp
          · simp
        · simp
      · simp
    · simp

/-- Witness for C8 at a concrete store: a 2 by 2 grid whose cell (1, 0) is
a block; building at (0, 0) is legal. -/
theorem can_build_characterization_witness :
    CellsWF ⟨2, 2, [2], [2]⟩ ∧
    (∃ bu b1 b2 b3 b4,
       Cells.is_busy ⟨2, 2, [2], [2]⟩ 0 0 = some bu ∧
       Cells.is_block ⟨2, 2, [2], [2]⟩ (0 - 1) 0 = some b1 ∧
       Cells.is_block ⟨2, 2, [2], [2]⟩ (0 + 1) 0 = some b2 ∧
       Cells.is_block ⟨2, 2, [2], [2]⟩ 0 (0 - 1) = some b3 ∧
       Cells.is_block ⟨2, 2, [2], [2]⟩ 0 (0 + 1) = some b4 ∧
       (Cells.can_build ⟨2, 2, [2], [2]⟩ 0 0 = some true ↔
         bu = false ∧ (b1 = true ∨ b2 = true ∨ b3 = true ∨ b4 = true))) :=
  ⟨by constructor <;> [decide; constructor <;> [decide; constructor <;>
      [decide; constructor <;> decide]]],
   can_build_characterization.2 ⟨2, 2, [2], [2]⟩
     ⟨by decide, by decide, by decide, by decide, by decide⟩ 0 0⟩

/-- Claim C7 (refuted, code bug): the guard in block_create is the strict
comparison x greater than width (or y greater than height) instead of a
bounds check, so the out-of-bounds coordinate (2, 0) on a 2 by 2 grid
passes the guard: the call returns the nonzero id 3 and flips the bit of
index 2, which belongs to the different cell (0, 1), instead of returning
the zero sentinel and leaving the store unchanged. -/
theorem block_create_out_of_bounds_bug :
    (Cells.mk 2 2 [0] [0]).width ≤ 2 ∧
    block_create (Cells.mk 2 2 [0] [0]) 2 0 = some (Cells.mk 2 2 [4] [4], 3) := by
  constructor
  · decide
  · decide

/-! ### Body classes and the collision filter (src/body/mod.rs, src/grid.rs) -/

/-- BodyClass from src/body/mod.rs. -/
inductive BodyClass where
  | Fixed
  | Sensor
  | Player
  | Ray
  | Item
  | Bullet
deriving DecidableEq, Repr

/-- The repr(u8) discriminant of a BodyClass, used for array indexing. -/
def BodyClass.idx : BodyClass → Nat
  | .Fixed => 0
  | .Sensor => 1
  | .Player => 2
  | .Ray => 3
  | .Item => 4
  | .Bullet => 5

/-- BODIES_CATEGORIES from src/grid.rs. -/
def BODIES_CATEGORIES : List Nat := [0b00000001, 0b00000010, 0b00000100, 0b00001000, 0b00010000, 0b00100000]

/-- BODIES_FILTERS from src/grid.rs. -/
def BODIES_FILTERS : List Nat := [0b00111100, 0b00000100, 0b00111011, 0b00000101, 0b00000101, 0b00000101]

/-- can_collide from src/grid.rs: classes must differ and the category bit of
the first class must survive the filter mask of the second class. -/
def can_collide (class1 class2 : BodyClass) : Bool :=
  if class1 = class2 then false
  else
    let category := BODIES_CATEGORIES.getD class1.idx 0
    let filter := BODIES_FILTERS.getD class2.idx 0
    if category &&& filter = 0 then false
    else true

/-- Modelled from the words of the specification (section 4.1): the
documented 6 by 6 compatibility table. Player is compatible with every
other class; Sensor only with Player; Ray, Item and Bullet each only with
Fixed and Player; Fixed with Player, Ray, Item and Bullet but not Sensor;
equal classes are never compatible. Written independently of the source
function so the two can be compared. -/
def specCompatible (c1 c2 : BodyClass) : Bool :=
  match c1, c2 with
  | .Player, .Fixed | .Player, .Sensor | .Player, .Ray | .Player, .Item | .Player, .Bullet => true
  | .Fixed, .Player | .Sensor, .Player | .Ray, .Player | .Item, .Player | .Bullet, .Player => true
  | .Ray, .Fixed | .Item, .Fixed | .Bullet, .Fixed => true
  | .Fixed, .Ray | .Fixed, .Item | .Fixed, .Bullet => true
  | _, _ => false

/-- Claim C3: the class-compatibility check matches the documented 6 by 6
table (Player compatible with every other class; Sensor only with Player;
Ray, Item and Bullet each only with Fixed and Player; Fixed with Player,
Ray, Item, Bullet but not Sensor; equal classes never compatible), and it
is symmetric although the code evaluates only one direction of the
category and filter relation. -/
theorem can_collide_matches_table_and_symm :
    (∀ c1 c2 : BodyClass, can_collide c1 c2 = specCompatible c1 c2) ∧
    (∀ c1 c2 : BodyClass, can_collide c1 c2 = can_collide c2 c1) := by
  constructor <;> intro c1 c2 <;> cases c1 <;> cases c2 <;> rfl

/-! ### Pair identifiers (src/grid.rs) -/

/-- get_pair_id from src/grid.rs: the two u32 ids are widened to u64, the
smaller is shifted left by 26 bits and the larger added. For u32 inputs the
u64 arithmetic cannot wrap (the value is below 2 ^ 58 + 2 ^ 32), so no
reduction mod 2 ^ 64 is needed. -/
def get_pair_id (id1 id2 : Nat) : Nat :=
  if id1 < id2 then (id1 <<< 26) + id2 else (id2 <<< 26) + id1

/-- The closed form of get_pair_id: smaller id in the high bits, larger id
added in (for ids below 2 ^ 26, in the low 26 bits). -/
theorem get_pair_id_split (x y : Nat) :
    get_pair_id x y = (min x y) * 2 ^ 26 + max x y := by
  unfold get_pair_id
  rcases lt_trichotomy x y with h | rfl | h
  · rw [if_pos h, Nat.shiftLeft_eq, min_eq_left h.le, max_eq_right h.le]
  · rw [if_neg (lt_irrefl x), Nat.shiftLeft_eq, min_self, max_self]
  · rw [if_neg (by omega), Nat.shiftLeft_eq, min_eq_right h.le, max_eq_left h.le]

/-- In the valid id range the pair key determines the unordered id pair. -/
theorem get_pair_id_inj (a b c d : Nat) (ha : a < 2 ^ 26) (hb : b < 2 ^ 26)
    (hc : c < 2 ^ 26) (hd : d < 2 ^ 26) (h : get_pair_id a b = get_pair_id c d) :
    (a = c ∧ b = d) ∨ (a = d ∧ b = c) := by
  rw [get_pair_id_split, get_pair_id_split] at h
  have hpow : (2 : Nat) ^ 26 = 67108864 := by norm_num
  rw [hpow] at h
  omega

/-- Claim C9: pair-id encoding is commutative for every two body ids in the
valid id range (at most 2 ^ 26 - 1): the encoding of (a, b) equals the
encoding of (b, a), the smaller id occupies the high bits and the larger id
the low 26 bits of the key. -/
theorem get_pair_id_comm_and_split (a b : Nat)
    (ha : a ≤ 2 ^ 26 - 1) (hb : b ≤ 2 ^ 26 - 1) :
    get_pair_id a b = get_pair_id b a ∧
    get_pair_id a b = (min a b) * 2 ^ 26 + max a b ∧
    get_pair_id a b % 2 ^ 26 = max a b ∧
    get_pair_id a b / 2 ^ 26 = min a b := by
  have hpow : (2 : Nat) ^ 26 = 67108864 := by norm_num
  have hb' : b < 2 ^ 26 := by omega
  have ha' : a < 2 ^ 26 := by omega
  have key : ∀ x y : Nat, get_pair_id x y = (min x y) * 2 ^ 26 + max x y := by
    intro x y
    unfold get_pair_id
    rcases lt_trichotomy x y with h | rfl | h
    · rw [if_pos h, Nat.shiftLeft_eq, min_eq_left h.le, max_eq_right h.le]
    · rw [if_neg (lt_irrefl x), Nat.shiftLeft_eq, min_self, max_self]
    · rw [if_neg (by omega), Nat.shiftLeft_eq, min_eq_right h.le, max_eq_left h.le]
  have hM : max a b < 2 ^ 26 := by omega
  refine ⟨?_, key a b, ?_, ?_⟩
  · rw [key a b, key b a, min_comm, max_comm]
  · rw [key a b]
    rw [hpow] at hM ⊢
    omega
  · rw [key a b]
    rw [hpow] at hM ⊢
    omega

/-! ### Geometry (src/engine.rs) -/

/-- BLOCK_SIZE from src/engine.rs. -/
def BLOCK_SIZE : Int := 128

/-- BLOCK_HALF_SIZE from src/engine.rs. -/
def BLOCK_HALF_SIZE : Int := BLOCK_SIZE / 2

/-- Bounds from src/engine.rs: an axis-aligned box given by its four
edges. -/
structure Bounds where
  min_x : Int
  max_x : Int
  min_y : Int
  max_y : Int
deriving DecidableEq

/-- Direction from src/engine.rs. -/
inductive Direction where
  | None
  | Left
  | Right
deriving DecidableEq

/-- Vector from src/engine.rs. -/
structure Vector where
  x : Int
  y : Int
deriving DecidableEq

/-- get_bounds_intersection from src/engine.rs: overlap on each axis. -/
def get_bounds_intersection (bounds1 bounds2 : Bounds) : Vector :=
  ⟨min bounds1.max_x bounds2.max_x - max bounds1.min_x bounds2.min_x,
   min bounds1.max_y bounds2.max_y - max bounds1.min_y bounds2.min_y⟩

/-- RegionsIds from src/engine.rs: the array of four region id slots,
kept at length four with zero in the unused slots. -/
abbrev RegionsIds := List Int

/-- Rect from src/engine.rs. The Rust field named class is called cls here
because class is a reserved word in Lean. -/
structure Rect where
  id : Nat
  cls : BodyClass
  bounds : Bounds
  regions : RegionsIds
  is_updated : Bool
deriving DecidableEq

/-- Rect::new from src/engine.rs. -/
def Rect.new (id : Nat) (cls : BodyClass) (x y half_width height : Int) : Rect :=
  { id := id, cls := cls,
    bounds := ⟨x - half_width, x + half_width, y - height, y⟩,
    regions := [0, 0, 0, 0], is_updated := false }

/-! ### Player body (src/body/player.rs)

The f32 fields force_x, jump_timer and fall_timer and the f32 constants
become exact rationals; the f32 as i32 casts become truncation toward
zero.
-/

def BODY_PLAYER_WIDTH : Int := 64
def BODY_PLAYER_HALF_WIDTH : Int := BODY_PLAYER_WIDTH / 2
def BODY_PLAYER_HEIGHT : Int := 208
def BODY_PLAYER_GRAVITY : ℚ := 1 / 1000
def BODY_PLAYER_JUMP_DISTANCE : Int := 160
def BODY_PLAYER_JUMP_COEF : ℚ := 400
def BODY_PLAYER_MOVE_SPEED : ℚ := 750

/-- The f32 as i32 cast applied to an exactly represented rational:
truncation toward zero. -/
def ratTrunc (q : ℚ) : Int := q.num.tdiv (q.den : Int)

/-- BodyPlayer from src/body/player.rs. -/
structure BodyPlayer where
  x : Int
  y : Int
  prev_x : Int
  prev_y : Int
  force_x : ℚ
  last_ground_y : Int
  is_jump : Bool
  jump_timer : ℚ
  jump_x_decreased : Bool
  jump_x_setted : Bool
  is_fall : Bool
  fall_timer : ℚ
  move_dir_y : Int
  is_on_ground : Bool
  move_state : Direction
  current_tick_corrected : Bool
deriving DecidableEq

/-- BodyPlayer::new from src/body/player.rs. -/
def BodyPlayer.new (x y : Int) : BodyPlayer :=
  { x := x, y := y, prev_x := x, prev_y := y, force_x := 0, last_ground_y := y,
    is_jump := false, jump_timer := 0, jump_x_decreased := false,
    jump_x_setted := false, is_fall := false, fall_timer := 0, move_dir_y := 0,
    is_on_ground := false, move_state := Direction.None,
    current_tick_corrected := false }

/-- BodyPlayer::run from src/body/player.rs. -/
def BodyPlayer.run (p : BodyPlayer) (direction : Direction) : BodyPlayer :=
  if p.move_state = direction then p
  else
    let p1 := { p with move_state := direction }
    if p1.is_on_ground = false then
      if p1.jump_x_setted = false then
        let p2 := { p1 with jump_x_setted := true, jump_x_decreased := true }
        let direction_num : ℚ :=
          match direction with
          | Direction.None => 0
          | Direction.Left => -1
          | Direction.Right => 1
        { p2 with force_x := BODY_PLAYER_MOVE_SPEED * direction_num / 2 }
      else p1
    else
      let direction_num : ℚ :=
        match direction with
        | Direction.None => 0
        | Direction.Left => -1
        | Direction.Right => 1
      { p1 with force_x := BODY_PLAYER_MOVE_SPEED * direction_num }

/-- BodyPlayer::jump from src/body/player.rs. -/
def BodyPlayer.jump (p : BodyPlayer) : BodyPlayer :=
  if p.is_on_ground = false then p
  else
    { p with is_jump := true, jump_timer := 0, last_ground_y := p.y,
             is_on_ground := false,
             jump_x_setted :=
               match p.move_state with
               | Direction.None => false
               | _ => true }

/-- BodyPlayer::update_correction from src/body/player.rs. The three-way
match on the sign of the y correction becomes an if chain: negative is
the Less arm, positive the Greater arm, zero the Equal arm. -/
def BodyPlayer.update_correction (p : BodyPlayer) (correction : Vector) : BodyPlayer :=
  let p1 := { p with current_tick_corrected := true }
  let p2 :=
    if correction.x ≠ 0 ∧ p1.is_on_ground = false ∧ p1.jump_x_decreased = false then
      { p1 with force_x := p1.force_x / 2, jump_x_decreased := true }
    else p1
  if correction.y < 0 then
    let p3 := { p2 with is_on_ground := true, is_jump := false, jump_timer := 0,
                        jump_x_decreased := false, jump_x_setted := false,
                        is_fall := false, fall_timer := 0 }
    match p3.move_state with
    | Direction.None => { p3 with force_x := 0 }
    | _ =>
      let move_state := p3.move_state
      BodyPlayer.run { p3 with move_state := Direction.None } move_state
  else if 0 < correction.y then
    { p2 with is_jump := false, jump_timer := 0 }
  else
    { p2 with is_on_ground := false }

/-- BodyPlayer::after_update from src/body/player.rs. -/
def BodyPlayer.after_update (p : BodyPlayer) : BodyPlayer :=
  let p1 :=
    if p.current_tick_corrected = false then { p with is_on_ground := false } else p
  if p1.is_on_ground = false ∧ p1.is_jump = false ∧ p1.is_fall = false then
    let p2 := { p1 with is_fall := true, fall_timer := 0, last_ground_y := p1.y,
                        jump_x_setted :=
                          match p1.move_state with
                          | Direction.None => false
                          | _ => true }
    match p2.move_state with
    | Direction.None => p2
    | Direction.Left => { p2 with force_x := BODY_PLAYER_MOVE_SPEED * (-1) }
    | Direction.Right => { p2 with force_x := BODY_PLAYER_MOVE_SPEED * 1 }
  else p1

/-- BodyPlayer::update_rect from src/body/player.rs (the Body trait
implementation): recompute the box from the logical position and the
fixed player extents. -/
def BodyPlayer.update_rect (p : BodyPlayer) (rect : Rect) : Rect :=
  { rect with bounds := ⟨p.x - BODY_PLAYER_HALF_WIDTH, p.x + BODY_PLAYER_HALF_WIDTH,
                         p.y - BODY_PLAYER_HEIGHT, p.y⟩ }

/-- The grounded-nudge statement of BodyPlayer::update: a grounded body is
moved one unit down and its rect marked dirty. -/
def updGround (s : BodyPlayer × Rect) : BodyPlayer × Rect :=
  if s.1.is_on_ground = true then
    ({ s.1 with y := s.1.y + 1 }, { s.2 with is_updated := true })
  else s

/-- The horizontal-force statement of BodyPlayer::update: x advances by the
truncated product of force and elapsed time. -/
def updForce (delta : ℚ) (s : BodyPlayer × Rect) : BodyPlayer × Rect :=
  if s.1.force_x ≠ 0 then
    ({ s.1 with x := s.1.x + ratTrunc (s.1.force_x * delta) },
     { s.2 with is_updated := true })
  else s

/-- The jump statement of BodyPlayer::update: the parabolic arc around the
apex time constant. -/
def updJump (delta : ℚ) (s : BodyPlayer × Rect) : BodyPlayer × Rect :=
  if s.1.is_jump = true then
    let jt := s.1.jump_timer + delta * 1000
    ({ s.1 with jump_timer := jt,
                y := s.1.last_ground_y +
                     ratTrunc (BODY_PLAYER_GRAVITY * (jt - BODY_PLAYER_JUMP_COEF) ^ 2) -
                     BODY_PLAYER_JUMP_DISTANCE,
                move_dir_y := if 0 < jt - BODY_PLAYER_JUMP_COEF then 1 else -1 },
     { s.2 with is_updated := true })
  else s

/-- The fall statement of BodyPlayer::update: the pure quadratic drop. -/
def updFall (delta : ℚ) (s : BodyPlayer × Rect) : BodyPlayer × Rect :=
  if s.1.is_fall = true then
    let ft := s.1.fall_timer + delta * 1000
    ({ s.1 with fall_timer := ft,
                y := s.1.last_ground_y + ratTrunc (BODY_PLAYER_GRAVITY * ft ^ 2),
                move_dir_y := 1 },
     { s.2 with is_updated := true })
  else s

/-- BodyPlayer::update from src/body/player.rs (the Body trait
implementation): per-tick motion integration, statement by statement. -/
def BodyPlayer.update (p : BodyPlayer) (delta : ℚ) (rect : Rect) : BodyPlayer × Rect :=
  let s2 := updForce delta (updGround ({ p with current_tick_corrected := false }, rect))
  let s5 := updFall delta (updJump delta ({ s2.1 with move_dir_y := 0 }, s2.2))
  if s5.2.is_updated = true then (s5.1, s5.1.update_rect s5.2) else s5

/-! ### Claim C5: flag mutual exclusion of the player state machine -/

/-- The operations that can mutate a player kinematic state during the
life of a world: the public intents run and jump, per-tick integration,
terrain correction, and the end-of-tick state fix. -/
inductive PlayerOp where
  | run (direction : Direction)
  | jump
  | updateOp (delta : ℚ) (rect : Rect)
  | correction (v : Vector)
  | afterUpdate

def applyPlayerOp (p : BodyPlayer) : PlayerOp → BodyPlayer
  | PlayerOp.run d => p.run d
  | PlayerOp.jump => p.jump
  | PlayerOp.updateOp delta rect => (p.update delta rect).1
  | PlayerOp.correction v => p.update_correction v
  | PlayerOp.afterUpdate => p.after_update

def applyPlayerOps (p : BodyPlayer) : List PlayerOp → BodyPlayer
  | [] => p
  | op :: rest => applyPlayerOps (applyPlayerOp p op) rest

/-- The flag exclusions of the claim, strengthened with the grounded-and-
falling exclusion, which is needed to make the property inductive. -/
def FlagsInv (p : BodyPlayer) : Prop :=
  ¬(p.is_jump = true ∧ p.is_fall = true) ∧
  ¬(p.is_on_ground = true ∧ p.is_jump = true) ∧
  ¬(p.is_on_ground = true ∧ p.is_fall = true)

theorem run_flags (p : BodyPlayer) (d : Direction) :
    (p.run d).is_jump = p.is_jump ∧ (p.run d).is_fall = p.is_fall ∧
    (p.run d).is_on_ground = p.is_on_ground := by
  unfold BodyPlayer.run
  dsimp only
  split_ifs <;> simp

theorem flagsInv_run (p : BodyPlayer) (d : Direction) (h : FlagsInv p) :
    FlagsInv (p.run d) := by
  obtain ⟨h1, h2, h3⟩ := run_flags p d
  unfold FlagsInv at *
  rw [h1, h2, h3]
  exact h

theorem flagsInv_jump (p : BodyPlayer) (h : FlagsInv p) : FlagsInv (p.jump) := by
  unfold BodyPlayer.jump
  split_ifs with hg
  · exact h
  · have hgt : p.is_on_ground = true := by simpa using hg
    have hf : p.is_fall ≠ true := fun hf => h.2.2 ⟨hgt, hf⟩
    refine ⟨?_, ?_, ?_⟩ <;> simp [hf]

/-- Agreement of the three kinematic flags between two player states. -/
def flagsEq (a b : BodyPlayer) : Prop :=
  a.is_jump = b.is_jump ∧ a.is_fall = b.is_fall ∧ a.is_on_ground = b.is_on_ground

theorem flagsEq_trans {a b c : BodyPlayer} (h1 : flagsEq a b) (h2 : flagsEq b c) :
    flagsEq a c :=
  ⟨h1.1.trans h2.1, h1.2.1.trans h2.2.1, h1.2.2.trans h2.2.2⟩

theorem updGround_flagsEq (s : BodyPlayer × Rect) : flagsEq (updGround s).1 s.1 := by
  unfold updGround
  split_ifs <;> exact ⟨rfl, rfl, rfl⟩

theorem updForce_flagsEq (delta : ℚ) (s : BodyPlayer × Rect) :
    flagsEq (updForce delta s).1 s.1 := by
  unfold updForce
  split_ifs <;> exact ⟨rfl, rfl, rfl⟩

theorem updJump_flagsEq (delta : ℚ) (s : BodyPlayer × Rect) :
    flagsEq (updJump delta s).1 s.1 := by
  unfold updJump
  split_ifs <;> exact ⟨rfl, rfl, rfl⟩

theorem updFall_flagsEq (delta : ℚ) (s : BodyPlayer × Rect) :
    flagsEq (updFall delta s).1 s.1 := by
  unfold updFall
  split_ifs <;> exact ⟨rfl, rfl, rfl⟩

theorem update_flags (p : BodyPlayer) (delta : ℚ) (rect : Rect) :
    flagsEq ((p.update delta rect).1) p := by
  unfold BodyPlayer.update
  dsimp only
  have e : ∀ s : BodyPlayer × Rect,
      flagsEq ((if s.2.is_updated = true then (s.1, s.1.update_rect s.2) else s).1) s.1 := by
    intro s; split_ifs <;> exact ⟨rfl, rfl, rfl⟩
  refine flagsEq_trans (e _) ?_
  refine flagsEq_trans (updFall_flagsEq _ _) ?_
  refine flagsEq_trans (updJump_flagsEq _ _) ?_
  refine flagsEq_trans (⟨rfl, rfl, rfl⟩ : flagsEq _ _) ?_
  refine flagsEq_trans (updForce_flagsEq _ _) ?_
  refine flagsEq_trans (updGround_flagsEq _) ?_
  exact ⟨rfl, rfl, rfl⟩

theorem flagsInv_of_flagsEq {a b : BodyPlayer} (he : flagsEq a b) (h : FlagsInv b) :
    FlagsInv a := by
  unfold FlagsInv at *
  rw [he.1, he.2.1, he.2.2]
  exact h

theorem flagsInv_update (p : BodyPlayer) (delta : ℚ) (rect : Rect) (h : FlagsInv p) :
    FlagsInv ((p.update delta rect).1) :=
  flagsInv_of_flagsEq (update_flags p delta rect) h

theorem flagsInv_of_flags {p : BodyPlayer} (hj : p.is_jump = false)
    (hf : p.is_fall = false) : FlagsInv p := by
  unfold FlagsInv
  refine ⟨?_, ?_, ?_⟩ <;> simp [hj, hf]

theorem flagsInv_correction (p : BodyPlayer) (v : Vector) (h : FlagsInv p) :
    FlagsInv (p.update_correction v) := by
  unfold BodyPlayer.update_correction
  dsimp only
  by_cases hy1 : v.y < 0
  · simp only [if_pos hy1]
    split_ifs with hx <;> dsimp only <;>
      rcases hmv : p.move_state with _ | _ | _ <;> simp only [hmv] <;>
        exact flagsInv_of_flags rfl rfl
  · simp only [if_neg hy1]
    by_cases hy2 : 0 < v.y
    · simp only [if_pos hy2]
      split_ifs with hx <;>
        exact ⟨by simp, by simp, h.2.2⟩
    · simp only [if_neg hy2]
      split_ifs with hx <;>
        exact ⟨h.1, by simp, by simp⟩

theorem flagsInv_afterUpdate (p : BodyPlayer) (h : FlagsInv p) :
    FlagsInv (p.after_update) := by
  unfold BodyPlayer.after_update
  dsimp only
  split_ifs with hc hcond hcond
  · have hj : p.is_jump = false := hcond.2.1
    dsimp only
    rcases hmv : p.move_state with _ | _ | _ <;> simp only [hmv] <;>
      exact ⟨by simp [hj], by simp, by simp⟩
  · exact ⟨h.1, by simp, by simp⟩
  · have hj : p.is_jump = false := hcond.2.1
    have hg : p.is_on_ground = false := hcond.1
    rcases hmv : p.move_state with _ | _ | _ <;> simp only [hmv] <;>
      exact ⟨by simp [hj], by simp [hg], by simp [hg]⟩
  · exact h

theorem flagsInv_applyOps (p : BodyPlayer) (ops : List PlayerOp) (h : FlagsInv p) :
    FlagsInv (applyPlayerOps p ops) := by
  induction ops generalizing p with
  | nil => exact h
  | cons op rest ih =>
    refine ih _ ?_
    cases op with
    | run d => exact flagsInv_run p d h
    | jump => exact flagsInv_jump p h
    | updateOp delta rect => exact flagsInv_update p delta rect h
    | correction v => exact flagsInv_correction p v h
    | afterUpdate => exact flagsInv_afterUpdate p h

/-- Claim C5: for every player state reachable from a fresh player under
any sequence of run, jump, tick-integration, terrain-correction and
after-update operations, the flags satisfy: never jumping and falling at
the same time, and never grounded and jumping at the same time. -/
theorem player_flag_mutual_exclusion (x y : Int) (ops : List PlayerOp) :
    ¬((applyPlayerOps (BodyPlayer.new x y) ops).is_jump = true ∧
      (applyPlayerOps (BodyPlayer.new x y) ops).is_fall = true) ∧
    ¬((applyPlayerOps (BodyPlayer.new x y) ops).is_on_ground = true ∧
      (applyPlayerOps (BodyPlayer.new x y) ops).is_jump = true) := by
  have h0 : FlagsInv (BodyPlayer.new x y) := by
    unfold FlagsInv BodyPlayer.new
    simp
  have h := flagsInv_applyOps (BodyPlayer.new x y) ops h0
  exact ⟨h.1, h.2.1⟩

/-! ### Broadphase grid (src/grid.rs)

HashMap becomes an association list, buckets become duplicate-free lists,
every lookup-then-unwrap becomes an Option match propagating none, and
each for loop that breaks at the zero sentinel becomes structural
recursion with the same break.
-/

/-- Pair from src/grid.rs. The u8 reference count becomes a natural; the
invariant proved below bounds it by the four possible shared regions, far
below the u8 wrap. -/
structure Pair where
  id1 : Nat
  id2 : Nat
  count : Nat
deriving DecidableEq

abbrev PairId := Nat
abbrev RegionId := Int

/-- Rects from src/engine.rs: the id-to-record HashMap. It is only ever
looked up and updated by key, never iterated, so it is modelled as a
function. -/
def Rects : Type := Nat → Option Rect

/-- Map update at one key (an insert or an in-place write through
get_mut). -/
def updR (rects : Rects) (id : Nat) (r : Rect) : Rects :=
  fun i => if i = id then some r else rects i

/-- Map removal at one key. -/
def delR (rects : Rects) (id : Nat) : Rects :=
  fun i => if i = id then none else rects i

def EMPTY_REGION : Int := 0

/-- The inclusive integer range a..=b of the Rust for loops. -/
def intRangeIncl (a b : Int) : List Int :=
  (List.range (b + 1 - a).toNat).map (fun i : Nat => a + (i : Int))

/-- get_regions_by_bounds from src/grid.rs: each edge is shifted right by
ten bits (division by 1024, rounding toward negative infinity, exactly the
arithmetic shift), the x coordinates are biased by one so that zero stays
reserved as the empty-slot sentinel, and one packed id per touched region
is emitted in loop order into the four-slot array, here a list padded to
length four with the sentinel. The hypotheses of the theorems below keep
every body smaller than a region, the regime in which the source cannot
overflow the four-slot array. -/
def genRegions (bounds : Bounds) : List Int :=
  (intRangeIncl (bounds.min_x / 1024 + 1) (bounds.max_x / 1024 + 1)).flatMap
    (fun x => (intRangeIncl (bounds.min_y / 1024) (bounds.max_y / 1024)).map
      (fun y => y * 65536 + x))

def get_regions_by_bounds (bounds : Bounds) : RegionsIds :=
  genRegions bounds ++ List.replicate (4 - (genRegions bounds).length) 0

/-- Grid from src/grid.rs. -/
structure Grid where
  pairs : List (PairId × Pair)
  hash : List (RegionId × List Nat)

/-- The inner loop of Grid::add_to_pairs over one region bucket: skip the
body itself, look up the other rect (unwrap), check the class filter, and
create or increment the pair entry. -/
def addPairsBucket (pairs : List (PairId × Pair)) (rect : Rect) (bucket : List Nat)
    (rects : Rects) : Option (List (PairId × Pair)) :=
  match bucket with
  | [] => some pairs
  | other :: rest =>
    if rect.id = other then addPairsBucket pairs rect rest rects
    else
      match rects other with
      | none => none
      | some other_rect =>
        if can_collide rect.cls other_rect.cls = false then
          addPairsBucket pairs rect rest rects
        else
          let pair_id := get_pair_id rect.id other_rect.id
          match lookupA pairs pair_id with
          | some pr =>
            addPairsBucket (setA pairs pair_id { pr with count := pr.count + 1 })
              rect rest rects
          | none =>
            addPairsBucket ((pair_id, ⟨rect.id, other_rect.id, 1⟩) :: pairs)
              rect rest rects

/-- The outer loop of Grid::add_to_pairs over the region array, breaking
at the first sentinel; the bucket lookup is an unwrap. -/
def addPairsRegions (g : Grid) (rect : Rect) (regions : List Int) (rects : Rects) :
    Option Grid :=
  match regions with
  | [] => some g
  | region :: rest =>
    if region = EMPTY_REGION then some g
    else
      match lookupA g.hash region with
      | none => none
      | some bucket =>
        match addPairsBucket g.pairs rect bucket rects with
        | none => none
        | some pairs2 => addPairsRegions { g with pairs := pairs2 } rect rest rects

/-- Grid::add_to_pairs from src/grid.rs. -/
def Grid.add_to_pairs (g : Grid) (regions : List Int) (id : Nat) (rects : Rects) :
    Option Grid :=
  match rects id with
  | none => none
  | some rect => addPairsRegions g rect regions rects

/-- The inner loop of Grid::remove_from_pairs over one region bucket:
decrement the pair entry when present, deleting it when the count is
one. -/
def removePairsBucket (pairs : List (PairId × Pair)) (id : Nat) (bucket : List Nat) :
    List (PairId × Pair) :=
  match bucket with
  | [] => pairs
  | other :: rest =>
    let pair_id := get_pair_id id other
    match lookupA pairs pair_id with
    | none => removePairsBucket pairs id rest
    | some pr =>
      if pr.count = 1 then removePairsBucket (eraseA pairs pair_id) id rest
      else removePairsBucket (setA pairs pair_id { pr with count := pr.count - 1 }) id rest

/-- The outer loop of Grid::remove_from_pairs, breaking at the first
sentinel; the bucket lookup is an unwrap. -/
def removePairsRegions (g : Grid) (id : Nat) (regions : List Int) : Option Grid :=
  match regions with
  | [] => some g
  | region :: rest =>
    if region = EMPTY_REGION then some g
    else
      match lookupA g.hash region with
      | none => none
      | some bucket =>
        removePairsRegions { g with pairs := removePairsBucket g.pairs id bucket } id rest

/-- Grid::remove_from_pairs from src/grid.rs. -/
def Grid.remove_from_pairs (g : Grid) (regions : List Int) (id : Nat) : Option Grid :=
  removePairsRegions g id regions

/-- The bucket-registration loop of Grid::add: create the bucket when
missing, then insert the id. -/
def bucketsInsert (hash : List (RegionId × List Nat)) (regions : List Int) (id : Nat) :
    List (RegionId × List Nat) :=
  match regions with
  | [] => hash
  | region :: rest =>
    if region = EMPTY_REGION then hash
    else
      match lookupA hash region with
      | none => bucketsInsert ((region, [id]) :: hash) rest id
      | some bucket => bucketsInsert (setA hash region (insertSet id bucket)) rest id

/-- Grid::add from src/grid.rs: store the computed region set on the rect,
register the id in every touched bucket, then build pairs. -/
def Grid.add (g : Grid) (id : Nat) (rects : Rects) : Option (Grid × Rects) :=
  match rects id with
  | none => none
  | some rect0 =>
    let regions := get_regions_by_bounds rect0.bounds
    let rect := { rect0 with regions := regions }
    let rects2 := updR rects id rect
    let g1 : Grid := { g with hash := bucketsInsert g.hash regions rect.id }
    match g1.add_to_pairs regions id rects2 with
    | none => none
    | some g2 => some (g2, rects2)

/-- The departure loop of Grid::update: deregister the id from every
region left behind, collecting those regions in loop order. -/
def bucketsRemoveDiff (hash : List (RegionId × List Nat)) (old new : List Int)
    (id : Nat) : Option (List (RegionId × List Nat) × List Int) :=
  match old with
  | [] => some (hash, [])
  | region :: rest =>
    if region = EMPTY_REGION then some (hash, [])
    else if new.contains region then bucketsRemoveDiff hash rest new id
    else
      match lookupA hash region with
      | none => none
      | some bucket =>
        match bucketsRemoveDiff (setA hash region (removeSet id bucket)) rest new id with
        | none => none
        | some (h2, regs) => some (h2, region :: regs)

/-- The arrival loop of Grid::update: register the id in every region
newly entered, collecting those regions in loop order. -/
def bucketsAddDiff (hash : List (RegionId × List Nat)) (new old : List Int) (id : Nat) :
    List (RegionId × List Nat) × List Int :=
  match new with
  | [] => (hash, [])
  | region :: rest =>
    if region = EMPTY_REGION then (hash, [])
    else if old.contains region then bucketsAddDiff hash rest old id
    else
      let h2 :=
        match lookupA hash region with
        | none => (region, [id]) :: hash
        | some bucket => setA hash region (insertSet id bucket)
      let hr := bucketsAddDiff h2 rest old id
      (hr.1, region :: hr.2)

/-- Grid::update from src/grid.rs: a no-op unless the rect is dirty; clear
the dirty flag, recompute the regions, and if they changed, diff them
against the stored set, deregistering and decrementing for departures and
registering and incrementing for arrivals. -/
def Grid.update (g : Grid) (id : Nat) (rects : Rects) : Option (Grid × Rects) :=
  match rects id with
  | none => none
  | some rect0 =>
    if rect0.is_updated = false then some (g, rects)
    else
      let rect1 := { rect0 with is_updated := false }
      let new_regions := get_regions_by_bounds rect1.bounds
      let old_regions := rect0.regions
      if new_regions = old_regions then some (g, updR rects id rect1)
      else
        let rect2 := { rect1 with regions := new_regions }
        let rects2 := updR rects id rect2
        match bucketsRemoveDiff g.hash old_regions new_regions id with
        | none => none
        | some hr =>
          let g2 : Grid := { g with hash := hr.1 }
          match (if hr.2.length = 0 then some g2
                 else g2.remove_from_pairs hr.2 id) with
          | none => none
          | some g3 =>
            let ha := bucketsAddDiff g3.hash new_regions old_regions id
            let g4 : Grid := { g3 with hash := ha.1 }
            if ha.2.length = 0 then some (g4, rects2)
            else
              match g4.add_to_pairs ha.2 id rects2 with
              | none => none
              | some g5 => some (g5, rects2)

/-- The deregistration loop of Grid::remove. -/
def bucketsRemoveAll (hash : List (RegionId × List Nat)) (regions : List Int)
    (id : Nat) : Option (List (RegionId × List Nat)) :=
  match regions with
  | [] => some hash
  | region :: rest =>
    if region = EMPTY_REGION then some hash
    else
      match lookupA hash region with
      | none => none
      | some bucket => bucketsRemoveAll (setA hash region (removeSet id bucket)) rest id

/-- Grid::remove from src/grid.rs: deregister from every held region, then
decrement or delete all pair memberships. -/
def Grid.remove (g : Grid) (rect : Rect) : Option Grid :=
  match bucketsRemoveAll g.hash rect.regions rect.id with
  | none => none
  | some hash2 => Grid.remove_from_pairs { g with hash := hash2 } rect.regions rect.id

/-! ### Shape lemmas for region arrays and pair keys -/

/-- The active (pre-sentinel) prefix of a region array; every loop over a
region array processes exactly this prefix. -/
def activeRegions (l : List Int) : List Int := l.takeWhile (fun r => r != 0)

/-- The well-formed shape of a stored region array: a duplicate-free
prefix of nonzero ids, padded to four slots with the sentinel. -/
def PackedRegions (l : List Int) : Prop :=
  (activeRegions l).Nodup ∧
  (activeRegions l).length ≤ 4 ∧
  l = activeRegions l ++ List.replicate (4 - (activeRegions l).length) 0

/-- The number of regions currently shared by two stored region arrays. -/
def sharedCount (ra rb : List Int) : Nat :=
  ((activeRegions ra).filter (fun r => decide (r ∈ activeRegions rb))).length

/-- The caller regime of the grid operations: boxes start at nonnegative
coordinates (in-world) and are smaller than one region on each axis, so
they touch between one and four regions. -/
def BOkay (b : Bounds) : Prop :=
  0 ≤ b.min_x ∧ 0 ≤ b.min_y ∧ b.min_x ≤ b.max_x ∧ b.min_y ≤ b.max_y ∧
  b.max_x - b.min_x < 1024 ∧ b.max_y - b.min_y < 1024

instance (b : Bounds) : Decidable (BOkay b) := by unfold BOkay; infer_instance

theorem mem_active_nonzero (l : List Int) (rg : Int) (h : rg ∈ activeRegions l) :
    rg ≠ 0 := by
  have := List.mem_takeWhile_imp h
  simpa using this

theorem mem_intRangeIncl (a b c : Int) : c ∈ intRangeIncl a b ↔ a ≤ c ∧ c ≤ b := by
  unfold intRangeIncl
  simp only [List.mem_map, List.mem_range]
  constructor
  · rintro ⟨i, hi, rfl⟩
    omega
  · rintro ⟨h1, h2⟩
    exact ⟨(c - a).toNat, by omega, by omega⟩

theorem nodup_intRangeIncl (a b : Int) : (intRangeIncl a b).Nodup := by
  unfold intRangeIncl
  refine List.Nodup.map ?_ (List.nodup_range _)
  intro i j h
  have h2 : a + (i : Int) = a + (j : Int) := h
  omega

theorem mem_genRegions (b : Bounds) (rg : Int) :
    rg ∈ genRegions b ↔ ∃ x y : Int,
      b.min_x / 1024 + 1 ≤ x ∧ x ≤ b.max_x / 1024 + 1 ∧
      b.min_y / 1024 ≤ y ∧ y ≤ b.max_y / 1024 ∧ rg = y * 65536 + x := by
  unfold genRegions
  simp only [List.mem_flatMap, List.mem_map, mem_intRangeIncl]
  constructor
  · rintro ⟨x, ⟨hx1, hx2⟩, y, ⟨hy1, hy2⟩, rfl⟩
    exact ⟨x, y, hx1, hx2, hy1, hy2, rfl⟩
  · rintro ⟨x, y, hx1, hx2, hy1, hy2, rfl⟩
    exact ⟨x, ⟨hx1, hx2⟩, y, ⟨hy1, hy2⟩, rfl⟩

theorem genRegions_pos (b : Bounds) (hB : BOkay b) (rg : Int) (h : rg ∈ genRegions b) :
    1 ≤ rg := by
  obtain ⟨hx0, hy0, -, -, -, -⟩ := hB
  obtain ⟨x, y, hx1, -, hy1, -, rfl⟩ := (mem_genRegions b rg).mp h
  have h1 : 0 ≤ b.min_x / 1024 := Int.ediv_nonneg hx0 (by norm_num)
  have h2 : 0 ≤ b.min_y / 1024 := Int.ediv_nonneg hy0 (by norm_num)
  nlinarith

theorem genRegions_nodup (b : Bounds) (hB : BOkay b) : (genRegions b).Nodup := by
  obtain ⟨-, -, hxm, hym, hsx, hsy⟩ := hB
  have hxspan : b.max_x / 1024 + 1 ≤ (b.min_x / 1024 + 1) + 1 := by omega
  unfold genRegions
  refine List.nodup_flatMap.mpr ⟨?_, ?_⟩
  · intro x _
    refine List.Nodup.map ?_ (nodup_intRangeIncl _ _)
    intro i j h
    have h2 : i * 65536 + x = j * 65536 + x := h
    omega
  · refine List.Pairwise.imp_of_mem ?_ (nodup_intRangeIncl _ _)
    intro x x2 hx hx2 hne
    rw [mem_intRangeIncl] at hx hx2
    intro rg h1 h2
    simp only [Function.onFun, List.mem_map, mem_intRangeIncl] at h1 h2
    obtain ⟨y, -, rfl⟩ := h1
    obtain ⟨y2, -, he⟩ := h2
    omega

theorem length_intRangeIncl (a b : Int) :
    (intRangeIncl a b).length = (b + 1 - a).toNat := by
  unfold intRangeIncl
  simp

theorem genRegions_length_eq (b : Bounds) :
    (genRegions b).length =
      (b.max_x / 1024 + 2 - (b.min_x / 1024 + 1)).toNat *
      (b.max_y / 1024 + 1 - b.min_y / 1024).toNat := by
  unfold genRegions
  rw [List.length_flatMap]
  have hmapc : (intRangeIncl (b.min_x / 1024 + 1) (b.max_x / 1024 + 1)).map
      (List.length ∘ fun x => ((intRangeIncl (b.min_y / 1024) (b.max_y / 1024)).map
        (fun y => y * 65536 + x))) =
      (intRangeIncl (b.min_x / 1024 + 1) (b.max_x / 1024 + 1)).map
      (fun _ => (b.max_y / 1024 + 1 - b.min_y / 1024).toNat) := by
    refine List.map_congr_left ?_
    intro x _
    simp only [Function.comp_apply, List.length_map, length_intRangeIncl]
  rw [hmapc, List.map_const', List.sum_replicate, smul_eq_mul, length_intRangeIncl]
  ring_nf

theorem genRegions_length (b : Bounds) (hB : BOkay b) :
    1 ≤ (genRegions b).length ∧ (genRegions b).length ≤ 4 := by
  obtain ⟨-, -, hxm, hym, hsx, hsy⟩ := hB
  have hxspan : b.max_x / 1024 ≤ b.min_x / 1024 + 1 := by omega
  have hyspan : b.max_y / 1024 ≤ b.min_y / 1024 + 1 := by omega
  have hxm2 : b.min_x / 1024 ≤ b.max_x / 1024 := Int.ediv_le_ediv (by norm_num) hxm
  have hym2 : b.min_y / 1024 ≤ b.max_y / 1024 := Int.ediv_le_ediv (by norm_num) hym
  rw [genRegions_length_eq]
  constructor
  · have h1 : 1 ≤ (b.max_x / 1024 + 2 - (b.min_x / 1024 + 1)).toNat := by omega
    have h2 : 1 ≤ (b.max_y / 1024 + 1 - b.min_y / 1024).toNat := by omega
    exact Nat.one_le_iff_ne_zero.mpr (by positivity)
  · have h1 : (b.max_x / 1024 + 2 - (b.min_x / 1024 + 1)).toNat ≤ 2 := by omega
    have h2 : (b.max_y / 1024 + 1 - b.min_y / 1024).toNat ≤ 2 := by omega
    calc (b.max_x / 1024 + 2 - (b.min_x / 1024 + 1)).toNat *
        (b.max_y / 1024 + 1 - b.min_y / 1024).toNat ≤ 2 * 2 :=
          Nat.mul_le_mul h1 h2
      _ = 4 := rfl

theorem activeRegions_padded (gen : List Int) (h : ∀ rg ∈ gen, rg ≠ 0) (n : Nat) :
    activeRegions (gen ++ List.replicate n 0) = gen := by
  unfold activeRegions
  induction gen with
  | nil =>
    cases n with
    | zero => rfl
    | succ m => simp [List.replicate_succ]
  | cons a rest ih =>
    have ha : a ≠ 0 := h a (List.mem_cons_self a rest)
    simp only [List.cons_append, List.takeWhile_cons]
    rw [if_pos (by simpa using ha)]
    rw [ih (fun rg hrg => h rg (List.mem_cons_of_mem _ hrg))]

theorem get_regions_spec (b : Bounds) (hB : BOkay b) :
    activeRegions (get_regions_by_bounds b) = genRegions b ∧
    PackedRegions (get_regions_by_bounds b) ∧
    (get_regions_by_bounds b).length = 4 := by
  have hnz : ∀ rg ∈ genRegions b, rg ≠ 0 := fun rg h => by
    have := genRegions_pos b hB rg h
    omega
  have hact : activeRegions (get_regions_by_bounds b) = genRegions b :=
    activeRegions_padded (genRegions b) hnz _
  obtain ⟨hlen1, hlen4⟩ := genRegions_length b hB
  have hlen : (get_regions_by_bounds b).length = 4 := by
    unfold get_regions_by_bounds
    rw [List.length_append, List.length_replicate]
    omega
  refine ⟨hact, ⟨?_, ?_, ?_⟩, hlen⟩
  · rw [hact]; exact genRegions_nodup b hB
  · rw [hact]; exact hlen4
  · rw [hact]
    unfold get_regions_by_bounds
    rfl

theorem mem_packed_iff (l : List Int) (h : PackedRegions l) (rg : Int) (hrg : rg ≠ 0) :
    rg ∈ l ↔ rg ∈ activeRegions l := by
  constructor
  · intro hm
    rw [h.2.2, List.mem_append] at hm
    rcases hm with hm | hm
    · exact hm
    · exact absurd (List.eq_of_mem_replicate hm) hrg
  · intro hm
    rw [h.2.2, List.mem_append]
    exact Or.inl hm

theorem length_filter_nodup_toFinset (l : List Int) (p : Int → Prop) [DecidablePred p]
    (h : l.Nodup) :
    (l.filter (fun r => decide (p r))).length = (l.toFinset.filter p).card := by
  induction l with
  | nil => simp
  | cons a rest ih =>
    simp only [List.nodup_cons] at h
    by_cases hp : p a
    · rw [List.filter_cons_of_pos (by simpa using hp)]
      rw [List.toFinset_cons, Finset.filter_insert, if_pos hp]
      rw [Finset.card_insert_of_not_mem (by simp [h.1])]
      simp [ih h.2]
    · rw [List.filter_cons_of_neg (by simpa using hp)]
      rw [List.toFinset_cons, Finset.filter_insert, if_neg hp]
      exact ih h.2

theorem sharedCount_comm (ra rb : List Int) (ha : (activeRegions ra).Nodup)
    (hb : (activeRegions rb).Nodup) : sharedCount ra rb = sharedCount rb ra := by
  unfold sharedCount
  rw [length_filter_nodup_toFinset _ _ ha, length_filter_nodup_toFinset _ _ hb]
  have e1 : (activeRegions ra).toFinset.filter (fun r => r ∈ activeRegions rb) =
      (activeRegions ra).toFinset ∩ (activeRegions rb).toFinset := by
    ext r
    simp [Finset.mem_filter, Finset.mem_inter, List.mem_toFinset]
  have e2 : (activeRegions rb).toFinset.filter (fun r => r ∈ activeRegions ra) =
      (activeRegions rb).toFinset ∩ (activeRegions ra).toFinset := by
    ext r
    simp [Finset.mem_filter, Finset.mem_inter, List.mem_toFinset]
  rw [e1, e2, Finset.inter_comm]

theorem pid_ne (r o o2 : Nat) (hr : r < 2 ^ 26) (ho : o < 2 ^ 26) (ho2 : o2 < 2 ^ 26)
    (hne : o ≠ o2) (h2 : o2 ≠ r) : get_pair_id r o ≠ get_pair_id r o2 := by
  intro h
  rcases get_pair_id_inj r o r o2 hr ho hr ho2 h with ⟨-, he⟩ | ⟨h1, -⟩
  · exact hne he
  · exact h2 h1.symm

/-! ### The broadphase bookkeeping invariant -/

/-- The internal-consistency invariant of the broadphase: every stored rect
is keyed by its own id inside the valid id range and carries a well-packed
region array; every bucket is duplicate-free and agrees in both directions
with the stored region arrays; the pair table is keyed consistently and a
pair entry exists exactly for distinct, filter-compatible live bodies
sharing at least one region, with the reference count equal to the number
of shared regions. -/
structure GridInv (g : Grid) (rects : Rects) : Prop where
  rid : ∀ id r, rects id = some r → r.id = id
  idrange : ∀ id r, rects id = some r → 1 ≤ id ∧ id < 2 ^ 26
  rpack : ∀ id r, rects id = some r → PackedRegions r.regions
  hkeys : (keysA g.hash).Nodup
  bnodup : ∀ rg bucket, lookupA g.hash rg = some bucket → bucket.Nodup
  bsound : ∀ rg bucket, lookupA g.hash rg = some bucket → ∀ id, id ∈ bucket →
    ∃ r, rects id = some r ∧ rg ∈ activeRegions r.regions
  bcomplete : ∀ id r, rects id = some r → ∀ rg, rg ∈ activeRegions r.regions →
    ∃ bucket, lookupA g.hash rg = some bucket ∧ id ∈ bucket
  pkeys : (keysA g.pairs).Nodup
  psound : ∀ k pr, lookupA g.pairs k = some pr →
    ∃ a b ra rb, rects a = some ra ∧ rects b = some rb ∧ a ≠ b ∧
      can_collide ra.cls rb.cls = true ∧ k = get_pair_id a b ∧
      pr.id1 = a ∧ pr.id2 = b ∧
      pr.count = sharedCount ra.regions rb.regions ∧ 1 ≤ pr.count
  pcomplete : ∀ a b ra rb, rects a = some ra → rects b = some rb → a ≠ b →
    can_collide ra.cls rb.cls = true → 1 ≤ sharedCount ra.regions rb.regions →
    lookupA g.pairs (get_pair_id a b) ≠ none

/-- The effect of the inner add_to_pairs loop over one bucket: it succeeds,
skips the body itself, touches no key other than the pair keys of the
processed bucket members, and creates or increments exactly the pair of
each compatible member. -/
theorem addPairsBucket_spec (rect : Rect) (rects : Rects) (hr : rect.id < 2 ^ 26)
    (bucket : List Nat)
    (hmem : ∀ o ∈ bucket, o = rect.id ∨
      ∃ ro, rects o = some ro ∧ ro.id = o ∧ o < 2 ^ 26)
    (hnd : bucket.Nodup) :
    ∀ pairs : List (PairId × Pair),
    ∃ pairs2, addPairsBucket pairs rect bucket rects = some pairs2 ∧
      ((keysA pairs).Nodup → (keysA pairs2).Nodup) ∧
      (∀ k, (∀ o ∈ bucket, o ≠ rect.id → k ≠ get_pair_id rect.id o) →
        lookupA pairs2 k = lookupA pairs k) ∧
      (∀ o ∈ bucket, o ≠ rect.id → ∀ ro, rects o = some ro →
        (can_collide rect.cls ro.cls = false →
          lookupA pairs2 (get_pair_id rect.id o) = lookupA pairs (get_pair_id rect.id o)) ∧
        (can_collide rect.cls ro.cls = true →
          match lookupA pairs (get_pair_id rect.id o) with
          | none => lookupA pairs2 (get_pair_id rect.id o) = some ⟨rect.id, o, 1⟩
          | some pr =>
            lookupA pairs2 (get_pair_id rect.id o) = some ⟨pr.id1, pr.id2, pr.count + 1⟩)) := by
  induction bucket with
  | nil =>
    intro pairs
    exact ⟨pairs, rfl, fun h => h, fun k _ => rfl, fun o ho => absurd ho (by simp)⟩
  | cons o rest ih =>
    intro pairs
    have hmem2 : ∀ o2 ∈ rest, o2 = rect.id ∨
        ∃ ro2, rects o2 = some ro2 ∧ ro2.id = o2 ∧ o2 < 2 ^ 26 :=
      fun o2 ho2 => hmem o2 (List.mem_cons_of_mem _ ho2)
    simp only [List.nodup_cons] at hnd
    by_cases heq : o = rect.id
    · unfold addPairsBucket
      rw [if_pos heq.symm]
      obtain ⟨pairs2, hrun, hkeep, hframe, hper⟩ := ih hmem2 hnd.2 pairs
      refine ⟨pairs2, hrun, hkeep, ?_, ?_⟩
      · intro k hk
        exact hframe k (fun o2 ho2 hr2 => hk o2 (List.mem_cons_of_mem _ ho2) hr2)
      · intro o2 ho2 hr2 ro2 hro2
        rcases List.mem_cons.mp ho2 with rfl | ho2
        · exact absurd heq hr2
        · exact hper o2 ho2 hr2 ro2 hro2
    · have hone : o ≠ rect.id := heq
      obtain ⟨ro, hro, hroid, holt⟩ :=
        (hmem o (List.mem_cons_self o rest)).resolve_left heq
      have hinj : ∀ o2 ∈ rest, o2 ≠ rect.id →
          get_pair_id rect.id o ≠ get_pair_id rect.id o2 := by
        intro o2 ho2 hr2
        obtain ⟨ro2, hro2, hro2id, ho2lt⟩ := (hmem2 o2 ho2).resolve_left hr2
        exact pid_ne rect.id o o2 hr holt ho2lt (fun he => hnd.1 (he ▸ ho2)) hr2
      unfold addPairsBucket
      rw [if_neg (fun he => hone he.symm), hro]
      dsimp only
      by_cases hc : can_collide rect.cls ro.cls = false
      · rw [if_pos hc]
        obtain ⟨pairs2, hrun, hkeep, hframe, hper⟩ := ih hmem2 hnd.2 pairs
        refine ⟨pairs2, hrun, hkeep, ?_, ?_⟩
        · intro k hk
          exact hframe k (fun o2 ho2 hr2 => hk o2 (List.mem_cons_of_mem _ ho2) hr2)
        · intro o2 ho2 hr2 ro2 hro2
          rcases List.mem_cons.mp ho2 with rfl | ho2
          · have he : ro2 = ro := by
              rw [hro] at hro2
              exact (Option.some.inj hro2).symm
            subst he
            constructor
            · intro _
              exact hframe _ hinj
            · intro hct2
              rw [hct2] at hc
              exact Bool.noConfusion hc
          · exact hper o2 ho2 hr2 ro2 hro2
      · rw [if_neg hc]
        have hct : can_collide rect.cls ro.cls = true := by
          cases hcc : can_collide rect.cls ro.cls
          · exact absurd hcc hc
          · rfl
        rw [hroid]
        cases hl : lookupA pairs (get_pair_id rect.id o) with
        | some pr =>
          obtain ⟨pairs2, hrun, hkeep, hframe, hper⟩ :=
            ih hmem2 hnd.2 (setA pairs (get_pair_id rect.id o) ⟨pr.id1, pr.id2, pr.count + 1⟩)
          refine ⟨pairs2, hrun, ?_, ?_, ?_⟩
          · intro hnk
            exact hkeep (by rw [keysA_setA]; exact hnk)
          · intro k hk
            rw [hframe k (fun o2 ho2 hr2 => hk o2 (List.mem_cons_of_mem _ ho2) hr2)]
            rw [lookupA_setA]
            rw [if_neg (hk o (List.mem_cons_self o rest) hone)]
          · intro o2 ho2 hr2 ro2 hro2
            rcases List.mem_cons.mp ho2 with rfl | ho2
            · have he : ro2 = ro := by
                rw [hro] at hro2
                exact (Option.some.inj hro2).symm
              subst he
              constructor
              · intro hcf
                rw [hcf] at hct
                exact Bool.noConfusion hct
              · intro _
                rw [hl]
                dsimp only
                rw [hframe _ hinj, lookupA_setA, if_pos rfl, hl]
                rfl
            · have hne := hinj o2 ho2 hr2
              have hstep : lookupA (setA pairs (get_pair_id rect.id o)
                  ⟨pr.id1, pr.id2, pr.count + 1⟩) (get_pair_id rect.id o2) =
                  lookupA pairs (get_pair_id rect.id o2) := by
                rw [lookupA_setA, if_neg (fun he => hne he.symm)]
              obtain ⟨hf, ht⟩ := hper o2 ho2 hr2 ro2 hro2
              rw [hstep] at hf ht
              exact ⟨hf, ht⟩
        | none =>
          obtain ⟨pairs2, hrun, hkeep, hframe, hper⟩ :=
            ih hmem2 hnd.2 ((get_pair_id rect.id o, ⟨rect.id, o, 1⟩) :: pairs)
          refine ⟨pairs2, hrun, ?_, ?_, ?_⟩
          · intro hnk
            refine hkeep ?_
            unfold keysA
            simp only [List.map_cons, List.nodup_cons]
            refine ⟨?_, hnk⟩
            exact (lookupA_eq_none_iff pairs (get_pair_id rect.id o)).mp hl
          · intro k hk
            rw [hframe k (fun o2 ho2 hr2 => hk o2 (List.mem_cons_of_mem _ ho2) hr2)]
            rw [lookupA_cons]
            rw [if_neg (fun he => (hk o (List.mem_cons_self o rest) hone) he.symm)]
          · intro o2 ho2 hr2 ro2 hro2
            rcases List.mem_cons.mp ho2 with rfl | ho2
            · have he : ro2 = ro := by
                rw [hro] at hro2
                exact (Option.some.inj hro2).symm
              subst he
              constructor
              · intro hcf
                rw [hcf] at hct
                exact Bool.noConfusion hct
              · intro _
                rw [hl]
                dsimp only
                rw [hframe _ hinj, lookupA_cons, if_pos rfl]
            · have hne := hinj o2 ho2 hr2
              have hstep : lookupA ((get_pair_id rect.id o, (⟨rect.id, o, 1⟩ : Pair)) :: pairs)
                  (get_pair_id rect.id o2) = lookupA pairs (get_pair_id rect.id o2) := by
                rw [lookupA_cons, if_neg hne]
              obtain ⟨hf, ht⟩ := hper o2 ho2 hr2 ro2 hro2
              rw [hstep] at hf ht
              exact ⟨hf, ht⟩

/-- The bucket registered for a region (empty when the region has no
bucket). -/
def bucketOf (g : Grid) (rg : Int) : List Nat := (lookupA g.hash rg).getD []

/-- How many of the given regions have a bucket containing the body b. -/
def bumpCount (g : Grid) (rs : List Int) (b : Nat) : Nat :=
  (rs.filter (fun rg => decide (b ∈ bucketOf g rg))).length

theorem addPairsRegions_break (rect : Rect) (rects : Rects) (rs : List Int) :
    ∀ g : Grid,
      addPairsRegions g rect rs rects = addPairsRegions g rect (activeRegions rs) rects := by
  induction rs with
  | nil => intro g; rfl
  | cons r rest ih =>
    intro g
    by_cases hr : r = 0
    · subst hr
      rfl
    · have hb : (r != 0) = true := by simpa using hr
      have ha : activeRegions (r :: rest) = r :: activeRegions rest := by
        unfold activeRegions
        rw [List.takeWhile_cons, hb]
        simp
      rw [ha]
      unfold addPairsRegions
      rw [if_neg (by simpa [EMPTY_REGION] using hr), if_neg (by simpa [EMPTY_REGION] using hr)]
      cases hlb : lookupA g.hash r with
      | none => rfl
      | some bucket =>
        dsimp only
        cases hab : addPairsBucket g.pairs rect bucket rects with
        | none => rfl
        | some pairs2 =>
          dsimp only
          exact ih _

/-- The effect of add_to_pairs over a sentinel-free region list: for every
live body b other than the inserted one, its pair against the inserted
body is bumped once per listed region whose bucket holds b; every other key
is untouched. -/
theorem addPairsRegions_spec (rect : Rect) (rects : Rects) (hr : rect.id < 2 ^ 26)
    (rs : List Int) (hn0 : ∀ rg ∈ rs, rg ≠ 0) :
    ∀ g : Grid,
    (∀ rg ∈ rs, ∃ bucket, lookupA g.hash rg = some bucket) →
    (∀ rg ∈ rs, ∀ bucket, lookupA g.hash rg = some bucket → bucket.Nodup ∧
      ∀ o ∈ bucket, o = rect.id ∨ ∃ ro, rects o = some ro ∧ ro.id = o ∧ o < 2 ^ 26) →
    ∃ g2, addPairsRegions g rect rs rects = some g2 ∧ g2.hash = g.hash ∧
      ((keysA g.pairs).Nodup → (keysA g2.pairs).Nodup) ∧
      (∀ k, (∀ rg ∈ rs, ∀ o ∈ bucketOf g rg, o ≠ rect.id → k ≠ get_pair_id rect.id o) →
        lookupA g2.pairs k = lookupA g.pairs k) ∧
      (∀ b ro, rects b = some ro → ro.id = b → b ≠ rect.id → b < 2 ^ 26 →
        (can_collide rect.cls ro.cls = false →
          lookupA g2.pairs (get_pair_id rect.id b) = lookupA g.pairs (get_pair_id rect.id b)) ∧
        (can_collide rect.cls ro.cls = true →
          match lookupA g.pairs (get_pair_id rect.id b) with
          | none =>
            (bumpCount g rs b = 0 → lookupA g2.pairs (get_pair_id rect.id b) = none) ∧
            (1 ≤ bumpCount g rs b →
              lookupA g2.pairs (get_pair_id rect.id b) = some ⟨rect.id, b, bumpCount g rs b⟩)
          | some pr =>
            lookupA g2.pairs (get_pair_id rect.id b) =
              some ⟨pr.id1, pr.id2, pr.count + bumpCount g rs b⟩)) := by
  induction rs with
  | nil =>
    intro g _ _
    refine ⟨g, rfl, rfl, fun h => h, fun k _ => rfl, ?_⟩
    intro b ro hb hbid hbne hblt
    refine ⟨fun _ => rfl, fun _ => ?_⟩
    cases hl : lookupA g.pairs (get_pair_id rect.id b) with
    | none => exact ⟨fun _ => rfl, fun h1 => absurd h1 (by simp [bumpCount])⟩
    | some pr => simp [bumpCount]
  | cons r rest ih =>
    intro g hex hbk
    have hrnz : r ≠ 0 := hn0 r (List.mem_cons_self r rest)
    obtain ⟨bucket, hbl⟩ := hex r (List.mem_cons_self r rest)
    obtain ⟨hbnd, hbmem⟩ := hbk r (List.mem_cons_self r rest) bucket hbl
    obtain ⟨pairs1, hbrun, hbkeep, hbframe, hbper⟩ :=
      addPairsBucket_spec rect rects hr bucket hbmem hbnd g.pairs
    have hbucketOf : bucketOf g r = bucket := by
      unfold bucketOf
      rw [hbl]
      rfl
    obtain ⟨g2, hrun2, hhash2, hkeep2, hframe2, hper2⟩ :=
      ih (fun rg hrg => hn0 rg (List.mem_cons_of_mem _ hrg))
        ⟨pairs1, g.hash⟩
        (fun rg hrg => hex rg (List.mem_cons_of_mem _ hrg))
        (fun rg hrg => hbk rg (List.mem_cons_of_mem _ hrg))
    have hunf : addPairsRegions g rect (r :: rest) rects =
        (if r = EMPTY_REGION then some g
         else match lookupA g.hash r with
              | none => none
              | some bucket =>
                match addPairsBucket g.pairs rect bucket rects with
                | none => none
                | some pairs2 => addPairsRegions ⟨pairs2, g.hash⟩ rect rest rects) := rfl
    have hstep : addPairsRegions g rect (r :: rest) rects =
        addPairsRegions ⟨pairs1, g.hash⟩ rect rest rects := by
      rw [hunf, if_neg (by simpa [EMPTY_REGION] using hrnz), hbl]
      dsimp only
      rw [hbrun]
    have hbucketOf2 : ∀ rg, bucketOf (⟨pairs1, g.hash⟩ : Grid) rg = bucketOf g rg := by
      intro rg
      unfold bucketOf
      rfl
    have hbump2 : ∀ b, bumpCount (⟨pairs1, g.hash⟩ : Grid) rest b = bumpCount g rest b := by
      intro b
      unfold bumpCount
      rfl
    refine ⟨g2, by rw [hstep]; exact hrun2, hhash2, ?_, ?_, ?_⟩
    · intro hnk
      exact hkeep2 (hbkeep hnk)
    · intro k hk
      have e1 : lookupA g2.pairs k = lookupA pairs1 k :=
        hframe2 k (fun rg hrg o ho hone =>
          hk rg (List.mem_cons_of_mem _ hrg) o (by rw [← hbucketOf2 rg]; exact ho) hone)
      have e2 : lookupA pairs1 k = lookupA g.pairs k :=
        hbframe k (fun o ho hone =>
          hk r (List.mem_cons_self r rest) o (by rw [hbucketOf]; exact ho) hone)
      rw [e1, e2]
    · intro b ro hbr hbid hbne hblt
      have h2 := hper2 b ro hbr hbid hbne hblt
      by_cases hmemb : b ∈ bucket
      · have h1 := hbper b hmemb hbne ro hbr
        have hbmp : bumpCount g (r :: rest) b = bumpCount g rest b + 1 := by
          unfold bumpCount
          rw [List.filter_cons, if_pos (by rw [hbucketOf]; simpa using hmemb)]
          simp
        refine ⟨?_, ?_⟩
        · intro hcf
          rw [h2.1 hcf, h1.1 hcf]
        · intro hct
          cases hl : lookupA g.pairs (get_pair_id rect.id b) with
          | none =>
            have hp1 : lookupA pairs1 (get_pair_id rect.id b) = some ⟨rect.id, b, 1⟩ := by
              have h12 := h1.2 hct
              rw [hl] at h12
              exact h12
            refine ⟨fun h0 => by omega, fun _ => ?_⟩
            have h22 := h2.2 hct
            rw [hp1] at h22
            have h22b : lookupA g2.pairs (get_pair_id rect.id b) =
                some ⟨rect.id, b, 1 + bumpCount g rest b⟩ := by
              have hb2 := hbump2 b
              rw [hb2] at h22
              exact h22
            rw [h22b, hbmp]
            have he : 1 + bumpCount g rest b = bumpCount g rest b + 1 := by omega
            rw [he]
          | some pr =>
            have hp1 : lookupA pairs1 (get_pair_id rect.id b) =
                some ⟨pr.id1, pr.id2, pr.count + 1⟩ := by
              have h12 := h1.2 hct
              rw [hl] at h12
              exact h12
            have h22 := h2.2 hct
            rw [hp1] at h22
            have h22b : lookupA g2.pairs (get_pair_id rect.id b) =
                some ⟨pr.id1, pr.id2, pr.count + 1 + bumpCount g rest b⟩ := by
              have hb2 := hbump2 b
              rw [hb2] at h22
              exact h22
            rw [h22b, hbmp]
            have he : pr.count + 1 + bumpCount g rest b =
                pr.count + (bumpCount g rest b + 1) := by omega
            rw [he]
      · have hp1 : lookupA pairs1 (get_pair_id rect.id b) =
            lookupA g.pairs (get_pair_id rect.id b) := by
          refine hbframe _ ?_
          intro o ho hone
          obtain ⟨ro2, hro2, hro2id, ho2lt⟩ := (hbmem o ho).resolve_left hone
          exact pid_ne rect.id b o hr hblt ho2lt
            (fun he => hmemb (he ▸ ho)) hone
        have hbmp : bumpCount g (r :: rest) b = bumpCount g rest b := by
          unfold bumpCount
          rw [List.filter_cons, if_neg (by rw [hbucketOf]; simpa using hmemb)]
        refine ⟨?_, ?_⟩
        · intro hcf
          rw [h2.1 hcf, hp1]
        · intro hct
          have h22 := h2.2 hct
          rw [hp1] at h22
          rw [hbmp]
          cases hl : lookupA g.pairs (get_pair_id rect.id b) with
          | none =>
            rw [hl] at h22
            have hb2 := hbump2 b
            rw [hb2] at h22
            exact h22
          | some pr =>
            rw [hl] at h22
            have hb2 := hbump2 b
            rw [hb2] at h22
            exact h22

/-- The effect of the inner remove_from_pairs loop over one bucket (the
removed body is already out of the bucket): each member pair against the
removed id is decremented, an entry at count one being deleted; other keys
are untouched. -/
theorem removePairsBucket_spec (id : Nat) (hid : id < 2 ^ 26) (bucket : List Nat)
    (hnb : id ∉ bucket) (hlt : ∀ o ∈ bucket, o < 2 ^ 26) (hnd : bucket.Nodup) :
    ∀ pairs : List (PairId × Pair),
      ((keysA pairs).Nodup → (keysA (removePairsBucket pairs id bucket)).Nodup) ∧
      (∀ k, (∀ o ∈ bucket, k ≠ get_pair_id id o) →
        lookupA (removePairsBucket pairs id bucket) k = lookupA pairs k) ∧
      (∀ o ∈ bucket,
        match lookupA pairs (get_pair_id id o) with
        | none => lookupA (removePairsBucket pairs id bucket) (get_pair_id id o) = none
        | some pr =>
          (pr.count = 1 →
            lookupA (removePairsBucket pairs id bucket) (get_pair_id id o) = none) ∧
          (pr.count ≠ 1 →
            lookupA (removePairsBucket pairs id bucket) (get_pair_id id o) =
              some ⟨pr.id1, pr.id2, pr.count - 1⟩)) := by
  induction bucket with
  | nil =>
    intro pairs
    refine ⟨fun h => h, fun k _ => rfl, fun o ho => absurd ho (by simp)⟩
  | cons o rest ih =>
    intro pairs
    have hno : o ≠ id := fun he => hnb (he ▸ List.mem_cons_self o rest)
    have holt : o < 2 ^ 26 := hlt o (List.mem_cons_self o rest)
    simp only [List.nodup_cons] at hnd
    have hnb2 : id ∉ rest := fun hm => hnb (List.mem_cons_of_mem _ hm)
    have hlt2 : ∀ o2 ∈ rest, o2 < 2 ^ 26 := fun o2 h2 => hlt o2 (List.mem_cons_of_mem _ h2)
    have hinj : ∀ o2 ∈ rest, get_pair_id id o ≠ get_pair_id id o2 := by
      intro o2 ho2
      exact pid_ne id o o2 hid holt (hlt2 o2 ho2) (fun he => hnd.1 (he ▸ ho2))
        (fun he => hnb2 (he ▸ ho2))
    unfold removePairsBucket
    dsimp only
    cases hl : lookupA pairs (get_pair_id id o) with
    | none =>
      dsimp only
      obtain ⟨hkeep, hframe, hper⟩ := ih hnb2 hlt2 hnd.2 pairs
      refine ⟨hkeep, ?_, ?_⟩
      · intro k hk
        exact hframe k (fun o2 ho2 => hk o2 (List.mem_cons_of_mem _ ho2))
      · intro o2 ho2
        rcases List.mem_cons.mp ho2 with rfl | ho2
        · rw [hl]
          dsimp only
          rw [hframe _ hinj, hl]
        · exact hper o2 ho2
    | some pr =>
      dsimp only
      by_cases hc1 : pr.count = 1
      · rw [if_pos hc1]
        obtain ⟨hkeep, hframe, hper⟩ := ih hnb2 hlt2 hnd.2 (eraseA pairs (get_pair_id id o))
        refine ⟨?_, ?_, ?_⟩
        · intro hnk
          exact hkeep (nodupKeys_eraseA pairs _ hnk)
        · intro k hk
          rw [hframe k (fun o2 ho2 => hk o2 (List.mem_cons_of_mem _ ho2))]
          rw [lookupA_eraseA, if_neg (hk o (List.mem_cons_self o rest))]
        · intro o2 ho2
          rcases List.mem_cons.mp ho2 with rfl | ho2
          · rw [hl]
            dsimp only
            refine ⟨fun _ => ?_, fun hcn => absurd hc1 hcn⟩
            rw [hframe _ hinj, lookupA_eraseA, if_pos rfl]
          · have hne := hinj o2 ho2
            have hstep : lookupA (eraseA pairs (get_pair_id id o)) (get_pair_id id o2) =
                lookupA pairs (get_pair_id id o2) := by
              rw [lookupA_eraseA, if_neg (fun he => hne he.symm)]
            have hp := hper o2 ho2
            rw [hstep] at hp
            exact hp
      · rw [if_neg hc1]
        obtain ⟨hkeep, hframe, hper⟩ :=
          ih hnb2 hlt2 hnd.2 (setA pairs (get_pair_id id o) ⟨pr.id1, pr.id2, pr.count - 1⟩)
        refine ⟨?_, ?_, ?_⟩
        · intro hnk
          exact hkeep (by rw [keysA_setA]; exact hnk)
        · intro k hk
          rw [hframe k (fun o2 ho2 => hk o2 (List.mem_cons_of_mem _ ho2))]
          rw [lookupA_setA, if_neg (hk o (List.mem_cons_self o rest))]
        · intro o2 ho2
          rcases List.mem_cons.mp ho2 with rfl | ho2
          · rw [hl]
            dsimp only
            refine ⟨fun hc => absurd hc hc1, fun _ => ?_⟩
            rw [hframe _ hinj, lookupA_setA, if_pos rfl, hl]
            rfl
          · have hne := hinj o2 ho2
            have hstep : lookupA (setA pairs (get_pair_id id o)
                ⟨pr.id1, pr.id2, pr.count - 1⟩) (get_pair_id id o2) =
                lookupA pairs (get_pair_id id o2) := by
              rw [lookupA_setA, if_neg (fun he => hne he.symm)]
            have hp := hper o2 ho2
            rw [hstep] at hp
            exact hp

theorem removePairsRegions_break (id : Nat) (rs : List Int) :
    ∀ g : Grid,
      removePairsRegions g id rs = removePairsRegions g id (activeRegions rs) := by
  induction rs with
  | nil => intro g; rfl
  | cons r rest ih =>
    intro g
    by_cases hr : r = 0
    · subst hr
      rfl
    · have hb : (r != 0) = true := by simpa using hr
      have ha : activeRegions (r :: rest) = r :: activeRegions rest := by
        unfold activeRegions
        rw [List.takeWhile_cons, hb]
        simp
      rw [ha]
      have hunf : ∀ rest2 : List Int, removePairsRegions g id (r :: rest2) =
          (if r = EMPTY_REGION then some g
           else match lookupA g.hash r with
                | none => none
                | some bucket =>
                  removePairsRegions ⟨removePairsBucket g.pairs id bucket, g.hash⟩
                    id rest2) := fun rest2 => rfl
      rw [hunf rest, hunf (activeRegions rest)]
      rw [if_neg (by simpa [EMPTY_REGION] using hr), if_neg (by simpa [EMPTY_REGION] using hr)]
      cases hlb : lookupA g.hash r with
      | none => rfl
      | some bucket =>
        dsimp only
        exact ih _

/-- Entries produced by the bucket removal loop keep a positive count. -/
theorem removePairsBucket_min (id : Nat) (hid : id < 2 ^ 26) (bucket : List Nat)
    (hnb : id ∉ bucket) (hlt : ∀ o ∈ bucket, o < 2 ^ 26) (hnd : bucket.Nodup)
    (pairs : List (PairId × Pair))
    (hmin : ∀ k pr, lookupA pairs k = some pr → 1 ≤ pr.count) :
    ∀ k pr2, lookupA (removePairsBucket pairs id bucket) k = some pr2 → 1 ≤ pr2.count := by
  obtain ⟨hkeep, hframe, hper⟩ := removePairsBucket_spec id hid bucket hnb hlt hnd pairs
  intro k pr2 hk2
  by_cases hex : ∃ o ∈ bucket, k = get_pair_id id o
  · obtain ⟨o, ho, rfl⟩ := hex
    have hp := hper o ho
    cases hl : lookupA pairs (get_pair_id id o) with
    | none =>
      have hp2 : lookupA (removePairsBucket pairs id bucket) (get_pair_id id o) = none := by
        rw [hl] at hp
        exact hp
      rw [hp2] at hk2
      cases hk2
    | some pr =>
      have h1 := hmin _ _ hl
      have hp2 : (pr.count = 1 →
          lookupA (removePairsBucket pairs id bucket) (get_pair_id id o) = none) ∧
          (pr.count ≠ 1 →
          lookupA (removePairsBucket pairs id bucket) (get_pair_id id o) =
            some ⟨pr.id1, pr.id2, pr.count - 1⟩) := by
        rw [hl] at hp
        exact hp
      by_cases hc : pr.count = 1
      · rw [hp2.1 hc] at hk2
        cases hk2
      · rw [hp2.2 hc] at hk2
        have : pr2 = ⟨pr.id1, pr.id2, pr.count - 1⟩ := (Option.some.inj hk2).symm
        subst this
        show 1 ≤ pr.count - 1
        omega
  · have hfr := hframe k (fun o ho he => hex ⟨o, ho, he⟩)
    rw [hfr] at hk2
    exact hmin _ _ hk2

/-- The effect of remove_from_pairs over a sentinel-free region list: the
pair of the removed id against every body b is decremented once per listed
region whose bucket holds b, deleted when the count runs out; every other
key is untouched. -/
theorem removePairsRegions_spec (id : Nat) (hid : id < 2 ^ 26) (rs : List Int)
    (hn0 : ∀ rg ∈ rs, rg ≠ 0) :
    ∀ g : Grid,
    (∀ rg ∈ rs, ∃ bucket, lookupA g.hash rg = some bucket) →
    (∀ rg ∈ rs, ∀ bucket, lookupA g.hash rg = some bucket → bucket.Nodup ∧ id ∉ bucket ∧
      ∀ o ∈ bucket, o < 2 ^ 26) →
    (∀ k pr, lookupA g.pairs k = some pr → 1 ≤ pr.count) →
    ∃ g2, removePairsRegions g id rs = some g2 ∧ g2.hash = g.hash ∧
      ((keysA g.pairs).Nodup → (keysA g2.pairs).Nodup) ∧
      (∀ k pr, lookupA g2.pairs k = some pr → 1 ≤ pr.count) ∧
      (∀ k, (∀ rg ∈ rs, ∀ o ∈ bucketOf g rg, k ≠ get_pair_id id o) →
        lookupA g2.pairs k = lookupA g.pairs k) ∧
      (∀ b : Nat, b < 2 ^ 26 →
        match lookupA g.pairs (get_pair_id id b) with
        | none => lookupA g2.pairs (get_pair_id id b) = none
        | some pr =>
          (pr.count ≤ bumpCount g rs b →
            lookupA g2.pairs (get_pair_id id b) = none) ∧
          (bumpCount g rs b < pr.count →
            lookupA g2.pairs (get_pair_id id b) =
              some ⟨pr.id1, pr.id2, pr.count - bumpCount g rs b⟩)) := by
  induction rs with
  | nil =>
    intro g _ _ hmin
    refine ⟨g, rfl, rfl, fun h => h, hmin, fun k _ => rfl, ?_⟩
    intro b hblt
    cases hl : lookupA g.pairs (get_pair_id id b) with
    | none => rfl
    | some pr =>
      have h1 := hmin _ _ hl
      have hb0 : bumpCount g [] b = 0 := by simp [bumpCount]
      rw [hb0]
      refine ⟨fun h0 => absurd h0 (by omega), fun _ => ?_⟩
      rw [Nat.sub_zero]
  | cons r rest ih =>
    intro g hex hbk hmin
    have hrnz : r ≠ 0 := hn0 r (List.mem_cons_self r rest)
    obtain ⟨bucket, hbl⟩ := hex r (List.mem_cons_self r rest)
    obtain ⟨hbnd, hbni, hblt⟩ := hbk r (List.mem_cons_self r rest) bucket hbl
    obtain ⟨hbkeep, hbframe, hbper⟩ := removePairsBucket_spec id hid bucket hbni hblt hbnd g.pairs
    have hbmin := removePairsBucket_min id hid bucket hbni hblt hbnd g.pairs hmin
    have hbucketOf : bucketOf g r = bucket := by
      unfold bucketOf
      rw [hbl]
      rfl
    obtain ⟨g2, hrun2, hhash2, hkeep2, hmin2, hframe2, hper2⟩ :=
      ih (fun rg hrg => hn0 rg (List.mem_cons_of_mem _ hrg))
        ⟨removePairsBucket g.pairs id bucket, g.hash⟩
        (fun rg hrg => hex rg (List.mem_cons_of_mem _ hrg))
        (fun rg hrg => hbk rg (List.mem_cons_of_mem _ hrg)) hbmin
    have hunf : removePairsRegions g id (r :: rest) =
        (if r = EMPTY_REGION then some g
         else match lookupA g.hash r with
              | none => none
              | some bucket =>
                removePairsRegions ⟨removePairsBucket g.pairs id bucket, g.hash⟩ id rest) := rfl
    have hstep : removePairsRegions g id (r :: rest) =
        removePairsRegions ⟨removePairsBucket g.pairs id bucket, g.hash⟩ id rest := by
      rw [hunf, if_neg (by simpa [EMPTY_REGION] using hrnz), hbl]
    have hbucketOf2 : ∀ rg,
        bucketOf (⟨removePairsBucket g.pairs id bucket, g.hash⟩ : Grid) rg = bucketOf g rg :=
      fun rg => rfl
    have hbump2 : ∀ b,
        bumpCount (⟨removePairsBucket g.pairs id bucket, g.hash⟩ : Grid) rest b =
          bumpCount g rest b := fun b => rfl
    refine ⟨g2, by rw [hstep]; exact hrun2, hhash2, ?_, hmin2, ?_, ?_⟩
    · intro hnk
      exact hkeep2 (hbkeep hnk)
    · intro k hk
      have e1 : lookupA g2.pairs k =
          lookupA (removePairsBucket g.pairs id bucket) k :=
        hframe2 k (fun rg hrg o ho =>
          hk rg (List.mem_cons_of_mem _ hrg) o (by rw [← hbucketOf2 rg]; exact ho))
      have e2 : lookupA (removePairsBucket g.pairs id bucket) k = lookupA g.pairs k :=
        hbframe k (fun o ho => hk r (List.mem_cons_self r rest) o (by rw [hbucketOf]; exact ho))
      rw [e1, e2]
    · intro b hbltb
      have h2 := hper2 b hbltb
      by_cases hmemb : b ∈ bucket
      · have hbmp : bumpCount g (r :: rest) b = bumpCount g rest b + 1 := by
          unfold bumpCount
          rw [List.filter_cons, if_pos (by rw [hbucketOf]; simpa using hmemb)]
          simp
        have h1 := hbper b hmemb
        cases hl : lookupA g.pairs (get_pair_id id b) with
        | none =>
          have hp1 : lookupA (removePairsBucket g.pairs id bucket) (get_pair_id id b) =
              none := by
            rw [hl] at h1
            exact h1
          rw [hp1] at h2
          rw [hbump2] at h2
          exact h2
        | some pr =>
          have hc1 := hmin _ _ hl
          have hp1 : (pr.count = 1 →
              lookupA (removePairsBucket g.pairs id bucket) (get_pair_id id b) = none) ∧
              (pr.count ≠ 1 →
              lookupA (removePairsBucket g.pairs id bucket) (get_pair_id id b) =
                some ⟨pr.id1, pr.id2, pr.count - 1⟩) := by
            rw [hl] at h1
            exact h1
          by_cases hc : pr.count = 1
          · have hp2 := hp1.1 hc
            rw [hp2] at h2
            rw [hbmp]
            refine ⟨fun _ => h2, fun hlt2 => absurd hlt2 (by omega)⟩
          · have hp2 := hp1.2 hc
            rw [hp2] at h2
            rw [hbump2] at h2
            rw [hbmp]
            refine ⟨fun hle => ?_, fun hlt2 => ?_⟩
            · refine h2.1 ?_
              show pr.count - 1 ≤ bumpCount g rest b
              omega
            · have he := h2.2 (by omega : bumpCount g rest b < pr.count - 1)
              rw [he]
              have hee : pr.count - 1 - bumpCount g rest b =
                  pr.count - (bumpCount g rest b + 1) := by omega
              rw [hee]
      · have hbmp : bumpCount g (r :: rest) b = bumpCount g rest b := by
          unfold bumpCount
          rw [List.filter_cons, if_neg (by rw [hbucketOf]; simpa using hmemb)]
        have hp1 : lookupA (removePairsBucket g.pairs id bucket) (get_pair_id id b) =
            lookupA g.pairs (get_pair_id id b) := by
          refine hbframe _ ?_
          intro o ho
          exact pid_ne id b o hid hbltb (hblt o ho)
            (fun he => hmemb (he ▸ ho)) (fun he => hbni (he ▸ ho))
        rw [hp1, hbump2] at h2
        rw [hbmp]
        exact h2

/-- The effect of the bucket-registration loop of Grid::add. -/
theorem bucketsInsert_spec (id : Nat) :
    ∀ (rs : List Int) (hash : List (RegionId × List Nat)),
    (activeRegions rs).Nodup →
    ((keysA hash).Nodup → (keysA (bucketsInsert hash rs id)).Nodup) ∧
    ∀ rg, lookupA (bucketsInsert hash rs id) rg =
      if rg ∈ activeRegions rs then
        some (match lookupA hash rg with
              | none => [id]
              | some bucket => insertSet id bucket)
      else lookupA hash rg := by
  intro rs
  induction rs with
  | nil =>
    intro hash _
    exact ⟨fun h => h, fun rg => by simp [bucketsInsert, activeRegions]⟩
  | cons r rest ih =>
    intro hash hnd
    by_cases hr : r = 0
    · subst hr
      have ha : activeRegions ((0 : Int) :: rest) = [] := by
        unfold activeRegions
        rw [List.takeWhile_cons]
        norm_num
      rw [ha]
      have hb : bucketsInsert hash ((0 : Int) :: rest) id = hash := rfl
      rw [hb]
      exact ⟨fun h => h, fun rg => by simp⟩
    · have hbne : (r != 0) = true := by simpa using hr
      have ha : activeRegions (r :: rest) = r :: activeRegions rest := by
        unfold activeRegions
        rw [List.takeWhile_cons, hbne]
        simp
      rw [ha] at hnd ⊢
      simp only [List.nodup_cons] at hnd
      have hunf : bucketsInsert hash (r :: rest) id =
          (if r = EMPTY_REGION then hash
           else match lookupA hash r with
                | none => bucketsInsert ((r, [id]) :: hash) rest id
                | some bucket => bucketsInsert (setA hash r (insertSet id bucket)) rest id) := rfl
      rw [hunf, if_neg (by simpa [EMPTY_REGION] using hr)]
      cases hlb : lookupA hash r with
      | none =>
        dsimp only
        obtain ⟨hkeep, hlk⟩ := ih ((r, [id]) :: hash) hnd.2
        refine ⟨?_, ?_⟩
        · intro hnk
          refine hkeep ?_
          unfold keysA
          simp only [List.map_cons, List.nodup_cons]
          exact ⟨(lookupA_eq_none_iff hash r).mp hlb, hnk⟩
        · intro rg
          rw [hlk rg]
          by_cases hrr : rg = r
          · subst hrr
            rw [if_neg hnd.1, if_pos (List.mem_cons_self rg _), lookupA_cons, if_pos rfl, hlb]
          · by_cases hmem : rg ∈ activeRegions rest
            · rw [if_pos hmem, if_pos (List.mem_cons_of_mem _ hmem), lookupA_cons,
                if_neg (fun he => hrr he.symm)]
            · rw [if_neg hmem,
                if_neg (fun hm => (List.mem_cons.mp hm).elim hrr hmem),
                lookupA_cons, if_neg (fun he => hrr he.symm)]
      | some bucket =>
        dsimp only
        obtain ⟨hkeep, hlk⟩ := ih (setA hash r (insertSet id bucket)) hnd.2
        refine ⟨?_, ?_⟩
        · intro hnk
          refine hkeep ?_
          rw [keysA_setA]
          exact hnk
        · intro rg
          rw [hlk rg]
          by_cases hrr : rg = r
          · subst hrr
            rw [if_neg hnd.1, if_pos (List.mem_cons_self rg _), lookupA_setA, if_pos rfl, hlb]
            rfl
          · by_cases hmem : rg ∈ activeRegions rest
            · rw [if_pos hmem, if_pos (List.mem_cons_of_mem _ hmem), lookupA_setA, if_neg hrr]
            · rw [if_neg hmem,
                if_neg (fun hm => (List.mem_cons.mp hm).elim hrr hmem),
                lookupA_setA, if_neg hrr]

/-- Membership in the active prefix implies membership in the array. -/
theorem active_subset (l : List Int) (rg : Int) (h : rg ∈ activeRegions l) : rg ∈ l :=
  (List.takeWhile_sublist _).subset h

/-- Rust contains agrees with list membership. -/
theorem contains_iff_mem (l : List Int) (a : Int) : l.contains a = true ↔ a ∈ l :=
  List.elem_iff

/-- For a packed array, contains agrees with active-prefix membership away
from the sentinel. -/
theorem contains_iff_active (l : List Int) (h : PackedRegions l) (rg : Int)
    (hrg : rg ≠ 0) : l.contains rg = true ↔ rg ∈ activeRegions l := by
  rw [contains_iff_mem]
  exact mem_packed_iff l h rg hrg

/-- The class filter is symmetric. -/
theorem can_collide_comm (c1 c2 : BodyClass) : can_collide c1 c2 = can_collide c2 c1 := by
  cases c1 <;> cases c2 <;> rfl

/-- The pair key does not depend on the order of the two ids. -/
theorem gpid_comm (a b : Nat) : get_pair_id a b = get_pair_id b a := by
  rw [get_pair_id_split a b, get_pair_id_split b a]
  have hpow : (2 : Nat) ^ 26 = 67108864 := by norm_num
  rw [hpow]
  omega

theorem updR_same (rects : Rects) (id : Nat) (r : Rect) : updR rects id r id = some r := by
  unfold updR
  rw [if_pos rfl]

theorem updR_other (rects : Rects) (id : Nat) (r : Rect) (i : Nat) (h : i ≠ id) :
    updR rects id r i = rects i := by
  unfold updR
  rw [if_neg h]

theorem updR_updR (rects : Rects) (id : Nat) (r1 r2 : Rect) :
    updR (updR rects id r1) id r2 = updR rects id r2 := by
  funext i
  unfold updR
  by_cases hi : i = id
  · rw [if_pos hi, if_pos hi]
  · rw [if_neg hi, if_neg hi, if_neg hi]

theorem updR_eq_self (rects : Rects) (id : Nat) (r : Rect) (h : rects id = some r) :
    updR rects id r = rects := by
  funext i
  unfold updR
  by_cases hi : i = id
  · rw [if_pos hi, hi, h]
  · rw [if_neg hi]

theorem delR_same (rects : Rects) (id : Nat) : delR rects id id = none := by
  unfold delR
  rw [if_pos rfl]

theorem delR_other (rects : Rects) (id : Nat) (i : Nat) (h : i ≠ id) :
    delR rects id i = rects i := by
  unfold delR
  rw [if_neg h]

/-- Splitting a filtered count by a second contains test. -/
theorem length_filter_contains_split (l : List Int) (p : Int → Bool) (m : List Int) :
    (l.filter p).length =
      ((l.filter (fun a => !(m.contains a))).filter p).length +
      (l.filter (fun a => p a && m.contains a)).length := by
  induction l with
  | nil => rfl
  | cons a rest ih =>
    by_cases hm : a ∈ m <;> cases hp : p a <;>
      simp [List.filter_cons, hp, hm, ih] <;> omega

/-- A count over the intersection of two duplicate-free lists is symmetric
in the two lists. -/
theorem length_filter_mem_comm (l1 l2 : List Int) (p : Int → Bool)
    (h1 : l1.Nodup) (h2 : l2.Nodup) :
    (l1.filter (fun a => p a && decide (a ∈ l2))).length =
    (l2.filter (fun a => p a && decide (a ∈ l1))).length := by
  have e1 : l1.filter (fun a => p a && decide (a ∈ l2)) =
      l1.filter (fun a => decide (p a = true ∧ a ∈ l2)) := by
    refine List.filter_congr ?_
    intro a _
    cases hp : p a <;> simp [hp]
  have e2 : l2.filter (fun a => p a && decide (a ∈ l1)) =
      l2.filter (fun a => decide (p a = true ∧ a ∈ l1)) := by
    refine List.filter_congr ?_
    intro a _
    cases hp : p a <;> simp [hp]
  rw [e1, e2, length_filter_nodup_toFinset _ _ h1, length_filter_nodup_toFinset _ _ h2]
  congr 1
  ext a
  simp only [Finset.mem_filter, List.mem_toFinset]
  constructor
  · rintro ⟨hm, hpa, hm2⟩
    exact ⟨hm2, hpa, hm⟩
  · rintro ⟨hm2, hpa, hm⟩
    exact ⟨hm, hpa, hm2⟩

theorem bnot_eq_true (b : Bool) (h : (!b) = true) : b = false := by
  cases b
  · rfl
  · exact absurd h (by simp)

theorem bnot_true_of_false (b : Bool) (h : b = false) : (!b) = true := by
  rw [h]
  rfl

/-- A boolean agreeing with a proposition is its decide. -/
theorem bool_eq_decide {p : Prop} [Decidable p] {b : Bool} (h : b = true ↔ p) :
    b = decide p := by
  cases hb : b
  · have hnp : ¬ p := fun hp => Bool.noConfusion (hb ▸ h.mpr hp)
    simp [hnp]
  · have hp : p := h.mp hb
    simp [hp]

/-- The effect of the deregistration loop of Grid::remove: it succeeds when
every active region has a bucket, removes the id from exactly the
active-region buckets and touches nothing else. -/
theorem bucketsRemoveAll_spec (id : Nat) :
    ∀ (rs : List Int) (hash : List (RegionId × List Nat)),
    (activeRegions rs).Nodup →
    (∀ rg ∈ activeRegions rs, ∃ bucket, lookupA hash rg = some bucket) →
    ∃ hash2, bucketsRemoveAll hash rs id = some hash2 ∧
      ((keysA hash).Nodup → (keysA hash2).Nodup) ∧
      ∀ rg, lookupA hash2 rg =
        if rg ∈ activeRegions rs then (lookupA hash rg).map (removeSet id)
        else lookupA hash rg := by
  intro rs
  induction rs with
  | nil =>
    intro hash _ _
    refine ⟨hash, rfl, fun h => h, fun rg => ?_⟩
    rw [if_neg (by simp [activeRegions])]
  | cons r rest ih =>
    intro hash hnd hex
    by_cases hr : r = 0
    · subst hr
      have ha : activeRegions ((0 : Int) :: rest) = [] := by
        unfold activeRegions
        rw [List.takeWhile_cons]
        norm_num
      rw [ha]
      refine ⟨hash, rfl, fun h => h, fun rg => ?_⟩
      rw [if_neg (by simp)]
    · have hbne : (r != 0) = true := by simpa using hr
      have ha : activeRegions (r :: rest) = r :: activeRegions rest := by
        unfold activeRegions
        rw [List.takeWhile_cons, hbne]
        simp
      rw [ha] at hnd hex ⊢
      simp only [List.nodup_cons] at hnd
      obtain ⟨bucket, hlb⟩ := hex r (List.mem_cons_self r _)
      have hunf : bucketsRemoveAll hash (r :: rest) id =
          (if r = EMPTY_REGION then some hash
           else match lookupA hash r with
                | none => none
                | some bucket =>
                  bucketsRemoveAll (setA hash r (removeSet id bucket)) rest id) := rfl
      rw [hunf, if_neg (by simpa [EMPTY_REGION] using hr), hlb]
      dsimp only
      have hex2 : ∀ rg ∈ activeRegions rest, ∃ b2,
          lookupA (setA hash r (removeSet id bucket)) rg = some b2 := by
        intro rg hrg
        rw [lookupA_setA]
        by_cases hrr : rg = r
        · rw [if_pos hrr, hlb]
          exact ⟨removeSet id bucket, rfl⟩
        · rw [if_neg hrr]
          exact hex rg (List.mem_cons_of_mem _ hrg)
      obtain ⟨hash2, hrun, hkeep, hlk⟩ := ih (setA hash r (removeSet id bucket)) hnd.2 hex2
      refine ⟨hash2, hrun, ?_, ?_⟩
      · intro hnk
        refine hkeep ?_
        rw [keysA_setA]
        exact hnk
      · intro rg
        rw [hlk rg]
        by_cases hrr : rg = r
        · subst hrr
          rw [if_neg hnd.1, if_pos (List.mem_cons_self rg _), lookupA_setA, if_pos rfl, hlb]
          rfl
        · by_cases hmem : rg ∈ activeRegions rest
          · rw [if_pos hmem, if_pos (List.mem_cons_of_mem _ hmem), lookupA_setA, if_neg hrr]
          · rw [if_neg hmem,
              if_neg (fun hm => (List.mem_cons.mp hm).elim hrr hmem),
              lookupA_setA, if_neg hrr]

/-- The effect of the departure loop of Grid::update: it succeeds when the
departed regions have buckets, returns them in loop order, and removes the
id from exactly their buckets. -/
theorem bucketsRemoveDiff_spec (id : Nat) (new : List Int) :
    ∀ (old : List Int) (hash : List (RegionId × List Nat)),
    (activeRegions old).Nodup →
    (∀ rg ∈ activeRegions old, new.contains rg = false →
      ∃ bucket, lookupA hash rg = some bucket) →
    ∃ hash2,
      bucketsRemoveDiff hash old new id =
        some (hash2, (activeRegions old).filter (fun rg => !(new.contains rg))) ∧
      ((keysA hash).Nodup → (keysA hash2).Nodup) ∧
      ∀ rg, lookupA hash2 rg =
        if rg ∈ (activeRegions old).filter (fun rg2 => !(new.contains rg2))
        then (lookupA hash rg).map (removeSet id)
        else lookupA hash rg := by
  intro old
  induction old with
  | nil =>
    intro hash _ _
    refine ⟨hash, rfl, fun h => h, fun rg => ?_⟩
    rw [if_neg (by simp [activeRegions])]
  | cons r rest ih =>
    intro hash hnd hex
    by_cases hr : r = 0
    · subst hr
      have ha : activeRegions ((0 : Int) :: rest) = [] := by
        unfold activeRegions
        rw [List.takeWhile_cons]
        norm_num
      rw [ha]
      refine ⟨hash, rfl, fun h => h, fun rg => ?_⟩
      rw [if_neg (by simp)]
    · have hbne : (r != 0) = true := by simpa using hr
      have ha : activeRegions (r :: rest) = r :: activeRegions rest := by
        unfold activeRegions
        rw [List.takeWhile_cons, hbne]
        simp
      rw [ha] at hnd hex ⊢
      simp only [List.nodup_cons] at hnd
      have hunf : bucketsRemoveDiff hash (r :: rest) new id =
          (if r = EMPTY_REGION then some (hash, [])
           else if new.contains r then bucketsRemoveDiff hash rest new id
           else match lookupA hash r with
                | none => none
                | some bucket =>
                  match bucketsRemoveDiff (setA hash r (removeSet id bucket)) rest new id with
                  | none => none
                  | some (h2, regs) => some (h2, r :: regs)) := rfl
      cases hc : new.contains r with
      | true =>
        have hm : r ∈ new := by simpa using hc
        have hfe : (r :: activeRegions rest).filter (fun rg2 => !(new.contains rg2)) =
            (activeRegions rest).filter (fun rg2 => !(new.contains rg2)) :=
          List.filter_cons_of_neg (by simp [hm])
        rw [hfe]
        obtain ⟨hash2, hrun, hkeep, hlk⟩ := ih hash hnd.2
          (fun rg hrg hcg => hex rg (List.mem_cons_of_mem _ hrg) hcg)
        refine ⟨hash2, ?_, hkeep, hlk⟩
        rw [hunf, if_neg (by simpa [EMPTY_REGION] using hr), if_pos hc]
        exact hrun
      | false =>
        have hm : r ∉ new := by simpa using hc
        obtain ⟨bucket, hlb⟩ := hex r (List.mem_cons_self r _) hc
        have hfe : (r :: activeRegions rest).filter (fun rg2 => !(new.contains rg2)) =
            r :: (activeRegions rest).filter (fun rg2 => !(new.contains rg2)) :=
          List.filter_cons_of_pos (by simp [hm])
        rw [hfe]
        have hex2 : ∀ rg ∈ activeRegions rest, new.contains rg = false →
            ∃ b2, lookupA (setA hash r (removeSet id bucket)) rg = some b2 := by
          intro rg hrg hcg
          rw [lookupA_setA]
          by_cases hrr : rg = r
          · rw [if_pos hrr, hlb]
            exact ⟨removeSet id bucket, rfl⟩
          · rw [if_neg hrr]
            exact hex rg (List.mem_cons_of_mem _ hrg) hcg
        obtain ⟨hash2, hrun, hkeep, hlk⟩ := ih (setA hash r (removeSet id bucket)) hnd.2 hex2
        refine ⟨hash2, ?_, ?_, ?_⟩
        · rw [hunf, if_neg (by simpa [EMPTY_REGION] using hr), if_neg (by simp [hm]), hlb]
          dsimp only
          rw [hrun]
        · intro hnk
          refine hkeep ?_
          rw [keysA_setA]
          exact hnk
        · intro rg
          rw [hlk rg]
          by_cases hrr : rg = r
          · subst hrr
            have hnm : rg ∉ (activeRegions rest).filter (fun rg2 => !(new.contains rg2)) :=
              fun hm => hnd.1 (List.mem_of_mem_filter hm)
            rw [if_neg hnm, if_pos (List.mem_cons_self rg _), lookupA_setA, if_pos rfl, hlb]
            rfl
          · by_cases hmem : rg ∈ (activeRegions rest).filter (fun rg2 => !(new.contains rg2))
            · rw [if_pos hmem, if_pos (List.mem_cons_of_mem _ hmem), lookupA_setA, if_neg hrr]
            · rw [if_neg hmem,
                if_neg (fun hm => (List.mem_cons.mp hm).elim hrr hmem),
                lookupA_setA, if_neg hrr]

/-- The effect of the arrival loop of Grid::update: it returns the newly
entered regions in loop order and registers the id in exactly their
buckets, creating missing buckets. -/
theorem bucketsAddDiff_spec (id : Nat) (old : List Int) :
    ∀ (new : List Int) (hash : List (RegionId × List Nat)),
    (activeRegions new).Nodup →
    (bucketsAddDiff hash new old id).2 =
      (activeRegions new).filter (fun rg => !(old.contains rg)) ∧
    ((keysA hash).Nodup → (keysA (bucketsAddDiff hash new old id).1).Nodup) ∧
    ∀ rg, lookupA (bucketsAddDiff hash new old id).1 rg =
      if rg ∈ (activeRegions new).filter (fun rg2 => !(old.contains rg2))
      then some (match lookupA hash rg with
                 | none => [id]
                 | some bucket => insertSet id bucket)
      else lookupA hash rg := by
  intro new
  induction new with
  | nil =>
    intro hash _
    refine ⟨rfl, fun h => h, fun rg => ?_⟩
    rw [if_neg (by simp [activeRegions])]
    rfl
  | cons r rest ih =>
    intro hash hnd
    by_cases hr : r = 0
    · subst hr
      have ha : activeRegions ((0 : Int) :: rest) = [] := by
        unfold activeRegions
        rw [List.takeWhile_cons]
        norm_num
      rw [ha]
      refine ⟨rfl, fun h => h, fun rg => ?_⟩
      rw [if_neg (by simp)]
      rfl
    · have hbne : (r != 0) = true := by simpa using hr
      have ha : activeRegions (r :: rest) = r :: activeRegions rest := by
        unfold activeRegions
        rw [List.takeWhile_cons, hbne]
        simp
      rw [ha] at hnd ⊢
      simp only [List.nodup_cons] at hnd
      have hunf : bucketsAddDiff hash (r :: rest) old id =
          (if r = EMPTY_REGION then (hash, [])
           else if old.contains r then bucketsAddDiff hash rest old id
           else
             ((bucketsAddDiff (match lookupA hash r with
                               | none => (r, [id]) :: hash
                               | some bucket => setA hash r (insertSet id bucket))
                rest old id).1,
              r :: (bucketsAddDiff (match lookupA hash r with
                                    | none => (r, [id]) :: hash
                                    | some bucket => setA hash r (insertSet id bucket))
                rest old id).2)) := rfl
      cases hc : old.contains r with
      | true =>
        have hm : r ∈ old := by simpa using hc
        have hfe : (r :: activeRegions rest).filter (fun rg2 => !(old.contains rg2)) =
            (activeRegions rest).filter (fun rg2 => !(old.contains rg2)) :=
          List.filter_cons_of_neg (by simp [hm])
        rw [hfe, hunf, if_neg (by simpa [EMPTY_REGION] using hr), if_pos hc]
        exact ih hash hnd.2
      | false =>
        have hm : r ∉ old := by simpa using hc
        have hfe : (r :: activeRegions rest).filter (fun rg2 => !(old.contains rg2)) =
            r :: (activeRegions rest).filter (fun rg2 => !(old.contains rg2)) :=
          List.filter_cons_of_pos (by simp [hm])
        rw [hfe, hunf, if_neg (by simpa [EMPTY_REGION] using hr), if_neg (by simp [hm])]
        cases hlb : lookupA hash r with
        | none =>
          dsimp only
          obtain ⟨hregs, hkeep, hlk⟩ := ih ((r, [id]) :: hash) hnd.2
          refine ⟨by rw [hregs], ?_, ?_⟩
          · intro hnk
            refine hkeep ?_
            unfold keysA
            simp only [List.map_cons, List.nodup_cons]
            exact ⟨(lookupA_eq_none_iff hash r).mp hlb, hnk⟩
          · intro rg
            rw [hlk rg]
            by_cases hrr : rg = r
            · subst hrr
              have hnm : rg ∉ (activeRegions rest).filter (fun rg2 => !(old.contains rg2)) :=
                fun hm => hnd.1 (List.mem_of_mem_filter hm)
              rw [if_neg hnm, if_pos (List.mem_cons_self rg _), lookupA_cons, if_pos rfl, hlb]
            · by_cases hmem : rg ∈ (activeRegions rest).filter (fun rg2 => !(old.contains rg2))
              · rw [if_pos hmem, if_pos (List.mem_cons_of_mem _ hmem), lookupA_cons,
                  if_neg (fun he => hrr he.symm)]
              · rw [if_neg hmem,
                  if_neg (fun hm => (List.mem_cons.mp hm).elim hrr hmem),
                  lookupA_cons, if_neg (fun he => hrr he.symm)]
        | some bucket =>
          dsimp only
          obtain ⟨hregs, hkeep, hlk⟩ := ih (setA hash r (insertSet id bucket)) hnd.2
          refine ⟨by rw [hregs], ?_, ?_⟩
          · intro hnk
            refine hkeep ?_
            rw [keysA_setA]
            exact hnk
          · intro rg
            rw [hlk rg]
            by_cases hrr : rg = r
            · subst hrr
              have hnm : rg ∉ (activeRegions rest).filter (fun rg2 => !(old.contains rg2)) :=
                fun hm => hnd.1 (List.mem_of_mem_filter hm)
              rw [if_neg hnm, if_pos (List.mem_cons_self rg _), lookupA_setA, if_pos rfl, hlb]
              rfl
            · by_cases hmem : rg ∈ (activeRegions rest).filter (fun rg2 => !(old.contains rg2))
              · rw [if_pos hmem, if_pos (List.mem_cons_of_mem _ hmem), lookupA_setA,
                  if_neg hrr]
              · rw [if_neg hmem,
                  if_neg (fun hm => (List.mem_cons.mp hm).elim hrr hmem),
                  lookupA_setA, if_neg hrr]

/-- Under the invariant, bucket membership of a live body coincides with
active-region membership of its stored region array. -/
theorem inv_mem_bucketOf (g : Grid) (rects : Rects) (inv : GridInv g rects)
    (o : Nat) (ro : Rect) (ho : rects o = some ro) (rg : Int) :
    o ∈ bucketOf g rg ↔ rg ∈ activeRegions ro.regions := by
  constructor
  · intro hm
    unfold bucketOf at hm
    cases hl : lookupA g.hash rg with
    | none =>
      rw [hl] at hm
      simp at hm
    | some bucket =>
      rw [hl] at hm
      obtain ⟨r2, hr2, hrg⟩ := inv.bsound rg bucket hl o hm
      have he : ro = r2 := by
        rw [ho] at hr2
        exact Option.some.inj hr2
      rw [he]
      exact hrg
  · intro hrg
    obtain ⟨bucket, hl, hm⟩ := inv.bcomplete o ro ho rg hrg
    unfold bucketOf
    rw [hl]
    exact hm

/-- A pair key involving a body with no record is unmapped. -/
theorem pairs_none_of_unlive (g : Grid) (rects : Rects) (inv : GridInv g rects)
    (id : Nat) (hnone : rects id = none) (hid : id < 2 ^ 26)
    (o : Nat) (ho : o < 2 ^ 26) :
    lookupA g.pairs (get_pair_id id o) = none := by
  cases hl : lookupA g.pairs (get_pair_id id o) with
  | none => rfl
  | some pr =>
    obtain ⟨a, b, ra, rb, hra, hrb, hab, hcc, hk, hi1, hi2, hcnt, hmin⟩ := inv.psound _ _ hl
    have ha26 : a < 2 ^ 26 := (inv.idrange a ra hra).2
    have hb26 : b < 2 ^ 26 := (inv.idrange b rb hrb).2
    rcases get_pair_id_inj id o a b hid ho ha26 hb26 hk with ⟨he1, he2⟩ | ⟨he1, he2⟩
    · rw [← he1, hnone] at hra
      exact Option.noConfusion hra
    · rw [← he1, hnone] at hrb
      exact Option.noConfusion hrb

/-- Replacing a live record by one with the same id, class and region array
preserves the invariant. -/
theorem gridInv_updR (g : Grid) (rects : Rects) (inv : GridInv g rects)
    (id : Nat) (r0 r1 : Rect) (h0 : rects id = some r0)
    (hid : r1.id = r0.id) (hcls : r1.cls = r0.cls) (hreg : r1.regions = r0.regions) :
    GridInv g (updR rects id r1) := by
  have hlift : ∀ i r, updR rects id r1 i = some r →
      (i = id ∧ r = r1) ∨ (i ≠ id ∧ rects i = some r) := by
    intro i r hr
    by_cases hi : i = id
    · subst hi
      rw [updR_same] at hr
      exact Or.inl ⟨rfl, (Option.some.inj hr).symm⟩
    · rw [updR_other rects id r1 i hi] at hr
      exact Or.inr ⟨hi, hr⟩
  refine ⟨?_, ?_, ?_, inv.hkeys, inv.bnodup, ?_, ?_, inv.pkeys, ?_, ?_⟩
  · intro i r hr
    rcases hlift i r hr with ⟨rfl, rfl⟩ | ⟨hi, hr2⟩
    · rw [hid]
      exact inv.rid i r0 h0
    · exact inv.rid i r hr2
  · intro i r hr
    rcases hlift i r hr with ⟨rfl, rfl⟩ | ⟨hi, hr2⟩
    · exact inv.idrange i r0 h0
    · exact inv.idrange i r hr2
  · intro i r hr
    rcases hlift i r hr with ⟨rfl, rfl⟩ | ⟨hi, hr2⟩
    · rw [hreg]
      exact inv.rpack i r0 h0
    · exact inv.rpack i r hr2
  · intro rg bucket hl o ho
    obtain ⟨r, hr, hrg⟩ := inv.bsound rg bucket hl o ho
    by_cases hoid : o = id
    · subst hoid
      refine ⟨r1, updR_same rects o r1, ?_⟩
      rw [hreg]
      have he : r = r0 := by
        rw [h0] at hr
        exact (Option.some.inj hr).symm
      rw [he] at hrg
      exact hrg
    · exact ⟨r, by rw [updR_other rects id r1 o hoid]; exact hr, hrg⟩
  · intro o r hr rg hrg
    rcases hlift o r hr with ⟨rfl, rfl⟩ | ⟨hi, hr2⟩
    · rw [hreg] at hrg
      exact inv.bcomplete o r0 h0 rg hrg
    · exact inv.bcomplete o r hr2 rg hrg
  · intro k pr hl
    obtain ⟨a, b, ra, rb, hra, hrb, hab, hcc, hk, hi1, hi2, hcnt, hmin⟩ := inv.psound k pr hl
    have hmk : ∀ c : Nat, ∀ rc : Rect, rects c = some rc →
        ∃ rc2, updR rects id r1 c = some rc2 ∧ rc2.cls = rc.cls ∧ rc2.regions = rc.regions := by
      intro c rc hc
      by_cases hcid : c = id
      · subst hcid
        have he : rc = r0 := by
          rw [h0] at hc
          exact (Option.some.inj hc).symm
        exact ⟨r1, updR_same rects c r1, by rw [hcls, he], by rw [hreg, he]⟩
      · exact ⟨rc, by rw [updR_other rects id r1 c hcid]; exact hc, rfl, rfl⟩
    obtain ⟨ra2, hra2, hracls, hrareg⟩ := hmk a ra hra
    obtain ⟨rb2, hrb2, hrbcls, hrbreg⟩ := hmk b rb hrb
    refine ⟨a, b, ra2, rb2, hra2, hrb2, hab, ?_, hk, hi1, hi2, ?_, hmin⟩
    · rw [hracls, hrbcls]
      exact hcc
    · unfold sharedCount
      rw [hrareg, hrbreg]
      exact hcnt
  · intro a b ra rb hra hrb hab hcc hsh
    have hmk : ∀ c : Nat, ∀ rc : Rect, updR rects id r1 c = some rc →
        ∃ rc2, rects c = some rc2 ∧ rc2.cls = rc.cls ∧ rc2.regions = rc.regions := by
      intro c rc hc
      rcases hlift c rc hc with ⟨rfl, rfl⟩ | ⟨hi, hc2⟩
      · exact ⟨r0, h0, hcls.symm, hreg.symm⟩
      · exact ⟨rc, hc2, rfl, rfl⟩
    obtain ⟨ra2, hra2, hracls, hrareg⟩ := hmk a ra hra
    obtain ⟨rb2, hrb2, hrbcls, hrbreg⟩ := hmk b rb hrb
    refine inv.pcomplete a b ra2 rb2 hra2 hrb2 hab ?_ ?_
    · rw [hracls, hrbcls]
      exact hcc
    · unfold sharedCount
      rw [hrareg, hrbreg]
      unfold sharedCount at hsh
      exact hsh

/-- Grid::add on a fresh, in-range body with in-regime bounds succeeds and
preserves the broadphase invariant. -/
theorem grid_add_preserves (g : Grid) (rects : Rects) (inv : GridInv g rects)
    (rect0 : Rect) (hnone : rects rect0.id = none) (hid1 : 1 ≤ rect0.id)
    (hid2 : rect0.id < 2 ^ 26) (hB : BOkay rect0.bounds) :
    ∃ g2, Grid.add g rect0.id (updR rects rect0.id rect0) =
        some (g2, updR rects rect0.id
          { rect0 with regions := get_regions_by_bounds rect0.bounds }) ∧
      GridInv g2 (updR rects rect0.id
        { rect0 with regions := get_regions_by_bounds rect0.bounds }) := by
  obtain ⟨hact, hpack, hlen4⟩ := get_regions_spec rect0.bounds hB
  have hAnodup : (activeRegions (get_regions_by_bounds rect0.bounds)).Nodup := hpack.1
  have hn0 : ∀ rg ∈ activeRegions (get_regions_by_bounds rect0.bounds), rg ≠ 0 :=
    fun rg hrg => mem_active_nonzero _ rg hrg
  obtain ⟨hbikeep, hbilk⟩ :=
    bucketsInsert_spec rect0.id (get_regions_by_bounds rect0.bounds) g.hash hAnodup
  have F1 : ∀ rg bucket, lookupA g.hash rg = some bucket → rect0.id ∉ bucket := by
    intro rg bucket hl hmem
    obtain ⟨r, hr, -⟩ := inv.bsound rg bucket hl rect0.id hmem
    rw [hnone] at hr
    exact Option.noConfusion hr
  have F2 : ∀ rg bucket, lookupA g.hash rg = some bucket → ∀ o ∈ bucket,
      ∃ ro, rects o = some ro ∧ ro.id = o ∧ o < 2 ^ 26 := by
    intro rg bucket hl o ho
    obtain ⟨ro, hro, -⟩ := inv.bsound rg bucket hl o ho
    exact ⟨ro, hro, inv.rid o ro hro, (inv.idrange o ro hro).2⟩
  have F3 : ∀ o, o < 2 ^ 26 → lookupA g.pairs (get_pair_id rect0.id o) = none :=
    fun o ho => pairs_none_of_unlive g rects inv rect0.id hnone hid2 o ho
  have hg1lk : ∀ rg, lookupA
      (⟨g.pairs, bucketsInsert g.hash (get_regions_by_bounds rect0.bounds) rect0.id⟩ :
        Grid).hash rg =
      if rg ∈ activeRegions (get_regions_by_bounds rect0.bounds) then
        some (match lookupA g.hash rg with
              | none => [rect0.id]
              | some bucket => insertSet rect0.id bucket)
      else lookupA g.hash rg := hbilk
  have F4 : ∀ rg ∈ activeRegions (get_regions_by_bounds rect0.bounds),
      ∀ o, o ∈ bucketOf
        (⟨g.pairs, bucketsInsert g.hash (get_regions_by_bounds rect0.bounds) rect0.id⟩ :
          Grid) rg →
      o ≠ rect0.id → ∃ ro, rects o = some ro ∧ ro.id = o ∧ o < 2 ^ 26 := by
    intro rg hrg o hm hne
    unfold bucketOf at hm
    rw [hg1lk rg, if_pos hrg] at hm
    cases hgl : lookupA g.hash rg with
    | none =>
      rw [hgl] at hm
      simp at hm
      exact absurd hm hne
    | some b =>
      rw [hgl] at hm
      have hob : o ∈ insertSet rect0.id b := hm
      rcases (mem_insertSet _ o b).mp hob with rfl | hob2
      · exact absurd rfl hne
      · exact F2 rg b hgl o hob2
  have F5 : ∀ rg ∈ activeRegions (get_regions_by_bounds rect0.bounds),
      ∀ o ro, rects o = some ro → o ≠ rect0.id →
      (o ∈ bucketOf
        (⟨g.pairs, bucketsInsert g.hash (get_regions_by_bounds rect0.bounds) rect0.id⟩ :
          Grid) rg ↔ rg ∈ activeRegions ro.regions) := by
    intro rg hrg o ro hro hne
    constructor
    · intro hm
      unfold bucketOf at hm
      rw [hg1lk rg, if_pos hrg] at hm
      cases hgl : lookupA g.hash rg with
      | none =>
        rw [hgl] at hm
        simp at hm
        exact absurd hm hne
      | some b =>
        rw [hgl] at hm
        have hob : o ∈ insertSet rect0.id b := hm
        rcases (mem_insertSet _ o b).mp hob with rfl | hob2
        · exact absurd rfl hne
        · refine (inv_mem_bucketOf g rects inv o ro hro rg).mp ?_
          unfold bucketOf
          rw [hgl]
          exact hob2
    · intro hrgb
      obtain ⟨b, hb, hob⟩ := inv.bcomplete o ro hro rg hrgb
      unfold bucketOf
      rw [hg1lk rg, if_pos hrg, hb]
      exact (mem_insertSet _ o b).mpr (Or.inr hob)
  have hbump : ∀ o ro, rects o = some ro → o ≠ rect0.id →
      bumpCount
        (⟨g.pairs, bucketsInsert g.hash (get_regions_by_bounds rect0.bounds) rect0.id⟩ :
          Grid)
        (activeRegions (get_regions_by_bounds rect0.bounds)) o =
      sharedCount (get_regions_by_bounds rect0.bounds) ro.regions := by
    intro o ro hro hne
    unfold bumpCount sharedCount
    refine congrArg List.length (List.filter_congr ?_)
    intro rg hrg
    exact decide_eq_decide.mpr (F5 rg hrg o ro hro hne)
  obtain ⟨g2, hrun, hhash, hkeep, hframe, hper⟩ :=
    addPairsRegions_spec { rect0 with regions := get_regions_by_bounds rect0.bounds }
      (updR rects rect0.id { rect0 with regions := get_regions_by_bounds rect0.bounds })
      hid2
      (activeRegions (get_regions_by_bounds rect0.bounds)) hn0
      (⟨g.pairs, bucketsInsert g.hash (get_regions_by_bounds rect0.bounds) rect0.id⟩ : Grid)
      (by
        intro rg hrg
        refine ⟨(match lookupA g.hash rg with
                 | none => [rect0.id]
                 | some bucket => insertSet rect0.id bucket), ?_⟩
        rw [hg1lk rg, if_pos hrg])
      (by
        intro rg hrg bucket hl
        rw [hg1lk rg, if_pos hrg] at hl
        cases hgl : lookupA g.hash rg with
        | none =>
          rw [hgl] at hl
          have hb : [rect0.id] = bucket := Option.some.inj hl
          subst hb
          refine ⟨by simp, ?_⟩
          intro o ho
          simp at ho
          exact Or.inl ho
        | some b =>
          rw [hgl] at hl
          have hb : insertSet rect0.id b = bucket := Option.some.inj hl
          subst hb
          refine ⟨nodup_insertSet rect0.id b (inv.bnodup rg b hgl), ?_⟩
          intro o ho
          rcases (mem_insertSet _ o b).mp ho with rfl | hob
          · exact Or.inl rfl
          · obtain ⟨ro, hro, hroid, ho26⟩ := F2 rg b hgl o hob
            have honid : o ≠ rect0.id := fun he => F1 rg b hgl (he ▸ hob)
            refine Or.inr ⟨ro, ?_, hroid, ho26⟩
            rw [updR_other rects rect0.id _ o honid]
            exact hro)
  refine ⟨g2, ?_, ?_⟩
  · unfold Grid.add
    rw [updR_same]
    dsimp only
    unfold Grid.add_to_pairs
    rw [updR_updR, updR_same]
    dsimp only
    rw [addPairsRegions_break, hrun]
  · refine ⟨?_, ?_, ?_, ?_, ?_, ?_, ?_, ?_, ?_, ?_⟩
    · intro i r hr
      by_cases hi : i = rect0.id
      · subst hi
        rw [updR_same] at hr
        rw [← Option.some.inj hr]
      · rw [updR_other rects rect0.id _ i hi] at hr
        exact inv.rid i r hr
    · intro i r hr
      by_cases hi : i = rect0.id
      · subst hi
        exact ⟨hid1, hid2⟩
      · rw [updR_other rects rect0.id _ i hi] at hr
        exact inv.idrange i r hr
    · intro i r hr
      by_cases hi : i = rect0.id
      · subst hi
        rw [updR_same] at hr
        rw [← Option.some.inj hr]
        exact hpack
      · rw [updR_other rects rect0.id _ i hi] at hr
        exact inv.rpack i r hr
    · rw [hhash]
      exact hbikeep inv.hkeys
    · intro rg bucket hl
      rw [hhash, hg1lk rg] at hl
      by_cases hrg : rg ∈ activeRegions (get_regions_by_bounds rect0.bounds)
      · rw [if_pos hrg] at hl
        cases hgl : lookupA g.hash rg with
        | none =>
          rw [hgl] at hl
          rw [← Option.some.inj hl]
          simp
        | some b =>
          rw [hgl] at hl
          rw [← Option.some.inj hl]
          exact nodup_insertSet rect0.id b (inv.bnodup rg b hgl)
      · rw [if_neg hrg] at hl
        exact inv.bnodup rg bucket hl
    · intro rg bucket hl o ho
      rw [hhash, hg1lk rg] at hl
      by_cases hrg : rg ∈ activeRegions (get_regions_by_bounds rect0.bounds)
      · rw [if_pos hrg] at hl
        cases hgl : lookupA g.hash rg with
        | none =>
          rw [hgl] at hl
          rw [← Option.some.inj hl] at ho
          simp at ho
          subst ho
          refine ⟨{ rect0 with regions := get_regions_by_bounds rect0.bounds },
            updR_same rects rect0.id _, hrg⟩
        | some b =>
          rw [hgl] at hl
          rw [← Option.some.inj hl] at ho
          rcases (mem_insertSet _ o b).mp ho with rfl | hob
          · refine ⟨{ rect0 with regions := get_regions_by_bounds rect0.bounds },
              updR_same rects rect0.id _, hrg⟩
          · obtain ⟨ro, hro, hrorg⟩ := inv.bsound rg b hgl o hob
            have honid : o ≠ rect0.id := fun he => F1 rg b hgl (he ▸ hob)
            refine ⟨ro, ?_, hrorg⟩
            rw [updR_other rects rect0.id _ o honid]
            exact hro
      · rw [if_neg hrg] at hl
        obtain ⟨ro, hro, hrorg⟩ := inv.bsound rg bucket hl o ho
        have honid : o ≠ rect0.id := fun he => F1 rg bucket hl (he ▸ ho)
        refine ⟨ro, ?_, hrorg⟩
        rw [updR_other rects rect0.id _ o honid]
        exact hro
    · intro o r hr rg hrg
      by_cases hi : o = rect0.id
      · subst hi
        rw [updR_same] at hr
        rw [← Option.some.inj hr] at hrg
        have hrgA : rg ∈ activeRegions (get_regions_by_bounds rect0.bounds) := hrg
        refine ⟨(match lookupA g.hash rg with
                 | none => [rect0.id]
                 | some bucket => insertSet rect0.id bucket), ?_, ?_⟩
        · rw [hhash, hg1lk rg, if_pos hrgA]
        · cases hgl : lookupA g.hash rg with
          | none => simp
          | some b => exact (mem_insertSet _ rect0.id b).mpr (Or.inl rfl)
      · rw [updR_other rects rect0.id _ o hi] at hr
        obtain ⟨b, hb, hob⟩ := inv.bcomplete o r hr rg hrg
        by_cases hrgA : rg ∈ activeRegions (get_regions_by_bounds rect0.bounds)
        · refine ⟨insertSet rect0.id b, ?_, (mem_insertSet _ o b).mpr (Or.inr hob)⟩
          rw [hhash, hg1lk rg, if_pos hrgA, hb]
        · refine ⟨b, ?_, hob⟩
          rw [hhash, hg1lk rg, if_neg hrgA]
          exact hb
    · exact hkeep inv.pkeys
    · intro k pr hl
      by_cases hcase : ∀ rg ∈ activeRegions (get_regions_by_bounds rect0.bounds),
          ∀ o ∈ bucketOf
            (⟨g.pairs,
              bucketsInsert g.hash (get_regions_by_bounds rect0.bounds) rect0.id⟩ : Grid) rg,
          o ≠ rect0.id → k ≠ get_pair_id rect0.id o
      · rw [hframe k hcase] at hl
        obtain ⟨a, b, ra, rb, hra, hrb, hab, hcc, hk, hi1, hi2, hcnt, hmin⟩ :=
          inv.psound k pr hl
        have hanid : a ≠ rect0.id := by
          intro he
          rw [he, hnone] at hra
          exact Option.noConfusion hra
        have hbnid : b ≠ rect0.id := by
          intro he
          rw [he, hnone] at hrb
          exact Option.noConfusion hrb
        refine ⟨a, b, ra, rb, ?_, ?_, hab, hcc, hk, hi1, hi2, hcnt, hmin⟩
        · rw [updR_other rects rect0.id _ a hanid]
          exact hra
        · rw [updR_other rects rect0.id _ b hbnid]
          exact hrb
      · push_neg at hcase
        obtain ⟨rg, hrgA, o, hob, honid, hk⟩ := hcase
        obtain ⟨ro, hro, hroid, ho26⟩ := F4 rg hrgA o hob honid
        have hro2 : updR rects rect0.id
            { rect0 with regions := get_regions_by_bounds rect0.bounds } o = some ro := by
          rw [updR_other rects rect0.id _ o honid]
          exact hro
        have hpero := hper o ro hro2 hroid honid ho26
        subst hk
        by_cases hcc : can_collide rect0.cls ro.cls = true
        · have hp2 := hpero.2 hcc
          rw [F3 o ho26] at hp2
          dsimp only at hp2
          cases hbv : bumpCount
              (⟨g.pairs,
                bucketsInsert g.hash (get_regions_by_bounds rect0.bounds) rect0.id⟩ : Grid)
              (activeRegions (get_regions_by_bounds rect0.bounds)) o with
          | zero =>
            rw [hp2.1 hbv] at hl
            exact Option.noConfusion hl
          | succ n =>
            have hbge : 1 ≤ bumpCount
                (⟨g.pairs,
                  bucketsInsert g.hash (get_regions_by_bounds rect0.bounds) rect0.id⟩ : Grid)
                (activeRegions (get_regions_by_bounds rect0.bounds)) o := by
              rw [hbv]
              omega
            have hsome := hp2.2 hbge
            rw [hsome] at hl
            have hpr := Option.some.inj hl
            refine ⟨rect0.id, o,
              { rect0 with regions := get_regions_by_bounds rect0.bounds }, ro,
              updR_same rects rect0.id _, hro2, fun he => honid he.symm, hcc, rfl,
              ?_, ?_, ?_, ?_⟩
            · rw [← hpr]
            · rw [← hpr]
            · rw [← hpr]
              exact (hbump o ro hro honid).symm ▸ rfl
            · rw [← hpr]
              exact hbge
        · have hcf : can_collide rect0.cls ro.cls = false := by
            cases hc2 : can_collide rect0.cls ro.cls
            · rfl
            · exact absurd hc2 hcc
          rw [hpero.1 hcf, F3 o ho26] at hl
          exact Option.noConfusion hl
    · intro a b ra rb hra hrb hab hcc hsh
      by_cases haid : a = rect0.id
      · subst haid
        rw [updR_same] at hra
        have hraeq : ra = { rect0 with regions := get_regions_by_bounds rect0.bounds } :=
          (Option.some.inj hra).symm
        have hbnid : b ≠ rect0.id := fun he => hab (he ▸ rfl)
        rw [updR_other rects rect0.id _ b hbnid] at hrb
        have hrbid : rb.id = b := inv.rid b rb hrb
        have hb26 : b < 2 ^ 26 := (inv.idrange b rb hrb).2
        have hrb2 : updR rects rect0.id
            { rect0 with regions := get_regions_by_bounds rect0.bounds } b = some rb := by
          rw [updR_other rects rect0.id _ b hbnid]
          exact hrb
        have hperb := hper b rb hrb2 hrbid hbnid hb26
        have hccb : can_collide rect0.cls rb.cls = true := by
          rw [hraeq] at hcc
          exact hcc
        have hp2 := hperb.2 hccb
        rw [F3 b hb26] at hp2
        dsimp only at hp2
        have hbge : 1 ≤ bumpCount
            (⟨g.pairs,
              bucketsInsert g.hash (get_regions_by_bounds rect0.bounds) rect0.id⟩ : Grid)
            (activeRegions (get_regions_by_bounds rect0.bounds)) b := by
          rw [hbump b rb hrb hbnid]
          rw [hraeq] at hsh
          exact hsh
        rw [hp2.2 hbge]
        exact Option.noConfusion
      · by_cases hbid : b = rect0.id
        · subst hbid
          rw [updR_same] at hrb
          have hrbeq : rb = { rect0 with regions := get_regions_by_bounds rect0.bounds } :=
            (Option.some.inj hrb).symm
          rw [updR_other rects rect0.id _ a haid] at hra
          have hraid : ra.id = a := inv.rid a ra hra
          have ha26 : a < 2 ^ 26 := (inv.idrange a ra hra).2
          have hra2 : updR rects rect0.id
              { rect0 with regions := get_regions_by_bounds rect0.bounds } a = some ra := by
            rw [updR_other rects rect0.id _ a haid]
            exact hra
          have hpera := hper a ra hra2 hraid haid ha26
          have hcca : can_collide rect0.cls ra.cls = true := by
            rw [hrbeq] at hcc
            rw [can_collide_comm]
            exact hcc
          have hp2 := hpera.2 hcca
          rw [F3 a ha26] at hp2
          dsimp only at hp2
          have hapack : (activeRegions ra.regions).Nodup := (inv.rpack a ra hra).1
          have hbge : 1 ≤ bumpCount
              (⟨g.pairs,
                bucketsInsert g.hash (get_regions_by_bounds rect0.bounds) rect0.id⟩ : Grid)
              (activeRegions (get_regions_by_bounds rect0.bounds)) a := by
            rw [hbump a ra hra haid]
            rw [hrbeq] at hsh
            rw [sharedCount_comm _ _ hAnodup hapack]
            exact hsh
          rw [gpid_comm a rect0.id, hp2.2 hbge]
          exact Option.noConfusion
        · rw [updR_other rects rect0.id _ a haid] at hra
          rw [updR_other rects rect0.id _ b hbid] at hrb
          have ha26 : a < 2 ^ 26 := (inv.idrange a ra hra).2
          have hb26 : b < 2 ^ 26 := (inv.idrange b rb hrb).2
          have hold := inv.pcomplete a b ra rb hra hrb hab hcc hsh
          have hfr : lookupA g2.pairs (get_pair_id a b) =
              lookupA g.pairs (get_pair_id a b) := by
            refine hframe (get_pair_id a b) ?_
            intro rg hrg o hob honid he
            obtain ⟨ro, hro, hroid, ho26⟩ := F4 rg hrg o hob honid
            rcases get_pair_id_inj a b rect0.id o ha26 hb26 hid2 ho26 he with
              ⟨he1, he2⟩ | ⟨he1, he2⟩
            · exact haid he1
            · exact hbid he2
          rw [hfr]
          exact hold

/-- A positive shared-region count yields a common active region. -/
theorem shared_region_exists (ra rb : List Int) (h : 1 ≤ sharedCount ra rb) :
    ∃ rg, rg ∈ activeRegions ra ∧ rg ∈ activeRegions rb := by
  unfold sharedCount at h
  have hne : (activeRegions ra).filter (fun r => decide (r ∈ activeRegions rb)) ≠ [] :=
    List.length_pos.mp h
  obtain ⟨rg, hrg⟩ := List.exists_mem_of_ne_nil _ hne
  have hm := List.mem_filter.mp hrg
  exact ⟨rg, hm.1, by simpa using hm.2⟩

/-- Grid::remove on a live body succeeds and preserves the broadphase
invariant for the shrunken record map. -/
theorem grid_remove_preserves (g : Grid) (rects : Rects) (inv : GridInv g rects)
    (id : Nat) (rect : Rect) (h0 : rects id = some rect) :
    ∃ g2, Grid.remove g rect = some g2 ∧ GridInv g2 (delR rects id) := by
  have hrid : rect.id = id := inv.rid id rect h0
  have hid26 : rect.id < 2 ^ 26 := by
    rw [hrid]
    exact (inv.idrange id rect h0).2
  have hpack : PackedRegions rect.regions := inv.rpack id rect h0
  have hAnodup : (activeRegions rect.regions).Nodup := hpack.1
  have hn0 : ∀ rg ∈ activeRegions rect.regions, rg ≠ 0 :=
    fun rg hrg => mem_active_nonzero _ rg hrg
  have hex : ∀ rg ∈ activeRegions rect.regions, ∃ bucket, lookupA g.hash rg = some bucket := by
    intro rg hrg
    obtain ⟨bucket, hb, -⟩ := inv.bcomplete id rect h0 rg hrg
    exact ⟨bucket, hb⟩
  obtain ⟨hash2, hrem, hrkeep, hrlk⟩ :=
    bucketsRemoveAll_spec rect.id rect.regions g.hash hAnodup hex
  have hmin0 : ∀ k pr, lookupA g.pairs k = some pr → 1 ≤ pr.count := by
    intro k pr hl
    obtain ⟨-, -, -, -, -, -, -, -, -, -, -, -, hm⟩ := inv.psound k pr hl
    exact hm
  have F2 : ∀ rg bucket, lookupA g.hash rg = some bucket → ∀ o ∈ bucket,
      ∃ ro, rects o = some ro ∧ ro.id = o ∧ o < 2 ^ 26 := by
    intro rg bucket hl o ho
    obtain ⟨ro, hro, -⟩ := inv.bsound rg bucket hl o ho
    exact ⟨ro, hro, inv.rid o ro hro, (inv.idrange o ro hro).2⟩
  have hBmem : ∀ rg ∈ activeRegions rect.regions, ∀ o ro, rects o = some ro → o ≠ rect.id →
      (o ∈ bucketOf ({ g with hash := hash2 } : Grid) rg ↔
        rg ∈ activeRegions ro.regions) := by
    intro rg hrg o ro hro hne
    obtain ⟨b, hb⟩ := hex rg hrg
    have hl2 : lookupA hash2 rg = some (removeSet rect.id b) := by
      rw [hrlk rg, if_pos hrg, hb]
      rfl
    unfold bucketOf
    have hmb : o ∈ bucketOf g rg ↔ rg ∈ activeRegions ro.regions :=
      inv_mem_bucketOf g rects inv o ro hro rg
    unfold bucketOf at hmb
    rw [hb] at hmb
    show o ∈ (lookupA hash2 rg).getD [] ↔ _
    rw [hl2]
    show o ∈ removeSet rect.id b ↔ _
    rw [mem_removeSet]
    constructor
    · intro hm2
      exact hmb.mp hm2.1
    · intro hm2
      exact ⟨hmb.mpr hm2, hne⟩
  have hbump : ∀ o ro, rects o = some ro → o ≠ rect.id →
      bumpCount ({ g with hash := hash2 } : Grid) (activeRegions rect.regions) o =
      sharedCount rect.regions ro.regions := by
    intro o ro hro hne
    unfold bumpCount sharedCount
    refine congrArg List.length (List.filter_congr ?_)
    intro rg hrg
    exact decide_eq_decide.mpr (hBmem rg hrg o ro hro hne)
  obtain ⟨g2, hrun2, hhash2, hkeep2, hmin2, hframe2, hper2⟩ :=
    removePairsRegions_spec rect.id hid26 (activeRegions rect.regions) hn0
      ({ g with hash := hash2 } : Grid)
      (by
        intro rg hrg
        obtain ⟨b, hb⟩ := hex rg hrg
        refine ⟨removeSet rect.id b, ?_⟩
        show lookupA hash2 rg = _
        rw [hrlk rg, if_pos hrg, hb]
        rfl)
      (by
        intro rg hrg bucket hl
        obtain ⟨b, hb⟩ := hex rg hrg
        have hl2 : lookupA hash2 rg = some (removeSet rect.id b) := by
          rw [hrlk rg, if_pos hrg, hb]
          rfl
        have hbe : removeSet rect.id b = bucket := by
          have := hl
          rw [show lookupA ({ g with hash := hash2 } : Grid).hash rg =
            lookupA hash2 rg from rfl, hl2] at this
          exact Option.some.inj this
        subst hbe
        refine ⟨nodup_removeSet rect.id b (inv.bnodup rg b hb), ?_, ?_⟩
        · intro hm
          exact ((mem_removeSet rect.id rect.id b).mp hm).2 rfl
        · intro o ho
          obtain ⟨ro, hro, hroid, ho26⟩ := F2 rg b hb o ((mem_removeSet _ o b).mp ho).1
          exact ho26)
      (by
        show ∀ k pr, lookupA g.pairs k = some pr → 1 ≤ pr.count
        exact hmin0)
  refine ⟨g2, ?_, ?_⟩
  · unfold Grid.remove
    rw [hrem]
    dsimp only
    unfold Grid.remove_from_pairs
    rw [removePairsRegions_break, hrun2]
  · refine ⟨?_, ?_, ?_, ?_, ?_, ?_, ?_, ?_, ?_, ?_⟩
    · intro i r hr
      by_cases hi : i = id
      · rw [hi, delR_same] at hr
        exact Option.noConfusion hr
      · rw [delR_other rects id i hi] at hr
        exact inv.rid i r hr
    · intro i r hr
      by_cases hi : i = id
      · rw [hi, delR_same] at hr
        exact Option.noConfusion hr
      · rw [delR_other rects id i hi] at hr
        exact inv.idrange i r hr
    · intro i r hr
      by_cases hi : i = id
      · rw [hi, delR_same] at hr
        exact Option.noConfusion hr
      · rw [delR_other rects id i hi] at hr
        exact inv.rpack i r hr
    · have : (keysA hash2).Nodup := hrkeep inv.hkeys
      rw [hhash2]
      exact this
    · intro rg bucket hl
      rw [hhash2] at hl
      have hl2 : lookupA hash2 rg = some bucket := hl
      rw [hrlk rg] at hl2
      by_cases hrg : rg ∈ activeRegions rect.regions
      · rw [if_pos hrg] at hl2
        obtain ⟨b, hb⟩ := hex rg hrg
        rw [hb] at hl2
        have hbe : removeSet rect.id b = bucket := Option.some.inj hl2
        rw [← hbe]
        exact nodup_removeSet rect.id b (inv.bnodup rg b hb)
      · rw [if_neg hrg] at hl2
        exact inv.bnodup rg bucket hl2
    · intro rg bucket hl o ho
      rw [hhash2] at hl
      have hl2 : lookupA hash2 rg = some bucket := hl
      rw [hrlk rg] at hl2
      by_cases hrg : rg ∈ activeRegions rect.regions
      · rw [if_pos hrg] at hl2
        obtain ⟨b, hb⟩ := hex rg hrg
        rw [hb] at hl2
        have hbe : removeSet rect.id b = bucket := Option.some.inj hl2
        rw [← hbe] at ho
        obtain ⟨hob, hone⟩ := (mem_removeSet _ o b).mp ho
        obtain ⟨ro, hro, hrorg⟩ := inv.bsound rg b hb o hob
        have honid : o ≠ id := by
          rw [← hrid]
          exact hone
        refine ⟨ro, ?_, hrorg⟩
        rw [delR_other rects id o honid]
        exact hro
      · rw [if_neg hrg] at hl2
        obtain ⟨ro, hro, hrorg⟩ := inv.bsound rg bucket hl2 o ho
        have honid : o ≠ id := by
          intro he
          subst he
          have he2 : ro = rect := by
            rw [h0] at hro
            exact (Option.some.inj hro).symm
          rw [he2] at hrorg
          exact hrg hrorg
        refine ⟨ro, ?_, hrorg⟩
        rw [delR_other rects id o honid]
        exact hro
    · intro o r hr rg hrg
      by_cases hi : o = id
      · rw [hi, delR_same] at hr
        exact Option.noConfusion hr
      · rw [delR_other rects id o hi] at hr
        obtain ⟨b, hb, hob⟩ := inv.bcomplete o r hr rg hrg
        by_cases hrgA : rg ∈ activeRegions rect.regions
        · refine ⟨removeSet rect.id b, ?_, ?_⟩
          · rw [hhash2]
            show lookupA hash2 rg = _
            rw [hrlk rg, if_pos hrgA, hb]
            rfl
          · refine (mem_removeSet _ o b).mpr ⟨hob, ?_⟩
            rw [hrid]
            exact hi
        · refine ⟨b, ?_, hob⟩
          rw [hhash2]
          show lookupA hash2 rg = _
          rw [hrlk rg, if_neg hrgA]
          exact hb
    · exact hkeep2 inv.pkeys
    · intro k pr hl
      by_cases hcase : ∀ rg ∈ activeRegions rect.regions,
          ∀ o ∈ bucketOf ({ g with hash := hash2 } : Grid) rg, k ≠ get_pair_id rect.id o
      · have hfr := hframe2 k hcase
        rw [hfr] at hl
        have hl0 : lookupA g.pairs k = some pr := hl
        obtain ⟨a, b, ra, rb, hra, hrb, hab, hcc, hk, hi1, hi2, hcnt, hmn⟩ :=
          inv.psound k pr hl0
        have hanid : a ≠ id := by
          intro he
          subst he
          have hraeq : ra = rect := by
            rw [h0] at hra
            exact (Option.some.inj hra).symm
          have hsh : 1 ≤ sharedCount rect.regions rb.regions := by
            rw [← hraeq]
            rw [← hcnt]
            exact hmn
          obtain ⟨rg, hrgA, hrgb⟩ := shared_region_exists rect.regions rb.regions hsh
          have hbneid : b ≠ rect.id := by
            rw [hrid]
            exact fun he2 => hab he2.symm
          have hmb : b ∈ bucketOf ({ g with hash := hash2 } : Grid) rg :=
            (hBmem rg hrgA b rb hrb hbneid).mpr hrgb
          refine hcase rg hrgA b hmb ?_
          rw [hk, hrid]
        have hbnid : b ≠ id := by
          intro he
          subst he
          have hrbeq : rb = rect := by
            rw [h0] at hrb
            exact (Option.some.inj hrb).symm
          have hapk : (activeRegions ra.regions).Nodup := (inv.rpack a ra hra).1
          have hsh : 1 ≤ sharedCount rect.regions ra.regions := by
            rw [sharedCount_comm rect.regions ra.regions hAnodup hapk]
            have : 1 ≤ sharedCount ra.regions rb.regions := by
              rw [← hcnt]
              exact hmn
            rw [hrbeq] at this
            exact this
          obtain ⟨rg, hrgA, hrga⟩ := shared_region_exists rect.regions ra.regions hsh
          have haneid : a ≠ rect.id := by
            rw [hrid]
            exact hanid
          have hma : a ∈ bucketOf ({ g with hash := hash2 } : Grid) rg :=
            (hBmem rg hrgA a ra hra haneid).mpr hrga
          refine hcase rg hrgA a hma ?_
          rw [hk, hrid, gpid_comm]
        refine ⟨a, b, ra, rb, ?_, ?_, hab, hcc, hk, hi1, hi2, hcnt, hmn⟩
        · rw [delR_other rects id a hanid]
          exact hra
        · rw [delR_other rects id b hbnid]
          exact hrb
      · exfalso
        push_neg at hcase
        obtain ⟨rg, hrgA, o, hob, hk⟩ := hcase
        obtain ⟨b, hb⟩ := hex rg hrgA
        have hl2 : lookupA hash2 rg = some (removeSet rect.id b) := by
          rw [hrlk rg, if_pos hrgA, hb]
          rfl
        have hob2 : o ∈ removeSet rect.id b := by
          unfold bucketOf at hob
          rw [show lookupA ({ g with hash := hash2 } : Grid).hash rg =
            lookupA hash2 rg from rfl, hl2] at hob
          exact hob
        obtain ⟨hobb, honid⟩ := (mem_removeSet _ o b).mp hob2
        obtain ⟨ro, hro, hroid, ho26⟩ := F2 rg b hb o hobb
        have hpero := hper2 o ho26
        subst hk
        cases hgl : lookupA g.pairs (get_pair_id rect.id o) with
        | none =>
          have hg0 : lookupA ({ g with hash := hash2 } : Grid).pairs
              (get_pair_id rect.id o) = none := hgl
          rw [hg0] at hpero
          rw [hpero] at hl
          exact Option.noConfusion hl
        | some pr0 =>
          have hg0 : lookupA ({ g with hash := hash2 } : Grid).pairs
              (get_pair_id rect.id o) = some pr0 := hgl
          rw [hg0] at hpero
          obtain ⟨a0, b0, ra0, rb0, hra0, hrb0, hab0, hcc0, hk0, hia, hib, hcnt0, hmn0⟩ :=
            inv.psound _ _ hgl
          have ha026 : a0 < 2 ^ 26 := (inv.idrange a0 ra0 hra0).2
          have hb026 : b0 < 2 ^ 26 := (inv.idrange b0 rb0 hrb0).2
          have hcnteq : pr0.count = sharedCount rect.regions ro.regions := by
            rcases get_pair_id_inj rect.id o a0 b0 hid26 ho26 ha026 hb026 hk0 with
              ⟨he1, he2⟩ | ⟨he1, he2⟩
            · have hraeq : ra0 = rect := by
                rw [← he1, hrid, h0] at hra0
                exact (Option.some.inj hra0).symm
              have hrbeq : rb0 = ro := by
                rw [← he2, hro] at hrb0
                exact (Option.some.inj hrb0).symm
              rw [hcnt0, hraeq, hrbeq]
            · have hraeq : ra0 = ro := by
                rw [← he2, hro] at hra0
                exact (Option.some.inj hra0).symm
              have hrbeq : rb0 = rect := by
                rw [← he1, hrid, h0] at hrb0
                exact (Option.some.inj hrb0).symm
              have hopk : (activeRegions ro.regions).Nodup := (inv.rpack o ro hro).1
              rw [hcnt0, hraeq, hrbeq, sharedCount_comm ro.regions rect.regions hopk hAnodup]
          have hble : pr0.count ≤ bumpCount ({ g with hash := hash2 } : Grid)
              (activeRegions rect.regions) o := by
            rw [hbump o ro hro honid, ← hcnteq]
          rw [hpero.1 hble] at hl
          exact Option.noConfusion hl
    · intro a b ra rb hra hrb hab hcc hsh
      have hanid : a ≠ id := by
        intro he
        rw [he, delR_same] at hra
        exact Option.noConfusion hra
      have hbnid : b ≠ id := by
        intro he
        rw [he, delR_same] at hrb
        exact Option.noConfusion hrb
      rw [delR_other rects id a hanid] at hra
      rw [delR_other rects id b hbnid] at hrb
      have ha26 : a < 2 ^ 26 := (inv.idrange a ra hra).2
      have hb26 : b < 2 ^ 26 := (inv.idrange b rb hrb).2
      have hold := inv.pcomplete a b ra rb hra hrb hab hcc hsh
      have hfr : lookupA g2.pairs (get_pair_id a b) =
          lookupA ({ g with hash := hash2 } : Grid).pairs (get_pair_id a b) := by
        refine hframe2 (get_pair_id a b) ?_
        intro rg hrg o hob he
        have hob2 : o ∈ removeSet rect.id ((lookupA g.hash rg).getD []) := by
          obtain ⟨bb, hbb⟩ := hex rg hrg
          have hl2 : lookupA hash2 rg = some (removeSet rect.id bb) := by
            rw [hrlk rg, if_pos hrg, hbb]
            rfl
          unfold bucketOf at hob
          rw [show lookupA ({ g with hash := hash2 } : Grid).hash rg =
            lookupA hash2 rg from rfl, hl2] at hob
          rw [hbb]
          exact hob
        obtain ⟨bb, hbb⟩ := hex rg hrg
        rw [hbb] at hob2
        obtain ⟨hobb, honid⟩ := (mem_removeSet _ o bb).mp hob2
        obtain ⟨ro, hro, hroid, ho26⟩ := F2 rg bb hbb o hobb
        rcases get_pair_id_inj a b rect.id o ha26 hb26 hid26 ho26 he with
          ⟨he1, he2⟩ | ⟨he1, he2⟩
        · rw [hrid] at he1
          exact hanid he1
        · rw [hrid] at he2
          exact hbnid he2
      rw [hfr]
      exact hold

/-- Grid::update on a live body with in-regime bounds succeeds and
preserves the broadphase invariant; the stored record keeps its id, class
and box and comes out clean. -/
theorem grid_update_preserves (g : Grid) (rects : Rects) (inv : GridInv g rects)
    (id : Nat) (rect0 : Rect) (h0 : rects id = some rect0) (hB : BOkay rect0.bounds) :
    ∃ g5 rects2, Grid.update g id rects = some (g5, rects2) ∧ GridInv g5 rects2 ∧
      (∀ i, i ≠ id → rects2 i = rects i) ∧
      (∃ r2, rects2 id = some r2 ∧ r2.id = rect0.id ∧ r2.cls = rect0.cls ∧
        r2.bounds = rect0.bounds ∧ r2.is_updated = false) := by
  have hrid : rect0.id = id := inv.rid id rect0 h0
  have hid26 : id < 2 ^ 26 := (inv.idrange id rect0 h0).2
  have hpackO : PackedRegions rect0.regions := inv.rpack id rect0 h0
  have hOnodup : (activeRegions rect0.regions).Nodup := hpackO.1
  obtain ⟨hactN, hpackN, hlenN⟩ := get_regions_spec rect0.bounds hB
  have hNnodup : (activeRegions (get_regions_by_bounds rect0.bounds)).Nodup := hpackN.1
  by_cases hU : rect0.is_updated = false
  · refine ⟨g, rects, ?_, inv, fun i _ => rfl, ⟨rect0, h0, rfl, rfl, rfl, hU⟩⟩
    unfold Grid.update
    rw [h0]
    dsimp only
    rw [if_pos hU]
  · by_cases hEq : get_regions_by_bounds rect0.bounds = rect0.regions
    · refine ⟨g, updR rects id { rect0 with is_updated := false }, ?_, ?_, ?_, ?_⟩
      · unfold Grid.update
        rw [h0]
        dsimp only
        rw [if_neg hU, if_pos hEq]
      · exact gridInv_updR g rects inv id rect0 { rect0 with is_updated := false }
          h0 rfl rfl rfl
      · intro i hi
        exact updR_other rects id _ i hi
      · exact ⟨{ rect0 with is_updated := false }, updR_same rects id _, rfl, rfl, rfl, rfl⟩
    · have hn0O : ∀ rg ∈ activeRegions rect0.regions, rg ≠ 0 :=
        fun rg hrg => mem_active_nonzero _ rg hrg
      have hn0N : ∀ rg ∈ activeRegions (get_regions_by_bounds rect0.bounds), rg ≠ 0 :=
        fun rg hrg => mem_active_nonzero _ rg hrg
      have hmin0 : ∀ k pr, lookupA g.pairs k = some pr → 1 ≤ pr.count := by
        intro k pr hl
        obtain ⟨-, -, -, -, -, -, -, -, -, -, -, -, hm⟩ := inv.psound k pr hl
        exact hm
      have F2 : ∀ rg bucket, lookupA g.hash rg = some bucket → ∀ o ∈ bucket,
          ∃ ro, rects o = some ro ∧ ro.id = o ∧ o < 2 ^ 26 := by
        intro rg bucket hl o ho
        obtain ⟨ro, hro, -⟩ := inv.bsound rg bucket hl o ho
        exact ⟨ro, hro, inv.rid o ro hro, (inv.idrange o ro hro).2⟩
      have hexO : ∀ rg ∈ activeRegions rect0.regions,
          ∃ bucket, lookupA g.hash rg = some bucket := by
        intro rg hrg
        obtain ⟨bucket, hb, -⟩ := inv.bcomplete id rect0 h0 rg hrg
        exact ⟨bucket, hb⟩
      obtain ⟨h1, hrunD, hkeepD, hlkD⟩ :=
        bucketsRemoveDiff_spec id (get_regions_by_bounds rect0.bounds) rect0.regions g.hash
          hOnodup (fun rg hrg _ => hexO rg hrg)
      have hdepmem : ∀ rg, rg ∈ (activeRegions rect0.regions).filter
          (fun rg2 => !((get_regions_by_bounds rect0.bounds).contains rg2)) →
          rg ∈ activeRegions rect0.regions ∧
            (get_regions_by_bounds rect0.bounds).contains rg = false := by
        intro rg hm
        have h2 := List.mem_filter.mp hm
        exact ⟨h2.1, bnot_eq_true _ h2.2⟩
      have hdepbk : ∀ rg, rg ∈ (activeRegions rect0.regions).filter
          (fun rg2 => !((get_regions_by_bounds rect0.bounds).contains rg2)) →
          ∃ b, lookupA g.hash rg = some b ∧ lookupA h1 rg = some (removeSet id b) := by
        intro rg hm
        obtain ⟨b, hb⟩ := hexO rg (hdepmem rg hm).1
        refine ⟨b, hb, ?_⟩
        rw [hlkD rg, if_pos hm, hb]
        rfl
      have hndep : ∀ rg, rg ∉ (activeRegions rect0.regions).filter
          (fun rg2 => !((get_regions_by_bounds rect0.bounds).contains rg2)) →
          lookupA h1 rg = lookupA g.hash rg := by
        intro rg hm
        rw [hlkD rg, if_neg hm]
      obtain ⟨g3, hrunR, hhashR, hkeepR, hminR, hframeR, hperR⟩ :=
        removePairsRegions_spec id hid26
          ((activeRegions rect0.regions).filter
            (fun rg2 => !((get_regions_by_bounds rect0.bounds).contains rg2)))
          (fun rg hrg => hn0O rg (hdepmem rg hrg).1)
          ({ g with hash := h1 } : Grid)
          (by
            intro rg hrg
            obtain ⟨b, hb, hl1⟩ := hdepbk rg hrg
            exact ⟨removeSet id b, hl1⟩)
          (by
            intro rg hrg bucket hl
            obtain ⟨b, hb, hl1⟩ := hdepbk rg hrg
            have hl2 : lookupA h1 rg = some bucket := hl
            rw [hl1] at hl2
            have hbe : removeSet id b = bucket := Option.some.inj hl2
            subst hbe
            refine ⟨nodup_removeSet id b (inv.bnodup rg b hb), ?_, ?_⟩
            · intro hmz
              exact ((mem_removeSet id id b).mp hmz).2 rfl
            · intro o ho
              obtain ⟨ro, hro, hroid, ho26⟩ := F2 rg b hb o ((mem_removeSet _ o b).mp ho).1
              exact ho26)
          (by
            show ∀ k pr, lookupA g.pairs k = some pr → 1 ≤ pr.count
            exact hmin0)
      have hBmemD : ∀ rg, rg ∈ (activeRegions rect0.regions).filter
          (fun rg2 => !((get_regions_by_bounds rect0.bounds).contains rg2)) →
          ∀ o ro, rects o = some ro → o ≠ id →
          (o ∈ bucketOf ({ g with hash := h1 } : Grid) rg ↔
            rg ∈ activeRegions ro.regions) := by
        intro rg hrg o ro hro hne2
        obtain ⟨b, hb, hl1⟩ := hdepbk rg hrg
        have hmb := inv_mem_bucketOf g rects inv o ro hro rg
        unfold bucketOf at hmb
        rw [hb] at hmb
        unfold bucketOf
        show o ∈ (lookupA h1 rg).getD [] ↔ _
        rw [hl1]
        show o ∈ removeSet id b ↔ _
        rw [mem_removeSet]
        exact ⟨fun h2 => hmb.mp h2.1, fun h2 => ⟨hmb.mpr h2, hne2⟩⟩
      have hbumpD : ∀ o ro, rects o = some ro → o ≠ id →
          bumpCount ({ g with hash := h1 } : Grid)
            ((activeRegions rect0.regions).filter
              (fun rg2 => !((get_regions_by_bounds rect0.bounds).contains rg2))) o =
          (((activeRegions rect0.regions).filter
              (fun rg2 => !((get_regions_by_bounds rect0.bounds).contains rg2))).filter
            (fun rg => decide (rg ∈ activeRegions ro.regions))).length := by
        intro o ro hro hne2
        unfold bumpCount
        refine congrArg List.length (List.filter_congr ?_)
        intro rg hrg
        exact decide_eq_decide.mpr (hBmemD rg hrg o ro hro hne2)
      obtain ⟨hregsA, hkeepA, hlkA⟩ :=
        bucketsAddDiff_spec id rect0.regions (get_regions_by_bounds rect0.bounds)
          g3.hash hNnodup
      have harrmem : ∀ rg, rg ∈ (activeRegions (get_regions_by_bounds rect0.bounds)).filter
          (fun rg2 => !(rect0.regions.contains rg2)) →
          rg ∈ activeRegions (get_regions_by_bounds rect0.bounds) ∧
            rect0.regions.contains rg = false := by
        intro rg hm
        have h2 := List.mem_filter.mp hm
        exact ⟨h2.1, bnot_eq_true _ h2.2⟩
      have harrdep : ∀ rg, rg ∈ (activeRegions (get_regions_by_bounds rect0.bounds)).filter
          (fun rg2 => !(rect0.regions.contains rg2)) →
          rg ∉ (activeRegions rect0.regions).filter
            (fun rg2 => !((get_regions_by_bounds rect0.bounds).contains rg2)) := by
        intro rg hra hrd
        have h2 := (harrmem rg hra).2
        have h4 : rg ∈ rect0.regions := active_subset _ rg (hdepmem rg hrd).1
        rw [(contains_iff_mem rect0.regions rg).mpr h4] at h2
        exact Bool.noConfusion h2
      have harrold : ∀ rg, rg ∈ (activeRegions (get_regions_by_bounds rect0.bounds)).filter
          (fun rg2 => !(rect0.regions.contains rg2)) →
          lookupA g3.hash rg = lookupA g.hash rg := by
        intro rg hra
        rw [hhashR]
        show lookupA h1 rg = _
        exact hndep rg (harrdep rg hra)
      have hBmemA : ∀ rg, rg ∈ (activeRegions (get_regions_by_bounds rect0.bounds)).filter
          (fun rg2 => !(rect0.regions.contains rg2)) →
          ∀ o ro, rects o = some ro → o ≠ id →
          (o ∈ bucketOf ({ g3 with hash :=
              (bucketsAddDiff g3.hash (get_regions_by_bounds rect0.bounds)
                rect0.regions id).1 } : Grid) rg ↔
            rg ∈ activeRegions ro.regions) := by
        intro rg hra o ro hro hne2
        have hmb := inv_mem_bucketOf g rects inv o ro hro rg
        unfold bucketOf at hmb
        unfold bucketOf
        show o ∈ ((lookupA (bucketsAddDiff g3.hash (get_regions_by_bounds rect0.bounds)
          rect0.regions id).1 rg).getD []) ↔ _
        rw [hlkA rg, if_pos hra, harrold rg hra]
        cases hgl : lookupA g.hash rg with
        | none =>
          rw [hgl] at hmb
          constructor
          · intro hmm
            have h2 : o ∈ [id] := hmm
            simp at h2
            exact absurd h2 hne2
          · intro hrgb
            have h2 := hmb.mpr hrgb
            simp at h2
        | some b =>
          rw [hgl] at hmb
          constructor
          · intro hmm
            have h2 : o ∈ insertSet id b := hmm
            rcases (mem_insertSet id o b).mp h2 with rfl | hob
            · exact absurd rfl hne2
            · exact hmb.mp hob
          · intro hrgb
            exact (mem_insertSet id o b).mpr (Or.inr (hmb.mpr hrgb))
      have hbumpA : ∀ o ro, rects o = some ro → o ≠ id →
          bumpCount ({ g3 with hash :=
              (bucketsAddDiff g3.hash (get_regions_by_bounds rect0.bounds)
                rect0.regions id).1 } : Grid)
            ((activeRegions (get_regions_by_bounds rect0.bounds)).filter
              (fun rg2 => !(rect0.regions.contains rg2))) o =
          (((activeRegions (get_regions_by_bounds rect0.bounds)).filter
              (fun rg2 => !(rect0.regions.contains rg2))).filter
            (fun rg => decide (rg ∈ activeRegions ro.regions))).length := by
        intro o ro hro hne2
        unfold bumpCount
        refine congrArg List.length (List.filter_congr ?_)
        intro rg hrg
        exact decide_eq_decide.mpr (hBmemA rg hrg o ro hro hne2)
      have hcount : ∀ o ro, rects o = some ro → o ≠ id →
          ∃ K, sharedCount rect0.regions ro.regions =
              (((activeRegions rect0.regions).filter
                  (fun rg2 => !((get_regions_by_bounds rect0.bounds).contains rg2))).filter
                (fun rg => decide (rg ∈ activeRegions ro.regions))).length + K ∧
            sharedCount (get_regions_by_bounds rect0.bounds) ro.regions =
              (((activeRegions (get_regions_by_bounds rect0.bounds)).filter
                  (fun rg2 => !(rect0.regions.contains rg2))).filter
                (fun rg => decide (rg ∈ activeRegions ro.regions))).length + K := by
        intro o ro hro hne2
        refine ⟨((activeRegions (get_regions_by_bounds rect0.bounds)).filter
          (fun rg => decide (rg ∈ activeRegions ro.regions) &&
            rect0.regions.contains rg)).length, ?_, ?_⟩
        · have hs := length_filter_contains_split (activeRegions rect0.regions)
            (fun rg => decide (rg ∈ activeRegions ro.regions))
            (get_regions_by_bounds rect0.bounds)
          have hk1 : (activeRegions rect0.regions).filter
              (fun rg => decide (rg ∈ activeRegions ro.regions) &&
                (get_regions_by_bounds rect0.bounds).contains rg) =
              (activeRegions rect0.regions).filter
              (fun rg => decide (rg ∈ activeRegions ro.regions) &&
                decide (rg ∈ activeRegions (get_regions_by_bounds rect0.bounds))) := by
            refine List.filter_congr ?_
            intro rg hrg
            have hC : (get_regions_by_bounds rect0.bounds).contains rg =
                decide (rg ∈ activeRegions (get_regions_by_bounds rect0.bounds)) :=
              bool_eq_decide (contains_iff_active _ hpackN rg (hn0O rg hrg))
            rw [hC]
          have hk2 : ((activeRegions rect0.regions).filter
              (fun rg => decide (rg ∈ activeRegions ro.regions) &&
                decide (rg ∈ activeRegions (get_regions_by_bounds rect0.bounds)))).length =
              ((activeRegions (get_regions_by_bounds rect0.bounds)).filter
              (fun rg => decide (rg ∈ activeRegions ro.regions) &&
                decide (rg ∈ activeRegions rect0.regions))).length :=
            length_filter_mem_comm _ _ _ hOnodup hNnodup
          have hk3 : (activeRegions (get_regions_by_bounds rect0.bounds)).filter
              (fun rg => decide (rg ∈ activeRegions ro.regions) &&
                decide (rg ∈ activeRegions rect0.regions)) =
              (activeRegions (get_regions_by_bounds rect0.bounds)).filter
              (fun rg => decide (rg ∈ activeRegions ro.regions) &&
                rect0.regions.contains rg) := by
            refine List.filter_congr ?_
            intro rg hrg
            have hC : rect0.regions.contains rg =
                decide (rg ∈ activeRegions rect0.regions) :=
              bool_eq_decide (contains_iff_active _ hpackO rg (hn0N rg hrg))
            rw [hC]
          unfold sharedCount
          rw [hs, hk1, hk2, hk3]
        · have hs := length_filter_contains_split
            (activeRegions (get_regions_by_bounds rect0.bounds))
            (fun rg => decide (rg ∈ activeRegions ro.regions)) rect0.regions
          unfold sharedCount
          rw [hs]
      obtain ⟨g5, hrunA, hhashA, hkeepA2, hframeA, hperA⟩ :=
        addPairsRegions_spec
          ({ rect0 with regions := get_regions_by_bounds rect0.bounds, is_updated := false })
          (updR rects id
            { rect0 with regions := get_regions_by_bounds rect0.bounds, is_updated := false })
          (by
            show rect0.id < 2 ^ 26
            rw [hrid]
            exact hid26)
          ((activeRegions (get_regions_by_bounds rect0.bounds)).filter
            (fun rg2 => !(rect0.regions.contains rg2)))
          (fun rg hrg => hn0N rg (harrmem rg hrg).1)
          ({ g3 with hash :=
            (bucketsAddDiff g3.hash (get_regions_by_bounds rect0.bounds)
              rect0.regions id).1 } : Grid)
          (by
            intro rg hrg
            refine ⟨(match lookupA g.hash rg with
                     | none => [id]
                     | some bucket => insertSet id bucket), ?_⟩
            show lookupA (bucketsAddDiff g3.hash (get_regions_by_bounds rect0.bounds)
              rect0.regions id).1 rg = _
            rw [hlkA rg, if_pos hrg, harrold rg hrg])
          (by
            intro rg hrg bucket hl
            have hl2 : lookupA (bucketsAddDiff g3.hash (get_regions_by_bounds rect0.bounds)
                rect0.regions id).1 rg = some bucket := hl
            rw [hlkA rg, if_pos hrg, harrold rg hrg] at hl2
            cases hgl : lookupA g.hash rg with
            | none =>
              rw [hgl] at hl2
              have hbe : [id] = bucket := Option.some.inj hl2
              rw [← hbe]
              refine ⟨by simp, ?_⟩
              intro o ho
              simp at ho
              left
              rw [hrid]
              exact ho
            | some b =>
              rw [hgl] at hl2
              have hbe : insertSet id b = bucket := Option.some.inj hl2
              rw [← hbe]
              refine ⟨nodup_insertSet id b (inv.bnodup rg b hgl), ?_⟩
              intro o ho
              by_cases hoid : o = id
              · left
                rw [hrid]
                exact hoid
              · rcases (mem_insertSet id o b).mp ho with rfl | hob
                · exact absurd rfl hoid
                · obtain ⟨ro, hro, hroid, ho26⟩ := F2 rg b hgl o hob
                  refine Or.inr ⟨ro, ?_, hroid, ho26⟩
                  rw [updR_other rects id _ o hoid]
                  exact hro)
      have hFin : ∀ rg, lookupA g5.hash rg =
          if rg ∈ (activeRegions (get_regions_by_bounds rect0.bounds)).filter
              (fun rg2 => !(rect0.regions.contains rg2)) then
            some (match lookupA g.hash rg with
                  | none => [id]
                  | some bucket => insertSet id bucket)
          else if rg ∈ (activeRegions rect0.regions).filter
              (fun rg2 => !((get_regions_by_bounds rect0.bounds).contains rg2)) then
            (lookupA g.hash rg).map (removeSet id)
          else lookupA g.hash rg := by
        intro rg
        rw [hhashA, hlkA rg]
        by_cases hra : rg ∈ (activeRegions (get_regions_by_bounds rect0.bounds)).filter
            (fun rg2 => !(rect0.regions.contains rg2))
        · rw [if_pos hra, if_pos hra, harrold rg hra]
        · rw [if_neg hra, if_neg hra, hhashR]
          show lookupA h1 rg = _
          by_cases hrd : rg ∈ (activeRegions rect0.regions).filter
              (fun rg2 => !((get_regions_by_bounds rect0.bounds).contains rg2))
          · rw [if_pos hrd]
            rw [hlkD rg, if_pos hrd]
          · rw [if_neg hrd]
            exact hndep rg hrd
      have hfinal : ∀ c rc, rects c = some rc → c ≠ id → c < 2 ^ 26 →
          (can_collide rect0.cls rc.cls = false →
            lookupA g5.pairs (get_pair_id id c) = none ∧
            lookupA g.pairs (get_pair_id id c) = none) ∧
          (can_collide rect0.cls rc.cls = true →
            ((sharedCount (get_regions_by_bounds rect0.bounds) rc.regions = 0 →
                lookupA g5.pairs (get_pair_id id c) = none) ∧
             (1 ≤ sharedCount (get_regions_by_bounds rect0.bounds) rc.regions →
               ∃ pr, lookupA g5.pairs (get_pair_id id c) = some pr ∧
                 pr.count = sharedCount (get_regions_by_bounds rect0.bounds) rc.regions ∧
                 ((pr.id1 = id ∧ pr.id2 = c) ∨
                  (∃ pr0, lookupA g.pairs (get_pair_id id c) = some pr0 ∧
                    pr.id1 = pr0.id1 ∧ pr.id2 = pr0.id2))))) := by
        intro c rc hrc hcnid hc26
        have hrcid : rc.id = c := inv.rid c rc hrc
        have hrc2 : updR rects id
            { rect0 with regions := get_regions_by_bounds rect0.bounds, is_updated := false } c = some rc := by
          rw [updR_other rects id _ c hcnid]
          exact hrc
        have hcne2 : c ≠ ({ rect0 with regions := get_regions_by_bounds rect0.bounds, is_updated := false } : Rect).id := by
          show c ≠ rect0.id
          rw [hrid]
          exact hcnid
        have hperAc := hperA c rc hrc2 hrcid hcne2 hc26
        rw [hrid] at hperAc
        have hperRc := hperR c hc26
        have hDc := hbumpD c rc hrc hcnid
        have hAc := hbumpA c rc hrc hcnid
        obtain ⟨K, hKold, hKnew⟩ := hcount c rc hrc hcnid
        cases hgl : lookupA g.pairs (get_pair_id id c) with
        | none =>
          rw [hgl] at hperRc
          have hg3n : lookupA g3.pairs (get_pair_id id c) = none := hperRc
          constructor
          · intro hcf
            refine ⟨?_, rfl⟩
            have hccf : can_collide ({ rect0 with
                regions := get_regions_by_bounds rect0.bounds,
                is_updated := false } : Rect).cls rc.cls = false := hcf
            rw [(hperAc.1 hccf), hg3n]
          · intro hct
            have hSold0 : sharedCount rect0.regions rc.regions = 0 := by
              by_contra hpos
              have h1le : 1 ≤ sharedCount rect0.regions rc.regions :=
                Nat.one_le_iff_ne_zero.mpr hpos
              exact (inv.pcomplete id c rect0 rc h0 hrc (fun he => hcnid he.symm) hct h1le) hgl
            have hK0 : K = 0 := by omega
            have hp2 := hperAc.2 hct
            rw [hg3n] at hp2
            dsimp only at hp2
            constructor
            · intro hS0
              refine hp2.1 ?_
              rw [hAc]
              omega
            · intro h1le
              refine ⟨⟨id, c, bumpCount ({ g3 with hash :=
                  (bucketsAddDiff g3.hash (get_regions_by_bounds rect0.bounds)
                    rect0.regions id).1 } : Grid)
                  ((activeRegions (get_regions_by_bounds rect0.bounds)).filter
                    (fun rg2 => !(rect0.regions.contains rg2))) c⟩, ?_, ?_, Or.inl ⟨rfl, rfl⟩⟩
              · refine hp2.2 ?_
                rw [hAc]
                omega
              · dsimp only
                rw [hAc]
                omega
        | some pr0 =>
          rw [hgl] at hperRc
          obtain ⟨a0, b0, ra0, rb0, hra0, hrb0, hab0, hcc0, hk0, hia0, hib0, hcnt0, hmn0⟩ :=
            inv.psound _ _ hgl
          have ha026 : a0 < 2 ^ 26 := (inv.idrange a0 ra0 hra0).2
          have hb026 : b0 < 2 ^ 26 := (inv.idrange b0 rb0 hrb0).2
          have hcpk : (activeRegions rc.regions).Nodup := (inv.rpack c rc hrc).1
          have hcnteq : pr0.count = sharedCount rect0.regions rc.regions := by
            rcases get_pair_id_inj id c a0 b0 hid26 hc26 ha026 hb026 hk0 with
              ⟨he1, he2⟩ | ⟨he1, he2⟩
            · have hraeq : ra0 = rect0 := by
                rw [← he1, h0] at hra0
                exact (Option.some.inj hra0).symm
              have hrbeq : rb0 = rc := by
                rw [← he2, hrc] at hrb0
                exact (Option.some.inj hrb0).symm
              rw [hcnt0, hraeq, hrbeq]
            · have hraeq : ra0 = rc := by
                rw [← he2, hrc] at hra0
                exact (Option.some.inj hra0).symm
              have hrbeq : rb0 = rect0 := by
                rw [← he1, h0] at hrb0
                exact (Option.some.inj hrb0).symm
              rw [hcnt0, hraeq, hrbeq, sharedCount_comm rc.regions rect0.regions hcpk hOnodup]
          have hccT : can_collide rect0.cls rc.cls = true := by
            rcases get_pair_id_inj id c a0 b0 hid26 hc26 ha026 hb026 hk0 with
              ⟨he1, he2⟩ | ⟨he1, he2⟩
            · have hraeq : ra0 = rect0 := by
                rw [← he1, h0] at hra0
                exact (Option.some.inj hra0).symm
              have hrbeq : rb0 = rc := by
                rw [← he2, hrc] at hrb0
                exact (Option.some.inj hrb0).symm
              rw [hraeq, hrbeq] at hcc0
              exact hcc0
            · have hraeq : ra0 = rc := by
                rw [← he2, hrc] at hra0
                exact (Option.some.inj hra0).symm
              have hrbeq : rb0 = rect0 := by
                rw [← he1, h0] at hrb0
                exact (Option.some.inj hrb0).symm
              rw [hraeq, hrbeq] at hcc0
              rw [can_collide_comm]
              exact hcc0
          constructor
          · intro hcf
            rw [hccT] at hcf
            exact Bool.noConfusion hcf
          · intro hct
            by_cases hK0 : K = 0
            · have hble : pr0.count ≤ bumpCount ({ g with hash := h1 } : Grid)
                  ((activeRegions rect0.regions).filter
                    (fun rg2 => !((get_regions_by_bounds rect0.bounds).contains rg2))) c := by
                rw [hDc, hcnteq]
                omega
              have hg3n : lookupA g3.pairs (get_pair_id id c) = none := hperRc.1 hble
              have hp2 := hperAc.2 hct
              rw [hg3n] at hp2
              dsimp only at hp2
              constructor
              · intro hS0
                refine hp2.1 ?_
                rw [hAc]
                omega
              · intro h1le
                refine ⟨⟨id, c, bumpCount ({ g3 with hash :=
                    (bucketsAddDiff g3.hash (get_regions_by_bounds rect0.bounds)
                      rect0.regions id).1 } : Grid)
                    ((activeRegions (get_regions_by_bounds rect0.bounds)).filter
                      (fun rg2 => !(rect0.regions.contains rg2))) c⟩, ?_, ?_, Or.inl ⟨rfl, rfl⟩⟩
                · refine hp2.2 ?_
                  rw [hAc]
                  omega
                · dsimp only
                  rw [hAc]
                  omega
            · have hlt : bumpCount ({ g with hash := h1 } : Grid)
                  ((activeRegions rect0.regions).filter
                    (fun rg2 => !((get_regions_by_bounds rect0.bounds).contains rg2))) c
                  < pr0.count := by
                rw [hDc, hcnteq]
                omega
              have hg3s := hperRc.2 hlt
              have hp2 := hperAc.2 hct
              rw [hg3s] at hp2
              dsimp only at hp2
              constructor
              · intro hS0
                exfalso
                omega
              · intro h1le
                refine ⟨⟨pr0.id1, pr0.id2, pr0.count - bumpCount ({ g with hash := h1 } : Grid)
                    ((activeRegions rect0.regions).filter
                      (fun rg2 => !((get_regions_by_bounds rect0.bounds).contains rg2))) c +
                    bumpCount ({ g3 with hash :=
                      (bucketsAddDiff g3.hash (get_regions_by_bounds rect0.bounds)
                        rect0.regions id).1 } : Grid)
                      ((activeRegions (get_regions_by_bounds rect0.bounds)).filter
                        (fun rg2 => !(rect0.regions.contains rg2))) c⟩,
                  hp2, ?_, Or.inr ⟨pr0, rfl, rfl, rfl⟩⟩
                dsimp only
                rw [hDc, hAc]
                rw [hDc] at hlt
                omega
      refine ⟨g5, updR rects id
        { rect0 with regions := get_regions_by_bounds rect0.bounds, is_updated := false },
        ?_, ?_, ?_, ?_⟩
      · unfold Grid.update
        rw [h0]
        dsimp only
        rw [if_neg hU, if_neg hEq, hrunD]
        dsimp only
        have hif1 : (if ((activeRegions rect0.regions).filter
              (fun rg => !((get_regions_by_bounds rect0.bounds).contains rg))).length = 0
            then some ({ g with hash := h1 } : Grid)
            else Grid.remove_from_pairs ({ g with hash := h1 } : Grid)
              ((activeRegions rect0.regions).filter
                (fun rg => !((get_regions_by_bounds rect0.bounds).contains rg))) id) =
            some g3 := by
          by_cases hdl : ((activeRegions rect0.regions).filter
              (fun rg => !((get_regions_by_bounds rect0.bounds).contains rg))).length = 0
          · rw [if_pos hdl]
            have hde : (activeRegions rect0.regions).filter
                (fun rg => !((get_regions_by_bounds rect0.bounds).contains rg)) = [] :=
              List.length_eq_zero.mp hdl
            rw [hde] at hrunR
            exact hrunR
          · rw [if_neg hdl]
            exact hrunR
        rw [hif1]
        dsimp only
        rw [hregsA]
        by_cases hal : ((activeRegions (get_regions_by_bounds rect0.bounds)).filter
            (fun rg2 => !(rect0.regions.contains rg2))).length = 0
        · rw [if_pos hal]
          have hae : (activeRegions (get_regions_by_bounds rect0.bounds)).filter
              (fun rg2 => !(rect0.regions.contains rg2)) = [] := List.length_eq_zero.mp hal
          rw [hae] at hrunA
          have hge : ({ g3 with hash := (bucketsAddDiff g3.hash
              (get_regions_by_bounds rect0.bounds) rect0.regions id).1 } : Grid) = g5 :=
            Option.some.inj hrunA
          rw [hge]
        · rw [if_neg hal]
          unfold Grid.add_to_pairs
          rw [updR_same]
          dsimp only
          rw [hrunA]
      · refine ⟨?_, ?_, ?_, ?_, ?_, ?_, ?_, ?_, ?_, ?_⟩
        · intro i r hr
          by_cases hi : i = id
          · subst hi
            rw [updR_same] at hr
            rw [← Option.some.inj hr]
            exact hrid
          · rw [updR_other rects id _ i hi] at hr
            exact inv.rid i r hr
        · intro i r hr
          by_cases hi : i = id
          · subst hi
            exact ⟨(inv.idrange i rect0 h0).1, (inv.idrange i rect0 h0).2⟩
          · rw [updR_other rects id _ i hi] at hr
            exact inv.idrange i r hr
        · intro i r hr
          by_cases hi : i = id
          · subst hi
            rw [updR_same] at hr
            rw [← Option.some.inj hr]
            show PackedRegions (get_regions_by_bounds rect0.bounds)
            exact hpackN
          · rw [updR_other rects id _ i hi] at hr
            exact inv.rpack i r hr
        · rw [hhashA]
          exact hkeepA (by rw [hhashR]; exact hkeepD inv.hkeys)
        · intro rg bucket hl
          rw [hFin rg] at hl
          by_cases hra : rg ∈ (activeRegions (get_regions_by_bounds rect0.bounds)).filter
              (fun rg2 => !(rect0.regions.contains rg2))
          · rw [if_pos hra] at hl
            cases hgl : lookupA g.hash rg with
            | none =>
              rw [hgl] at hl
              have hbe : [id] = bucket := Option.some.inj hl
              rw [← hbe]
              simp
            | some b =>
              rw [hgl] at hl
              have hbe : insertSet id b = bucket := Option.some.inj hl
              rw [← hbe]
              exact nodup_insertSet id b (inv.bnodup rg b hgl)
          · rw [if_neg hra] at hl
            by_cases hrd : rg ∈ (activeRegions rect0.regions).filter
                (fun rg2 => !((get_regions_by_bounds rect0.bounds).contains rg2))
            · rw [if_pos hrd] at hl
              obtain ⟨b, hb, -⟩ := hdepbk rg hrd
              rw [hb] at hl
              have hl2 : some (removeSet id b) = some bucket := hl
              rw [← Option.some.inj hl2]
              exact nodup_removeSet id b (inv.bnodup rg b hb)
            · rw [if_neg hrd] at hl
              exact inv.bnodup rg bucket hl
        · intro rg bucket hl o ho
          rw [hFin rg] at hl
          by_cases hra : rg ∈ (activeRegions (get_regions_by_bounds rect0.bounds)).filter
              (fun rg2 => !(rect0.regions.contains rg2))
          · rw [if_pos hra] at hl
            cases hgl : lookupA g.hash rg with
            | none =>
              rw [hgl] at hl
              have hbe : [id] = bucket := Option.some.inj hl
              rw [← hbe] at ho
              simp at ho
              subst ho
              refine ⟨{ rect0 with regions := get_regions_by_bounds rect0.bounds, is_updated := false }, updR_same rects o _, ?_⟩
              show rg ∈ activeRegions (get_regions_by_bounds rect0.bounds)
              exact (harrmem rg hra).1
            | some b =>
              rw [hgl] at hl
              have hbe : insertSet id b = bucket := Option.some.inj hl
              rw [← hbe] at ho
              by_cases hoid : o = id
              · subst hoid
                refine ⟨{ rect0 with regions := get_regions_by_bounds rect0.bounds, is_updated := false }, updR_same rects o _, ?_⟩
                show rg ∈ activeRegions (get_regions_by_bounds rect0.bounds)
                exact (harrmem rg hra).1
              · rcases (mem_insertSet id o b).mp ho with heo | hob
                · exact absurd heo hoid
                · obtain ⟨ro, hro, hrorg⟩ := inv.bsound rg b hgl o hob
                  refine ⟨ro, ?_, hrorg⟩
                  rw [updR_other rects id _ o hoid]
                  exact hro
          · rw [if_neg hra] at hl
            by_cases hrd : rg ∈ (activeRegions rect0.regions).filter
                (fun rg2 => !((get_regions_by_bounds rect0.bounds).contains rg2))
            · rw [if_pos hrd] at hl
              obtain ⟨b, hb, -⟩ := hdepbk rg hrd
              rw [hb] at hl
              have hl2 : some (removeSet id b) = some bucket := hl
              rw [← Option.some.inj hl2] at ho
              obtain ⟨hob, honid⟩ := (mem_removeSet id o b).mp ho
              obtain ⟨ro, hro, hrorg⟩ := inv.bsound rg b hb o hob
              refine ⟨ro, ?_, hrorg⟩
              rw [updR_other rects id _ o honid]
              exact hro
            · rw [if_neg hrd] at hl
              by_cases hoid : o = id
              · subst hoid
                obtain ⟨r3, hr3, hrg3⟩ := inv.bsound rg bucket hl o ho
                have hr3e : r3 = rect0 := by
                  rw [h0] at hr3
                  exact (Option.some.inj hr3).symm
                rw [hr3e] at hrg3
                have hcn : (get_regions_by_bounds rect0.bounds).contains rg = true := by
                  cases hc : (get_regions_by_bounds rect0.bounds).contains rg
                  · exact absurd (List.mem_filter.mpr ⟨hrg3, bnot_true_of_false _ hc⟩) hrd
                  · rfl
                have hrgAN : rg ∈ activeRegions (get_regions_by_bounds rect0.bounds) :=
                  (contains_iff_active _ hpackN rg (hn0O rg hrg3)).mp hcn
                exact ⟨{ rect0 with regions := get_regions_by_bounds rect0.bounds, is_updated := false }, updR_same rects o _, hrgAN⟩
              · obtain ⟨ro, hro, hrorg⟩ := inv.bsound rg bucket hl o ho
                refine ⟨ro, ?_, hrorg⟩
                rw [updR_other rects id _ o hoid]
                exact hro
        · intro o r hr rg hrg
          by_cases hoid : o = id
          · subst hoid
            rw [updR_same] at hr
            have hre : r = { rect0 with regions := get_regions_by_bounds rect0.bounds, is_updated := false } := (Option.some.inj hr).symm
            rw [hre] at hrg
            have hrgAN : rg ∈ activeRegions (get_regions_by_bounds rect0.bounds) := hrg
            by_cases hra : rg ∈ (activeRegions (get_regions_by_bounds rect0.bounds)).filter
                (fun rg2 => !(rect0.regions.contains rg2))
            · refine ⟨(match lookupA g.hash rg with
                       | none => [o]
                       | some b => insertSet o b), ?_, ?_⟩
              · rw [hFin rg, if_pos hra]
              · cases hgl : lookupA g.hash rg with
                | none => simp
                | some b => exact (mem_insertSet o o b).mpr (Or.inl rfl)
            · have hco : rect0.regions.contains rg = true := by
                cases hc : rect0.regions.contains rg
                · exact absurd (List.mem_filter.mpr ⟨hrgAN, bnot_true_of_false _ hc⟩) hra
                · rfl
              have hrgAO : rg ∈ activeRegions rect0.regions :=
                (contains_iff_active _ hpackO rg (hn0N rg hrgAN)).mp hco
              obtain ⟨b, hb, hob⟩ := inv.bcomplete o rect0 h0 rg hrgAO
              have hrd : rg ∉ (activeRegions rect0.regions).filter
                  (fun rg2 => !((get_regions_by_bounds rect0.bounds).contains rg2)) := by
                intro hm
                have h2 := (hdepmem rg hm).2
                have h3 : (get_regions_by_bounds rect0.bounds).contains rg = true :=
                  (contains_iff_active _ hpackN rg (hn0N rg hrgAN)).mpr hrgAN
                rw [h3] at h2
                exact Bool.noConfusion h2
              refine ⟨b, ?_, hob⟩
              rw [hFin rg, if_neg hra, if_neg hrd]
              exact hb
          · rw [updR_other rects id _ o hoid] at hr
            obtain ⟨b, hb, hob⟩ := inv.bcomplete o r hr rg hrg
            by_cases hra : rg ∈ (activeRegions (get_regions_by_bounds rect0.bounds)).filter
                (fun rg2 => !(rect0.regions.contains rg2))
            · refine ⟨insertSet id b, ?_, (mem_insertSet id o b).mpr (Or.inr hob)⟩
              rw [hFin rg, if_pos hra, hb]
            · by_cases hrd : rg ∈ (activeRegions rect0.regions).filter
                  (fun rg2 => !((get_regions_by_bounds rect0.bounds).contains rg2))
              · refine ⟨removeSet id b, ?_, (mem_removeSet id o b).mpr ⟨hob, hoid⟩⟩
                rw [hFin rg, if_neg hra, if_pos hrd, hb]
                rfl
              · refine ⟨b, ?_, hob⟩
                rw [hFin rg, if_neg hra, if_neg hrd]
                exact hb
        · exact hkeepA2 (hkeepR inv.pkeys)
        · intro k pr hl
          by_cases hcase : ∃ c, c < 2 ^ 26 ∧ c ≠ id ∧ (∃ rc, rects c = some rc) ∧
              k = get_pair_id id c
          · obtain ⟨c, hc26, hcnid, ⟨rc, hrc⟩, hkk⟩ := hcase
            subst hkk
            have hfc := hfinal c rc hrc hcnid hc26
            have hrc2 : updR rects id
                { rect0 with regions := get_regions_by_bounds rect0.bounds, is_updated := false } c = some rc := by
              rw [updR_other rects id _ c hcnid]
              exact hrc
            by_cases hcc : can_collide rect0.cls rc.cls = true
            · have h2 := hfc.2 hcc
              by_cases hS0 : sharedCount (get_regions_by_bounds rect0.bounds) rc.regions = 0
              · rw [h2.1 hS0] at hl
                exact Option.noConfusion hl
              · have h1le : 1 ≤ sharedCount (get_regions_by_bounds rect0.bounds)
                    rc.regions := Nat.one_le_iff_ne_zero.mpr hS0
                obtain ⟨pr2, hpr2, hcnt2, hids⟩ := h2.2 h1le
                rw [hpr2] at hl
                have hpe : pr2 = pr := Option.some.inj hl
                subst hpe
                rcases hids with ⟨hida, hidb⟩ | ⟨pr0, hpr0, hida, hidb⟩
                · refine ⟨id, c,
                    { rect0 with regions := get_regions_by_bounds rect0.bounds, is_updated := false }, rc,
                    updR_same rects id _, hrc2, fun he => hcnid he.symm, ?_, rfl,
                    hida, hidb, ?_, ?_⟩
                  · show can_collide rect0.cls rc.cls = true
                    exact hcc
                  · show pr2.count = sharedCount (get_regions_by_bounds rect0.bounds) rc.regions
                    exact hcnt2
                  · rw [hcnt2]
                    exact h1le
                · obtain ⟨a0, b0, ra0, rb0, hra0, hrb0, hab0, hcc0, hk0, hia0, hib0,
                    hcnt0, hmn0⟩ := inv.psound _ _ hpr0
                  have ha026 : a0 < 2 ^ 26 := (inv.idrange a0 ra0 hra0).2
                  have hb026 : b0 < 2 ^ 26 := (inv.idrange b0 rb0 hrb0).2
                  have hcpk : (activeRegions rc.regions).Nodup := (inv.rpack c rc hrc).1
                  rcases get_pair_id_inj id c a0 b0 hid26 hc26 ha026 hb026 hk0 with
                    ⟨he1, he2⟩ | ⟨he1, he2⟩
                  · refine ⟨a0, b0,
                      { rect0 with regions := get_regions_by_bounds rect0.bounds, is_updated := false }, rc, ?_, ?_, hab0, ?_, hk0, ?_, ?_, ?_, ?_⟩
                    · rw [← he1]
                      exact updR_same rects id _
                    · rw [← he2]
                      exact hrc2
                    · show can_collide rect0.cls rc.cls = true
                      exact hcc
                    · rw [hida, hia0]
                    · rw [hidb, hib0]
                    · show pr2.count = sharedCount (get_regions_by_bounds rect0.bounds)
                        rc.regions
                      exact hcnt2
                    · rw [hcnt2]
                      exact h1le
                  · refine ⟨a0, b0, rc,
                      { rect0 with regions := get_regions_by_bounds rect0.bounds, is_updated := false }, ?_, ?_, hab0, ?_, hk0, ?_, ?_, ?_, ?_⟩
                    · rw [← he2]
                      exact hrc2
                    · rw [← he1]
                      exact updR_same rects id _
                    · show can_collide rc.cls rect0.cls = true
                      rw [can_collide_comm]
                      exact hcc
                    · rw [hida, hia0]
                    · rw [hidb, hib0]
                    · show pr2.count = sharedCount rc.regions (get_regions_by_bounds
                        rect0.bounds)
                      rw [sharedCount_comm rc.regions (get_regions_by_bounds rect0.bounds)
                        hcpk hNnodup]
                      exact hcnt2
                    · rw [hcnt2]
                      exact h1le
            · have hcf : can_collide rect0.cls rc.cls = false := by
                cases hc2 : can_collide rect0.cls rc.cls
                · rfl
                · exact absurd hc2 hcc
              rw [(hfc.1 hcf).1] at hl
              exact Option.noConfusion hl
          · have hfr2 : lookupA g5.pairs k = lookupA g3.pairs k := by
              refine hframeA k ?_
              intro rg hrg o hob honid he
              have honid2 : o ≠ id := fun he2 => honid (by rw [hrid]; exact he2)
              have hob2 : o ∈ (lookupA (bucketsAddDiff g3.hash
                  (get_regions_by_bounds rect0.bounds) rect0.regions id).1 rg).getD [] := hob
              rw [hlkA rg, if_pos hrg, harrold rg hrg] at hob2
              have he2 : k = get_pair_id id o := by
                rw [← hrid]
                exact he
              cases hgl : lookupA g.hash rg with
              | none =>
                rw [hgl] at hob2
                have h2 : o ∈ [id] := hob2
                simp at h2
                exact honid2 h2
              | some bb =>
                rw [hgl] at hob2
                have h2 : o ∈ insertSet id bb := hob2
                rcases (mem_insertSet id o bb).mp h2 with heo | hobb
                · exact honid2 heo
                · obtain ⟨ro, hro, hroid, ho26⟩ := F2 rg bb hgl o hobb
                  exact hcase ⟨o, ho26, honid2, ⟨ro, hro⟩, he2⟩
            have hfr1 : lookupA g3.pairs k = lookupA g.pairs k := by
              refine hframeR k ?_
              intro rg hrg o hob he
              obtain ⟨bb, hbb, hl1⟩ := hdepbk rg hrg
              have hob2 : o ∈ (lookupA h1 rg).getD [] := hob
              rw [hl1] at hob2
              have hob3 : o ∈ removeSet id bb := hob2
              obtain ⟨hobb, honid⟩ := (mem_removeSet id o bb).mp hob3
              obtain ⟨ro, hro, hroid, ho26⟩ := F2 rg bb hbb o hobb
              exact hcase ⟨o, ho26, honid, ⟨ro, hro⟩, he⟩
            rw [hfr2, hfr1] at hl
            obtain ⟨a, b, ra, rb, hra, hrb, hab, hccold, hk, hi1, hi2, hcnt, hmn⟩ :=
              inv.psound k pr hl
            have ha26 : a < 2 ^ 26 := (inv.idrange a ra hra).2
            have hb26 : b < 2 ^ 26 := (inv.idrange b rb hrb).2
            have hanid : a ≠ id := by
              intro he
              subst he
              exact hcase ⟨b, hb26, fun he2 => hab he2.symm, ⟨rb, hrb⟩, hk⟩
            have hbnid : b ≠ id := by
              intro he
              subst he
              refine hcase ⟨a, ha26, fun he2 => hab he2, ⟨ra, hra⟩, ?_⟩
              rw [hk]
              exact gpid_comm a b
            refine ⟨a, b, ra, rb, ?_, ?_, hab, hccold, hk, hi1, hi2, hcnt, hmn⟩
            · rw [updR_other rects id _ a hanid]
              exact hra
            · rw [updR_other rects id _ b hbnid]
              exact hrb
        · intro a b ra rb hra hrb hab hcc hsh
          by_cases haid : a = id
          · subst haid
            rw [updR_same] at hra
            have hraeq : ra = { rect0 with regions := get_regions_by_bounds rect0.bounds, is_updated := false } := (Option.some.inj hra).symm
            have hbnid : b ≠ a := fun he => hab he.symm
            rw [updR_other rects a _ b hbnid] at hrb
            have hb26 : b < 2 ^ 26 := (inv.idrange b rb hrb).2
            have hfb := hfinal b rb hrb hbnid hb26
            have hccT : can_collide rect0.cls rb.cls = true := by
              rw [hraeq] at hcc
              exact hcc
            have hshT : 1 ≤ sharedCount (get_regions_by_bounds rect0.bounds) rb.regions := by
              rw [hraeq] at hsh
              exact hsh
            obtain ⟨pr2, hpr2, -, -⟩ := (hfb.2 hccT).2 hshT
            rw [hpr2]
            exact Option.noConfusion
          · by_cases hbid : b = id
            · subst hbid
              rw [updR_same] at hrb
              have hrbeq : rb = { rect0 with regions := get_regions_by_bounds rect0.bounds, is_updated := false } := (Option.some.inj hrb).symm
              rw [updR_other rects b _ a hab] at hra
              have ha26 : a < 2 ^ 26 := (inv.idrange a ra hra).2
              have hfa := hfinal a ra hra hab ha26
              have hccT : can_collide rect0.cls ra.cls = true := by
                rw [hrbeq] at hcc
                rw [can_collide_comm]
                exact hcc
              have hapk : (activeRegions ra.regions).Nodup := (inv.rpack a ra hra).1
              have hshT : 1 ≤ sharedCount (get_regions_by_bounds rect0.bounds)
                  ra.regions := by
                rw [hrbeq] at hsh
                rw [sharedCount_comm (get_regions_by_bounds rect0.bounds) ra.regions
                  hNnodup hapk]
                exact hsh
              obtain ⟨pr2, hpr2, -, -⟩ := (hfa.2 hccT).2 hshT
              rw [gpid_comm a b, hpr2]
              exact Option.noConfusion
            · rw [updR_other rects id _ a haid] at hra
              rw [updR_other rects id _ b hbid] at hrb
              have ha26 : a < 2 ^ 26 := (inv.idrange a ra hra).2
              have hb26 : b < 2 ^ 26 := (inv.idrange b rb hrb).2
              have hold := inv.pcomplete a b ra rb hra hrb hab hcc hsh
              have hfr2 : lookupA g5.pairs (get_pair_id a b) =
                  lookupA g3.pairs (get_pair_id a b) := by
                refine hframeA (get_pair_id a b) ?_
                intro rg hrg o hob honid he
                have honid2 : o ≠ id := fun he2 => honid (by rw [hrid]; exact he2)
                have hob2 : o ∈ (lookupA (bucketsAddDiff g3.hash
                    (get_regions_by_bounds rect0.bounds) rect0.regions id).1 rg).getD [] :=
                  hob
                rw [hlkA rg, if_pos hrg, harrold rg hrg] at hob2
                have he2 : get_pair_id a b = get_pair_id id o := by
                  rw [← hrid]
                  exact he
                cases hgl : lookupA g.hash rg with
                | none =>
                  rw [hgl] at hob2
                  have h2 : o ∈ [id] := hob2
                  simp at h2
                  exact honid2 h2
                | some bb =>
                  rw [hgl] at hob2
                  have h2 : o ∈ insertSet id bb := hob2
                  rcases (mem_insertSet id o bb).mp h2 with heo | hobb
                  · exact honid2 heo
                  · obtain ⟨ro, hro, hroid, ho26⟩ := F2 rg bb hgl o hobb
                    rcases get_pair_id_inj a b id o ha26 hb26 hid26 ho26 he2 with
                      ⟨he3, he4⟩ | ⟨he3, he4⟩
                    · exact haid he3
                    · exact hbid he4
              have hfr1 : lookupA g3.pairs (get_pair_id a b) =
                  lookupA g.pairs (get_pair_id a b) := by
                refine hframeR (get_pair_id a b) ?_
                intro rg hrg o hob he
                obtain ⟨bb, hbb, hl1⟩ := hdepbk rg hrg
                have hob2 : o ∈ (lookupA h1 rg).getD [] := hob
                rw [hl1] at hob2
                have hob3 : o ∈ removeSet id bb := hob2
                obtain ⟨hobb, honid⟩ := (mem_removeSet id o bb).mp hob3
                obtain ⟨ro, hro, hroid, ho26⟩ := F2 rg bb hbb o hobb
                rcases get_pair_id_inj a b id o ha26 hb26 hid26 ho26 he with
                  ⟨he3, he4⟩ | ⟨he3, he4⟩
                · exact haid he3
                · exact hbid he4
              rw [hfr2, hfr1]
              exact hold
      · intro i hi
        exact updR_other rects id _ i hi
      · exact ⟨{ rect0 with regions := get_regions_by_bounds rect0.bounds, is_updated := false }, updR_same rects id _, rfl, rfl, rfl, rfl⟩
/-- The public grid operations driven by the world: insert a fresh body,
move a live body while marking its record dirty, remove a live body. The
guards encode the caller regime of src/world.rs: ids come from the world
id allocator (fresh and inside the 26 bit range), boxes are in-world and
smaller than one region on each axis, and move and remove target live
ids. -/
inductive GOp where
  | add (id : Nat) (cls : BodyClass) (x y half_width height : Int)
  | move (id : Nat) (bounds : Bounds)
  | remove (id : Nat)

def applyGOp (s : Grid × Rects) : GOp → Option (Grid × Rects)
  | GOp.add id cls x y half_width height =>
    let rect0 := Rect.new id cls x y half_width height
    if 1 ≤ id ∧ id < 2 ^ 26 ∧ s.2 id = none ∧ BOkay rect0.bounds then
      Grid.add s.1 id (updR s.2 id rect0)
    else none
  | GOp.move id bounds =>
    match s.2 id with
    | none => none
    | some r =>
      if BOkay bounds then
        Grid.update s.1 id (updR s.2 id { r with bounds := bounds, is_updated := true })
      else none
  | GOp.remove id =>
    match s.2 id with
    | none => none
    | some r =>
      match Grid.remove s.1 r with
      | none => none
      | some g2 => some (g2, delR s.2 id)

def applyGOps (s : Grid × Rects) : List GOp → Option (Grid × Rects)
  | [] => some s
  | op :: rest =>
    match applyGOp s op with
    | none => none
    | some s2 => applyGOps s2 rest

def emptyGridState : Grid × Rects := (⟨[], []⟩, fun _ => none)

theorem gridInv_empty : GridInv emptyGridState.1 emptyGridState.2 := by
  refine ⟨?_, ?_, ?_, ?_, ?_, ?_, ?_, ?_, ?_, ?_⟩
  · intro i r hr
    exact Option.noConfusion hr
  · intro i r hr
    exact Option.noConfusion hr
  · intro i r hr
    exact Option.noConfusion hr
  · simp [keysA, emptyGridState]
  · intro rg bucket hl
    exact Option.noConfusion hl
  · intro rg bucket hl
    exact Option.noConfusion hl
  · intro i r hr
    exact Option.noConfusion hr
  · simp [keysA, emptyGridState]
  · intro k pr hl
    exact Option.noConfusion hl
  · intro a b ra rb hra
    exact Option.noConfusion hra

/-- One grid operation preserves the broadphase invariant. -/
theorem applyGOp_preserves (s : Grid × Rects) (inv : GridInv s.1 s.2) (op : GOp)
    (s2 : Grid × Rects) (hrun : applyGOp s op = some s2) : GridInv s2.1 s2.2 := by
  cases op with
  | add id cls x y half_width height =>
    unfold applyGOp at hrun
    dsimp only at hrun
    by_cases hg : 1 ≤ id ∧ id < 2 ^ 26 ∧ s.2 id = none ∧
        BOkay (Rect.new id cls x y half_width height).bounds
    · rw [if_pos hg] at hrun
      obtain ⟨hg1, hg2, hg3, hg4⟩ := hg
      have hNid : (Rect.new id cls x y half_width height).id = id := rfl
      obtain ⟨g2, hadd, hinv⟩ := grid_add_preserves s.1 s.2 inv
        (Rect.new id cls x y half_width height)
        (by rw [hNid]; exact hg3) (by rw [hNid]; exact hg1) (by rw [hNid]; exact hg2) hg4
      rw [hNid] at hadd hinv
      rw [hadd] at hrun
      have he := Option.some.inj hrun
      rw [← he]
      exact hinv
    · rw [if_neg hg] at hrun
      exact Option.noConfusion hrun
  | move id bounds =>
    unfold applyGOp at hrun
    dsimp only at hrun
    cases h0 : s.2 id with
    | none =>
      rw [h0] at hrun
      exact Option.noConfusion hrun
    | some r =>
      rw [h0] at hrun
      dsimp only at hrun
      by_cases hBk : BOkay bounds
      · rw [if_pos hBk] at hrun
        have hinv1 : GridInv s.1 (updR s.2 id { r with bounds := bounds, is_updated := true }) :=
          gridInv_updR s.1 s.2 inv id r _ h0 rfl rfl rfl
        obtain ⟨g5, rects2, hupd, hinv2, -, -⟩ :=
          grid_update_preserves s.1 _ hinv1 id { r with bounds := bounds, is_updated := true }
            (updR_same s.2 id _) (by show BOkay bounds; exact hBk)
        rw [hupd] at hrun
        have he := Option.some.inj hrun
        rw [← he]
        exact hinv2
      · rw [if_neg hBk] at hrun
        exact Option.noConfusion hrun
  | remove id =>
    unfold applyGOp at hrun
    dsimp only at hrun
    cases h0 : s.2 id with
    | none =>
      rw [h0] at hrun
      exact Option.noConfusion hrun
    | some r =>
      rw [h0] at hrun
      dsimp only at hrun
      obtain ⟨g2, hrem, hinv2⟩ := grid_remove_preserves s.1 s.2 inv id r h0
      rw [hrem] at hrun
      dsimp only at hrun
      have he := Option.some.inj hrun
      rw [← he]
      exact hinv2

/-- Any successful sequence of grid operations preserves the invariant. -/
theorem applyGOps_preserves (ops : List GOp) :
    ∀ s, GridInv s.1 s.2 → ∀ s2, applyGOps s ops = some s2 → GridInv s2.1 s2.2 := by
  induction ops with
  | nil =>
    intro s hinv s2 hrun
    have he : s = s2 := Option.some.inj hrun
    rw [← he]
    exact hinv
  | cons op rest ih =>
    intro s hinv s2 hrun
    unfold applyGOps at hrun
    cases hop : applyGOp s op with
    | none =>
      rw [hop] at hrun
      exact Option.noConfusion hrun
    | some s1 =>
      rw [hop] at hrun
      exact ih s1 (applyGOp_preserves s hinv op s1 hop) s2 hrun

/-- C1: after any successful sequence of grid add, move and remove
operations starting from the empty broadphase, the bookkeeping invariant
holds; in particular a pair entry for two live bodies exists exactly when
they currently share at least one region and their classes pass the
compatibility filter, and its reference count equals the number of
currently shared regions, so removing the last shared region deletes the
pair. -/
theorem grid_pair_refcount_invariant (ops : List GOp) (s : Grid × Rects)
    (hrun : applyGOps emptyGridState ops = some s) :
    GridInv s.1 s.2 ∧
    ∀ a b ra rb, s.2 a = some ra → s.2 b = some rb → a ≠ b →
      (((lookupA s.1.pairs (get_pair_id a b)).isSome = true) ↔
        (can_collide ra.cls rb.cls = true ∧ 1 ≤ sharedCount ra.regions rb.regions)) ∧
      (∀ pr, lookupA s.1.pairs (get_pair_id a b) = some pr →
        pr.count = sharedCount ra.regions rb.regions) := by
  have hinv : GridInv s.1 s.2 := applyGOps_preserves ops emptyGridState gridInv_empty s hrun
  refine ⟨hinv, ?_⟩
  intro a b ra rb hra hrb hab
  have ha26 : a < 2 ^ 26 := (hinv.idrange a ra hra).2
  have hb26 : b < 2 ^ 26 := (hinv.idrange b rb hrb).2
  have hapk : (activeRegions ra.regions).Nodup := (hinv.rpack a ra hra).1
  have hbpk : (activeRegions rb.regions).Nodup := (hinv.rpack b rb hrb).1
  have hident : ∀ pr, lookupA s.1.pairs (get_pair_id a b) = some pr →
      can_collide ra.cls rb.cls = true ∧
      pr.count = sharedCount ra.regions rb.regions ∧ 1 ≤ pr.count := by
    intro pr hl
    obtain ⟨a0, b0, ra0, rb0, hra0, hrb0, hab0, hcc0, hk0, hi10, hi20, hcnt0, hmn0⟩ :=
      hinv.psound _ _ hl
    have ha026 : a0 < 2 ^ 26 := (hinv.idrange a0 ra0 hra0).2
    have hb026 : b0 < 2 ^ 26 := (hinv.idrange b0 rb0 hrb0).2
    rcases get_pair_id_inj a b a0 b0 ha26 hb26 ha026 hb026 hk0 with
      ⟨he1, he2⟩ | ⟨he1, he2⟩
    · have hraeq : ra0 = ra := by
        rw [← he1, hra] at hra0
        exact (Option.some.inj hra0).symm
      have hrbeq : rb0 = rb := by
        rw [← he2, hrb] at hrb0
        exact (Option.some.inj hrb0).symm
      rw [hraeq, hrbeq] at hcc0 hcnt0
      exact ⟨hcc0, hcnt0, hmn0⟩
    · have hraeq : ra0 = rb := by
        rw [← he2, hrb] at hra0
        exact (Option.some.inj hra0).symm
      have hrbeq : rb0 = ra := by
        rw [← he1, hra] at hrb0
        exact (Option.some.inj hrb0).symm
      rw [hraeq, hrbeq] at hcc0 hcnt0
      rw [can_collide_comm] at hcc0
      rw [sharedCount_comm rb.regions ra.regions hbpk hapk] at hcnt0
      exact ⟨hcc0, hcnt0, hmn0⟩
  refine ⟨⟨?_, ?_⟩, ?_⟩
  · intro hs
    cases hl : lookupA s.1.pairs (get_pair_id a b) with
    | none =>
      rw [hl] at hs
      exact Bool.noConfusion hs
    | some pr =>
      obtain ⟨hcc, hcnt, hmn⟩ := hident pr hl
      refine ⟨hcc, ?_⟩
      rw [← hcnt]
      exact hmn
  · rintro ⟨hcc, hsh⟩
    have hne := hinv.pcomplete a b ra rb hra hrb hab hcc hsh
    cases hl : lookupA s.1.pairs (get_pair_id a b) with
    | none => exact absurd hl hne
    | some pr => rfl
  · intro pr hl
    exact (hident pr hl).2.1

def c1ops : List GOp :=
  [GOp.add 1 BodyClass.Player 100 300 32 208,
   GOp.add 2 BodyClass.Fixed 200 300 32 208]

def c1state : Grid × Rects := (applyGOps emptyGridState c1ops).getD emptyGridState

/-- Witness for C1 on a run that inserts two compatible overlapping-region
bodies. -/
theorem grid_pair_refcount_invariant_witness :
    applyGOps emptyGridState c1ops = some c1state ∧
    (GridInv c1state.1 c1state.2 ∧
    ∀ a b ra rb, c1state.2 a = some ra → c1state.2 b = some rb → a ≠ b →
      (((lookupA c1state.1.pairs (get_pair_id a b)).isSome = true) ↔
        (can_collide ra.cls rb.cls = true ∧ 1 ≤ sharedCount ra.regions rb.regions)) ∧
      (∀ pr, lookupA c1state.1.pairs (get_pair_id a b) = some pr →
        pr.count = sharedCount ra.regions rb.regions)) :=
  ⟨rfl, grid_pair_refcount_invariant c1ops c1state rfl⟩

/-! ### The world (src/world.rs, src/engine.rs, src/body/item.rs)

HashMaps and HashSets become association lists and duplicate-free lists
iterated in insertion order; the elapsed time of a tick becomes an
explicit rational parameter; every unwrap and every todo!() arm becomes an
Option match propagating none.
-/

/-- EventClass from src/engine.rs. -/
inductive EventClass where
  | OutOfWorld
  | Sensor
  | Item
deriving DecidableEq, Repr

/-- Event from src/engine.rs. The Rust field named class is called cls. -/
structure Event where
  cls : EventClass
  body_id : Nat
  trigger_id : Nat
deriving DecidableEq, Repr

/-- PositionUpdate from src/engine.rs. -/
structure PositionUpdate where
  id : Nat
  x : Int
  y : Int
deriving DecidableEq, Repr

def BODY_ITEM_WIDTH : Int := 64
def BODY_ITEM_HALF_WIDTH : Int := BODY_ITEM_WIDTH / 2
def BODY_ITEM_HEIGHT : Int := 64

/-- BodyItem from src/body/item.rs. -/
structure BodyItem where
  x : Int
  y : Int
  move_dir_y : Int
  is_on_ground : Bool
deriving DecidableEq

/-- BodyItem::new from src/body/item.rs. -/
def BodyItem.new (x y : Int) : BodyItem :=
  { x := x, y := y, move_dir_y := 0, is_on_ground := false }

/-- World from src/world.rs. The last_update instant is dropped: the
elapsed time it produces enters tick as an explicit parameter. -/
structure World where
  width : Int
  height : Int
  next_body_id : Nat
  cells : Cells
  grid : Grid
  ids : List Nat
  rects : Rects
  items : List (Nat × BodyItem)
  players : List (Nat × BodyPlayer)
  ids_to_remove : List Nat

/-- World::new from src/world.rs. -/
def World.new (width_blocks height_blocks : Int) : World :=
  { width := width_blocks * BLOCK_SIZE, height := height_blocks * BLOCK_SIZE,
    next_body_id := 0, cells := Cells.new width_blocks height_blocks,
    grid := ⟨[], []⟩, ids := [], rects := fun _ => none, items := [],
    players := [], ids_to_remove := [] }

/-- One iteration of World::step_clear: a dead id is skipped, a live one
has its record removed, its typed body dropped (any class other than
Player or Item is the todo!() panic, modelled as none), its grid presence
deregistered and its id retired. -/
def stepClearBody (w : World) (id : Nat) : Option World :=
  match w.rects id with
  | none => some w
  | some rect =>
    let w1 := { w with rects := delR w.rects id }
    match rect.cls with
    | BodyClass.Player =>
      let w2 := { w1 with players := eraseA w1.players id }
      match Grid.remove w2.grid rect with
      | none => none
      | some g2 =>
        some { w2 with grid := g2, rects := delR w2.rects id, ids := removeSet id w2.ids }
    | BodyClass.Item =>
      let w2 := { w1 with items := eraseA w1.items id }
      match Grid.remove w2.grid rect with
      | none => none
      | some g2 =>
        some { w2 with grid := g2, rects := delR w2.rects id, ids := removeSet id w2.ids }
    | _ => none

def stepClearGo (w : World) : List Nat → Option World
  | [] => some w
  | id :: rest =>
    match stepClearBody w id with
    | none => none
    | some w2 => stepClearGo w2 rest

/-- World::step_clear from src/world.rs. -/
def stepClear (w : World) : Option World :=
  match stepClearGo w w.ids_to_remove with
  | none => none
  | some w2 => some { w2 with ids_to_remove := [] }

/-- The out-of-world test of update_positions_typed from src/engine.rs. -/
def outOfWorld (b : Bounds) (width height : Int) : Prop :=
  b.min_x < 0 ∨ b.max_x > width ∨ b.min_y < 0 ∨ b.max_y > height

instance (b : Bounds) (width height : Int) : Decidable (outOfWorld b width height) := by
  unfold outOfWorld
  infer_instance

/-- update_positions_typed from src/engine.rs, at the only type it is
called with (players): integrate every player and queue the ones whose box
left the world, emitting one OutOfWorld event each. -/
def updPosGo (delta : ℚ) (width height : Int) :
    List (Nat × BodyPlayer) → Rects → List Nat → List Event →
    Option (List (Nat × BodyPlayer) × Rects × List Nat × List Event)
  | [], rects, itr, evs => some ([], rects, itr, evs)
  | (id, body) :: rest, rects, itr, evs =>
    match rects id with
    | none => none
    | some rect =>
      let br := BodyPlayer.update body delta rect
      let rects2 := updR rects id br.2
      let itr2 := if outOfWorld br.2.bounds width height then insertSet id itr else itr
      let evs2 := if outOfWorld br.2.bounds width height then
          evs ++ [Event.mk EventClass.OutOfWorld id 0] else evs
      match updPosGo delta width height rest rects2 itr2 evs2 with
      | none => none
      | some (players2, rects3, itr3, evs3) =>
        some ((id, br.1) :: players2, rects3, itr3, evs3)

/-- World::step_broadphase from src/world.rs: refresh the grid entry of
every live id. -/
def broadGo : Grid → Rects → List Nat → Option (Grid × Rects)
  | g, rects, [] => some (g, rects)
  | g, rects, id :: rest =>
    match Grid.update g id rects with
    | none => none
    | some (g2, rects2) => broadGo g2 rects2 rest

/-- World::step_detect from src/world.rs: walk the pair table, look up both
records (unwraps), test the box overlap, and emit sensor and item events
per the class analysis of the source. -/
def detectGo (rects : Rects) : List (PairId × Pair) → List Event → Option (List Event)
  | [], evs => some evs
  | (_, pair) :: rest, evs =>
    match rects pair.id1, rects pair.id2 with
    | some rect1, some rect2 =>
      let inter := get_bounds_intersection rect1.bounds rect2.bounds
      if inter.x ≤ 0 ∨ inter.y ≤ 0 then detectGo rects rest evs
      else
        match (match rect1.cls with
               | BodyClass.Sensor =>
                 some (evs ++ [Event.mk EventClass.Sensor rect2.id rect1.id])
               | BodyClass.Item =>
                 match rect2.cls with
                 | BodyClass.Player =>
                   some (evs ++ [Event.mk EventClass.Item rect2.id rect1.id])
                 | _ => none
               | _ => none) with
        | some evs2 => detectGo rects rest evs2
        | none =>
          match rect2.cls with
          | BodyClass.Sensor =>
            detectGo rects rest (evs ++ [Event.mk EventClass.Sensor rect1.id rect2.id])
          | BodyClass.Item =>
            match rect1.cls with
            | BodyClass.Player =>
              detectGo rects rest (evs ++ [Event.mk EventClass.Item rect1.id rect2.id])
            | _ => detectGo rects rest evs
          | _ => detectGo rects rest evs
    | _, _ => none

/-- The scan window of update_correct_players: all cells touched by the
box, x outer and y inner, edges shifted right by seven bits. -/
def scanCells (b : Bounds) : List (Int × Int) :=
  (intRangeIncl (b.min_x / 128) (b.max_x / 128)).flatMap
    (fun xc => (intRangeIncl (b.min_y / 128) (b.max_y / 128)).map (fun yc => (xc, yc)))

/-- The per-cell body of the correction loop of update_correct_players
from src/engine.rs, folding the largest-magnitude correction per axis. -/
def corrCells (cells : Cells) (rb : Bounds) (body : BodyPlayer) :
    List (Int × Int) → Vector → Option Vector
  | [], corr => some corr
  | (x_cell, y_cell) :: rest, corr =>
    match Cells.is_block cells x_cell y_cell with
    | none => none
    | some false => corrCells cells rb body rest corr
    | some true =>
      let x := x_cell * BLOCK_SIZE
      let y := y_cell * BLOCK_SIZE
      let bb : Bounds := ⟨x, x + BLOCK_SIZE, y, y + BLOCK_SIZE⟩
      let inter := get_bounds_intersection rb bb
      if inter.x ≤ 0 ∨ inter.y ≤ 0 then corrCells cells rb body rest corr
      else
        let cy1 := if rb.max_y < bb.max_y then -inter.y else inter.y
        let cx1 := if body.x < x + BLOCK_HALF_SIZE then -inter.x else inter.x
        let prev_bounds : Bounds :=
          ⟨body.prev_x - BODY_PLAYER_HALF_WIDTH, body.prev_x + BODY_PLAYER_HALF_WIDTH,
           body.prev_y - BODY_PLAYER_HEIGHT, body.prev_y⟩
        let pinter := get_bounds_intersection prev_bounds bb
        let cpair : Int × Int :=
          if 0 < pinter.x then (0, cy1)
          else if 0 < pinter.y then (cx1, 0)
          else ((if body.force_x ≠ 0 then 0 else cx1),
                (if body.is_fall = true ∨ body.is_jump = true then 0 else cy1))
        let corr2 : Vector :=
          ⟨if corr.x.natAbs < (cpair.1).natAbs then cpair.1 else corr.x,
           if corr.y.natAbs < (cpair.2).natAbs then cpair.2 else corr.y⟩
        corrCells cells rb body rest corr2

/-- The per-player body of update_correct_players: compute the correction,
skip when zero, otherwise update the kinematic state and move body and box
together. -/
def correctPlayer (cells : Cells) (rects : Rects) (id : Nat) (body : BodyPlayer) :
    Option (Rects × BodyPlayer) :=
  match rects id with
  | none => none
  | some rect =>
    match corrCells cells rect.bounds body (scanCells rect.bounds) ⟨0, 0⟩ with
    | none => none
    | some corr =>
      if corr.x = 0 ∧ corr.y = 0 then some (rects, body)
      else
        let body1 := body.update_correction corr
        let new_x := body1.x + corr.x
        let new_y := body1.y + corr.y
        let body2 := { body1 with x := new_x, y := new_y }
        let rect2 := { rect with bounds :=
          ⟨new_x - BODY_PLAYER_HALF_WIDTH, new_x + BODY_PLAYER_HALF_WIDTH,
           new_y - BODY_PLAYER_HEIGHT, new_y⟩ }
        some (updR rects id rect2, body2)

/-- update_correct_players from src/engine.rs over the player list. -/
def correctGo (cells : Cells) : Rects → List (Nat × BodyPlayer) →
    Option (Rects × List (Nat × BodyPlayer))
  | rects, [] => some (rects, [])
  | rects, (id, body) :: rest =>
    match correctPlayer cells rects id body with
    | none => none
    | some (rects2, body2) =>
      match correctGo cells rects2 rest with
      | none => none
      | some (rects3, players3) => some (rects3, (id, body2) :: players3)

/-- World::step_finish from src/world.rs: run after_update on every
player, and for the ones that moved this tick emit a position delta,
realign the previous position and resync the record box (an unwrap). -/
def finishGo : Rects → List (Nat × BodyPlayer) → List PositionUpdate →
    Option (List (Nat × BodyPlayer) × Rects × List PositionUpdate)
  | rects, [], acc => some ([], rects, acc)
  | rects, (id, body) :: rest, acc =>
    let body1 := body.after_update
    if body1.x = body1.prev_x ∧ body1.y = body1.prev_y then
      match finishGo rects rest acc with
      | none => none
      | some (players2, rects2, acc2) => some ((id, body1) :: players2, rects2, acc2)
    else
      match rects id with
      | none => none
      | some rect =>
        let acc1 := acc ++ [PositionUpdate.mk id body1.x body1.y]
        let body2 := { body1 with prev_x := body1.x, prev_y := body1.y }
        let rect2 := body2.update_rect rect
        match finishGo (updR rects id rect2) rest acc1 with
        | none => none
        | some (players2, rects2, acc2) => some ((id, body2) :: players2, rects2, acc2)

/-- World::_update from src/world.rs: flush deferred removals, integrate,
flush again, refresh the broadphase, detect, correct, and finish; the
elapsed time is the delta parameter. -/
def World.tick (w : World) (delta : ℚ) :
    Option (World × List Event × List PositionUpdate) :=
  match (if w.ids_to_remove = [] then some w else stepClear w) with
  | none => none
  | some w1 =>
    match updPosGo delta w1.width w1.height w1.players w1.rects w1.ids_to_remove [] with
    | none => none
    | some (players2, rects2, itr2, evs2) =>
      let w2 := { w1 with players := players2, rects := rects2, ids_to_remove := itr2 }
      match (if w2.ids_to_remove = [] then some w2 else stepClear w2) with
      | none => none
      | some w3 =>
        match broadGo w3.grid w3.rects w3.ids with
        | none => none
        | some (g4, rects4) =>
          let w4 := { w3 with grid := g4, rects := rects4 }
          match detectGo w4.rects w4.grid.pairs evs2 with
          | none => none
          | some evs5 =>
            match correctGo w4.cells w4.rects w4.players with
            | none => none
            | some (rects6, players6) =>
              let w6 := { w4 with rects := rects6, players := players6 }
              match finishGo w6.rects w6.players [] with
              | none => none
              | some (players7, rects7, pos) =>
                some ({ w6 with players := players7, rects := rects7 }, evs5, pos)

/-- World::player_create from src/body/player.rs. -/
def World.player_create (w : World) (x y : Int) : Option (World × Nat) :=
  let id := w.next_body_id + 1
  let w0 := { w with next_body_id := id }
  let rects1 := updR w0.rects id
    (Rect.new id BodyClass.Player x y BODY_PLAYER_HALF_WIDTH BODY_PLAYER_HEIGHT)
  match Grid.add w0.grid id rects1 with
  | none => none
  | some (g2, rects2) =>
    some ({ w0 with grid := g2, rects := rects2, players := (id, BodyPlayer.new x y) :: w0.players, ids := insertSet id w0.ids }, id)

/-- World::item_create from src/body/item.rs. -/
def World.item_create (w : World) (x y : Int) : Option (World × Nat) :=
  let id := w.next_body_id + 1
  let w0 := { w with next_body_id := id }
  let rects1 := updR w0.rects id
    (Rect.new id BodyClass.Item x y BODY_ITEM_HALF_WIDTH BODY_ITEM_HEIGHT)
  match Grid.add w0.grid id rects1 with
  | none => none
  | some (g2, rects2) =>
    some ({ w0 with grid := g2, rects := rects2, items := (id, BodyItem.new x y) :: w0.items, ids := insertSet id w0.ids }, id)

/-- World::player_run from src/body/player.rs: a missing id is ignored. -/
def World.player_run (w : World) (id : Nat) (direction : Direction) : World :=
  match lookupA w.players id with
  | none => w
  | some p => { w with players := setA w.players id (p.run direction) }

/-- World::player_jump from src/body/player.rs: a missing id is ignored. -/
def World.player_jump (w : World) (id : Nat) : World :=
  match lookupA w.players id with
  | none => w
  | some p => { w with players := setA w.players id (p.jump) }

/-- World::block_create from src/body/block.rs lifted to the world. -/
def World.block_create (w : World) (x y : Int) : Option (World × Nat) :=
  match PhysRs.block_create w.cells x y with
  | none => none
  | some (c2, id) => some ({ w with cells := c2 }, id)

/-! ### Shape lemmas for the per-tick world pipeline -/

/-- The box of a player body: fixed extents around the logical position. -/
def playerBox (x y : Int) : Bounds :=
  ⟨x - BODY_PLAYER_HALF_WIDTH, x + BODY_PLAYER_HALF_WIDTH, y - BODY_PLAYER_HEIGHT, y⟩

theorem update_rect_eq (p : BodyPlayer) (rect : Rect) :
    BodyPlayer.update_rect p rect = { rect with bounds := playerBox p.x p.y } := rfl

/-- Each statement of the integration chain leaves the rect alone or only
sets its dirty flag. -/
def RKeep (r rc : Rect) : Prop := rc = r ∨ rc = { r with is_updated := true }

theorem rkeep_dirty {r rc : Rect} (h : RKeep r rc) :
    ({ rc with is_updated := true } : Rect) = { r with is_updated := true } := by
  rcases h with rfl | rfl
  · rfl
  · rfl

theorem rkeep_updGround {r : Rect} (s : BodyPlayer × Rect) (h : RKeep r s.2) :
    RKeep r (updGround s).2 := by
  unfold updGround
  split
  · exact Or.inr (rkeep_dirty h)
  · exact h

theorem rkeep_updForce {r : Rect} (delta : ℚ) (s : BodyPlayer × Rect) (h : RKeep r s.2) :
    RKeep r (updForce delta s).2 := by
  unfold updForce
  split
  · exact Or.inr (rkeep_dirty h)
  · exact h

theorem rkeep_updJump {r : Rect} (delta : ℚ) (s : BodyPlayer × Rect) (h : RKeep r s.2) :
    RKeep r (updJump delta s).2 := by
  unfold updJump
  split
  · exact Or.inr (rkeep_dirty h)
  · exact h

theorem rkeep_updFall {r : Rect} (delta : ℚ) (s : BodyPlayer × Rect) (h : RKeep r s.2) :
    RKeep r (updFall delta s).2 := by
  unfold updFall
  split
  · exact Or.inr (rkeep_dirty h)
  · exact h

/-- The final statement of the integration: rebuild the box iff the rect
ended dirty. -/
theorem update_cases_aux (s : BodyPlayer × Rect) (r : Rect) (h : RKeep r s.2) :
    ∃ q : BodyPlayer,
      (if s.2.is_updated = true then (s.1, s.1.update_rect s.2) else s) = (q, r) ∨
      (if s.2.is_updated = true then (s.1, s.1.update_rect s.2) else s) =
        (q, { r with bounds := playerBox q.x q.y, is_updated := true }) := by
  obtain ⟨s1, sr⟩ := s
  dsimp only at h ⊢
  rcases h with h | h
  · rw [h]
    by_cases hu : r.is_updated = true
    · rw [if_pos hu, update_rect_eq]
      refine ⟨s1, Or.inr ?_⟩
      rcases r with ⟨rid, rcls, rb, rreg, ru⟩
      cases hu
      rfl
    · rw [if_neg hu]
      exact ⟨s1, Or.inl rfl⟩
  · rw [h, if_pos rfl, update_rect_eq]
    exact ⟨s1, Or.inr rfl⟩

/-- Integration either returns the given rect unchanged or returns it with
the dirty flag set and the box recomputed from the new body position; in
both cases the id, class and region array survive. -/
theorem update_cases (p : BodyPlayer) (delta : ℚ) (r : Rect) :
    ∃ q : BodyPlayer, BodyPlayer.update p delta r = (q, r) ∨
      BodyPlayer.update p delta r =
        (q, { r with bounds := playerBox q.x q.y, is_updated := true }) := by
  have h0 : RKeep r (({ p with current_tick_corrected := false } : BodyPlayer), r).2 :=
    Or.inl rfl
  have h2 := rkeep_updForce delta _ (rkeep_updGround _ h0)
  have h2b : RKeep r
      (((updForce delta (updGround ({ p with current_tick_corrected := false }, r))).1,
        (updForce delta (updGround ({ p with current_tick_corrected := false }, r))).2) :
        BodyPlayer × Rect).2 := h2
  have h5 := rkeep_updFall delta _ (rkeep_updJump delta
    ({ (updForce delta (updGround ({ p with current_tick_corrected := false }, r))).1
        with move_dir_y := 0 },
     (updForce delta (updGround ({ p with current_tick_corrected := false }, r))).2) h2b)
  exact update_cases_aux _ r h5

/-- A box that passed the out-of-world test after integration is inside the
regime of the broadphase grid. -/
theorem bokay_of_not_oow (x y width height : Int)
    (h : ¬ outOfWorld (playerBox x y) width height) : BOkay (playerBox x y) := by
  unfold outOfWorld at h
  push_neg at h
  unfold BOkay playerBox BODY_PLAYER_HALF_WIDTH BODY_PLAYER_WIDTH BODY_PLAYER_HEIGHT at *
  dsimp only at *
  omega

/-- Grid::update is a no-op on a clean rect. -/
theorem grid_update_clean (g : Grid) (id : Nat) (rects : Rects) (r : Rect)
    (h : rects id = some r) (hc : r.is_updated = false) :
    Grid.update g id rects = some (g, rects) := by
  unfold Grid.update
  rw [h]
  dsimp only
  rw [if_pos hc]

theorem delR_delR (rects : Rects) (id : Nat) :
    delR (delR rects id) id = delR rects id := by
  funext i
  unfold delR
  split
  · rfl
  · rfl

theorem cellsWF_new (width height : Int) (h0 : 0 ≤ width) (h1 : 0 ≤ height)
    (h2 : width * height < 2 ^ 24) : CellsWF (Cells.new width height) := by
  unfold CellsWF Cells.new TARGET_BITS
  dsimp only
  rw [List.length_replicate]
  have hwh : 0 ≤ width * height := mul_nonneg h0 h1
  have htn : ((width * height).toNat : Int) = width * height := Int.toNat_of_nonneg hwh
  refine ⟨h0, h1, ?_, ?_, lt_trans h2 (by norm_num)⟩ <;>
  · rw [← htn]
    have : (width * height).toNat ≤ 64 * (((width * height).toNat + 64 - 1) / 64) := by
      omega
    exact_mod_cast this

theorem cellsWF_set_block (c : Cells) (x y : Int) (state : Bool) (c2 : Cells)
    (hwf : CellsWF c) (h : c.set_block x y state = some c2) : CellsWF c2 := by
  unfold Cells.set_block at h
  dsimp only at h
  rcases hb : c.busy[intToUsize (y * c.width + x) / TARGET_BITS]? with _ | bw <;>
    rcases hk : c.blocks[intToUsize (y * c.width + x) / TARGET_BITS]? with _ | kw <;>
      rw [hb, hk] at h <;> dsimp only at h
  · exact Option.noConfusion h
  · exact Option.noConfusion h
  · exact Option.noConfusion h
  · rcases hwf with ⟨hw, hh, hbl, hkl, hsz⟩
    cases state
    · rw [if_neg (by simp)] at h
      have h2 := (Option.some.inj h).symm
      subst h2
      exact ⟨hw, hh, by simpa using hbl, by simpa using hkl, hsz⟩
    · rw [if_pos rfl] at h
      have h2 := (Option.some.inj h).symm
      subst h2
      exact ⟨hw, hh, by simpa using hbl, by simpa using hkl, hsz⟩

/-- The structural well-formedness of a world state, maintained at every
point of the tick pipeline: the broadphase invariant, the id set mirroring
the record map, duplicate-free body maps whose entries carry live records
of the right class, every record owned by exactly one typed body map, id
allocation below the counter, and a coherent cell store. -/
structure WfW (w : World) : Prop where
  ginv : GridInv w.grid w.rects
  idsnd : w.ids.Nodup
  idsdom : ∀ i, i ∈ w.ids ↔ (w.rects i).isSome = true
  pkeys : (keysA w.players).Nodup
  ikeys : (keysA w.items).Nodup
  pdom : ∀ i p, lookupA w.players i = some p →
    ∃ r, w.rects i = some r ∧ r.cls = BodyClass.Player
  idom : ∀ i b, lookupA w.items i = some b →
    ∃ r, w.rects i = some r ∧ r.cls = BodyClass.Item
  rdom : ∀ i r, w.rects i = some r →
    (r.cls = BodyClass.Player ∧ (lookupA w.players i).isSome = true) ∨
    (r.cls = BodyClass.Item ∧ (lookupA w.items i).isSome = true)
  idhi : ∀ i ∈ w.ids, i ≤ w.next_body_id
  cwf : CellsWF w.cells

/-- The rest-state invariant of a world between public operations: well
formed, no deferred removals pending, and no rect left dirty. -/
def InvW (w : World) : Prop :=
  WfW w ∧ w.ids_to_remove = [] ∧ ∀ i r, w.rects i = some r → r.is_updated = false

/-- The effect of the integration loop: it succeeds on live entries,
keeps the broadphase invariant (each record is replaced in place), keeps
the key set, flags exactly the out-of-world entries for removal with one
OutOfWorld event each, and leaves every foreign record alone. -/
theorem updPosGo_spec (delta : ℚ) (width height : Int) :
    ∀ (ps : List (Nat × BodyPlayer)) (rects : Rects) (g : Grid)
      (itr : List Nat) (evs : List Event),
      (keysA ps).Nodup →
      (∀ ip ∈ ps, (rects ip.1).isSome = true) →
      GridInv g rects →
      itr.Nodup →
      (∀ i ∈ keysA ps, i ∉ itr) →
      ∃ (ps2 : List (Nat × BodyPlayer)) (rects2 : Rects) (itr2 rem : List Nat),
        updPosGo delta width height ps rects itr evs =
          some (ps2, rects2, itr2,
            evs ++ rem.map (fun i => Event.mk EventClass.OutOfWorld i 0)) ∧
        GridInv g rects2 ∧
        keysA ps2 = keysA ps ∧
        itr2.Nodup ∧
        (∀ i, i ∈ itr2 ↔ i ∈ itr ∨ i ∈ rem) ∧
        rem.Nodup ∧
        (∀ i ∈ rem, i ∈ keysA ps) ∧
        (∀ i, i ∉ keysA ps → rects2 i = rects i) ∧
        (∀ i p0, lookupA ps i = some p0 → ∃ r0, rects i = some r0 ∧
          lookupA ps2 i = some (BodyPlayer.update p0 delta r0).1 ∧
          rects2 i = some (BodyPlayer.update p0 delta r0).2 ∧
          (i ∈ rem ↔ outOfWorld (BodyPlayer.update p0 delta r0).2.bounds width height))
  | [], rects, g, itr, evs, hnd, hlive, hinv, hitrnd, hdisj => by
    refine ⟨[], rects, itr, [], by simp [updPosGo], hinv, rfl, hitrnd, by simp,
      by simp, by simp, fun i _ => rfl, ?_⟩
    intro i p0 h
    simp [lookupA] at h
  | (id, body) :: rest, rects, g, itr, evs, hnd, hlive, hinv, hitrnd, hdisj => by
    have hid_live := hlive (id, body) (List.mem_cons_self _ _)
    rcases hrect : rects id with _ | rect
    · rw [hrect] at hid_live
      simp at hid_live
    have hkc : keysA ((id, body) :: rest) = id :: keysA rest := rfl
    have hnd2 : id ∉ keysA rest ∧ (keysA rest).Nodup := by
      rw [hkc] at hnd
      exact List.nodup_cons.mp hnd
    obtain ⟨q, hcase⟩ := update_cases body delta rect
    have hinv2 : GridInv g (updR rects id (BodyPlayer.update body delta rect).2) := by
      rcases hcase with hc | hc
      · rw [hc]
        exact gridInv_updR g rects hinv id rect rect hrect rfl rfl rfl
      · rw [hc]
        exact gridInv_updR g rects hinv id rect _ hrect rfl rfl rfl
    have hlive2 : ∀ ip ∈ rest,
        ((updR rects id (BodyPlayer.update body delta rect).2) ip.1).isSome = true := by
      intro ip hip
      have hne : ip.1 ≠ id := by
        intro he
        exact hnd2.1 (he ▸ List.mem_map_of_mem Prod.fst hip)
      rw [updR_other rects id _ ip.1 hne]
      exact hlive ip (List.mem_cons_of_mem _ hip)
    by_cases hoow : outOfWorld (BodyPlayer.update body delta rect).2.bounds width height
    · have hidnotitr : id ∉ itr := hdisj id (by rw [hkc]; exact List.mem_cons_self _ _)
      have hins : insertSet id itr = id :: itr := by
        unfold insertSet
        rw [if_neg hidnotitr]
      have hitrnd2 : (id :: itr).Nodup := List.nodup_cons.mpr ⟨hidnotitr, hitrnd⟩
      have hdisj2 : ∀ i ∈ keysA rest, i ∉ (id :: itr) := by
        intro i hi
        rw [List.mem_cons]
        push_neg
        refine ⟨fun he => hnd2.1 (he ▸ hi), hdisj i ?_⟩
        rw [hkc]
        exact List.mem_cons_of_mem _ hi
      obtain ⟨ps2, rects2, itr2, rem, heq, hinv3, hkeys, hitr2nd, hitr2mem, hremnd,
          hremsub, hframe, hpt⟩ :=
        updPosGo_spec delta width height rest
          (updR rects id (BodyPlayer.update body delta rect).2) g (id :: itr)
          (evs ++ [Event.mk EventClass.OutOfWorld id 0]) hnd2.2 hlive2 hinv2 hitrnd2 hdisj2
      refine ⟨(id, (BodyPlayer.update body delta rect).1) :: ps2, rects2, itr2, id :: rem,
        ?_, hinv3, ?_, hitr2nd, ?_, ?_, ?_, ?_, ?_⟩
      · show updPosGo delta width height ((id, body) :: rest) rects itr evs = _
        unfold updPosGo
        rw [hrect]
        dsimp only
        rw [if_pos hoow, if_pos hoow, hins, heq]
        simp
      · show id :: keysA ps2 = id :: keysA rest
        rw [hkeys]
      · intro i
        rw [hitr2mem, List.mem_cons, List.mem_cons]
        tauto
      · exact List.nodup_cons.mpr ⟨fun hm => hnd2.1 (hremsub id hm), hremnd⟩
      · intro i hi
        rw [hkc]
        rcases List.mem_cons.mp hi with rfl | hi2
        · exact List.mem_cons_self _ _
        · exact List.mem_cons_of_mem _ (hremsub i hi2)
      · intro i hi
        have hi1 : i ≠ id := by
          intro he
          exact hi (by rw [hkc, he]; exact List.mem_cons_self _ _)
        have hi2 : i ∉ keysA rest := by
          intro hm
          exact hi (by rw [hkc]; exact List.mem_cons_of_mem _ hm)
        rw [hframe i hi2, updR_other rects id _ i hi1]
      · intro i p0 hlk
        rw [lookupA_cons] at hlk
        by_cases hie : id = i
        · subst hie
          rw [if_pos rfl] at hlk
          have hp0 : p0 = body := (Option.some.inj hlk).symm
        
          subst hp0
          refine ⟨rect, hrect, ?_, ?_, ?_⟩
          · rw [lookupA_cons, if_pos rfl]
          · rw [hframe id hnd2.1, updR_same]
          · constructor
            · intro _
              exact hoow
            · intro _
              exact List.mem_cons_self _ _
        · rw [if_neg hie] at hlk
          obtain ⟨r0, hr0, hl2, hr2, hiff⟩ := hpt i p0 hlk
          have hne : i ≠ id := fun he => hie he.symm
          rw [updR_other rects id _ i hne] at hr0
          refine ⟨r0, hr0, ?_, hr2, ?_⟩
          · rw [lookupA_cons, if_neg hie]
            exact hl2
          · rw [List.mem_cons]
            constructor
            · rintro (he | hm)
              · exact absurd he hne
              · exact hiff.mp hm
            · intro ho
              exact Or.inr (hiff.mpr ho)
    · obtain ⟨ps2, rects2, itr2, rem, heq, hinv3, hkeys, hitr2nd, hitr2mem, hremnd,
          hremsub, hframe, hpt⟩ :=
        updPosGo_spec delta width height rest
          (updR rects id (BodyPlayer.update body delta rect).2) g itr evs hnd2.2 hlive2
          hinv2 hitrnd
          (fun i hi => hdisj i (by rw [hkc]; exact List.mem_cons_of_mem _ hi))
      refine ⟨(id, (BodyPlayer.update body delta rect).1) :: ps2, rects2, itr2, rem,
        ?_, hinv3, ?_, hitr2nd, hitr2mem, hremnd, ?_, ?_, ?_⟩
      · show updPosGo delta width height ((id, body) :: rest) rects itr evs = _
        unfold updPosGo
        rw [hrect]
        dsimp only
        rw [if_neg hoow, if_neg hoow, heq]
      · show id :: keysA ps2 = id :: keysA rest
        rw [hkeys]
      · intro i hi
        rw [hkc]
        exact List.mem_cons_of_mem _ (hremsub i hi)
      · intro i hi
        have hi1 : i ≠ id := by
          intro he
          exact hi (by rw [hkc, he]; exact List.mem_cons_self _ _)
        have hi2 : i ∉ keysA rest := by
          intro hm
          exact hi (by rw [hkc]; exact List.mem_cons_of_mem _ hm)
        rw [hframe i hi2, updR_other rects id _ i hi1]
      · intro i p0 hlk
        rw [lookupA_cons] at hlk
        by_cases hie : id = i
        · subst hie
          rw [if_pos rfl] at hlk
          have hp0 : p0 = body := (Option.some.inj hlk).symm
          subst hp0
          refine ⟨rect, hrect, ?_, ?_, ?_⟩
          · rw [lookupA_cons, if_pos rfl]
          · rw [hframe id hnd2.1, updR_same]
          · constructor
            · intro hm
              exact absurd (hremsub id hm) hnd2.1
            · intro ho
              exact absurd ho hoow
        · rw [if_neg hie] at hlk
          obtain ⟨r0, hr0, hl2, hr2, hiff⟩ := hpt i p0 hlk
          have hne : i ≠ id := fun he => hie he.symm
          rw [updR_other rects id _ i hne] at hr0
          refine ⟨r0, hr0, ?_, hr2, hiff⟩
          rw [lookupA_cons, if_neg hie]
          exact hl2

/-- One deferred removal: on a well-formed world whose target, if live, is
a player, the iteration succeeds and erases the body from the record map,
the player map, the id set and the whole broadphase index. -/
theorem stepClearBody_spec (w : World) (hwf : WfW w) (id : Nat)
    (hP : ∀ r, w.rects id = some r → r.cls = BodyClass.Player) :
    ∃ w2, stepClearBody w id = some w2 ∧ WfW w2 ∧
      w2.width = w.width ∧ w2.height = w.height ∧ w2.cells = w.cells ∧
      w2.next_body_id = w.next_body_id ∧ w2.ids_to_remove = w.ids_to_remove ∧
      w2.items = w.items ∧
      w2.rects id = none ∧ lookupA w2.players id = none ∧ id ∉ w2.ids ∧
      (∀ i, i ≠ id → w2.rects i = w.rects i ∧
        lookupA w2.players i = lookupA w.players i ∧ (i ∈ w2.ids ↔ i ∈ w.ids)) := by
  rcases h0 : w.rects id with _ | rect
  · refine ⟨w, ?_, hwf, rfl, rfl, rfl, rfl, rfl, rfl, h0, ?_, ?_, fun i _ => ⟨rfl, rfl, Iff.rfl⟩⟩
    · unfold stepClearBody
      rw [h0]
    · rcases hl : lookupA w.players id with _ | p
      · rfl
      · obtain ⟨r, hr, -⟩ := hwf.pdom id p hl
        rw [h0] at hr
        exact Option.noConfusion hr
    · intro hm
      have := (hwf.idsdom id).mp hm
      rw [h0] at this
      simp at this
  · have hcls : rect.cls = BodyClass.Player := hP rect h0
    obtain ⟨g2, hrem, hinv2⟩ := grid_remove_preserves w.grid w.rects hwf.ginv id rect h0
    refine ⟨{ w with rects := delR (delR w.rects id) id, players := eraseA w.players id, grid := g2, ids := removeSet id w.ids }, ?_, ?_, rfl, rfl, rfl, rfl, rfl, rfl, ?_, ?_, ?_, ?_⟩
    · unfold stepClearBody
      rw [h0]
      dsimp only
      rw [hcls]
      dsimp only
      rw [hrem]
    · constructor
      · show GridInv g2 (delR (delR w.rects id) id)
        rw [delR_delR]
        exact hinv2
      · exact nodup_removeSet id w.ids hwf.idsnd
      · intro i
        show i ∈ removeSet id w.ids ↔ ((delR (delR w.rects id) id) i).isSome = true
        rw [delR_delR, mem_removeSet]
        by_cases hi : i = id
        · subst hi
          rw [delR_same]
          simp
        · rw [delR_other w.rects id i hi]
          rw [hwf.idsdom i]
          simp [hi]
      · exact nodupKeys_eraseA w.players id hwf.pkeys
      · exact hwf.ikeys
      · intro i p hl
        show ∃ r, (delR (delR w.rects id) id) i = some r ∧ r.cls = BodyClass.Player
        rw [delR_delR]
        rw [lookupA_eraseA] at hl
        by_cases hi : i = id
        · rw [if_pos hi] at hl
          exact Option.noConfusion hl
        · rw [if_neg hi] at hl
          rw [delR_other w.rects id i hi]
          exact hwf.pdom i p hl
      · intro i b hl
        show ∃ r, (delR (delR w.rects id) id) i = some r ∧ r.cls = BodyClass.Item
        rw [delR_delR]
        obtain ⟨r, hr, hrc⟩ := hwf.idom i b hl
        have hi : i ≠ id := by
          intro he
          rw [he, h0] at hr
          have := Option.some.inj hr
          rw [← this] at hrc
          rw [hcls] at hrc
          exact BodyClass.noConfusion hrc
        rw [delR_other w.rects id i hi]
        exact ⟨r, hr, hrc⟩
      · intro i r hr
        have hr2 : (delR (delR w.rects id) id) i = some r := hr
        rw [delR_delR] at hr2
        by_cases hi : i = id
        · rw [hi, delR_same] at hr2
          exact Option.noConfusion hr2
        · rw [delR_other w.rects id i hi] at hr2
          rcases hwf.rdom i r hr2 with ⟨hc, hs⟩ | ⟨hc, hs⟩
          · left
            refine ⟨hc, ?_⟩
            show (lookupA (eraseA w.players id) i).isSome = true
            rw [lookupA_eraseA, if_neg hi]
            exact hs
          · exact Or.inr ⟨hc, hs⟩
      · intro i hm
        have := (mem_removeSet id i w.ids).mp hm
        exact hwf.idhi i this.1
      · exact hwf.cwf
    · show (delR (delR w.rects id) id) id = none
      rw [delR_delR, delR_same]
    · show lookupA (eraseA w.players id) id = none
      rw [lookupA_eraseA, if_pos rfl]
    · intro hm
      have := (mem_removeSet id id w.ids).mp hm
      exact this.2 rfl
    · intro i hi
      refine ⟨?_, ?_, ?_⟩
      · show (delR (delR w.rects id) id) i = w.rects i
        rw [delR_delR, delR_other w.rects id i hi]
      · show lookupA (eraseA w.players id) i = lookupA w.players i
        rw [lookupA_eraseA, if_neg hi]
      · show i ∈ removeSet id w.ids ↔ i ∈ w.ids
        rw [mem_removeSet]
        simp [hi]

/-- The whole removal loop: all listed ids vanish from every structure,
everything else is untouched. -/
theorem stepClearGo_spec :
    ∀ (rem : List Nat) (w : World), WfW w →
      (∀ i ∈ rem, ∀ r, w.rects i = some r → r.cls = BodyClass.Player) →
      ∃ w2, stepClearGo w rem = some w2 ∧ WfW w2 ∧
        w2.width = w.width ∧ w2.height = w.height ∧ w2.cells = w.cells ∧
        w2.next_body_id = w.next_body_id ∧ w2.ids_to_remove = w.ids_to_remove ∧
        w2.items = w.items ∧
        (∀ i, i ∉ rem → w2.rects i = w.rects i ∧
          lookupA w2.players i = lookupA w.players i ∧ (i ∈ w2.ids ↔ i ∈ w.ids)) ∧
        (∀ i ∈ rem, w2.rects i = none ∧ lookupA w2.players i = none ∧ i ∉ w2.ids)
  | [], w, hwf, _ => by
    exact ⟨w, rfl, hwf, rfl, rfl, rfl, rfl, rfl, rfl,
      fun i _ => ⟨rfl, rfl, Iff.rfl⟩, by simp⟩
  | id :: rest, w, hwf, hP => by
    obtain ⟨w1, heq1, hwf1, hW, hH, hC, hN, hR, hI, hrid, hpid, hsid, hfr⟩ :=
      stepClearBody_spec w hwf id (hP id (List.mem_cons_self _ _))
    have hP2 : ∀ i ∈ rest, ∀ r, w1.rects i = some r → r.cls = BodyClass.Player := by
      intro i hi r hr
      by_cases hie : i = id
      · rw [hie, hrid] at hr
        exact Option.noConfusion hr
      · rw [(hfr i hie).1] at hr
        exact hP i (List.mem_cons_of_mem _ hi) r hr
    obtain ⟨w2, heq2, hwf2, hW2, hH2, hC2, hN2, hR2, hI2, hfr2, hrem2⟩ :=
      stepClearGo_spec rest w1 hwf1 hP2
    refine ⟨w2, ?_, hwf2, hW2.trans hW, hH2.trans hH, hC2.trans hC, hN2.trans hN,
      hR2.trans hR, hI2.trans hI, ?_, ?_⟩
    · show stepClearGo w (id :: rest) = some w2
      unfold stepClearGo
      rw [heq1]
      exact heq2
    · intro i hi
      have hi1 : i ≠ id := fun he => hi (he ▸ List.mem_cons_self _ _)
      have hi2 : i ∉ rest := fun hm => hi (List.mem_cons_of_mem _ hm)
      obtain ⟨ha, hb, hc⟩ := hfr2 i hi2
      obtain ⟨ha2, hb2, hc2⟩ := hfr i hi1
      exact ⟨ha.trans ha2, hb.trans hb2, hc.trans hc2⟩
    · intro i hi
      by_cases hir : i ∈ rest
      · exact hrem2 i hir
      · rcases List.mem_cons.mp hi with rfl | hm
        · obtain ⟨ha, hb, hc⟩ := hfr2 i hir
          exact ⟨ha.trans hrid, hb.trans hpid, fun hm2 => hsid (hc.mp hm2)⟩
        · exact absurd hm hir

/-- World::step_clear: flush all deferred removals and reset the queue. -/
theorem stepClear_spec (w : World) (hwf : WfW w)
    (hP : ∀ i ∈ w.ids_to_remove, ∀ r, w.rects i = some r → r.cls = BodyClass.Player) :
    ∃ w2, stepClear w = some w2 ∧ WfW w2 ∧
      w2.width = w.width ∧ w2.height = w.height ∧ w2.cells = w.cells ∧
      w2.next_body_id = w.next_body_id ∧ w2.ids_to_remove = [] ∧
      w2.items = w.items ∧
      (∀ i, i ∉ w.ids_to_remove → w2.rects i = w.rects i ∧
        lookupA w2.players i = lookupA w.players i ∧ (i ∈ w2.ids ↔ i ∈ w.ids)) ∧
      (∀ i ∈ w.ids_to_remove, w2.rects i = none ∧ lookupA w2.players i = none ∧
        i ∉ w2.ids) := by
  obtain ⟨w2, heq, hwf2, hW, hH, hC, hN, hR, hI, hfr, hrem⟩ :=
    stepClearGo_spec w.ids_to_remove w hwf hP
  refine ⟨{ w2 with ids_to_remove := [] }, ?_, ?_, hW, hH, hC, hN, rfl, hI, hfr, hrem⟩
  · unfold stepClear
    rw [heq]
  · exact ⟨hwf2.ginv, hwf2.idsnd, hwf2.idsdom, hwf2.pkeys, hwf2.ikeys, hwf2.pdom,
      hwf2.idom, hwf2.rdom, hwf2.idhi, hwf2.cwf⟩

/-- The broadphase refresh loop: every listed live id gets its grid entry
refreshed and its dirty flag cleared, position and identity surviving; the
broadphase invariant is maintained and nothing else is touched. -/
theorem broadGo_spec :
    ∀ (ids : List Nat) (g : Grid) (rects : Rects), GridInv g rects →
      ids.Nodup →
      (∀ i ∈ ids, (rects i).isSome = true) →
      (∀ i r, rects i = some r → r.is_updated = true → BOkay r.bounds) →
      ∃ g2 rects2, broadGo g rects ids = some (g2, rects2) ∧ GridInv g2 rects2 ∧
        (∀ i, i ∉ ids → rects2 i = rects i) ∧
        (∀ i ∈ ids, ∃ r r2, rects i = some r ∧ rects2 i = some r2 ∧
          r2.id = r.id ∧ r2.cls = r.cls ∧ r2.bounds = r.bounds ∧ r2.is_updated = false)
  | [], g, rects, hinv, _, _, _ => by
    exact ⟨g, rects, rfl, hinv, fun i _ => rfl, by simp⟩
  | id :: rest, g, rects, hinv, hnd, hlive, hB => by
    have hid_live := hlive id (List.mem_cons_self _ _)
    rcases h0 : rects id with _ | rect0
    · rw [h0] at hid_live
      simp at hid_live
    have hnd2 := List.nodup_cons.mp hnd
    by_cases hU : rect0.is_updated = true
    · obtain ⟨g5, rects5, heq, hinv5, hfr, hpt⟩ :=
        grid_update_preserves g rects hinv id rect0 h0 (hB id rect0 h0 hU)
      have hlive2 : ∀ i ∈ rest, (rects5 i).isSome = true := by
        intro i hi
        have hne : i ≠ id := fun he => hnd2.1 (he ▸ hi)
        rw [hfr i hne]
        exact hlive i (List.mem_cons_of_mem _ hi)
      have hB2 : ∀ i r, rects5 i = some r → r.is_updated = true → BOkay r.bounds := by
        intro i r hr hu
        by_cases hie : i = id
        · subst hie
          obtain ⟨r2, hr2, -, -, -, hcl⟩ := hpt
          rw [hr2] at hr
          have := Option.some.inj hr
          rw [← this, hcl] at hu
          exact Bool.noConfusion hu
        · rw [hfr i hie] at hr
          exact hB i r hr hu
      obtain ⟨g6, rects6, heq2, hinv6, hfr2, hpt2⟩ :=
        broadGo_spec rest g5 rects5 hinv5 hnd2.2 hlive2 hB2
      refine ⟨g6, rects6, ?_, hinv6, ?_, ?_⟩
      · show broadGo g rects (id :: rest) = some (g6, rects6)
        unfold broadGo
        rw [heq]
        exact heq2
      · intro i hi
        have hi1 : i ≠ id := fun he => hi (he ▸ List.mem_cons_self _ _)
        have hi2 : i ∉ rest := fun hm => hi (List.mem_cons_of_mem _ hm)
        rw [hfr2 i hi2, hfr i hi1]
      · intro i hi
        rcases List.mem_cons.mp hi with rfl | hm
        · obtain ⟨r2, hr2, hid, hcls, hbd, hcl⟩ := hpt
          refine ⟨rect0, r2, h0, ?_, hid, hcls, hbd, hcl⟩
          rw [hfr2 i hnd2.1]
          exact hr2
        · obtain ⟨r, r2, hr, hr2, hid, hcls, hbd, hcl⟩ := hpt2 i hm
          have hne : i ≠ id := fun he => hnd2.1 (he ▸ hm)
          rw [hfr i hne] at hr
          exact ⟨r, r2, hr, hr2, hid, hcls, hbd, hcl⟩
    · have hUF : rect0.is_updated = false := by
        cases hc : rect0.is_updated
        · rfl
        · exact absurd hc hU
      have heq := grid_update_clean g id rects rect0 h0 hUF
      obtain ⟨g6, rects6, heq2, hinv6, hfr2, hpt2⟩ :=
        broadGo_spec rest g rects hinv hnd2.2
          (fun i hi => hlive i (List.mem_cons_of_mem _ hi)) hB
      refine ⟨g6, rects6, ?_, hinv6, ?_, ?_⟩
      · show broadGo g rects (id :: rest) = some (g6, rects6)
        unfold broadGo
        rw [heq]
        exact heq2
      · intro i hi
        exact hfr2 i (fun hm => hi (List.mem_cons_of_mem _ hm))
      · intro i hi
        rcases List.mem_cons.mp hi with rfl | hm
        · refine ⟨rect0, rect0, h0, ?_, rfl, rfl, rfl, hUF⟩
          rw [hfr2 i hnd2.1]
          exact h0
        · exact hpt2 i hm

/-- The narrowphase loop: with both endpoints of every pair live it
succeeds, only appending events, none of them OutOfWorld. -/
theorem detectGo_spec (rects : Rects) :
    ∀ (l : List (PairId × Pair)),
      (∀ kp ∈ l, (rects kp.2.id1).isSome = true ∧ (rects kp.2.id2).isSome = true) →
      ∀ evs, ∃ extra, detectGo rects l evs = some (evs ++ extra) ∧
        ∀ e ∈ extra, e.cls ≠ EventClass.OutOfWorld
  | [], _, evs => by
    exact ⟨[], by simp [detectGo], by simp⟩
  | (k, pair) :: rest, hlive, evs => by
    obtain ⟨h1, h2⟩ := hlive (k, pair) (List.mem_cons_self _ _)
    rcases hr1 : rects pair.id1 with _ | rect1
    · rw [hr1] at h1
      simp at h1
    rcases hr2 : rects pair.id2 with _ | rect2
    · rw [hr2] at h2
      simp at h2
    have hlive2 := fun kp hm => hlive kp (List.mem_cons_of_mem _ hm)
    have hrec := detectGo_spec rects rest hlive2
    have hstep : ∀ evs0 : List Event, detectGo rects ((k, pair) :: rest) evs0 =
        (if (get_bounds_intersection rect1.bounds rect2.bounds).x ≤ 0 ∨
            (get_bounds_intersection rect1.bounds rect2.bounds).y ≤ 0 then
          detectGo rects rest evs0
        else
          match (match rect1.cls with
                 | BodyClass.Sensor =>
                   some (evs0 ++ [Event.mk EventClass.Sensor rect2.id rect1.id])
                 | BodyClass.Item =>
                   match rect2.cls with
                   | BodyClass.Player =>
                     some (evs0 ++ [Event.mk EventClass.Item rect2.id rect1.id])
                   | _ => none
                 | _ => none) with
          | some evs2 => detectGo rects rest evs2
          | none =>
            match rect2.cls with
            | BodyClass.Sensor =>
              detectGo rects rest (evs0 ++ [Event.mk EventClass.Sensor rect1.id rect2.id])
            | BodyClass.Item =>
              match rect1.cls with
              | BodyClass.Player =>
                detectGo rects rest (evs0 ++ [Event.mk EventClass.Item rect1.id rect2.id])
              | _ => detectGo rects rest evs0
            | _ => detectGo rects rest evs0) := by
      intro evs0
      conv_lhs => rw [detectGo]
      rw [hr1, hr2]
    rw [hstep evs]
    have hpush : ∀ ev : Event, ev.cls ≠ EventClass.OutOfWorld →
        ∃ extra, detectGo rects rest (evs ++ [ev]) = some (evs ++ extra) ∧
          ∀ e ∈ extra, e.cls ≠ EventClass.OutOfWorld := by
      intro ev hcl
      obtain ⟨extra, heq, hcl2⟩ := hrec (evs ++ [ev])
      refine ⟨[ev] ++ extra, ?_, ?_⟩
      · rw [heq]
        simp
      · intro e he
        rcases List.mem_append.mp he with hm | hm
        · rcases List.mem_singleton.mp hm with rfl
          exact hcl
        · exact hcl2 e hm
    by_cases hov : (get_bounds_intersection rect1.bounds rect2.bounds).x ≤ 0 ∨
        (get_bounds_intersection rect1.bounds rect2.bounds).y ≤ 0
    · rw [if_pos hov]
      exact hrec evs
    · rw [if_neg hov]
      cases hc1 : rect1.cls <;> cases hc2 : rect2.cls <;> dsimp only <;>
        first
        | exact hrec evs
        | exact hpush _ (fun h => EventClass.noConfusion h)

/-- The correction fold is total over a coherent cell store. -/
theorem corrCells_total (cells : Cells) (hwf : CellsWF cells) (rb : Bounds)
    (body : BodyPlayer) :
    ∀ (l : List (Int × Int)) (corr : Vector), ∃ v, corrCells cells rb body l corr = some v
  | [], corr => ⟨corr, rfl⟩
  | (xc, yc) :: rest, corr => by
    obtain ⟨b, hb⟩ := is_block_total cells hwf xc yc
    cases b
    · obtain ⟨v, hv⟩ := corrCells_total cells hwf rb body rest corr
      refine ⟨v, ?_⟩
      unfold corrCells
      rw [hb]
      exact hv
    · unfold corrCells
      rw [hb]
      dsimp only
      split
      · exact corrCells_total cells hwf rb body rest corr
      · exact corrCells_total cells hwf rb body rest _

/-- The state of a player body after a nonzero correction: the flag update
followed by the position shift of update_correct_players. -/
def corrApply (p0 : BodyPlayer) (corr : Vector) : BodyPlayer :=
  { p0.update_correction corr with x := (p0.update_correction corr).x + corr.x, y := (p0.update_correction corr).y + corr.y }

/-- The per-player body of the correction loop, rewritten over the values
of the record lookup and the fold. -/
theorem correctPlayer_eval (cells : Cells) (rects : Rects) (id : Nat)
    (body : BodyPlayer) (r0 : Rect) (h : rects id = some r0) (corr : Vector)
    (hc : corrCells cells r0.bounds body (scanCells r0.bounds) ⟨0, 0⟩ = some corr) :
    correctPlayer cells rects id body =
      if corr.x = 0 ∧ corr.y = 0 then some (rects, body)
      else
        some (updR rects id { r0 with bounds := playerBox (corrApply body corr).x (corrApply body corr).y }, corrApply body corr) := by
  unfold correctPlayer
  rw [h]
  dsimp only
  rw [hc]
  rfl

/-- The correction loop: totality over live entries, preservation of the
broadphase invariant and of all foreign records, and the exact per-entry
outcome. -/
theorem correctGo_spec (cells : Cells) (hwf : CellsWF cells) (g : Grid) :
    ∀ (ps : List (Nat × BodyPlayer)) (rects : Rects), GridInv g rects →
      (keysA ps).Nodup →
      (∀ ip ∈ ps, (rects ip.1).isSome = true) →
      ∃ (rects2 : Rects) (ps2 : List (Nat × BodyPlayer)),
        correctGo cells rects ps = some (rects2, ps2) ∧
        GridInv g rects2 ∧
        keysA ps2 = keysA ps ∧
        (∀ i, i ∉ keysA ps → rects2 i = rects i) ∧
        (∀ i p0, lookupA ps i = some p0 → ∃ r0 corr, rects i = some r0 ∧
          corrCells cells r0.bounds p0 (scanCells r0.bounds) ⟨0, 0⟩ = some corr ∧
          ((corr.x = 0 ∧ corr.y = 0) ∧ lookupA ps2 i = some p0 ∧ rects2 i = some r0 ∨
           ¬(corr.x = 0 ∧ corr.y = 0) ∧
             lookupA ps2 i = some (corrApply p0 corr) ∧
             rects2 i = some { r0 with bounds := playerBox (corrApply p0 corr).x (corrApply p0 corr).y }))
  | [], rects, hinv, _, _ => by
    refine ⟨rects, [], rfl, hinv, rfl, fun i _ => rfl, ?_⟩
    intro i p0 h
    simp [lookupA] at h
  | (id, body) :: rest, rects, hinv, hnd, hlive => by
    have hid_live := hlive (id, body) (List.mem_cons_self _ _)
    rcases h0 : rects id with _ | r0
    · rw [h0] at hid_live
      simp at hid_live
    have hkc : keysA ((id, body) :: rest) = id :: keysA rest := rfl
    have hnd2 : id ∉ keysA rest ∧ (keysA rest).Nodup := by
      rw [hkc] at hnd
      exact List.nodup_cons.mp hnd
    obtain ⟨corr, hcorr⟩ :=
      corrCells_total cells hwf r0.bounds body (scanCells r0.bounds) ⟨0, 0⟩
    have heval := correctPlayer_eval cells rects id body r0 h0 corr hcorr
    by_cases hz : corr.x = 0 ∧ corr.y = 0
    · rw [if_pos hz] at heval
      obtain ⟨rects2, ps2, heq, hinv2, hkeys, hfr, hpt⟩ :=
        correctGo_spec cells hwf g rest rects hinv hnd2.2
          (fun ip hip => hlive ip (List.mem_cons_of_mem _ hip))
      refine ⟨rects2, (id, body) :: ps2, ?_, hinv2, ?_, ?_, ?_⟩
      · show correctGo cells rects ((id, body) :: rest) = some (rects2, (id, body) :: ps2)
        unfold correctGo
        rw [heval]
        dsimp only
        rw [heq]
      · show id :: keysA ps2 = id :: keysA rest
        rw [hkeys]
      · intro i hi
        exact hfr i (fun hm => hi (by rw [hkc]; exact List.mem_cons_of_mem _ hm))
      · intro i p0 hlk
        rw [lookupA_cons] at hlk
        by_cases hie : id = i
        · subst hie
          rw [if_pos rfl] at hlk
          have hp0 : p0 = body := (Option.some.inj hlk).symm
          subst hp0
          refine ⟨r0, corr, h0, hcorr, Or.inl ⟨hz, ?_, ?_⟩⟩
          · rw [lookupA_cons, if_pos rfl]
          · rw [hfr id hnd2.1]
            exact h0
        · rw [if_neg hie] at hlk
          obtain ⟨r1, corr1, hr1, hc1, hres⟩ := hpt i p0 hlk
          refine ⟨r1, corr1, hr1, hc1, ?_⟩
          rcases hres with ⟨ha, hb, hc⟩ | ⟨ha, hb, hc⟩
          · refine Or.inl ⟨ha, ?_, hc⟩
            rw [lookupA_cons, if_neg hie]
            exact hb
          · refine Or.inr ⟨ha, ?_, hc⟩
            rw [lookupA_cons, if_neg hie]
            exact hb
    · rw [if_neg hz] at heval
      have hinv2 : GridInv g (updR rects id { r0 with bounds := playerBox (corrApply body corr).x (corrApply body corr).y }) :=
        gridInv_updR g rects hinv id r0 _ h0 rfl rfl rfl
      have hlive2 : ∀ ip ∈ rest, ((updR rects id { r0 with bounds := playerBox (corrApply body corr).x (corrApply body corr).y }) ip.1).isSome = true := by
        intro ip hip
        have hne : ip.1 ≠ id := by
          intro he
          exact hnd2.1 (he ▸ List.mem_map_of_mem Prod.fst hip)
        rw [updR_other rects id _ ip.1 hne]
        exact hlive ip (List.mem_cons_of_mem _ hip)
      obtain ⟨rects2, ps2, heq, hinv3, hkeys, hfr, hpt⟩ :=
        correctGo_spec cells hwf g rest
          (updR rects id { r0 with bounds := playerBox (corrApply body corr).x (corrApply body corr).y }) hinv2 hnd2.2 hlive2
      refine ⟨rects2, (id, corrApply body corr) :: ps2, ?_, hinv3, ?_, ?_, ?_⟩
      · show correctGo cells rects ((id, body) :: rest) = _
        unfold correctGo
        rw [heval]
        dsimp only
        rw [heq]
      · show id :: keysA ps2 = id :: keysA rest
        rw [hkeys]
      · intro i hi
        have hi1 : i ≠ id := by
          intro he
          exact hi (by rw [hkc, he]; exact List.mem_cons_self _ _)
        have hi2 : i ∉ keysA rest := by
          intro hm
          exact hi (by rw [hkc]; exact List.mem_cons_of_mem _ hm)
        rw [hfr i hi2, updR_other rects id _ i hi1]
      · intro i p0 hlk
        rw [lookupA_cons] at hlk
        by_cases hie : id = i
        · subst hie
          rw [if_pos rfl] at hlk
          have hp0 : p0 = body := (Option.some.inj hlk).symm
          subst hp0
          refine ⟨r0, corr, h0, hcorr, Or.inr ⟨hz, ?_, ?_⟩⟩
          · rw [lookupA_cons, if_pos rfl]
          · rw [hfr id hnd2.1, updR_same]
        · rw [if_neg hie] at hlk
          obtain ⟨r1, corr1, hr1, hc1, hres⟩ := hpt i p0 hlk
          have hne : i ≠ id := fun he => hie he.symm
          rw [updR_other rects id _ i hne] at hr1
          refine ⟨r1, corr1, hr1, hc1, ?_⟩
          rcases hres with ⟨ha, hb, hc⟩ | ⟨ha, hb, hc⟩
          · refine Or.inl ⟨ha, ?_, hc⟩
            rw [lookupA_cons, if_neg hie]
            exact hb
          · refine Or.inr ⟨ha, ?_, hc⟩
            rw [lookupA_cons, if_neg hie]
            exact hb

/-- The state of a player body that moved this tick, at the end of
step_finish: previous position realigned to the current one. -/
def finApply (b1 : BodyPlayer) : BodyPlayer :=
  { b1 with prev_x := b1.x, prev_y := b1.y }

theorem mem_keysA_of_lookupA {κ β : Type} [DecidableEq κ] (l : List (κ × β)) (k : κ)
    (v : β) (h : lookupA l k = some v) : k ∈ keysA l := by
  by_contra hm
  rw [(lookupA_eq_none_iff l k).mpr hm] at h
  exact Option.noConfusion h

/-- The step_finish loop: it succeeds on live entries, appends one position
delta per moved player, realigns those players and resyncs their boxes,
and touches nothing else. -/
theorem finishGo_spec (g : Grid) :
    ∀ (ps : List (Nat × BodyPlayer)) (rects : Rects) (acc : List PositionUpdate),
      GridInv g rects →
      (keysA ps).Nodup →
      (∀ ip ∈ ps, (rects ip.1).isSome = true) →
      ∃ (ps2 : List (Nat × BodyPlayer)) (rects2 : Rects) (extra : List PositionUpdate),
        finishGo rects ps acc = some (ps2, rects2, acc ++ extra) ∧
        GridInv g rects2 ∧
        keysA ps2 = keysA ps ∧
        (∀ i, i ∉ keysA ps → rects2 i = rects i) ∧
        (∀ pu ∈ extra, ∃ i b0, lookupA ps i = some b0 ∧ pu.id = i ∧
          ¬(b0.after_update.x = b0.after_update.prev_x ∧
            b0.after_update.y = b0.after_update.prev_y)) ∧
        (∀ i p0, lookupA ps i = some p0 →
          (p0.after_update.x = p0.after_update.prev_x ∧
              p0.after_update.y = p0.after_update.prev_y) ∧
            lookupA ps2 i = some p0.after_update ∧ rects2 i = rects i ∨
          ¬(p0.after_update.x = p0.after_update.prev_x ∧
              p0.after_update.y = p0.after_update.prev_y) ∧
            ∃ r0, rects i = some r0 ∧
              lookupA ps2 i = some (finApply p0.after_update) ∧
              rects2 i = some { r0 with bounds := playerBox p0.after_update.x p0.after_update.y })
  | [], rects, acc, hinv, _, _ => by
    refine ⟨[], rects, [], by simp [finishGo], hinv, rfl, fun i _ => rfl, by simp, ?_⟩
    intro i p0 h
    simp [lookupA] at h
  | (id, body) :: rest, rects, acc, hinv, hnd, hlive => by
    have hid_live := hlive (id, body) (List.mem_cons_self _ _)
    rcases h0 : rects id with _ | r0
    · rw [h0] at hid_live
      simp at hid_live
    have hkc : keysA ((id, body) :: rest) = id :: keysA rest := rfl
    have hnd2 : id ∉ keysA rest ∧ (keysA rest).Nodup := by
      rw [hkc] at hnd
      exact List.nodup_cons.mp hnd
    by_cases hskip : body.after_update.x = body.after_update.prev_x ∧
        body.after_update.y = body.after_update.prev_y
    · obtain ⟨ps2, rects2, extra, heq, hinv2, hkeys, hfr, hprov, hpt⟩ :=
        finishGo_spec g rest rects acc hinv hnd2.2
          (fun ip hip => hlive ip (List.mem_cons_of_mem _ hip))
      refine ⟨(id, body.after_update) :: ps2, rects2, extra, ?_, hinv2, ?_, ?_, ?_, ?_⟩
      · show finishGo rects ((id, body) :: rest) acc = _
        unfold finishGo
        dsimp only
        rw [if_pos hskip, heq]
      · show id :: keysA ps2 = id :: keysA rest
        rw [hkeys]
      · intro i hi
        exact hfr i (fun hm => hi (by rw [hkc]; exact List.mem_cons_of_mem _ hm))
      · intro pu hm
        obtain ⟨i, b0, hl, hpid, hmv⟩ := hprov pu hm
        have hie : id ≠ i := by
          intro he
          exact hnd2.1 (he ▸ mem_keysA_of_lookupA rest i b0 hl)
        refine ⟨i, b0, ?_, hpid, hmv⟩
        rw [lookupA_cons, if_neg hie]
        exact hl
      · intro i p0 hlk
        rw [lookupA_cons] at hlk
        by_cases hie : id = i
        · subst hie
          rw [if_pos rfl] at hlk
          have hp0 : p0 = body := (Option.some.inj hlk).symm
          subst hp0
          refine Or.inl ⟨hskip, ?_, hfr id hnd2.1⟩
          rw [lookupA_cons, if_pos rfl]
        · rw [if_neg hie] at hlk
          rcases hpt i p0 hlk with ⟨ha, hb, hc⟩ | ⟨ha, r1, hr1, hb, hc⟩
          · refine Or.inl ⟨ha, ?_, hc⟩
            rw [lookupA_cons, if_neg hie]
            exact hb
          · refine Or.inr ⟨ha, r1, hr1, ?_, hc⟩
            rw [lookupA_cons, if_neg hie]
            exact hb
    · have hinv2 : GridInv g (updR rects id { r0 with bounds := playerBox body.after_update.x body.after_update.y }) :=
        gridInv_updR g rects hinv id r0 _ h0 rfl rfl rfl
      have hlive2 : ∀ ip ∈ rest, ((updR rects id { r0 with bounds := playerBox body.after_update.x body.after_update.y }) ip.1).isSome = true := by
        intro ip hip
        have hne : ip.1 ≠ id := by
          intro he
          exact hnd2.1 (he ▸ List.mem_map_of_mem Prod.fst hip)
        rw [updR_other rects id _ ip.1 hne]
        exact hlive ip (List.mem_cons_of_mem _ hip)
      obtain ⟨ps2, rects2, extra, heq, hinv3, hkeys, hfr, hprov, hpt⟩ :=
        finishGo_spec g rest
          (updR rects id { r0 with bounds := playerBox body.after_update.x body.after_update.y })
          (acc ++ [PositionUpdate.mk id body.after_update.x body.after_update.y])
          hinv2 hnd2.2 hlive2
      refine ⟨(id, finApply body.after_update) :: ps2, rects2,
        PositionUpdate.mk id body.after_update.x body.after_update.y :: extra,
        ?_, hinv3, ?_, ?_, ?_, ?_⟩
      · show finishGo rects ((id, body) :: rest) acc = _
        unfold finishGo
        dsimp only
        rw [if_neg hskip, h0]
        dsimp only
        rw [update_rect_eq]
        dsimp only
        rw [heq, List.append_assoc]
        rfl
      · show id :: keysA ps2 = id :: keysA rest
        rw [hkeys]
      · intro i hi
        have hi1 : i ≠ id := by
          intro he
          exact hi (by rw [hkc, he]; exact List.mem_cons_self _ _)
        have hi2 : i ∉ keysA rest := by
          intro hm
          exact hi (by rw [hkc]; exact List.mem_cons_of_mem _ hm)
        rw [hfr i hi2, updR_other rects id _ i hi1]
      · intro pu hm
        rcases List.mem_cons.mp hm with rfl | hm2
        · refine ⟨id, body, ?_, rfl, hskip⟩
          rw [lookupA_cons, if_pos rfl]
        · obtain ⟨i, b0, hl, hpid, hmv⟩ := hprov pu hm2
          have hie : id ≠ i := by
            intro he
            exact hnd2.1 (he ▸ mem_keysA_of_lookupA rest i b0 hl)
          refine ⟨i, b0, ?_, hpid, hmv⟩
          rw [lookupA_cons, if_neg hie]
          exact hl
      · intro i p0 hlk
        rw [lookupA_cons] at hlk
        by_cases hie : id = i
        · subst hie
          rw [if_pos rfl] at hlk
          have hp0 : p0 = body := (Option.some.inj hlk).symm
          subst hp0
          refine Or.inr ⟨hskip, r0, h0, ?_, ?_⟩
          · rw [lookupA_cons, if_pos rfl]
          · rw [hfr id hnd2.1, updR_same]
        · rw [if_neg hie] at hlk
          have hne : i ≠ id := fun he => hie he.symm
          rcases hpt i p0 hlk with ⟨ha, hb, hc⟩ | ⟨ha, r1, hr1, hb, hc⟩
          · refine Or.inl ⟨ha, ?_, ?_⟩
            · rw [lookupA_cons, if_neg hie]
              exact hb
            · rw [hc, updR_other rects id _ i hne]
          · rw [updR_other rects id _ i hne] at hr1
            refine Or.inr ⟨ha, r1, hr1, ?_, hc⟩
            rw [lookupA_cons, if_neg hie]
            exact hb

/-- The conditional flush of _update: a no-op on an empty queue, otherwise
a full step_clear; either way the queue ends empty. -/
theorem stepClearOpt_spec (w : World) (hwf : WfW w)
    (hP : ∀ i ∈ w.ids_to_remove, ∀ r, w.rects i = some r → r.cls = BodyClass.Player) :
    ∃ w2, (if w.ids_to_remove = [] then some w else stepClear w) = some w2 ∧ WfW w2 ∧
      w2.width = w.width ∧ w2.height = w.height ∧ w2.cells = w.cells ∧
      w2.next_body_id = w.next_body_id ∧ w2.ids_to_remove = [] ∧
      w2.items = w.items ∧
      (∀ i, i ∉ w.ids_to_remove → w2.rects i = w.rects i ∧
        lookupA w2.players i = lookupA w.players i ∧ (i ∈ w2.ids ↔ i ∈ w.ids)) ∧
      (∀ i ∈ w.ids_to_remove, w2.rects i = none ∧ lookupA w2.players i = none ∧
        i ∉ w2.ids) := by
  by_cases he : w.ids_to_remove = []
  · rw [if_pos he]
    refine ⟨w, rfl, hwf, rfl, rfl, rfl, rfl, he, rfl,
      fun i _ => ⟨rfl, rfl, Iff.rfl⟩, ?_⟩
    intro i hi
    rw [he] at hi
    simp at hi
  · rw [if_neg he]
    exact stepClear_spec w hwf hP

/-- One deferred removal from an arbitrary well-formed world: an unknown id
is skipped, a Player id is erased from the player map and an Item id from
the item map, and in all cases the record, the grid entry and the id-set
entry vanish while every other body is untouched. Well-formedness rules
out the fatal arm for any other record class. -/
theorem stepClearBody_free (w : World) (hwf : WfW w) (id : Nat) :
    ∃ w2, stepClearBody w id = some w2 ∧ WfW w2 ∧
      w2.width = w.width ∧ w2.height = w.height ∧ w2.cells = w.cells ∧
      w2.next_body_id = w.next_body_id ∧ w2.ids_to_remove = w.ids_to_remove ∧
      w2.rects id = none ∧ lookupA w2.players id = none ∧
      lookupA w2.items id = none ∧ id ∉ w2.ids ∧
      (∀ i, i ≠ id → w2.rects i = w.rects i ∧
        lookupA w2.players i = lookupA w.players i ∧
        lookupA w2.items i = lookupA w.items i ∧ (i ∈ w2.ids ↔ i ∈ w.ids)) := by
  rcases h0 : w.rects id with _ | rect
  · refine ⟨w, ?_, hwf, rfl, rfl, rfl, rfl, rfl, h0, ?_, ?_, ?_,
      fun i _ => ⟨rfl, rfl, rfl, Iff.rfl⟩⟩
    · unfold stepClearBody
      rw [h0]
    · rcases hl : lookupA w.players id with _ | p
      · rfl
      · obtain ⟨r, hr, -⟩ := hwf.pdom id p hl
        rw [h0] at hr
        exact Option.noConfusion hr
    · rcases hl : lookupA w.items id with _ | b
      · rfl
      · obtain ⟨r, hr, -⟩ := hwf.idom id b hl
        rw [h0] at hr
        exact Option.noConfusion hr
    · intro hm
      have := (hwf.idsdom id).mp hm
      rw [h0] at this
      simp at this
  · obtain ⟨g2, hrem, hinv2⟩ := grid_remove_preserves w.grid w.rects hwf.ginv id rect h0
    rcases hwf.rdom id rect h0 with ⟨hcls, -⟩ | ⟨hcls, -⟩
    · have hitnone : lookupA w.items id = none := by
        rcases hl : lookupA w.items id with _ | b
        · rfl
        · obtain ⟨r, hr, hrc⟩ := hwf.idom id b hl
          rw [h0] at hr
          rw [← Option.some.inj hr, hcls] at hrc
          exact BodyClass.noConfusion hrc
      refine ⟨{ w with rects := delR (delR w.rects id) id, players := eraseA w.players id, grid := g2, ids := removeSet id w.ids }, ?_, ?_, rfl, rfl, rfl, rfl, rfl, ?_, ?_, hitnone, ?_, ?_⟩
      · unfold stepClearBody
        rw [h0]
        dsimp only
        rw [hcls]
        dsimp only
        rw [hrem]
      · constructor
        · show GridInv g2 (delR (delR w.rects id) id)
          rw [delR_delR]
          exact hinv2
        · exact nodup_removeSet id w.ids hwf.idsnd
        · intro i
          show i ∈ removeSet id w.ids ↔ ((delR (delR w.rects id) id) i).isSome = true
          rw [delR_delR, mem_removeSet]
          by_cases hi : i = id
          · subst hi
            rw [delR_same]
            simp
          · rw [delR_other w.rects id i hi]
            rw [hwf.idsdom i]
            simp [hi]
        · exact nodupKeys_eraseA w.players id hwf.pkeys
        · exact hwf.ikeys
        · intro i p hl
          show ∃ r, (delR (delR w.rects id) id) i = some r ∧ r.cls = BodyClass.Player
          rw [delR_delR]
          rw [lookupA_eraseA] at hl
          by_cases hi : i = id
          · rw [if_pos hi] at hl
            exact Option.noConfusion hl
          · rw [if_neg hi] at hl
            rw [delR_other w.rects id i hi]
            exact hwf.pdom i p hl
        · intro i b hl
          show ∃ r, (delR (delR w.rects id) id) i = some r ∧ r.cls = BodyClass.Item
          rw [delR_delR]
          obtain ⟨r, hr, hrc⟩ := hwf.idom i b hl
          have hi : i ≠ id := by
            intro he
            rw [he, h0] at hr
            rw [← Option.some.inj hr, hcls] at hrc
            exact BodyClass.noConfusion hrc
          rw [delR_other w.rects id i hi]
          exact ⟨r, hr, hrc⟩
        · intro i r hr
          have hr2 : (delR (delR w.rects id) id) i = some r := hr
          rw [delR_delR] at hr2
          by_cases hi : i = id
          · rw [hi, delR_same] at hr2
            exact Option.noConfusion hr2
          · rw [delR_other w.rects id i hi] at hr2
            rcases hwf.rdom i r hr2 with ⟨hc, hs⟩ | ⟨hc, hs⟩
            · left
              refine ⟨hc, ?_⟩
              show (lookupA (eraseA w.players id) i).isSome = true
              rw [lookupA_eraseA, if_neg hi]
              exact hs
            · exact Or.inr ⟨hc, hs⟩
        · intro i hm
          have := (mem_removeSet id i w.ids).mp hm
          exact hwf.idhi i this.1
        · exact hwf.cwf
      · show (delR (delR w.rects id) id) id = none
        rw [delR_delR, delR_same]
      · show lookupA (eraseA w.players id) id = none
        rw [lookupA_eraseA, if_pos rfl]
      · intro hm
        have := (mem_removeSet id id w.ids).mp hm
        exact this.2 rfl
      · intro i hi
        refine ⟨?_, ?_, rfl, ?_⟩
        · show (delR (delR w.rects id) id) i = w.rects i
          rw [delR_delR, delR_other w.rects id i hi]
        · show lookupA (eraseA w.players id) i = lookupA w.players i
          rw [lookupA_eraseA, if_neg hi]
        · show i ∈ removeSet id w.ids ↔ i ∈ w.ids
          rw [mem_removeSet]
          simp [hi]
    · have hplnone : lookupA w.players id = none := by
        rcases hl : lookupA w.players id with _ | p
        · rfl
        · obtain ⟨r, hr, hrc⟩ := hwf.pdom id p hl
          rw [h0] at hr
          rw [← Option.some.inj hr, hcls] at hrc
          exact BodyClass.noConfusion hrc
      refine ⟨{ w with rects := delR (delR w.rects id) id, items := eraseA w.items id, grid := g2, ids := removeSet id w.ids }, ?_, ?_, rfl, rfl, rfl, rfl, rfl, ?_, hplnone, ?_, ?_, ?_⟩
      · unfold stepClearBody
        rw [h0]
        dsimp only
        rw [hcls]
        dsimp only
        rw [hrem]
      · constructor
        · show GridInv g2 (delR (delR w.rects id) id)
          rw [delR_delR]
          exact hinv2
        · exact nodup_removeSet id w.ids hwf.idsnd
        · intro i
          show i ∈ removeSet id w.ids ↔ ((delR (delR w.rects id) id) i).isSome = true
          rw [delR_delR, mem_removeSet]
          by_cases hi : i = id
          · subst hi
            rw [delR_same]
            simp
          · rw [delR_other w.rects id i hi]
            rw [hwf.idsdom i]
            simp [hi]
        · exact hwf.pkeys
        · exact nodupKeys_eraseA w.items id hwf.ikeys
        · intro i p hl
          show ∃ r, (delR (delR w.rects id) id) i = some r ∧ r.cls = BodyClass.Player
          rw [delR_delR]
          obtain ⟨r, hr, hrc⟩ := hwf.pdom i p hl
          have hi : i ≠ id := by
            intro he
            rw [he, h0] at hr
            rw [← Option.some.inj hr, hcls] at hrc
            exact BodyClass.noConfusion hrc
          rw [delR_other w.rects id i hi]
          exact ⟨r, hr, hrc⟩
        · intro i b hl
          show ∃ r, (delR (delR w.rects id) id) i = some r ∧ r.cls = BodyClass.Item
          rw [delR_delR]
          rw [lookupA_eraseA] at hl
          by_cases hi : i = id
          · rw [if_pos hi] at hl
            exact Option.noConfusion hl
          · rw [if_neg hi] at hl
            rw [delR_other w.rects id i hi]
            exact hwf.idom i b hl
        · intro i r hr
          have hr2 : (delR (delR w.rects id) id) i = some r := hr
          rw [delR_delR] at hr2
          by_cases hi : i = id
          · rw [hi, delR_same] at hr2
            exact Option.noConfusion hr2
          · rw [delR_other w.rects id i hi] at hr2
            rcases hwf.rdom i r hr2 with ⟨hc, hs⟩ | ⟨hc, hs⟩
            · exact Or.inl ⟨hc, hs⟩
            · right
              refine ⟨hc, ?_⟩
              show (lookupA (eraseA w.items id) i).isSome = true
              rw [lookupA_eraseA, if_neg hi]
              exact hs
        · intro i hm
          have := (mem_removeSet id i w.ids).mp hm
          exact hwf.idhi i this.1
        · exact hwf.cwf
      · show (delR (delR w.rects id) id) id = none
        rw [delR_delR, delR_same]
      · show lookupA (eraseA w.items id) id = none
        rw [lookupA_eraseA, if_pos rfl]
      · intro hm
        have := (mem_removeSet id id w.ids).mp hm
        exact this.2 rfl
      · intro i hi
        refine ⟨?_, rfl, ?_, ?_⟩
        · show (delR (delR w.rects id) id) i = w.rects i
          rw [delR_delR, delR_other w.rects id i hi]
        · show lookupA (eraseA w.items id) i = lookupA w.items i
          rw [lookupA_eraseA, if_neg hi]
        · show i ∈ removeSet id w.ids ↔ i ∈ w.ids
          rw [mem_removeSet]
          simp [hi]

/-- The whole removal loop over an arbitrary caller-supplied id list. -/
theorem stepClearGo_free :
    ∀ (rem : List Nat) (w : World), WfW w →
      ∃ w2, stepClearGo w rem = some w2 ∧ WfW w2 ∧
        w2.width = w.width ∧ w2.height = w.height ∧ w2.cells = w.cells ∧
        w2.next_body_id = w.next_body_id ∧ w2.ids_to_remove = w.ids_to_remove ∧
        (∀ i, i ∉ rem → w2.rects i = w.rects i ∧
          lookupA w2.players i = lookupA w.players i ∧
          lookupA w2.items i = lookupA w.items i ∧ (i ∈ w2.ids ↔ i ∈ w.ids)) ∧
        (∀ i ∈ rem, w2.rects i = none ∧ lookupA w2.players i = none ∧
          lookupA w2.items i = none ∧ i ∉ w2.ids)
  | [], w, hwf => by
    exact ⟨w, rfl, hwf, rfl, rfl, rfl, rfl, rfl,
      fun i _ => ⟨rfl, rfl, rfl, Iff.rfl⟩, by simp⟩
  | id :: rest, w, hwf => by
    obtain ⟨w1, heq1, hwf1, hW, hH, hC, hN, hR, hrid, hpid, hiid, hsid, hfr⟩ :=
      stepClearBody_free w hwf id
    obtain ⟨w2, heq2, hwf2, hW2, hH2, hC2, hN2, hR2, hfr2, hrem2⟩ :=
      stepClearGo_free rest w1 hwf1
    refine ⟨w2, ?_, hwf2, hW2.trans hW, hH2.trans hH, hC2.trans hC, hN2.trans hN,
      hR2.trans hR, ?_, ?_⟩
    · show stepClearGo w (id :: rest) = some w2
      unfold stepClearGo
      rw [heq1]
      exact heq2
    · intro i hi
      have hi1 : i ≠ id := fun he => hi (he ▸ List.mem_cons_self _ _)
      have hi2 : i ∉ rest := fun hm => hi (List.mem_cons_of_mem _ hm)
      obtain ⟨ha, hb, hb2, hc⟩ := hfr2 i hi2
      obtain ⟨ha2, hb3, hb4, hc2⟩ := hfr i hi1
      exact ⟨ha.trans ha2, hb.trans hb3, hb2.trans hb4, hc.trans hc2⟩
    · intro i hi
      by_cases hir : i ∈ rest
      · exact hrem2 i hir
      · rcases List.mem_cons.mp hi with rfl | hm
        · obtain ⟨ha, hb, hb2, hc⟩ := hfr2 i hir
          exact ⟨ha.trans hrid, hb.trans hpid, hb2.trans hiid,
            fun hm2 => hsid (hc.mp hm2)⟩
        · exact absurd hm hir

/-- World::step_clear on an arbitrary well-formed world: the queued ids of
either body class vanish from every structure, the queue resets, and
everything else is untouched. -/
theorem stepClear_free (w : World) (hwf : WfW w) :
    ∃ w2, stepClear w = some w2 ∧ WfW w2 ∧
      w2.width = w.width ∧ w2.height = w.height ∧ w2.cells = w.cells ∧
      w2.next_body_id = w.next_body_id ∧ w2.ids_to_remove = [] ∧
      (∀ i, i ∉ w.ids_to_remove → w2.rects i = w.rects i ∧
        lookupA w2.players i = lookupA w.players i ∧
        lookupA w2.items i = lookupA w.items i ∧ (i ∈ w2.ids ↔ i ∈ w.ids)) ∧
      (∀ i ∈ w.ids_to_remove, w2.rects i = none ∧ lookupA w2.players i = none ∧
        lookupA w2.items i = none ∧ i ∉ w2.ids) := by
  obtain ⟨w2, heq, hwf2, hW, hH, hC, hN, hR, hfr, hrem⟩ :=
    stepClearGo_free w.ids_to_remove w hwf
  refine ⟨{ w2 with ids_to_remove := [] }, ?_, ?_, hW, hH, hC, hN, rfl, hfr, hrem⟩
  · unfold stepClear
    rw [heq]
  · exact ⟨hwf2.ginv, hwf2.idsnd, hwf2.idsdom, hwf2.pkeys, hwf2.ikeys, hwf2.pdom,
      hwf2.idom, hwf2.rdom, hwf2.idhi, hwf2.cwf⟩

/-- The fate of one surviving player at the end of a tick: after_update is
applied, and the body either did not move (kept as is, no position delta)
or moved (previous position realigned). -/
def postFinish (ps7 : List (Nat × BodyPlayer)) (pos : List PositionUpdate)
    (i : Nat) (b2 : BodyPlayer) : Prop :=
  (b2.after_update.x = b2.after_update.prev_x ∧ b2.after_update.y = b2.after_update.prev_y) ∧
      lookupA ps7 i = some b2.after_update ∧ (∀ pu ∈ pos, pu.id ≠ i) ∨
    ¬(b2.after_update.x = b2.after_update.prev_x ∧ b2.after_update.y = b2.after_update.prev_y) ∧
      lookupA ps7 i = some (finApply b2.after_update)

/-- The full tick pipeline: on a rest-state world it always succeeds and
returns a rest-state world; out-of-world players are flagged, produce one
OutOfWorld event each and are fully expunged; items are untouched; every
surviving player goes through integration, correction and finish exactly
as the per-phase specifications state. -/
theorem tick_spec (w : World) (hinvw : InvW w) (delta : ℚ) :
    ∃ (w7 : World) (extraD : List Event) (extraF : List PositionUpdate) (rem : List Nat),
      World.tick w delta =
        some (w7, rem.map (fun i => Event.mk EventClass.OutOfWorld i 0) ++ extraD, extraF) ∧
      InvW w7 ∧
      w7.width = w.width ∧ w7.height = w.height ∧ w7.cells = w.cells ∧
      w7.next_body_id = w.next_body_id ∧ w7.items = w.items ∧
      rem.Nodup ∧
      (∀ i ∈ rem, i ∈ keysA w.players) ∧
      (∀ e ∈ extraD, e.cls ≠ EventClass.OutOfWorld) ∧
      (∀ pu ∈ extraF, pu.id ∈ keysA w.players) ∧
      (∀ i p0, lookupA w.players i = some p0 → ∃ r0, w.rects i = some r0 ∧
        (i ∈ rem ↔ outOfWorld (BodyPlayer.update p0 delta r0).2.bounds w.width w.height)) ∧
      (∀ i ∈ rem, w7.rects i = none ∧ lookupA w7.players i = none ∧ i ∉ w7.ids) ∧
      (∀ i, i ∈ w7.ids ↔ i ∈ w.ids ∧ i ∉ rem) ∧
      (∀ i r, w.rects i = some r → r.cls = BodyClass.Item → ∃ r7, w7.rects i = some r7 ∧
        r7.id = r.id ∧ r7.cls = r.cls ∧ r7.bounds = r.bounds ∧ r7.is_updated = false) ∧
      (∀ i p0 r0, lookupA w.players i = some p0 → w.rects i = some r0 → i ∉ rem →
        ∃ corr, corrCells w.cells (BodyPlayer.update p0 delta r0).2.bounds
            (BodyPlayer.update p0 delta r0).1
            (scanCells (BodyPlayer.update p0 delta r0).2.bounds) ⟨0, 0⟩ = some corr ∧
          ((corr.x = 0 ∧ corr.y = 0) ∧
              postFinish w7.players extraF i (BodyPlayer.update p0 delta r0).1 ∨
           ¬(corr.x = 0 ∧ corr.y = 0) ∧
              postFinish w7.players extraF i
                (corrApply (BodyPlayer.update p0 delta r0).1 corr))) := by
  obtain ⟨hwf, hitr, hclean⟩ := hinvw
  have hmemlk : ∀ (l : List (Nat × BodyPlayer)), (keysA l).Nodup →
      ∀ ip : Nat × BodyPlayer, ip ∈ l → lookupA l ip.1 = some ip.2 := by
    intro l h ip hm
    exact (mem_iff_lookupA l h ip.1 ip.2).mp hm
  have hlkAny : ∀ (l : List (Nat × BodyPlayer)) (i : Nat), i ∈ keysA l →
      ∃ p0, lookupA l i = some p0 := fun l i hm => lookupA_isSome_of_mem_keys l i hm
  have hliveP : ∀ ip ∈ w.players, (w.rects ip.1).isSome = true := by
    intro ip hm
    obtain ⟨r, hr, -⟩ := hwf.pdom ip.1 ip.2 (hmemlk w.players hwf.pkeys ip hm)
    rw [hr]
    rfl
  obtain ⟨ps2, rects2, itr2, rem, heqU, hinvU, hkeysU, hitr2nd, hitr2mem, hremnd,
      hremsub, hframeU, hptU⟩ :=
    updPosGo_spec delta w.width w.height w.players w.rects w.grid [] [] hwf.pkeys
      hliveP hwf.ginv List.nodup_nil (by simp)
  have hitr2rem : ∀ i, i ∈ itr2 ↔ i ∈ rem := by
    intro i
    rw [hitr2mem i]
    simp
  have hplookup2 : ∀ i, i ∈ keysA w.players → ∃ p0 r0, lookupA w.players i = some p0 ∧
      w.rects i = some r0 ∧ lookupA ps2 i = some (BodyPlayer.update p0 delta r0).1 ∧
      rects2 i = some (BodyPlayer.update p0 delta r0).2 := by
    intro i hm
    obtain ⟨p0, hl⟩ := hlkAny w.players i hm
    obtain ⟨r0, hr0, hl2, hr2, -⟩ := hptU i p0 hl
    exact ⟨p0, r0, hl, hr0, hl2, hr2⟩
  have hsome2 : ∀ i, (rects2 i).isSome = (w.rects i).isSome := by
    intro i
    by_cases hm : i ∈ keysA w.players
    · obtain ⟨p0, r0, hlp, hr0, hl2, hr2⟩ := hplookup2 i hm
      rw [hr2, hr0]
      rfl
    · rw [hframeU i hm]
  have hcls2 : ∀ i r0, w.rects i = some r0 → ∃ r2, rects2 i = some r2 ∧
      r2.cls = r0.cls ∧ r2.id = r0.id := by
    intro i r0 hr0
    by_cases hm : i ∈ keysA w.players
    · obtain ⟨p0, r0b, hlp, hr0b, hl2, hr2⟩ := hplookup2 i hm
      have he : r0b = r0 := by
        rw [hr0] at hr0b
        exact (Option.some.inj hr0b).symm
      subst he
      obtain ⟨q, hc⟩ := update_cases p0 delta r0b
      rcases hc with hc | hc <;> rw [hc] at hr2
      · exact ⟨r0b, hr2, rfl, rfl⟩
      · exact ⟨_, hr2, rfl, rfl⟩
    · rw [hframeU i hm]
      exact ⟨r0, hr0, rfl, rfl⟩
  have hplayercls : ∀ i r0, i ∈ keysA w.players → w.rects i = some r0 →
      r0.cls = BodyClass.Player := by
    intro i r0 hm hr0
    obtain ⟨p0, hl⟩ := hlkAny w.players i hm
    obtain ⟨rp, hrp, hrpc⟩ := hwf.pdom i p0 hl
    have he : rp = r0 := by
      rw [hr0] at hrp
      exact (Option.some.inj hrp).symm
    rw [← he]
    exact hrpc
  have hwf2 : WfW { w with players := ps2, rects := rects2, ids_to_remove := itr2 } := by
    refine ⟨hinvU, hwf.idsnd, ?_, ?_, hwf.ikeys, ?_, ?_, ?_, hwf.idhi, hwf.cwf⟩
    · intro i
      show i ∈ w.ids ↔ (rects2 i).isSome = true
      rw [hsome2 i]
      exact hwf.idsdom i
    · show (keysA ps2).Nodup
      rw [hkeysU]
      exact hwf.pkeys
    · intro i p hl
      show ∃ r, rects2 i = some r ∧ r.cls = BodyClass.Player
      have hm : i ∈ keysA ps2 := mem_keysA_of_lookupA ps2 i p hl
      rw [hkeysU] at hm
      obtain ⟨p0, r0, hlp, hr0, hl2, hr2⟩ := hplookup2 i hm
      obtain ⟨r2, hr2b, hr2c, -⟩ := hcls2 i r0 hr0
      refine ⟨r2, hr2b, ?_⟩
      rw [hr2c]
      exact hplayercls i r0 hm hr0
    · intro i b hl
      show ∃ r, rects2 i = some r ∧ r.cls = BodyClass.Item
      obtain ⟨r, hr, hrc⟩ := hwf.idom i b hl
      obtain ⟨r2, hr2, hr2c, -⟩ := hcls2 i r hr
      exact ⟨r2, hr2, by rw [hr2c]; exact hrc⟩
    · intro i r hr
      have hr' : rects2 i = some r := hr
      by_cases hm : i ∈ keysA w.players
      · obtain ⟨p0, r0, hlp, hr0, hl2, hr2⟩ := hplookup2 i hm
        left
        constructor
        · obtain ⟨r2, hr2b, hr2c, -⟩ := hcls2 i r0 hr0
          have he2 : r = r2 := by
            rw [hr2b] at hr'
            exact (Option.some.inj hr').symm
          rw [he2, hr2c]
          exact hplayercls i r0 hm hr0
        · show (lookupA ps2 i).isSome = true
          rw [hl2]
          rfl
      · rw [hframeU i hm] at hr'
        rcases hwf.rdom i r hr' with ⟨hc, hs⟩ | ⟨hc, hs⟩
        · exfalso
          rcases hl : lookupA w.players i with _ | p
          · rw [hl] at hs
            exact Bool.noConfusion hs
          · exact hm (mem_keysA_of_lookupA w.players i p hl)
        · exact Or.inr ⟨hc, hs⟩
  have hP2 : ∀ i ∈ itr2, ∀ r, rects2 i = some r → r.cls = BodyClass.Player := by
    intro i hi r hr
    have hm : i ∈ keysA w.players := hremsub i ((hitr2rem i).mp hi)
    obtain ⟨p0, r0, hlp, hr0, hl2, hr2⟩ := hplookup2 i hm
    obtain ⟨r2, hr2b, hr2c, -⟩ := hcls2 i r0 hr0
    have he2 : r = r2 := by
      rw [hr2b] at hr
      exact (Option.some.inj hr).symm
    rw [he2, hr2c]
    exact hplayercls i r0 hm hr0
  obtain ⟨w3, heq3, hwf3, hW3, hH3, hC3, hN3, hR3, hI3, hfr3, hrem3⟩ :=
    stepClearOpt_spec { w with players := ps2, rects := rects2, ids_to_remove := itr2 }
      hwf2 hP2
  have hliveB : ∀ i ∈ w3.ids, (w3.rects i).isSome = true := fun i hi =>
    (hwf3.idsdom i).mp hi
  have hdirtyB : ∀ i r, w3.rects i = some r → r.is_updated = true → BOkay r.bounds := by
    intro i r hr hu
    by_cases hrm : i ∈ itr2
    · have hnone := (hrem3 i hrm).1
      rw [hnone] at hr
      exact Option.noConfusion hr
    · have hfr : w3.rects i = rects2 i := (hfr3 i hrm).1
      rw [hfr] at hr
      by_cases hm : i ∈ keysA w.players
      · obtain ⟨p0, r0, hlp, hr0, hl2, hr2⟩ := hplookup2 i hm
        have he : r = (BodyPlayer.update p0 delta r0).2 := by
          rw [hr2] at hr
          exact (Option.some.inj hr).symm
        obtain ⟨q, hc⟩ := update_cases p0 delta r0
        rcases hc with hc | hc
        · exfalso
          rw [hc] at he
          have hcl := hclean i r0 hr0
          rw [he] at hu
          have hu2 : r0.is_updated = true := hu
          rw [hcl] at hu2
          exact Bool.noConfusion hu2
        · obtain ⟨r0c, hr0c, -, -, hiff⟩ := hptU i p0 hlp
          have hec : r0c = r0 := by
            rw [hr0] at hr0c
            exact (Option.some.inj hr0c).symm
          subst hec
          have hnoow : ¬ outOfWorld (BodyPlayer.update p0 delta r0c).2.bounds
              w.width w.height := by
            intro ho
            exact hrm ((hitr2rem i).mpr (hiff.mpr ho))
          rw [hc] at hnoow
          have hnoow2 : ¬ outOfWorld (playerBox q.x q.y) w.width w.height := hnoow
          have hb := bokay_of_not_oow q.x q.y w.width w.height hnoow2
          rw [hc] at he
          rw [he]
          exact hb
      · rw [hframeU i hm] at hr
        have hcl := hclean i r hr
        rw [hcl] at hu
        exact Bool.noConfusion hu
  obtain ⟨g4, rects4, heqB, hinvB, hframeB, hptB⟩ :=
    broadGo_spec w3.ids w3.grid w3.rects hwf3.ginv hwf3.idsnd hliveB hdirtyB
  have hsome4 : ∀ i, (rects4 i).isSome = (w3.rects i).isSome := by
    intro i
    by_cases hm : i ∈ w3.ids
    · obtain ⟨r, r2, hr, hr2, -⟩ := hptB i hm
      rw [hr, hr2]
      rfl
    · rw [hframeB i hm]
  have hchain4 : ∀ i r3, w3.rects i = some r3 → ∃ r4, rects4 i = some r4 ∧
      r4.id = r3.id ∧ r4.cls = r3.cls ∧ r4.bounds = r3.bounds ∧
      r4.is_updated = false := by
    intro i r3 hr3
    have hm : i ∈ w3.ids := (hwf3.idsdom i).mpr (by rw [hr3]; rfl)
    obtain ⟨r, r2, hr, hr2, hid, hcls, hbd, hcl⟩ := hptB i hm
    have he : r = r3 := by
      rw [hr3] at hr
      exact (Option.some.inj hr).symm
    subst he
    exact ⟨r2, hr2, hid, hcls, hbd, hcl⟩
  have hliveD : ∀ kp ∈ g4.pairs, (rects4 kp.2.id1).isSome = true ∧
      (rects4 kp.2.id2).isSome = true := by
    intro kp hm
    have hl : lookupA g4.pairs kp.1 = some kp.2 :=
      (mem_iff_lookupA g4.pairs hinvB.pkeys kp.1 kp.2).mp hm
    obtain ⟨a, b, ra, rb, hra, hrb, -, -, -, hi1, hi2, -, -⟩ := hinvB.psound kp.1 kp.2 hl
    constructor
    · rw [hi1, hra]
      rfl
    · rw [hi2, hrb]
      rfl
  obtain ⟨extraD, heqD, hclD⟩ := detectGo_spec rects4 g4.pairs hliveD
    ([] ++ rem.map (fun i => Event.mk EventClass.OutOfWorld i 0))
  have hpkeys3 : (keysA w3.players).Nodup := hwf3.pkeys
  have hliveC : ∀ ip ∈ w3.players, (rects4 ip.1).isSome = true := by
    intro ip hm
    obtain ⟨r, hr, -⟩ := hwf3.pdom ip.1 ip.2 (hmemlk w3.players hpkeys3 ip hm)
    rw [hsome4 ip.1, hr]
    rfl
  obtain ⟨rects6, ps6, heqC, hinvC, hkeysC, hframeC, hptC⟩ :=
    correctGo_spec w3.cells hwf3.cwf g4 w3.players rects4 hinvB hpkeys3 hliveC
  have hsome6 : ∀ i, (rects6 i).isSome = (rects4 i).isSome := by
    intro i
    by_cases hm : i ∈ keysA w3.players
    · obtain ⟨p0, hl⟩ := hlkAny w3.players i hm
      obtain ⟨r0, corr, hr0, -, hres⟩ := hptC i p0 hl
      rcases hres with ⟨-, -, hr6⟩ | ⟨-, -, hr6⟩ <;> (rw [hr6, hr0]; try rfl)
    · rw [hframeC i hm]
  have hchain6 : ∀ i r4, rects4 i = some r4 → ∃ r6, rects6 i = some r6 ∧
      r6.id = r4.id ∧ r6.cls = r4.cls ∧ r6.is_updated = r4.is_updated := by
    intro i r4 hr4
    by_cases hm : i ∈ keysA w3.players
    · obtain ⟨p0, hl⟩ := hlkAny w3.players i hm
      obtain ⟨r0, corr, hr0, -, hres⟩ := hptC i p0 hl
      have he : r0 = r4 := by
        rw [hr4] at hr0
        exact (Option.some.inj hr0).symm
      subst he
      rcases hres with ⟨-, -, hr6⟩ | ⟨-, -, hr6⟩
      · exact ⟨r0, hr6, rfl, rfl, rfl⟩
      · exact ⟨_, hr6, rfl, rfl, rfl⟩
    · rw [hframeC i hm]
      exact ⟨r4, hr4, rfl, rfl, rfl⟩
  have hpkeys6 : (keysA ps6).Nodup := by
    rw [hkeysC]
    exact hpkeys3
  have hliveF : ∀ ip ∈ ps6, (rects6 ip.1).isSome = true := by
    intro ip hm
    have hk : ip.1 ∈ keysA ps6 := List.mem_map_of_mem Prod.fst hm
    rw [hkeysC] at hk
    obtain ⟨p0, hl⟩ := hlkAny w3.players ip.1 hk
    obtain ⟨r0, corr, hr0, -, hres⟩ := hptC ip.1 p0 hl
    rcases hres with ⟨-, -, hr6⟩ | ⟨-, -, hr6⟩ <;> rw [hr6] <;> rfl
  obtain ⟨ps7, rects7, extraF, heqF, hinvF, hkeysF, hframeF, hprovF, hptF⟩ :=
    finishGo_spec g4 ps6 rects6 [] hinvC hpkeys6 hliveF
  have hsome7f : ∀ i, (rects7 i).isSome = (rects6 i).isSome := by
    intro i
    by_cases hm : i ∈ keysA ps6
    · obtain ⟨p0, hl⟩ := hlkAny ps6 i hm
      rcases hptF i p0 hl with ⟨-, -, hr7⟩ | ⟨-, r0, hr0, -, hr7⟩
      · rw [hr7]
      · rw [hr7, hr0]
        rfl
    · rw [hframeF i hm]
  have hchain7f : ∀ i r6, rects6 i = some r6 → ∃ r7, rects7 i = some r7 ∧
      r7.id = r6.id ∧ r7.cls = r6.cls ∧ r7.is_updated = r6.is_updated := by
    intro i r6 hr6
    by_cases hm : i ∈ keysA ps6
    · obtain ⟨p0, hl⟩ := hlkAny ps6 i hm
      rcases hptF i p0 hl with ⟨-, -, hr7⟩ | ⟨-, r0, hr0, -, hr7⟩
      · rw [hr6] at hr7
        exact ⟨r6, hr7, rfl, rfl, rfl⟩
      · have he : r0 = r6 := by
          rw [hr6] at hr0
          exact (Option.some.inj hr0).symm
        subst he
        exact ⟨_, hr7, rfl, rfl, rfl⟩
    · rw [hframeF i hm]
      exact ⟨r6, hr6, rfl, rfl, rfl⟩
  have hchain37 : ∀ i r3, w3.rects i = some r3 → ∃ r7, rects7 i = some r7 ∧
      r7.id = r3.id ∧ r7.cls = r3.cls ∧ r7.is_updated = false := by
    intro i r3 hr3
    obtain ⟨r4, hr4, hid4, hcls4, -, hcl4⟩ := hchain4 i r3 hr3
    obtain ⟨r6, hr6, hid6, hcls6, hcl6⟩ := hchain6 i r4 hr4
    obtain ⟨r7, hr7, hid7, hcls7, hcl7⟩ := hchain7f i r6 hr6
    refine ⟨r7, hr7, ?_, ?_, ?_⟩
    · rw [hid7, hid6, hid4]
    · rw [hcls7, hcls6, hcls4]
    · rw [hcl7, hcl6, hcl4]
  have hsome7 : ∀ i, (rects7 i).isSome = (w3.rects i).isSome := by
    intro i
    rcases h3 : w3.rects i with _ | r3
    · have h4 := hsome4 i
      rw [h3] at h4
      simp only [Option.isSome_none] at h4
      have h4b : rects4 i = none := by
        rcases hx : rects4 i with _ | r4
        · rfl
        · rw [hx] at h4
          exact Bool.noConfusion h4
      have h6 := hsome6 i
      rw [h4b] at h6
      simp only [Option.isSome_none] at h6
      have h6b : rects6 i = none := by
        rcases hx : rects6 i with _ | r6
        · rfl
        · rw [hx] at h6
          exact Bool.noConfusion h6
      have h7 := hsome7f i
      rw [h6b] at h7
      rw [h7]
    · obtain ⟨r7, hr7, -, -, -⟩ := hchain37 i r3 h3
      rw [hr7]
      rfl
  have hkeys37 : keysA ps7 = keysA w3.players := by
    rw [hkeysF, hkeysC]
  have heq3b : (if itr2 = [] then
      some ({ w with players := ps2, rects := rects2, ids_to_remove := itr2 } : World)
    else stepClear { w with players := ps2, rects := rects2, ids_to_remove := itr2 }) =
      some w3 := heq3
  have hwf7 : WfW { w3 with grid := g4, rects := rects7, players := ps7 } := by
    refine ⟨hinvF, hwf3.idsnd, ?_, ?_, hwf3.ikeys, ?_, ?_, ?_, hwf3.idhi, hwf3.cwf⟩
    · intro i
      show i ∈ w3.ids ↔ (rects7 i).isSome = true
      rw [hsome7 i]
      exact hwf3.idsdom i
    · show (keysA ps7).Nodup
      rw [hkeys37]
      exact hpkeys3
    · intro i p hl
      show ∃ r, rects7 i = some r ∧ r.cls = BodyClass.Player
      have hm : i ∈ keysA ps7 := mem_keysA_of_lookupA ps7 i p hl
      rw [hkeys37] at hm
      obtain ⟨p0, hl0⟩ := hlkAny w3.players i hm
      obtain ⟨r3, hr3, hr3c⟩ := hwf3.pdom i p0 hl0
      obtain ⟨r7, hr7, -, hcls, -⟩ := hchain37 i r3 hr3
      exact ⟨r7, hr7, by rw [hcls]; exact hr3c⟩
    · intro i b hl
      show ∃ r, rects7 i = some r ∧ r.cls = BodyClass.Item
      obtain ⟨r3, hr3, hr3c⟩ := hwf3.idom i b hl
      obtain ⟨r7, hr7, -, hcls, -⟩ := hchain37 i r3 hr3
      exact ⟨r7, hr7, by rw [hcls]; exact hr3c⟩
    · intro i r hr
      have hr' : rects7 i = some r := hr
      have hs : (w3.rects i).isSome = true := by
        rw [← hsome7 i, hr']
        rfl
      rcases h3 : w3.rects i with _ | r3
      · rw [h3] at hs
        exact Bool.noConfusion hs
      · obtain ⟨r7, hr7, -, hcls, -⟩ := hchain37 i r3 h3
        have he : r = r7 := by
          rw [hr7] at hr'
          exact (Option.some.inj hr').symm
        rcases hwf3.rdom i r3 h3 with ⟨hc, hsp⟩ | ⟨hc, hsp⟩
        · left
          refine ⟨by rw [he, hcls]; exact hc, ?_⟩
          show (lookupA ps7 i).isSome = true
          rcases hlx : lookupA w3.players i with _ | p0
          · rw [hlx] at hsp
            exact Bool.noConfusion hsp
          · have hm : i ∈ keysA ps7 := by
              rw [hkeys37]
              exact mem_keysA_of_lookupA w3.players i p0 hlx
            obtain ⟨v, hv⟩ := lookupA_isSome_of_mem_keys ps7 i hm
            rw [hv]
            rfl
        · right
          exact ⟨by rw [he, hcls]; exact hc, hsp⟩
  refine ⟨{ w3 with grid := g4, rects := rects7, players := ps7 }, extraD, extraF, rem,
    ?_, ⟨hwf7, hR3, ?_⟩, hW3, hH3, hC3, hN3, hI3, hremnd, hremsub, hclD, ?_, ?_, ?_, ?_,
    ?_, ?_⟩
  · show World.tick w delta = _
    unfold World.tick
    rw [if_pos hitr]
    dsimp only
    rw [hitr, heqU]
    dsimp only
    rw [heq3b]
    dsimp only
    rw [heqB]
    dsimp only
    rw [heqD]
    dsimp only
    rw [heqC]
    dsimp only
    rw [heqF]
    rfl
  · intro i r hr
    have hrr : rects7 i = some r := hr
    have hs : (w3.rects i).isSome = true := by
      rw [← hsome7 i, hrr]
      rfl
    rcases h3 : w3.rects i with _ | r3
    · rw [h3] at hs
      exact Bool.noConfusion hs
    · obtain ⟨r7, hr7, -, -, hcl⟩ := hchain37 i r3 h3
      have he : r = r7 := by
        rw [hr7] at hrr
        exact (Option.some.inj hrr).symm
      rw [he]
      exact hcl
  · intro pu hm
    obtain ⟨j, b0, hlj, hpj, -⟩ := hprovF pu hm
    have hk : j ∈ keysA ps6 := mem_keysA_of_lookupA ps6 j b0 hlj
    rw [hkeysC] at hk
    obtain ⟨pj, hpjl⟩ := hlkAny w3.players j hk
    by_cases hrm : j ∈ itr2
    · exfalso
      have hn := (hrem3 j hrm).2.1
      rw [hn] at hpjl
      exact Option.noConfusion hpjl
    · have hfr : lookupA w3.players j = lookupA ps2 j := (hfr3 j hrm).2.1
      rw [hfr] at hpjl
      have hm2 : j ∈ keysA ps2 := mem_keysA_of_lookupA ps2 j pj hpjl
      rw [hkeysU] at hm2
      rw [hpj]
      exact hm2
  · intro i p0 hl
    obtain ⟨r0, hr0, -, -, hiff⟩ := hptU i p0 hl
    exact ⟨r0, hr0, hiff⟩
  · intro i hi
    have hi2 : i ∈ itr2 := (hitr2rem i).mpr hi
    obtain ⟨hrn, hpn, hin⟩ := hrem3 i hi2
    refine ⟨?_, ?_, hin⟩
    · show rects7 i = none
      have hs := hsome7 i
      rw [hrn] at hs
      simp only [Option.isSome_none] at hs
      rcases hx : rects7 i with _ | r7
      · rfl
      · rw [hx] at hs
        exact Bool.noConfusion hs
    · show lookupA ps7 i = none
      rw [lookupA_eq_none_iff] at hpn ⊢
      rw [hkeys37]
      exact hpn
  · intro i
    show i ∈ w3.ids ↔ i ∈ w.ids ∧ i ∉ rem
    by_cases hrm : i ∈ itr2
    · have hin := (hrem3 i hrm).2.2
      constructor
      · intro hmem
        exact absurd hmem hin
      · rintro ⟨-, hnr⟩
        exact absurd ((hitr2rem i).mp hrm) hnr
    · have hfr : i ∈ w3.ids ↔ i ∈ w.ids := (hfr3 i hrm).2.2
      constructor
      · intro hmem
        exact ⟨hfr.mp hmem, fun hr => hrm ((hitr2rem i).mpr hr)⟩
      · rintro ⟨hmem, -⟩
        exact hfr.mpr hmem
  · intro i r hr hcls
    have hm : i ∉ keysA w.players := by
      intro hm
      have := hplayercls i r hm hr
      rw [hcls] at this
      exact BodyClass.noConfusion this
    have hrm : i ∉ itr2 := fun hi => hm (hremsub i ((hitr2rem i).mp hi))
    have hfrr : w3.rects i = rects2 i := (hfr3 i hrm).1
    have h3 : w3.rects i = some r := by
      rw [hfrr, hframeU i hm]
      exact hr
    obtain ⟨r4, hr4, hid4, hcls4, hbd4, hcl4⟩ := hchain4 i r h3
    have hm3 : i ∉ keysA w3.players := by
      intro hk
      obtain ⟨pj, hpjl⟩ := hlkAny w3.players i hk
      have hfrp : lookupA w3.players i = lookupA ps2 i := (hfr3 i hrm).2.1
      rw [hfrp] at hpjl
      have hm2 : i ∈ keysA ps2 := mem_keysA_of_lookupA ps2 i pj hpjl
      rw [hkeysU] at hm2
      exact hm hm2
    have hm6 : i ∉ keysA ps6 := by
      rw [hkeysC]
      exact hm3
    refine ⟨r4, ?_, hid4, hcls4, hbd4, hcl4⟩
    show rects7 i = some r4
    rw [hframeF i hm6, hframeC i hm3]
    exact hr4
  · intro i p0 r0 hl hr0 hnr
    have hm : i ∈ keysA w.players := mem_keysA_of_lookupA w.players i p0 hl
    obtain ⟨r0b, hr0b, hl2, hr2, -⟩ := hptU i p0 hl
    have he : r0b = r0 := by
      rw [hr0] at hr0b
      exact (Option.some.inj hr0b).symm
    subst he
    have hrm : i ∉ itr2 := fun hi => hnr ((hitr2rem i).mp hi)
    have hfrr : w3.rects i = rects2 i := (hfr3 i hrm).1
    have hfrp : lookupA w3.players i = lookupA ps2 i := (hfr3 i hrm).2.1
    have h3r : w3.rects i = some (BodyPlayer.update p0 delta r0b).2 := by
      rw [hfrr]
      exact hr2
    have h3p : lookupA w3.players i = some (BodyPlayer.update p0 delta r0b).1 := by
      rw [hfrp]
      exact hl2
    obtain ⟨r4, hr4, -, -, hbd4, -⟩ := hchain4 i _ h3r
    obtain ⟨r0c, corr, hr0c, hcorr, hres⟩ :=
      hptC i (BodyPlayer.update p0 delta r0b).1 h3p
    have hec : r0c = r4 := by
      rw [hr4] at hr0c
      exact (Option.some.inj hr0c).symm
    subst hec
    rw [hbd4] at hcorr
    have hcells : w3.cells = w.cells := hC3
    rw [hcells] at hcorr
    have hfin : ∀ b2, lookupA ps6 i = some b2 →
        postFinish ps7 extraF i b2 := by
      intro b2 hlb
      rcases hptF i b2 hlb with ⟨hskip, hl7, -⟩ | ⟨hmv, rr, -, hl7, -⟩
      · left
        refine ⟨hskip, hl7, ?_⟩
        intro pu hmp hpe
        obtain ⟨j, b0, hlj, hpj, hmvj⟩ := hprovF pu hmp
        rw [hpe] at hpj
        have hji : j = i := hpj.symm
        subst hji
        have heb : b0 = b2 := by
          rw [hlb] at hlj
          exact (Option.some.inj hlj).symm
        rw [heb] at hmvj
        exact hmvj hskip
      · right
        exact ⟨hmv, hl7⟩
    refine ⟨corr, hcorr, ?_⟩
    rcases hres with ⟨hz, hlb, -⟩ | ⟨hz, hlb, -⟩
    · left
      refine ⟨hz, ?_⟩
      show postFinish ps7 extraF i (BodyPlayer.update p0 delta r0b).1
      exact hfin _ hlb
    · right
      refine ⟨hz, ?_⟩
      show postFinish ps7 extraF i (corrApply (BodyPlayer.update p0 delta r0b).1 corr)
      exact hfin _ hlb

/-! ### The public world operations and reachability -/

/-- Cells::set_block succeeds on every strictly in-bounds cell of a
coherent store. -/
theorem set_block_total (c : Cells) (hwf : CellsWF c) (x y : Int) (state : Bool)
    (hx0 : 0 ≤ x) (hxw : x < c.width) (hy0 : 0 ≤ y) (hyh : y < c.height) :
    ∃ c2, c.set_block x y state = some c2 := by
  have hidx0 : 0 ≤ y * c.width + x := add_nonneg (mul_nonneg hy0 hwf.1) hx0
  have hidx1 : y * c.width + x < c.width * c.height := by
    have hyw : y * c.width ≤ (c.height - 1) * c.width :=
      mul_le_mul_of_nonneg_right (by omega) hwf.1
    nlinarith
  have hidx2 : y * c.width + x < 2 ^ 64 := lt_of_lt_of_le hidx1 hwf.2.2.2.2.le
  have hcast : (intToUsize (y * c.width + x) : Int) = y * c.width + x :=
    intToUsize_of_range _ hidx0 hidx2
  have hposB : intToUsize (y * c.width + x) / TARGET_BITS < c.busy.length := by
    have h64 : (intToUsize (y * c.width + x) : Int) < 64 * (c.busy.length : Int) := by
      rw [hcast]
      exact lt_of_lt_of_le hidx1 hwf.2.2.1
    have : intToUsize (y * c.width + x) < 64 * c.busy.length := by exact_mod_cast h64
    unfold TARGET_BITS
    omega
  have hposK : intToUsize (y * c.width + x) / TARGET_BITS < c.blocks.length := by
    have h64 : (intToUsize (y * c.width + x) : Int) < 64 * (c.blocks.length : Int) := by
      rw [hcast]
      exact lt_of_lt_of_le hidx1 hwf.2.2.2.1
    have : intToUsize (y * c.width + x) < 64 * c.blocks.length := by exact_mod_cast h64
    unfold TARGET_BITS
    omega
  unfold Cells.set_block
  dsimp only
  rw [List.getElem?_eq_getElem hposB, List.getElem?_eq_getElem hposK]
  cases state
  · exact ⟨_, by dsimp only; rw [if_neg (by simp)]⟩
  · exact ⟨_, by dsimp only; rw [if_pos rfl]⟩

/-- The public world operations of src/world.rs and src/body/: body and
block creation, the two player intents, and the tick advance. Creation is
guarded by the caller regime: in-range id counter and an in-world starting
box (respectively a strictly in-bounds cell). -/
inductive WOp where
  | playerCreate (x y : Int)
  | itemCreate (x y : Int)
  | blockCreate (x y : Int)
  | run (id : Nat) (direction : Direction)
  | jump (id : Nat)
  | tick (delta : ℚ)

def applyWOp (w : World) : WOp → Option World
  | WOp.playerCreate x y =>
    if w.next_body_id + 1 < 2 ^ 26 ∧
        BOkay (Rect.new (w.next_body_id + 1) BodyClass.Player x y
          BODY_PLAYER_HALF_WIDTH BODY_PLAYER_HEIGHT).bounds then
      match World.player_create w x y with
      | none => none
      | some (w2, _) => some w2
    else none
  | WOp.itemCreate x y =>
    if w.next_body_id + 1 < 2 ^ 26 ∧
        BOkay (Rect.new (w.next_body_id + 1) BodyClass.Item x y
          BODY_ITEM_HALF_WIDTH BODY_ITEM_HEIGHT).bounds then
      match World.item_create w x y with
      | none => none
      | some (w2, _) => some w2
    else none
  | WOp.blockCreate x y =>
    if 0 ≤ x ∧ x < w.cells.width ∧ 0 ≤ y ∧ y < w.cells.height then
      match World.block_create w x y with
      | none => none
      | some (w2, _) => some w2
    else none
  | WOp.run id direction => some (World.player_run w id direction)
  | WOp.jump id => some (World.player_jump w id)
  | WOp.tick delta =>
    match World.tick w delta with
    | none => none
    | some (w2, _, _) => some w2

def applyWOps (w : World) : List WOp → Option World
  | [] => some w
  | op :: rest =>
    match applyWOp w op with
    | none => none
    | some w2 => applyWOps w2 rest

/-- A fresh world is at rest and well formed. -/
theorem invW_new (wb hb : Int) (h0 : 0 ≤ wb) (h1 : 0 ≤ hb) (h2 : wb * hb < 2 ^ 24) :
    InvW (World.new wb hb) := by
  refine ⟨⟨?_, List.nodup_nil, ?_, List.nodup_nil, List.nodup_nil, ?_, ?_, ?_, ?_, ?_⟩,
    rfl, ?_⟩
  · exact gridInv_empty
  · intro i
    simp [World.new]
  · intro i p hl
    exact Option.noConfusion hl
  · intro i b hl
    exact Option.noConfusion hl
  · intro i r hr
    exact Option.noConfusion hr
  · intro i hm
    simp [World.new] at hm
  · exact cellsWF_new wb hb h0 h1 h2
  · intro i r hr
    exact Option.noConfusion hr

/-- World::player_create under the caller regime: it succeeds with the next
id, preserves well-formedness and cleanliness, and leaves the removal
queue as it was. -/
theorem invR_player_create (w : World) (hwf : WfW w)
    (hclean : ∀ i r, w.rects i = some r → r.is_updated = false) (x y : Int)
    (hid : w.next_body_id + 1 < 2 ^ 26)
    (hB : BOkay (Rect.new (w.next_body_id + 1) BodyClass.Player x y
      BODY_PLAYER_HALF_WIDTH BODY_PLAYER_HEIGHT).bounds) :
    ∃ w2, World.player_create w x y = some (w2, w.next_body_id + 1) ∧ WfW w2 ∧
      (∀ i r, w2.rects i = some r → r.is_updated = false) ∧
      w2.ids_to_remove = w.ids_to_remove := by
  have hnone : w.rects (w.next_body_id + 1) = none := by
    rcases hx : w.rects (w.next_body_id + 1) with _ | r
    · rfl
    · exfalso
      have hm : w.next_body_id + 1 ∈ w.ids := (hwf.idsdom _).mpr (by rw [hx]; rfl)
      have := hwf.idhi _ hm
      omega
  have hNid : (Rect.new (w.next_body_id + 1) BodyClass.Player x y
      BODY_PLAYER_HALF_WIDTH BODY_PLAYER_HEIGHT).id = w.next_body_id + 1 := rfl
  obtain ⟨g2, hadd, hinv2⟩ := grid_add_preserves w.grid w.rects hwf.ginv
    (Rect.new (w.next_body_id + 1) BodyClass.Player x y
      BODY_PLAYER_HALF_WIDTH BODY_PLAYER_HEIGHT)
    (by rw [hNid]; exact hnone) (by rw [hNid]; omega) (by rw [hNid]; exact hid) hB
  rw [hNid] at hadd hinv2
  have hkeyfresh : (w.next_body_id + 1) ∉ keysA w.players := by
    intro hm
    obtain ⟨p0, hl⟩ := lookupA_isSome_of_mem_keys w.players _ hm
    obtain ⟨r, hr, -⟩ := hwf.pdom _ p0 hl
    rw [hnone] at hr
    exact Option.noConfusion hr
  refine ⟨{ w with next_body_id := w.next_body_id + 1, grid := g2, rects := updR w.rects (w.next_body_id + 1) { Rect.new (w.next_body_id + 1) BodyClass.Player x y BODY_PLAYER_HALF_WIDTH BODY_PLAYER_HEIGHT with regions := get_regions_by_bounds (Rect.new (w.next_body_id + 1) BodyClass.Player x y BODY_PLAYER_HALF_WIDTH BODY_PLAYER_HEIGHT).bounds }, players := (w.next_body_id + 1, BodyPlayer.new x y) :: w.players, ids := insertSet (w.next_body_id + 1) w.ids }, ?_, ?_, ?_, rfl⟩
  · unfold World.player_create
    dsimp only
    rw [hadd]
    rfl
  · refine ⟨hinv2, nodup_insertSet _ _ hwf.idsnd, ?_, ?_, hwf.ikeys, ?_, ?_, ?_, ?_,
      hwf.cwf⟩
    · intro i
      dsimp only
      rw [mem_insertSet]
      by_cases hie : i = w.next_body_id + 1
      · subst hie
        rw [updR_same]
        simp
      · rw [updR_other w.rects _ _ i hie, ← hwf.idsdom i]
        simp [hie]
    · show (keysA ((w.next_body_id + 1, BodyPlayer.new x y) :: w.players)).Nodup
      exact List.nodup_cons.mpr ⟨hkeyfresh, hwf.pkeys⟩
    · intro i p hl
      dsimp only at hl ⊢
      rw [lookupA_cons] at hl
      by_cases hie : w.next_body_id + 1 = i
      · subst hie
        rw [updR_same]
        exact ⟨_, rfl, rfl⟩
      · rw [if_neg hie] at hl
        have hne : i ≠ w.next_body_id + 1 := fun he => hie he.symm
        rw [updR_other w.rects _ _ i hne]
        exact hwf.pdom i p hl
    · intro i b hl
      dsimp only at hl ⊢
      obtain ⟨r, hr, hrc⟩ := hwf.idom i b hl
      have hne : i ≠ w.next_body_id + 1 := by
        intro he
        rw [he, hnone] at hr
        exact Option.noConfusion hr
      rw [updR_other w.rects _ _ i hne]
      exact ⟨r, hr, hrc⟩
    · intro i r hr
      dsimp only at hr ⊢
      by_cases hie : i = w.next_body_id + 1
      · subst hie
        rw [updR_same] at hr
        have he := (Option.some.inj hr).symm
        left
        constructor
        · rw [he]
          rfl
        · rw [lookupA_cons, if_pos rfl]
          rfl
      · rw [updR_other w.rects _ _ i hie] at hr
        rcases hwf.rdom i r hr with ⟨hc, hs⟩ | ⟨hc, hs⟩
        · left
          refine ⟨hc, ?_⟩
          show (lookupA ((w.next_body_id + 1, BodyPlayer.new x y) :: w.players) i).isSome
            = true
          rw [lookupA_cons, if_neg (fun he => hie he.symm)]
          exact hs
        · exact Or.inr ⟨hc, hs⟩
    · intro i hm
      dsimp only at hm ⊢
      rw [mem_insertSet] at hm
      rcases hm with rfl | hm
      · omega
      · have := hwf.idhi i hm
        omega
  · intro i r hr
    dsimp only at hr ⊢
    by_cases hie : i = w.next_body_id + 1
    · subst hie
      rw [updR_same] at hr
      have he := (Option.some.inj hr).symm
      rw [he]
      rfl
    · rw [updR_other w.rects _ _ i hie] at hr
      exact hclean i r hr

/-- World::player_create under the caller regime: it succeeds with the next
id and preserves the rest invariant. -/
theorem invW_player_create (w : World) (hinv : InvW w) (x y : Int)
    (hid : w.next_body_id + 1 < 2 ^ 26)
    (hB : BOkay (Rect.new (w.next_body_id + 1) BodyClass.Player x y
      BODY_PLAYER_HALF_WIDTH BODY_PLAYER_HEIGHT).bounds) :
    ∃ w2, World.player_create w x y = some (w2, w.next_body_id + 1) ∧ InvW w2 := by
  obtain ⟨w2, heq, hwf2, hclean2, hitr2⟩ :=
    invR_player_create w hinv.1 hinv.2.2 x y hid hB
  exact ⟨w2, heq, hwf2, hitr2.trans hinv.2.1, hclean2⟩

/-- World::item_create under the caller regime. -/
theorem invR_item_create (w : World) (hwf : WfW w)
    (hclean : ∀ i r, w.rects i = some r → r.is_updated = false) (x y : Int)
    (hid : w.next_body_id + 1 < 2 ^ 26)
    (hB : BOkay (Rect.new (w.next_body_id + 1) BodyClass.Item x y
      BODY_ITEM_HALF_WIDTH BODY_ITEM_HEIGHT).bounds) :
    ∃ w2, World.item_create w x y = some (w2, w.next_body_id + 1) ∧ WfW w2 ∧
      (∀ i r, w2.rects i = some r → r.is_updated = false) ∧
      w2.ids_to_remove = w.ids_to_remove := by
  have hnone : w.rects (w.next_body_id + 1) = none := by
    rcases hx : w.rects (w.next_body_id + 1) with _ | r
    · rfl
    · exfalso
      have hm : w.next_body_id + 1 ∈ w.ids := (hwf.idsdom _).mpr (by rw [hx]; rfl)
      have := hwf.idhi _ hm
      omega
  have hNid : (Rect.new (w.next_body_id + 1) BodyClass.Item x y
      BODY_ITEM_HALF_WIDTH BODY_ITEM_HEIGHT).id = w.next_body_id + 1 := rfl
  obtain ⟨g2, hadd, hinv2⟩ := grid_add_preserves w.grid w.rects hwf.ginv
    (Rect.new (w.next_body_id + 1) BodyClass.Item x y
      BODY_ITEM_HALF_WIDTH BODY_ITEM_HEIGHT)
    (by rw [hNid]; exact hnone) (by rw [hNid]; omega) (by rw [hNid]; exact hid) hB
  rw [hNid] at hadd hinv2
  have hkeyfresh : (w.next_body_id + 1) ∉ keysA w.items := by
    intro hm
    obtain ⟨b0, hl⟩ := lookupA_isSome_of_mem_keys w.items _ hm
    obtain ⟨r, hr, -⟩ := hwf.idom _ b0 hl
    rw [hnone] at hr
    exact Option.noConfusion hr
  refine ⟨{ w with next_body_id := w.next_body_id + 1, grid := g2, rects := updR w.rects (w.next_body_id + 1) { Rect.new (w.next_body_id + 1) BodyClass.Item x y BODY_ITEM_HALF_WIDTH BODY_ITEM_HEIGHT with regions := get_regions_by_bounds (Rect.new (w.next_body_id + 1) BodyClass.Item x y BODY_ITEM_HALF_WIDTH BODY_ITEM_HEIGHT).bounds }, items := (w.next_body_id + 1, BodyItem.new x y) :: w.items, ids := insertSet (w.next_body_id + 1) w.ids }, ?_, ?_, ?_, rfl⟩
  · unfold World.item_create
    dsimp only
    rw [hadd]
    rfl
  · refine ⟨hinv2, nodup_insertSet _ _ hwf.idsnd, ?_, hwf.pkeys, ?_, ?_, ?_, ?_, ?_,
      hwf.cwf⟩
    · intro i
      dsimp only
      rw [mem_insertSet]
      by_cases hie : i = w.next_body_id + 1
      · subst hie
        rw [updR_same]
        simp
      · rw [updR_other w.rects _ _ i hie, ← hwf.idsdom i]
        simp [hie]
    · show (keysA ((w.next_body_id + 1, BodyItem.new x y) :: w.items)).Nodup
      exact List.nodup_cons.mpr ⟨hkeyfresh, hwf.ikeys⟩
    · intro i p hl
      dsimp only at hl ⊢
      obtain ⟨r, hr, hrc⟩ := hwf.pdom i p hl
      have hne : i ≠ w.next_body_id + 1 := by
        intro he
        rw [he, hnone] at hr
        exact Option.noConfusion hr
      rw [updR_other w.rects _ _ i hne]
      exact ⟨r, hr, hrc⟩
    · intro i b hl
      dsimp only at hl ⊢
      rw [lookupA_cons] at hl
      by_cases hie : w.next_body_id + 1 = i
      · subst hie
        rw [updR_same]
        exact ⟨_, rfl, rfl⟩
      · rw [if_neg hie] at hl
        have hne : i ≠ w.next_body_id + 1 := fun he => hie he.symm
        rw [updR_other w.rects _ _ i hne]
        exact hwf.idom i b hl
    · intro i r hr
      dsimp only at hr ⊢
      by_cases hie : i = w.next_body_id + 1
      · subst hie
        rw [updR_same] at hr
        have he := (Option.some.inj hr).symm
        right
        constructor
        · rw [he]
          rfl
        · rw [lookupA_cons, if_pos rfl]
          rfl
      · rw [updR_other w.rects _ _ i hie] at hr
        rcases hwf.rdom i r hr with ⟨hc, hs⟩ | ⟨hc, hs⟩
        · exact Or.inl ⟨hc, hs⟩
        · right
          refine ⟨hc, ?_⟩
          show (lookupA ((w.next_body_id + 1, BodyItem.new x y) :: w.items) i).isSome
            = true
          rw [lookupA_cons, if_neg (fun he => hie he.symm)]
          exact hs
    · intro i hm
      dsimp only at hm ⊢
      rw [mem_insertSet] at hm
      rcases hm with rfl | hm
      · omega
      · have := hwf.idhi i hm
        omega
  · intro i r hr
    dsimp only at hr ⊢
    by_cases hie : i = w.next_body_id + 1
    · subst hie
      rw [updR_same] at hr
      have he := (Option.some.inj hr).symm
      rw [he]
      rfl
    · rw [updR_other w.rects _ _ i hie] at hr
      exact hclean i r hr

/-- World::item_create under the caller regime. -/
theorem invW_item_create (w : World) (hinv : InvW w) (x y : Int)
    (hid : w.next_body_id + 1 < 2 ^ 26)
    (hB : BOkay (Rect.new (w.next_body_id + 1) BodyClass.Item x y
      BODY_ITEM_HALF_WIDTH BODY_ITEM_HEIGHT).bounds) :
    ∃ w2, World.item_create w x y = some (w2, w.next_body_id + 1) ∧ InvW w2 := by
  obtain ⟨w2, heq, hwf2, hclean2, hitr2⟩ :=
    invR_item_create w hinv.1 hinv.2.2 x y hid hB
  exact ⟨w2, heq, hwf2, hitr2.trans hinv.2.1, hclean2⟩

/-- World::block_create touches only the cell store. -/
theorem invR_block_create (w : World) (hwf : WfW w)
    (hclean : ∀ i r, w.rects i = some r → r.is_updated = false) (x y : Int)
    (hx0 : 0 ≤ x) (hxw : x < w.cells.width) (hy0 : 0 ≤ y) (hyh : y < w.cells.height) :
    ∃ w2 bid, World.block_create w x y = some (w2, bid) ∧ WfW w2 ∧
      (∀ i r, w2.rects i = some r → r.is_updated = false) ∧
      w2.ids_to_remove = w.ids_to_remove := by
  obtain ⟨c2, hset⟩ := set_block_total w.cells hwf.cwf x y true hx0 hxw hy0 hyh
  refine ⟨{ w with cells := c2 }, ((y * w.cells.width + x + 1) % (2 ^ 32 : Int)).toNat,
    ?_, ?_, hclean, rfl⟩
  · unfold World.block_create PhysRs.block_create
    rw [if_neg (by push_neg; exact ⟨le_of_lt hxw, le_of_lt hyh⟩), hset]
  · exact ⟨hwf.ginv, hwf.idsnd, hwf.idsdom, hwf.pkeys, hwf.ikeys, hwf.pdom, hwf.idom,
      hwf.rdom, hwf.idhi, cellsWF_set_block w.cells x y true c2 hwf.cwf hset⟩

theorem invW_block_create (w : World) (hinv : InvW w) (x y : Int)
    (hx0 : 0 ≤ x) (hxw : x < w.cells.width) (hy0 : 0 ≤ y) (hyh : y < w.cells.height) :
    ∃ w2 bid, World.block_create w x y = some (w2, bid) ∧ InvW w2 := by
  obtain ⟨w2, bid, heq, hwf2, hclean2, hitr2⟩ :=
    invR_block_create w hinv.1 hinv.2.2 x y hx0 hxw hy0 hyh
  exact ⟨w2, bid, heq, hwf2, hitr2.trans hinv.2.1, hclean2⟩

/-- The run intent only rewrites one player body. -/
theorem invR_player_run (w : World) (hwf : WfW w)
    (hclean : ∀ i r, w.rects i = some r → r.is_updated = false)
    (id : Nat) (d : Direction) :
    WfW (World.player_run w id d) ∧
    (∀ i r, (World.player_run w id d).rects i = some r → r.is_updated = false) ∧
    (World.player_run w id d).ids_to_remove = w.ids_to_remove := by
  unfold World.player_run
  rcases hl : lookupA w.players id with _ | p
  · exact ⟨hwf, hclean, rfl⟩
  · refine ⟨⟨hwf.ginv, hwf.idsnd, hwf.idsdom, ?_, hwf.ikeys, ?_, hwf.idom, ?_,
      hwf.idhi, hwf.cwf⟩, hclean, rfl⟩
    · show (keysA (setA w.players id (p.run d))).Nodup
      rw [keysA_setA]
      exact hwf.pkeys
    · intro i p2 hl2
      dsimp only at hl2
      show ∃ r, w.rects i = some r ∧ r.cls = BodyClass.Player
      rw [lookupA_setA] at hl2
      by_cases hie : i = id
      · rw [if_pos hie] at hl2
        rw [hie]
        exact hwf.pdom id p hl
      · rw [if_neg hie] at hl2
        exact hwf.pdom i p2 hl2
    · intro i r hr
      rcases hwf.rdom i r hr with ⟨hc, hs⟩ | ⟨hc, hs⟩
      · left
        refine ⟨hc, ?_⟩
        show (lookupA (setA w.players id (p.run d)) i).isSome = true
        rw [lookupA_setA]
        by_cases hie : i = id
        · rw [if_pos hie, hl]
          rfl
        · rw [if_neg hie]
          exact hs
      · exact Or.inr ⟨hc, hs⟩

theorem invW_player_run (w : World) (hinv : InvW w) (id : Nat) (d : Direction) :
    InvW (World.player_run w id d) := by
  obtain ⟨hwf2, hclean2, hitr2⟩ := invR_player_run w hinv.1 hinv.2.2 id d
  exact ⟨hwf2, hitr2.trans hinv.2.1, hclean2⟩

/-- The jump intent only rewrites one player body. -/
theorem invR_player_jump (w : World) (hwf : WfW w)
    (hclean : ∀ i r, w.rects i = some r → r.is_updated = false) (id : Nat) :
    WfW (World.player_jump w id) ∧
    (∀ i r, (World.player_jump w id).rects i = some r → r.is_updated = false) ∧
    (World.player_jump w id).ids_to_remove = w.ids_to_remove := by
  unfold World.player_jump
  rcases hl : lookupA w.players id with _ | p
  · exact ⟨hwf, hclean, rfl⟩
  · refine ⟨⟨hwf.ginv, hwf.idsnd, hwf.idsdom, ?_, hwf.ikeys, ?_, hwf.idom, ?_,
      hwf.idhi, hwf.cwf⟩, hclean, rfl⟩
    · show (keysA (setA w.players id p.jump)).Nodup
      rw [keysA_setA]
      exact hwf.pkeys
    · intro i p2 hl2
      dsimp only at hl2
      show ∃ r, w.rects i = some r ∧ r.cls = BodyClass.Player
      rw [lookupA_setA] at hl2
      by_cases hie : i = id
      · rw [if_pos hie] at hl2
        rw [hie]
        exact hwf.pdom id p hl
      · rw [if_neg hie] at hl2
        exact hwf.pdom i p2 hl2
    · intro i r hr
      rcases hwf.rdom i r hr with ⟨hc, hs⟩ | ⟨hc, hs⟩
      · left
        refine ⟨hc, ?_⟩
        show (lookupA (setA w.players id p.jump) i).isSome = true
        rw [lookupA_setA]
        by_cases hie : i = id
        · rw [if_pos hie, hl]
          rfl
        · rw [if_neg hie]
          exact hs
      · exact Or.inr ⟨hc, hs⟩

theorem invW_player_jump (w : World) (hinv : InvW w) (id : Nat) :
    InvW (World.player_jump w id) := by
  obtain ⟨hwf2, hclean2, hitr2⟩ := invR_player_jump w hinv.1 hinv.2.2 id
  exact ⟨hwf2, hitr2.trans hinv.2.1, hclean2⟩

/-- Every successful public operation preserves the rest invariant. -/
theorem applyWOp_invW (w : World) (hinv : InvW w) (op : WOp) (w2 : World)
    (hrun : applyWOp w op = some w2) : InvW w2 := by
  cases op with
  | playerCreate x y =>
    unfold applyWOp at hrun
    dsimp only at hrun
    by_cases hg : w.next_body_id + 1 < 2 ^ 26 ∧
        BOkay (Rect.new (w.next_body_id + 1) BodyClass.Player x y
          BODY_PLAYER_HALF_WIDTH BODY_PLAYER_HEIGHT).bounds
    · rw [if_pos hg] at hrun
      obtain ⟨w3, heq, hinv3⟩ := invW_player_create w hinv x y hg.1 hg.2
      rw [heq] at hrun
      have he := Option.some.inj hrun
      rw [← he]
      exact hinv3
    · rw [if_neg hg] at hrun
      exact Option.noConfusion hrun
  | itemCreate x y =>
    unfold applyWOp at hrun
    dsimp only at hrun
    by_cases hg : w.next_body_id + 1 < 2 ^ 26 ∧
        BOkay (Rect.new (w.next_body_id + 1) BodyClass.Item x y
          BODY_ITEM_HALF_WIDTH BODY_ITEM_HEIGHT).bounds
    · rw [if_pos hg] at hrun
      obtain ⟨w3, heq, hinv3⟩ := invW_item_create w hinv x y hg.1 hg.2
      rw [heq] at hrun
      have he := Option.some.inj hrun
      rw [← he]
      exact hinv3
    · rw [if_neg hg] at hrun
      exact Option.noConfusion hrun
  | blockCreate x y =>
    unfold applyWOp at hrun
    dsimp only at hrun
    by_cases hg : 0 ≤ x ∧ x < w.cells.width ∧ 0 ≤ y ∧ y < w.cells.height
    · rw [if_pos hg] at hrun
      obtain ⟨w3, bid, heq, hinv3⟩ := invW_block_create w hinv x y hg.1 hg.2.1 hg.2.2.1
        hg.2.2.2
      rw [heq] at hrun
      have he := Option.some.inj hrun
      rw [← he]
      exact hinv3
    · rw [if_neg hg] at hrun
      exact Option.noConfusion hrun
  | run id direction =>
    unfold applyWOp at hrun
    dsimp only at hrun
    have he := Option.some.inj hrun
    rw [← he]
    exact invW_player_run w hinv id direction
  | jump id =>
    unfold applyWOp at hrun
    dsimp only at hrun
    have he := Option.some.inj hrun
    rw [← he]
    exact invW_player_jump w hinv id
  | tick delta =>
    unfold applyWOp at hrun
    dsimp only at hrun
    obtain ⟨w7, extraD, extraF, rem, heq, hinv7, -⟩ := tick_spec w hinv delta
    rw [heq] at hrun
    have he := Option.some.inj hrun
    rw [← he]
    exact hinv7

theorem applyWOps_invW (ops : List WOp) :
    ∀ w, InvW w → ∀ w2, applyWOps w ops = some w2 → InvW w2 := by
  induction ops with
  | nil =>
    intro w hinv w2 hrun
    have he := Option.some.inj hrun
    rw [← he]
    exact hinv
  | cons op rest ih =>
    intro w hinv w2 hrun
    unfold applyWOps at hrun
    rcases hr : applyWOp w op with _ | w3
    · rw [hr] at hrun
      exact Option.noConfusion hrun
    · rw [hr] at hrun
      exact ih w3 (applyWOp_invW w hinv op w3 hr) w2 hrun

/-- Reachability from a fresh world of coherent dimensions gives the rest
invariant. -/
theorem invW_of_ops (wb hb : Int) (ops : List WOp) (w : World)
    (h0 : 0 ≤ wb) (h1 : 0 ≤ hb) (h2 : wb * hb < 2 ^ 24)
    (hrun : applyWOps (World.new wb hb) ops = some w) : InvW w :=
  applyWOps_invW ops (World.new wb hb) (invW_new wb hb h0 h1 h2) w hrun

/-- World::remove from src/world.rs: queue the id for deferred removal at
the start of the next update. -/
def World.remove (w : World) (id : Nat) : World :=
  { w with ids_to_remove := insertSet id w.ids_to_remove }

/-- The public World operations, deferred removal included: body creation,
the run and jump intents, World::remove and the tick advance. Creation is
taken under the documented caller regime (id space not exhausted, bodies
inside the coordinate range, block coordinates on the grid). -/
inductive WOp2 where
  | playerCreate (x y : Int)
  | itemCreate (x y : Int)
  | blockCreate (x y : Int)
  | run (id : Nat) (direction : Direction)
  | jump (id : Nat)
  | remove (id : Nat)
  | tick (delta : ℚ)

def applyWOp2 (w : World) : WOp2 → Option World
  | WOp2.playerCreate x y =>
    if w.next_body_id + 1 < 2 ^ 26 ∧
        BOkay (Rect.new (w.next_body_id + 1) BodyClass.Player x y
          BODY_PLAYER_HALF_WIDTH BODY_PLAYER_HEIGHT).bounds then
      match World.player_create w x y with
      | none => none
      | some (w2, _) => some w2
    else none
  | WOp2.itemCreate x y =>
    if w.next_body_id + 1 < 2 ^ 26 ∧
        BOkay (Rect.new (w.next_body_id + 1) BodyClass.Item x y
          BODY_ITEM_HALF_WIDTH BODY_ITEM_HEIGHT).bounds then
      match World.item_create w x y with
      | none => none
      | some (w2, _) => some w2
    else none
  | WOp2.blockCreate x y =>
    if 0 ≤ x ∧ x < w.cells.width ∧ 0 ≤ y ∧ y < w.cells.height then
      match World.block_create w x y with
      | none => none
      | some (w2, _) => some w2
    else none
  | WOp2.run id direction => some (World.player_run w id direction)
  | WOp2.jump id => some (World.player_jump w id)
  | WOp2.remove id => some (World.remove w id)
  | WOp2.tick delta =>
    match World.tick w delta with
    | none => none
    | some (w2, _, _) => some w2

def applyWOps2 (w : World) : List WOp2 → Option World
  | [] => some w
  | op :: rest =>
    match applyWOp2 w op with
    | none => none
    | some w2 => applyWOps2 w2 rest

/-- The relaxed invariant of a world between public operations once
deferred removal is allowed: well formed and no rect left dirty, the
removal queue possibly nonempty. -/
def InvR (w : World) : Prop :=
  WfW w ∧ ∀ i r, w.rects i = some r → r.is_updated = false

theorem invR_new (wb hb : Int) (h0 : 0 ≤ wb) (h1 : 0 ≤ hb)
    (h2 : wb * hb < 2 ^ 24) : InvR (World.new wb hb) :=
  ⟨(invW_new wb hb h0 h1 h2).1, (invW_new wb hb h0 h1 h2).2.2⟩

/-- Queueing a removal touches no body structure. -/
theorem invR_remove (w : World) (hinv : InvR w) (id : Nat) :
    InvR (World.remove w id) := by
  unfold World.remove
  exact ⟨⟨hinv.1.ginv, hinv.1.idsnd, hinv.1.idsdom, hinv.1.pkeys, hinv.1.ikeys,
    hinv.1.pdom, hinv.1.idom, hinv.1.rdom, hinv.1.idhi, hinv.1.cwf⟩, hinv.2⟩

/-- A tick computes the same result as the tick of the world left by its
opening flush of the removal queue. -/
theorem tick_of_flush (w w1 : World) (delta : ℚ)
    (h : (if w.ids_to_remove = [] then some w else stepClear w) = some w1)
    (h1 : w1.ids_to_remove = []) :
    World.tick w delta = World.tick w1 delta := by
  unfold World.tick
  rw [h, if_pos h1]

/-- The opening flush of a tick: from any well-formed clean world it
succeeds, restores the rest invariant and expunges the queued records. -/
theorem invW_flush (w : World) (hwf : WfW w)
    (hclean : ∀ i r, w.rects i = some r → r.is_updated = false) :
    ∃ w1, (if w.ids_to_remove = [] then some w else stepClear w) = some w1 ∧
      InvW w1 ∧ (∀ i ∈ w.ids_to_remove, w1.rects i = none) := by
  by_cases he : w.ids_to_remove = []
  · rw [if_pos he]
    refine ⟨w, rfl, ⟨hwf, he, hclean⟩, ?_⟩
    intro i hi
    rw [he] at hi
    simp at hi
  · rw [if_neg he]
    obtain ⟨w2, heq, hwf2, hW, hH, hC, hN, hitr2, hfr, hrem⟩ := stepClear_free w hwf
    refine ⟨w2, heq, ⟨hwf2, hitr2, ?_⟩, fun i hi => (hrem i hi).1⟩
    intro i r hr
    by_cases hi : i ∈ w.ids_to_remove
    · rw [(hrem i hi).1] at hr
      exact Option.noConfusion hr
    · rw [(hfr i hi).1] at hr
      exact hclean i r hr

/-- The tick pipeline from any well-formed clean world, the removal queue
possibly nonempty: it always succeeds, first flushing every queued id out
of the record map, the player map and the id set, and lands back on the
rest invariant. -/
theorem tick_invR (w : World) (hwf : WfW w)
    (hclean : ∀ i r, w.rects i = some r → r.is_updated = false) (delta : ℚ) :
    ∃ w7 evs pos, World.tick w delta = some (w7, evs, pos) ∧ InvW w7 ∧
      (∀ i ∈ w.ids_to_remove, w7.rects i = none ∧ lookupA w7.players i = none ∧
        i ∉ w7.ids) := by
  obtain ⟨w1, hflush, hinv1, hgone⟩ := invW_flush w hwf hclean
  obtain ⟨w7, extraD, extraF, rem, heq, hinv7, -, -, -, -, -, -, -, -, -, -, -,
      hids, -, -⟩ := tick_spec w1 hinv1 delta
  refine ⟨w7, _, _, (tick_of_flush w w1 delta hflush hinv1.2.1).trans heq, hinv7, ?_⟩
  intro i hi
  have hrn : w1.rects i = none := hgone i hi
  have hni : i ∉ w1.ids := by
    intro hm
    have := (hinv1.1.idsdom i).mp hm
    rw [hrn] at this
    simp at this
  have hn7 : i ∉ w7.ids := fun hm => hni ((hids i).mp hm).1
  have hr7 : w7.rects i = none := by
    rcases hx : w7.rects i with _ | r
    · rfl
    · exact absurd ((hinv7.1.idsdom i).mpr (by rw [hx]; rfl)) hn7
  refine ⟨hr7, ?_, hn7⟩
  rcases hl : lookupA w7.players i with _ | p
  · rfl
  · obtain ⟨r, hr, -⟩ := hinv7.1.pdom i p hl
    rw [hr7] at hr
    exact Option.noConfusion hr

/-- Every successful public operation, deferred removal included,
preserves the relaxed invariant. -/
theorem applyWOp2_invR (w : World) (hinv : InvR w) (op : WOp2) (w2 : World)
    (hrun : applyWOp2 w op = some w2) : InvR w2 := by
  cases op with
  | playerCreate x y =>
    unfold applyWOp2 at hrun
    dsimp only at hrun
    by_cases hg : w.next_body_id + 1 < 2 ^ 26 ∧
        BOkay (Rect.new (w.next_body_id + 1) BodyClass.Player x y
          BODY_PLAYER_HALF_WIDTH BODY_PLAYER_HEIGHT).bounds
    · rw [if_pos hg] at hrun
      obtain ⟨w3, heq, hwf3, hclean3, -⟩ :=
        invR_player_create w hinv.1 hinv.2 x y hg.1 hg.2
      rw [heq] at hrun
      have he := Option.some.inj hrun
      rw [← he]
      exact ⟨hwf3, hclean3⟩
    · rw [if_neg hg] at hrun
      exact Option.noConfusion hrun
  | itemCreate x y =>
    unfold applyWOp2 at hrun
    dsimp only at hrun
    by_cases hg : w.next_body_id + 1 < 2 ^ 26 ∧
        BOkay (Rect.new (w.next_body_id + 1) BodyClass.Item x y
          BODY_ITEM_HALF_WIDTH BODY_ITEM_HEIGHT).bounds
    · rw [if_pos hg] at hrun
      obtain ⟨w3, heq, hwf3, hclean3, -⟩ :=
        invR_item_create w hinv.1 hinv.2 x y hg.1 hg.2
      rw [heq] at hrun
      have he := Option.some.inj hrun
      rw [← he]
      exact ⟨hwf3, hclean3⟩
    · rw [if_neg hg] at hrun
      exact Option.noConfusion hrun
  | blockCreate x y =>
    unfold applyWOp2 at hrun
    dsimp only at hrun
    by_cases hg : 0 ≤ x ∧ x < w.cells.width ∧ 0 ≤ y ∧ y < w.cells.height
    · rw [if_pos hg] at hrun
      obtain ⟨w3, bid, heq, hwf3, hclean3, -⟩ :=
        invR_block_create w hinv.1 hinv.2 x y hg.1 hg.2.1 hg.2.2.1 hg.2.2.2
      rw [heq] at hrun
      have he := Option.some.inj hrun
      rw [← he]
      exact ⟨hwf3, hclean3⟩
    · rw [if_neg hg] at hrun
      exact Option.noConfusion hrun
  | run id direction =>
    unfold applyWOp2 at hrun
    dsimp only at hrun
    have he := Option.some.inj hrun
    rw [← he]
    obtain ⟨hwf3, hclean3, -⟩ := invR_player_run w hinv.1 hinv.2 id direction
    exact ⟨hwf3, hclean3⟩
  | jump id =>
    unfold applyWOp2 at hrun
    dsimp only at hrun
    have he := Option.some.inj hrun
    rw [← he]
    obtain ⟨hwf3, hclean3, -⟩ := invR_player_jump w hinv.1 hinv.2 id
    exact ⟨hwf3, hclean3⟩
  | remove id =>
    unfold applyWOp2 at hrun
    dsimp only at hrun
    have he := Option.some.inj hrun
    rw [← he]
    exact invR_remove w hinv id
  | tick delta =>
    unfold applyWOp2 at hrun
    dsimp only at hrun
    obtain ⟨w7, evs, pos, heq, hinv7, -⟩ := tick_invR w hinv.1 hinv.2 delta
    rw [heq] at hrun
    have he := Option.some.inj hrun
    rw [← he]
    exact ⟨hinv7.1, hinv7.2.2⟩

theorem applyWOps2_invR (ops : List WOp2) :
    ∀ w, InvR w → ∀ w2, applyWOps2 w ops = some w2 → InvR w2 := by
  induction ops with
  | nil =>
    intro w hinv w2 hrun
    have he := Option.some.inj hrun
    rw [← he]
    exact hinv
  | cons op rest ih =>
    intro w hinv w2 hrun
    unfold applyWOps2 at hrun
    rcases hr : applyWOp2 w op with _ | w3
    · rw [hr] at hrun
      exact Option.noConfusion hrun
    · rw [hr] at hrun
      exact ih w3 (applyWOp2_invR w hinv op w3 hr) w2 hrun

/-- Reachability from a fresh world of coherent dimensions, with deferred
removal among the operations, gives the relaxed invariant. -/
theorem invR_of_ops2 (wb hb : Int) (ops : List WOp2) (w : World)
    (h0 : 0 ≤ wb) (h1 : 0 ≤ hb) (h2 : wb * hb < 2 ^ 24)
    (hrun : applyWOps2 (World.new wb hb) ops = some w) : InvR w :=
  applyWOps2_invR ops (World.new wb hb) (invR_new wb hb h0 h1 h2) w hrun

/-- Exactly one OutOfWorld event arises from a duplicate-free flag list. -/
theorem countP_oow_one (rem : List Nat) (hnd : rem.Nodup) (i : Nat) (hm : i ∈ rem) :
    ((rem.map (fun j => Event.mk EventClass.OutOfWorld j 0)).countP
      (fun e => decide (e.cls = EventClass.OutOfWorld ∧ e.body_id = i))) = 1 := by
  induction rem with
  | nil => simp at hm
  | cons j rest ih =>
    have hnd2 := List.nodup_cons.mp hnd
    rw [List.map_cons, List.countP_cons]
    rcases List.mem_cons.mp hm with rfl | hm2
    · have hzero : ((rest.map (fun j => Event.mk EventClass.OutOfWorld j 0)).countP
          (fun e => decide (e.cls = EventClass.OutOfWorld ∧ e.body_id = i))) = 0 := by
        rw [List.countP_eq_zero]
        intro e he
        obtain ⟨a, ha, rfl⟩ := List.mem_map.mp he
        have hai : a ≠ i := fun he2 => hnd2.1 (he2 ▸ ha)
        simp [hai]
      rw [hzero]
      simp
    · have hji : j ≠ i := by
        rintro rfl
        exact hnd2.1 hm2
      rw [ih hnd2.2 hm2]
      simp [hji]

/-- C6: internal-consistency safety. In every world reachable by public
operations from a fresh world — creation, run and jump intents, deferred
removal via World::remove and tick advances — every id stored in a
broadphase region bucket and both ids of every Pair have a live Rect
record, so the unwrapped lookups of Grid::add, Grid::update, Grid::remove
and narrowphase detection never fail, and every tick succeeds in full,
flushing the pending deferred removals out of the record map, the player
map and the id set before broadphase and detection touch the index. -/
theorem world_internal_consistency (wb hb : Int) (ops : List WOp2) (w : World)
    (h0 : 0 ≤ wb) (h1 : 0 ≤ hb) (h2 : wb * hb < 2 ^ 24)
    (hrun : applyWOps2 (World.new wb hb) ops = some w) :
    (∀ rg bucket, lookupA w.grid.hash rg = some bucket →
      ∀ id ∈ bucket, (w.rects id).isSome = true) ∧
    (∀ k pr, lookupA w.grid.pairs k = some pr →
      (w.rects pr.id1).isSome = true ∧ (w.rects pr.id2).isSome = true) ∧
    (∀ delta : ℚ, ∃ w2 evs pos, World.tick w delta = some (w2, evs, pos) ∧
      ∀ i ∈ w.ids_to_remove, w2.rects i = none ∧ lookupA w2.players i = none ∧
        i ∉ w2.ids) := by
  have hinv := invR_of_ops2 wb hb ops w h0 h1 h2 hrun
  refine ⟨?_, ?_, ?_⟩
  · intro rg bucket hl id hm
    obtain ⟨r, hr, -⟩ := hinv.1.ginv.bsound rg bucket hl id hm
    rw [hr]
    rfl
  · intro k pr hl
    obtain ⟨a, b, ra, rb, hra, hrb, -, -, -, hi1, hi2, -, -⟩ := hinv.1.ginv.psound k pr hl
    constructor
    · rw [hi1, hra]
      rfl
    · rw [hi2, hrb]
      rfl
  · intro delta
    obtain ⟨w7, evs, pos, heq, -, hgone⟩ := tick_invR w hinv.1 hinv.2 delta
    exact ⟨w7, evs, pos, heq, hgone⟩

def c6ops : List WOp2 :=
  [WOp2.playerCreate 64 256, WOp2.itemCreate 64 300, WOp2.remove 1]

def c6w : World := (applyWOps2 (World.new 2 2) c6ops).getD (World.new 2 2)

/-- Witness for C6 at a concrete input: a reachable world holding one
player and one item, with the player queued for deferred removal so that
the next tick exercises the flush. -/
theorem world_internal_consistency_witness :
    (0 : Int) ≤ 2 ∧ (0 : Int) ≤ 2 ∧ (2 : Int) * 2 < 2 ^ 24 ∧
    applyWOps2 (World.new 2 2) c6ops = some c6w ∧
    ((∀ rg bucket, lookupA c6w.grid.hash rg = some bucket →
      ∀ id ∈ bucket, (c6w.rects id).isSome = true) ∧
    (∀ k pr, lookupA c6w.grid.pairs k = some pr →
      (c6w.rects pr.id1).isSome = true ∧ (c6w.rects pr.id2).isSome = true) ∧
    (∀ delta : ℚ, ∃ w2 evs pos, World.tick c6w delta = some (w2, evs, pos) ∧
      ∀ i ∈ c6w.ids_to_remove, w2.rects i = none ∧ lookupA w2.players i = none ∧
        i ∉ w2.ids)) :=
  ⟨by norm_num, by norm_num, by norm_num, rfl,
    world_internal_consistency 2 2 c6ops c6w (by norm_num) (by norm_num) (by norm_num) rfl⟩

/-- C4: out-of-world handling. If after integration a player body box
crosses the world boundary, the tick succeeds, exactly one OutOfWorld
event with trigger id zero is emitted for it, and afterwards the body is
gone from the record map, the player map, the id set, every broadphase
bucket and every pair. -/
theorem out_of_world_expunged (w : World) (hinv : InvW w) (delta : ℚ) (id : Nat)
    (p : BodyPlayer) (r : Rect) (hp : lookupA w.players id = some p)
    (hr : w.rects id = some r)
    (hoow : outOfWorld (BodyPlayer.update p delta r).2.bounds w.width w.height) :
    ∃ w2 evs pos, World.tick w delta = some (w2, evs, pos) ∧
      Event.mk EventClass.OutOfWorld id 0 ∈ evs ∧
      evs.countP (fun e => decide (e.cls = EventClass.OutOfWorld ∧ e.body_id = id)) = 1 ∧
      w2.rects id = none ∧ lookupA w2.players id = none ∧ id ∉ w2.ids ∧
      (∀ rg bucket, lookupA w2.grid.hash rg = some bucket → id ∉ bucket) ∧
      (∀ k pr, lookupA w2.grid.pairs k = some pr → pr.id1 ≠ id ∧ pr.id2 ≠ id) := by
  obtain ⟨w7, extraD, extraF, rem, heq, hinv7, -, -, -, -, -, hremnd, -, hclD, -,
    hptOow, habs, -, -, -⟩ := tick_spec w hinv delta
  obtain ⟨r0, hr0, hiff⟩ := hptOow id p hp
  have her : r0 = r := by
    rw [hr] at hr0
    exact (Option.some.inj hr0).symm
  subst her
  have hid_rem : id ∈ rem := hiff.mpr hoow
  obtain ⟨hrn, hpn, hidn⟩ := habs id hid_rem
  refine ⟨w7, _, extraF, heq, ?_, ?_, hrn, hpn, hidn, ?_, ?_⟩
  · refine List.mem_append.mpr (Or.inl ?_)
    exact List.mem_map.mpr ⟨id, hid_rem, rfl⟩
  · rw [List.countP_append, countP_oow_one rem hremnd id hid_rem]
    have hz : (extraD.countP
        (fun e => decide (e.cls = EventClass.OutOfWorld ∧ e.body_id = id))) = 0 := by
      rw [List.countP_eq_zero]
      intro e he
      have hne := hclD e he
      simp [hne]
    rw [hz]
  · intro rg bucket hl hm
    obtain ⟨r2, hr2, -⟩ := hinv7.1.ginv.bsound rg bucket hl id hm
    rw [hrn] at hr2
    exact Option.noConfusion hr2
  · intro k pr hl
    obtain ⟨a, b, ra, rb, hra, hrb, -, -, -, hi1, hi2, -, -⟩ :=
      hinv7.1.ginv.psound k pr hl
    constructor
    · intro he
      rw [he] at hi1
      rw [← hi1, hrn] at hra
      exact Option.noConfusion hra
    · intro he
      rw [he] at hi2
      rw [← hi2, hrn] at hrb
      exact Option.noConfusion hrb

def c4w : World := (applyWOps (World.new 1 1) [WOp.playerCreate 64 300]).getD (World.new 1 1)

def c4rect : Rect :=
  { id := 1, cls := BodyClass.Player, bounds := ⟨32, 96, 92, 300⟩,
    regions := get_regions_by_bounds ⟨32, 96, 92, 300⟩, is_updated := false }

/-- Witness for C4 at a concrete input: a one-block world whose single
player stands past the bottom boundary. -/
theorem out_of_world_expunged_witness :
    lookupA c4w.players 1 = some (BodyPlayer.new 64 300) ∧
    c4w.rects 1 = some c4rect ∧
    outOfWorld (BodyPlayer.update (BodyPlayer.new 64 300) 0 c4rect).2.bounds
      c4w.width c4w.height ∧
    (∃ w2 evs pos, World.tick c4w 0 = some (w2, evs, pos) ∧
      Event.mk EventClass.OutOfWorld 1 0 ∈ evs ∧
      evs.countP (fun e => decide (e.cls = EventClass.OutOfWorld ∧ e.body_id = 1)) = 1 ∧
      w2.rects 1 = none ∧ lookupA w2.players 1 = none ∧ 1 ∉ w2.ids ∧
      (∀ rg bucket, lookupA w2.grid.hash rg = some bucket → 1 ∉ bucket) ∧
      (∀ k pr, lookupA w2.grid.pairs k = some pr → pr.id1 ≠ 1 ∧ pr.id2 ≠ 1)) :=
  ⟨by decide, by decide, by decide,
    out_of_world_expunged c4w
      (invW_of_ops 1 1 [WOp.playerCreate 64 300] c4w (by norm_num) (by norm_num)
        (by norm_num) rfl)
      0 1 (BodyPlayer.new 64 300) c4rect (by decide) (by decide) (by decide)⟩

/-- C10: items are inert. Across a tick of any rest-state world, an item
body is unchanged, its record keeps its box exactly and never ends dirty,
no OutOfWorld event carries its id, and no position delta carries its
id: integration, out-of-world detection and delta finalisation iterate
only over players. -/
theorem items_inert (w : World) (hinv : InvW w) (delta : ℚ) (id : Nat)
    (b : BodyItem) (r : Rect) (hb : lookupA w.items id = some b)
    (hr : w.rects id = some r) :
    ∃ w2 evs pos, World.tick w delta = some (w2, evs, pos) ∧
      lookupA w2.items id = some b ∧
      (∃ r2, w2.rects id = some r2 ∧ r2.bounds = r.bounds ∧ r2.cls = r.cls ∧
        r2.id = r.id ∧ r2.is_updated = false) ∧
      (∀ e ∈ evs, e.cls = EventClass.OutOfWorld → e.body_id ≠ id) ∧
      (∀ pu ∈ pos, pu.id ≠ id) := by
  obtain ⟨w7, extraD, extraF, rem, heq, -, -, -, -, -, hitems, -, hremsub, hclD, hpos,
    -, -, -, hitem, -⟩ := tick_spec w hinv delta
  have hrc : r.cls = BodyClass.Item := by
    obtain ⟨r2, hr2, hc2⟩ := hinv.1.idom id b hb
    have he : r2 = r := by
      rw [hr] at hr2
      exact (Option.some.inj hr2).symm
    rw [← he]
    exact hc2
  have hnotp : id ∉ keysA w.players := by
    intro hm
    obtain ⟨p0, hl0⟩ := lookupA_isSome_of_mem_keys w.players id hm
    obtain ⟨rp, hrp, hcp⟩ := hinv.1.pdom id p0 hl0
    have he : rp = r := by
      rw [hr] at hrp
      exact (Option.some.inj hrp).symm
    rw [he, hrc] at hcp
    exact BodyClass.noConfusion hcp
  obtain ⟨r7, hr7, hid7, hcls7, hbd7, hcl7⟩ := hitem id r hr hrc
  refine ⟨w7, _, extraF, heq, ?_, ⟨r7, hr7, hbd7, hcls7, hid7, hcl7⟩, ?_, ?_⟩
  · rw [hitems]
    exact hb
  · intro e he hcls
    rcases List.mem_append.mp he with hm | hm
    · obtain ⟨a, ha, rfl⟩ := List.mem_map.mp hm
      intro hbe
      have : a = id := hbe
      rw [this] at ha
      exact hnotp (hremsub id ha)
    · exact absurd hcls (hclD e hm)
  · intro pu hm hpe
    have := hpos pu hm
    rw [hpe] at this
    exact hnotp this

def c10w : World := (applyWOps (World.new 2 2) [WOp.itemCreate 64 300]).getD (World.new 2 2)

def c10rect : Rect :=
  { id := 1, cls := BodyClass.Item, bounds := ⟨32, 96, 236, 300⟩,
    regions := get_regions_by_bounds ⟨32, 96, 236, 300⟩, is_updated := false }

/-- Witness for C10 at a concrete input: a world holding a single item. -/
theorem items_inert_witness :
    lookupA c10w.items 1 = some (BodyItem.new 64 300) ∧
    c10w.rects 1 = some c10rect ∧
    (∃ w2 evs pos, World.tick c10w 1 = some (w2, evs, pos) ∧
      lookupA w2.items 1 = some (BodyItem.new 64 300) ∧
      (∃ r2, w2.rects 1 = some r2 ∧ r2.bounds = c10rect.bounds ∧ r2.cls = c10rect.cls ∧
        r2.id = c10rect.id ∧ r2.is_updated = false) ∧
      (∀ e ∈ evs, e.cls = EventClass.OutOfWorld → e.body_id ≠ 1) ∧
      (∀ pu ∈ pos, pu.id ≠ 1)) :=
  ⟨by decide, by decide,
    items_inert c10w
      (invW_of_ops 2 2 [WOp.itemCreate 64 300] c10w (by norm_num) (by norm_num)
        (by norm_num) rfl)
      1 1 (BodyItem.new 64 300) c10rect (by decide) (by decide)⟩

/-! ### Claim C2: the idle grounded player -/

/-- The body of an idle grounded player after integration: only the
one-unit downward nudge and the per-tick flag resets. -/
def idleStep (p : BodyPlayer) : BodyPlayer :=
  { p with current_tick_corrected := false, y := p.y + 1, move_dir_y := 0 }

/-- Integration of a grounded body with zero force and neither jump nor
fall: the one-unit nudge downward, with the rect rebuilt and dirty. -/
theorem update_idle (p : BodyPlayer) (delta : ℚ) (r : Rect)
    (hg : p.is_on_ground = true) (hf : p.force_x = 0)
    (hj : p.is_jump = false) (hfa : p.is_fall = false) :
    BodyPlayer.update p delta r =
      (idleStep p, { r with bounds := playerBox p.x (p.y + 1), is_updated := true }) := by
  have h1 : updGround ({ p with current_tick_corrected := false }, r) = ({ p with current_tick_corrected := false, y := p.y + 1 }, { r with is_updated := true }) := by
    unfold updGround
    dsimp only
    rw [if_pos hg]
  have h2 : updForce delta ({ p with current_tick_corrected := false, y := p.y + 1 }, { r with is_updated := true }) = ({ p with current_tick_corrected := false, y := p.y + 1 }, { r with is_updated := true }) := by
    unfold updForce
    dsimp only
    rw [if_neg (by rw [hf]; simp)]
  have h3 : updJump delta ({ p with current_tick_corrected := false, y := p.y + 1, move_dir_y := 0 }, { r with is_updated := true }) = ({ p with current_tick_corrected := false, y := p.y + 1, move_dir_y := 0 }, { r with is_updated := true }) := by
    unfold updJump
    dsimp only
    rw [if_neg (by rw [hj]; simp)]
  have h4 : updFall delta ({ p with current_tick_corrected := false, y := p.y + 1, move_dir_y := 0 }, { r with is_updated := true }) = ({ p with current_tick_corrected := false, y := p.y + 1, move_dir_y := 0 }, { r with is_updated := true }) := by
    unfold updFall
    dsimp only
    rw [if_neg (by rw [hfa]; simp)]
  show BodyPlayer.update p delta r = _
  unfold BodyPlayer.update
  dsimp only
  rw [h1, h2]
  dsimp only
  rw [h3, h4]
  dsimp only
  rw [if_pos rfl, update_rect_eq]
  rfl

/-- The correction fold of an idle grounded player: when every block in
the window either misses the box or meets it along a one-unit strip under
the feet, and at least one feet block exists, the fold returns the exact
upward unit correction. -/
theorem corrCells_feet (cells : Cells) (body : BodyPlayer) (rb : Bounds)
    (hwf : CellsWF cells)
    (hpx1 : body.prev_x - BODY_PLAYER_HALF_WIDTH = rb.min_x)
    (hpx2 : body.prev_x + BODY_PLAYER_HALF_WIDTH = rb.max_x) :
    ∀ (l : List (Int × Int)) (corr : Vector),
      (corr = ⟨0, 0⟩ ∨ corr = ⟨0, -1⟩) →
      (∀ c ∈ l, Cells.is_block cells c.1 c.2 = some true →
        (get_bounds_intersection rb ⟨c.1 * BLOCK_SIZE, c.1 * BLOCK_SIZE + BLOCK_SIZE,
          c.2 * BLOCK_SIZE, c.2 * BLOCK_SIZE + BLOCK_SIZE⟩).x ≤ 0 ∨
        (get_bounds_intersection rb ⟨c.1 * BLOCK_SIZE, c.1 * BLOCK_SIZE + BLOCK_SIZE,
          c.2 * BLOCK_SIZE, c.2 * BLOCK_SIZE + BLOCK_SIZE⟩).y ≤ 0 ∨
        ((get_bounds_intersection rb ⟨c.1 * BLOCK_SIZE, c.1 * BLOCK_SIZE + BLOCK_SIZE,
          c.2 * BLOCK_SIZE, c.2 * BLOCK_SIZE + BLOCK_SIZE⟩).y = 1 ∧
          rb.max_y < c.2 * BLOCK_SIZE + BLOCK_SIZE)) →
      ((∃ c ∈ l, Cells.is_block cells c.1 c.2 = some true ∧
          0 < (get_bounds_intersection rb ⟨c.1 * BLOCK_SIZE, c.1 * BLOCK_SIZE + BLOCK_SIZE,
            c.2 * BLOCK_SIZE, c.2 * BLOCK_SIZE + BLOCK_SIZE⟩).x ∧
          (get_bounds_intersection rb ⟨c.1 * BLOCK_SIZE, c.1 * BLOCK_SIZE + BLOCK_SIZE,
            c.2 * BLOCK_SIZE, c.2 * BLOCK_SIZE + BLOCK_SIZE⟩).y = 1 ∧
          rb.max_y < c.2 * BLOCK_SIZE + BLOCK_SIZE) ∨ corr = ⟨0, -1⟩) →
      corrCells cells rb body l corr = some ⟨0, -1⟩
  | [], corr, hc, _, hex => by
    rcases hex with ⟨c, hm, -⟩ | rfl
    · simp at hm
    · rfl
  | (xc, yc) :: rest, corr, hc, hblocks, hex => by
    obtain ⟨bval, hbv⟩ := is_block_total cells hwf xc yc
    cases bval
    · have hstep : corrCells cells rb body ((xc, yc) :: rest) corr =
          corrCells cells rb body rest corr := by
        conv_lhs => rw [corrCells]
        rw [hbv]
      rw [hstep]
      refine corrCells_feet cells body rb hwf hpx1 hpx2 rest corr hc
        (fun c hm hb => hblocks c (List.mem_cons_of_mem _ hm) hb) ?_
      rcases hex with ⟨c, hm, hb, hrestc⟩ | rfl
      · rcases List.mem_cons.mp hm with rfl | hm2
        · rw [hbv] at hb
          exact absurd (Option.some.inj hb) (by simp)
        · exact Or.inl ⟨c, hm2, hb, hrestc⟩
      · exact Or.inr rfl
    · have hblk := hblocks (xc, yc) (List.mem_cons_self _ _) hbv
      dsimp only at hblk
      by_cases hskip : (get_bounds_intersection rb ⟨xc * BLOCK_SIZE,
          xc * BLOCK_SIZE + BLOCK_SIZE, yc * BLOCK_SIZE, yc * BLOCK_SIZE + BLOCK_SIZE⟩).x ≤ 0 ∨
          (get_bounds_intersection rb ⟨xc * BLOCK_SIZE, xc * BLOCK_SIZE + BLOCK_SIZE,
            yc * BLOCK_SIZE, yc * BLOCK_SIZE + BLOCK_SIZE⟩).y ≤ 0
      · have hstep : corrCells cells rb body ((xc, yc) :: rest) corr =
            corrCells cells rb body rest corr := by
          conv_lhs => rw [corrCells]
          rw [hbv]
          dsimp only
          rw [if_pos hskip]
        rw [hstep]
        refine corrCells_feet cells body rb hwf hpx1 hpx2 rest corr hc
          (fun c hm hb => hblocks c (List.mem_cons_of_mem _ hm) hb) ?_
        rcases hex with ⟨c, hm, hb, hcx, hcy, hbelow⟩ | rfl
        · rcases List.mem_cons.mp hm with rfl | hm2
          · exfalso
            dsimp only at hcx hcy hbelow
            rcases hskip with hs | hs
            · omega
            · rw [hcy] at hs
              omega
          · exact Or.inl ⟨c, hm2, hb, hcx, hcy, hbelow⟩
        · exact Or.inr rfl
      · push_neg at hskip
        have hy1 : (get_bounds_intersection rb ⟨xc * BLOCK_SIZE, xc * BLOCK_SIZE + BLOCK_SIZE,
            yc * BLOCK_SIZE, yc * BLOCK_SIZE + BLOCK_SIZE⟩).y = 1 ∧
            rb.max_y < yc * BLOCK_SIZE + BLOCK_SIZE := by
          rcases hblk with hs | hs | hs
          · omega
          · omega
          · exact hs
        have hpinpos : 0 < (get_bounds_intersection
            ⟨body.prev_x - BODY_PLAYER_HALF_WIDTH, body.prev_x + BODY_PLAYER_HALF_WIDTH,
             body.prev_y - BODY_PLAYER_HEIGHT, body.prev_y⟩
            ⟨xc * BLOCK_SIZE, xc * BLOCK_SIZE + BLOCK_SIZE, yc * BLOCK_SIZE,
             yc * BLOCK_SIZE + BLOCK_SIZE⟩).x := by
          have hx := hskip.1
          unfold get_bounds_intersection at hx ⊢
          dsimp only at hx ⊢
          rw [hpx1, hpx2]
          omega
        have hstep : corrCells cells rb body ((xc, yc) :: rest) corr =
            corrCells cells rb body rest ⟨0, -1⟩ := by
          conv_lhs => rw [corrCells]
          rw [hbv]
          dsimp only
          rw [if_neg (by push_neg; exact hskip), if_pos hy1.2, if_pos hpinpos, hy1.1]
          rcases hc with rfl | rfl
          · congr 1
          · congr 1
        rw [hstep]
        exact corrCells_feet cells body rb hwf hpx1 hpx2 rest ⟨0, -1⟩ (Or.inr rfl)
          (fun c hm hb => hblocks c (List.mem_cons_of_mem _ hm) hb) (Or.inr rfl)

/-- A downward unit correction on a still body with no move intent: the
flags land grounded and force free, and the position shifts by the
correction. -/
theorem corrApply_down_fields (q : BodyPlayer) (hms : q.move_state = Direction.None) :
    (corrApply q ⟨0, -1⟩).x = q.x + 0 ∧ (corrApply q ⟨0, -1⟩).y = q.y + -1 ∧
    (corrApply q ⟨0, -1⟩).prev_x = q.prev_x ∧ (corrApply q ⟨0, -1⟩).prev_y = q.prev_y ∧
    (corrApply q ⟨0, -1⟩).current_tick_corrected = true ∧
    (corrApply q ⟨0, -1⟩).is_on_ground = true := by
  unfold corrApply BodyPlayer.update_correction
  dsimp only
  rw [if_pos (by decide : (-1 : Int) < 0), if_neg (fun h => h.1 rfl), hms]
  exact ⟨rfl, rfl, rfl, rfl, rfl, rfl⟩

/-- after_update is the identity on a corrected grounded body. -/
theorem after_update_grounded (b : BodyPlayer) (hc : b.current_tick_corrected = true)
    (hg : b.is_on_ground = true) : b.after_update = b := by
  unfold BodyPlayer.after_update
  dsimp only
  rw [if_neg (fun h => Bool.noConfusion (hc.symm.trans h)),
    if_neg (fun h => Bool.noConfusion (hg.symm.trans h.1))]

/-- C2: idle invariant. A player that is grounded with zero horizontal
force, no run intent and no jump or fall in progress, at rest (previous
position equal to current), whose one-unit-nudged box stays inside the
world, and whose scanned cell window contains only blocks that either miss
the nudged box or meet it exactly along the one-unit strip under the feet
— with at least one such feet block — keeps its exact position across one
World tick and contributes no position delta: the downward nudge applied
to grounded bodies is cancelled by terrain correction within the tick. -/
theorem idle_grounded_player_fixed (w : World) (hinvw : InvW w) (delta : ℚ)
    (id : Nat) (p : BodyPlayer) (r : Rect)
    (hlp : lookupA w.players id = some p) (hr : w.rects id = some r)
    (hg : p.is_on_ground = true) (hf : p.force_x = 0)
    (hj : p.is_jump = false) (hfa : p.is_fall = false)
    (hms : p.move_state = Direction.None)
    (hpx : p.prev_x = p.x) (hpy : p.prev_y = p.y)
    (hnoow : ¬ outOfWorld (playerBox p.x (p.y + 1)) w.width w.height)
    (hblocks : ∀ c ∈ scanCells (playerBox p.x (p.y + 1)),
      Cells.is_block w.cells c.1 c.2 = some true →
      (get_bounds_intersection (playerBox p.x (p.y + 1)) ⟨c.1 * BLOCK_SIZE,
        c.1 * BLOCK_SIZE + BLOCK_SIZE, c.2 * BLOCK_SIZE,
        c.2 * BLOCK_SIZE + BLOCK_SIZE⟩).x ≤ 0 ∨
      (get_bounds_intersection (playerBox p.x (p.y + 1)) ⟨c.1 * BLOCK_SIZE,
        c.1 * BLOCK_SIZE + BLOCK_SIZE, c.2 * BLOCK_SIZE,
        c.2 * BLOCK_SIZE + BLOCK_SIZE⟩).y ≤ 0 ∨
      ((get_bounds_intersection (playerBox p.x (p.y + 1)) ⟨c.1 * BLOCK_SIZE,
        c.1 * BLOCK_SIZE + BLOCK_SIZE, c.2 * BLOCK_SIZE,
        c.2 * BLOCK_SIZE + BLOCK_SIZE⟩).y = 1 ∧
        (playerBox p.x (p.y + 1)).max_y < c.2 * BLOCK_SIZE + BLOCK_SIZE))
    (hfeet : ∃ c ∈ scanCells (playerBox p.x (p.y + 1)),
      Cells.is_block w.cells c.1 c.2 = some true ∧
      0 < (get_bounds_intersection (playerBox p.x (p.y + 1)) ⟨c.1 * BLOCK_SIZE,
        c.1 * BLOCK_SIZE + BLOCK_SIZE, c.2 * BLOCK_SIZE,
        c.2 * BLOCK_SIZE + BLOCK_SIZE⟩).x ∧
      (get_bounds_intersection (playerBox p.x (p.y + 1)) ⟨c.1 * BLOCK_SIZE,
        c.1 * BLOCK_SIZE + BLOCK_SIZE, c.2 * BLOCK_SIZE,
        c.2 * BLOCK_SIZE + BLOCK_SIZE⟩).y = 1 ∧
      (playerBox p.x (p.y + 1)).max_y < c.2 * BLOCK_SIZE + BLOCK_SIZE) :
    ∃ (w2 : World) (evs : List Event) (pos : List PositionUpdate),
      World.tick w delta = some (w2, evs, pos) ∧
      (∃ p2, lookupA w2.players id = some p2 ∧ p2.x = p.x ∧ p2.y = p.y) ∧
      (∀ pu ∈ pos, pu.id ≠ id) := by
  have hupd := update_idle p delta r hg hf hj hfa
  have hbounds : (BodyPlayer.update p delta r).2.bounds = playerBox p.x (p.y + 1) := by
    rw [hupd]
  have hbody : (BodyPlayer.update p delta r).1 = idleStep p := by
    rw [hupd]
  obtain ⟨w7, extraD, extraF, rem, heq, -, -, -, -, -, -, -, -, -, -, hoowiff, -, -, -,
      hsurv⟩ := tick_spec w hinvw delta
  obtain ⟨r0, hr0, hoow⟩ := hoowiff id p hlp
  rw [hr] at hr0
  have hrr : r = r0 := Option.some.inj hr0
  subst hrr
  rw [hbounds] at hoow
  have hidrem : id ∉ rem := fun hm => hnoow (hoow.mp hm)
  obtain ⟨corr, hcorr, hcases⟩ := hsurv id p r hlp hr hidrem
  rw [hbounds, hbody] at hcorr
  have hfeetc : corrCells w.cells (playerBox p.x (p.y + 1)) (idleStep p)
      (scanCells (playerBox p.x (p.y + 1))) ⟨0, 0⟩ = some ⟨0, -1⟩ :=
    corrCells_feet w.cells (idleStep p) (playerBox p.x (p.y + 1)) hinvw.1.cwf
      (by show p.prev_x - BODY_PLAYER_HALF_WIDTH = p.x - BODY_PLAYER_HALF_WIDTH
          rw [hpx])
      (by show p.prev_x + BODY_PLAYER_HALF_WIDTH = p.x + BODY_PLAYER_HALF_WIDTH
          rw [hpx])
      (scanCells (playerBox p.x (p.y + 1))) ⟨0, 0⟩ (Or.inl rfl) hblocks (Or.inl hfeet)
  have hceq : corr = ⟨0, -1⟩ := by
    rw [hfeetc] at hcorr
    exact (Option.some.inj hcorr).symm
  subst hceq
  have hpf : postFinish w7.players extraF id (corrApply (idleStep p) ⟨0, -1⟩) := by
    rcases hcases with ⟨⟨-, hy0⟩, -⟩ | ⟨-, hpf0⟩
    · exact absurd hy0 (by decide)
    · rw [hbody] at hpf0
      exact hpf0
  obtain ⟨hqx, hqy, hqpx, hqpy, hqc, hqg⟩ :=
    corrApply_down_fields (idleStep p)
      (by show p.move_state = Direction.None; exact hms)
  have hau := after_update_grounded (corrApply (idleStep p) ⟨0, -1⟩) hqc hqg
  unfold postFinish at hpf
  rw [hau] at hpf
  have hfix : (corrApply (idleStep p) ⟨0, -1⟩).x = (corrApply (idleStep p) ⟨0, -1⟩).prev_x ∧
      (corrApply (idleStep p) ⟨0, -1⟩).y = (corrApply (idleStep p) ⟨0, -1⟩).prev_y := by
    constructor
    · rw [hqx, hqpx]
      show p.x + 0 = p.prev_x
      rw [hpx]
      omega
    · rw [hqy, hqpy]
      show p.y + 1 + -1 = p.prev_y
      rw [hpy]
      omega
  rcases hpf with ⟨-, hlk7, hnopos⟩ | ⟨hne, -⟩
  · refine ⟨w7, _, extraF, heq, ⟨corrApply (idleStep p) ⟨0, -1⟩, hlk7, ?_, ?_⟩, hnopos⟩
    · rw [hqx]
      show p.x + 0 = p.x
      omega
    · rw [hqy]
      show p.y + 1 + -1 = p.y
      omega
  · exact absurd hfix hne

def c2ops : List WOp := [WOp.blockCreate 1 2, WOp.playerCreate 192 257, WOp.tick 0]

def c2w : World := (applyWOps (World.new 4 4) c2ops).getD (World.new 4 4)

def c2p : BodyPlayer :=
  { x := 192, y := 256, prev_x := 192, prev_y := 256, force_x := 0, last_ground_y := 257,
    is_jump := false, jump_timer := 0, jump_x_decreased := false, jump_x_setted := false,
    is_fall := false, fall_timer := 0, move_dir_y := 0, is_on_ground := true,
    move_state := Direction.None, current_tick_corrected := true }

def c2rect : Rect :=
  { id := 1, cls := BodyClass.Player, bounds := ⟨160, 224, 48, 256⟩,
    regions := get_regions_by_bounds ⟨160, 224, 48, 256⟩, is_updated := false }

/-- Witness for C2 at a concrete input: a four-by-four world with one block
under the feet of a single grounded, at-rest player. -/
theorem idle_grounded_player_fixed_witness :
    lookupA c2w.players 1 = some c2p ∧ c2w.rects 1 = some c2rect ∧
    c2p.is_on_ground = true ∧ c2p.prev_x = c2p.x ∧ c2p.prev_y = c2p.y ∧
    (∃ w2 evs pos, World.tick c2w 0 = some (w2, evs, pos) ∧
      (∃ p2, lookupA w2.players 1 = some p2 ∧ p2.x = c2p.x ∧ p2.y = c2p.y) ∧
      (∀ pu ∈ pos, pu.id ≠ 1)) :=
  ⟨by decide, by decide, by decide, by decide, by decide,
    idle_grounded_player_fixed c2w
      (invW_of_ops 4 4 c2ops c2w (by norm_num) (by norm_num) (by norm_num) rfl)
      0 1 c2p c2rect (by decide) (by decide) (by decide) (by decide) (by decide)
      (by decide) (by decide) (by decide) (by decide) (by decide) (by decide)
      (by decide)⟩

/-- Witness for C9 at a concrete input. -/
theorem get_pair_id_comm_and_split_witness :
    (3 : Nat) ≤ 2 ^ 26 - 1 ∧ (5 : Nat) ≤ 2 ^ 26 - 1 ∧
    (get_pair_id 3 5 = get_pair_id 5 3 ∧
     get_pair_id 3 5 = (min 3 5) * 2 ^ 26 + max 3 5 ∧
     get_pair_id 3 5 % 2 ^ 26 = max 3 5 ∧
     get_pair_id 3 5 / 2 ^ 26 = min 3 5) :=
  ⟨by norm_num, by norm_num,
   get_pair_id_comm_and_split 3 5 (by norm_num) (by norm_num)⟩

end PhysRs
